import Mathlib

/-! Raft-leader-forwarding proxy of the ResourceAllocator service

A shallow embedding of `vendor/github.com/docker/swarmkit/api/resource.pb.go`:
the redirect guard, the context-modifier chains, the leader poller and the two
forwarding methods `AttachNetwork` and `DetachNetwork` of
`raftProxyResourceAllocatorServer`, the authenticated wrapper, and the
decoding of the four messages (`Unmarshal`, `skipResource`).

Collaborators (the connection selector, the wrapped local server, the caller's
context modifiers, `grpc.Invoke`, the health client, the ticker) are functions
over an arbitrary collaborator state `σ`; every interaction with one of them
is recorded in a trace, so that "is invoked exactly once" and "no forwarded
RPC is issued" are statements about that trace. A context in a trace entry is
the context as it reads at that call. The collaborators are taken not to
write into the metadata map of a context they are handed; the one write of
this file, in the redirect guard, goes into the map of the caller's context
and is followed there.
-/

set_option autoImplicit false

namespace RaftProxy

/-! ## Errors -/

/-- Done-errors of a context: what `ctx.Err()` returns once `ctx.Done()` is
closed. -/
inductive CtxErr where
  | Canceled
  | DeadlineExceeded
  deriving DecidableEq, Repr

/-- Go `error` values seen by the proxy. `ErrIsLeader` is the sentinel
`raftselector.ErrIsLeader`, compared by identity in the source; `rpc` is what
`grpc.Errorf(code, desc)` builds; `other` is any other error value, given by
its message. -/
inductive Err where
  | ErrIsLeader
  | ctx (e : CtxErr)
  | rpc (code : Nat) (desc : String)
  | other (msg : String)
  deriving DecidableEq, Repr

/-- Code `codes.InvalidArgument` of grpc. -/
def codes.InvalidArgument : Nat := 3

/-- Code `codes.ResourceExhausted` of grpc. -/
def codes.ResourceExhausted : Nat := 8

/-- The method `err.Error()`: the message of an error value. The messages of
the library errors are those of the libraries the file is compiled against
(`errors.New("raft: node is leader")`, the two context errors, and the format
`rpc error: code = %d desc = %s` of a grpc error); the statements below hold
for every error value and use these messages through `Error` only. -/
def Err.Error : Err → String
  | .ErrIsLeader => "raft: node is leader"
  | .ctx .Canceled => "context canceled"
  | .ctx .DeadlineExceeded => "context deadline exceeded"
  | .rpc code desc => "rpc error: code = " ++ toString code ++ " desc = " ++ desc
  | .other msg => msg

/-- Go `strings.Contains(s, substr)` on character lists. -/
def containsChars (s substr : List Char) : Bool :=
  s.tails.any (fun t => substr.isPrefixOf t)

/-- Go `strings.Contains(s, substr)`. -/
def strings.Contains (s substr : String) : Bool :=
  containsChars s.data substr.data

/-! ## Contexts and metadata -/

/-- Type `metadata.MD`, a `map[string][]string`, as an association list. A
key that is absent reads as the nil slice. A Go map is a reference:
`metadata.FromContext(ctx)` hands out the map `ctx` holds, and a write
`md[key] = vals` into it is read through `ctx` and through every context that
holds the same map. The association lists are values, so the code that writes
into the map of a context says what that context reads as afterwards
(`redirectChecker.leaves`, `CtxMod.leaves`, `leftByCtxMods`). -/
abbrev MD := List (String × List String)

/-- Map read `md[key]`. -/
def MD.get (md : MD) (key : String) : List String :=
  match md.find? (fun kv => kv.1 == key) with
  | some kv => kv.2
  | none => []

/-- Map write `md[key] = vals`. -/
def MD.set (md : MD) (key : String) (vals : List String) : MD :=
  (key, vals) :: md.filter (fun kv => kv.1 != key)

/-- The transport stream a server context carries, reduced to what the proxy
reads from it: `s.ServerTransport().RemoteAddr().String()`. -/
structure Stream where
  remoteAddr : String
  deriving DecidableEq, Repr

/-- A `context.Context`, reduced to the values the proxy reads: the transport
stream (`transport.StreamFromContext`), the metadata (`metadata.FromContext`),
and `rest` standing for everything else the context carries (deadline,
cancellation signal, other values). -/
structure Context where
  stream : Option Stream
  md : Option MD
  rest : Nat
  deriving DecidableEq, Repr

/-- Function `metadata.NewContext(ctx, md)`: the context derived from `ctx`
whose metadata is `md`. -/
def metadata.NewContext (ctx : Context) (md : MD) : Context :=
  { ctx with md := some md }

/-- Go formatting of a `[]string` under the verb `%s`. -/
def fmtStrings (l : List String) : String :=
  "[" ++ " ".intercalate l ++ "]"

/-- The closure `redirectChecker` of `NewRaftProxyResourceAllocatorServer`:
the context and the error it returns. What its write `md["redirect"] = ...`
does to the context it was handed is `redirectChecker.leaves`. -/
def redirectChecker (ctx : Context) : Context × Option Err :=
  match ctx.stream with
  | none =>
    (ctx, some (Err.rpc codes.InvalidArgument "remote addr is not found in context"))
  | some s =>
    let addr := s.remoteAddr
    let md : MD := ctx.md.getD []
    let ok : Bool := ctx.md.isSome
    if ok && (md.get "redirect").length != 0 then
      (ctx, some (Err.rpc codes.ResourceExhausted
        ("more than one redirect to leader from: " ++ fmtStrings (md.get "redirect"))))
    else
      let md : MD := if !ok then [] else md
      let md := md.set "redirect" (md.get "redirect" ++ [addr])
      (metadata.NewContext ctx md, none)

/-- What the context `ctx` reads as once the call `redirectChecker(ctx)` has
returned. The statement `md["redirect"] = append(md["redirect"], addr)`
writes into the map `md`. When `ctx` carries metadata, `md` is the map
`metadata.FromContext(ctx)` handed out, the map of `ctx` itself, so the marker
is read through `ctx` from then on. When `ctx` carries none, `md` is the new
map of `metadata.New`, and `ctx` stays as it is; so it does on the two paths
that return an error, which come before the write. -/
def redirectChecker.leaves (ctx : Context) : Context :=
  match ctx.stream with
  | none => ctx
  | some s =>
    let addr := s.remoteAddr
    match ctx.md with
    | none => ctx
    | some md =>
      if (md.get "redirect").length != 0 then ctx
      else { ctx with md := some (md.set "redirect" (md.get "redirect" ++ [addr])) }

/-! ## Messages -/

/-- A Go `string`: a sequence of bytes. -/
abbrev GoString := List UInt8

/-- Modelled from the spec: the message type `NetworkAttachmentConfig` is
declared in another file of the package, not in this one; the spec calls it
"one nested configuration object". It is kept as an uninterpreted payload. -/
structure NetworkAttachmentConfig where
  payload : List UInt8
  deriving DecidableEq, Repr

structure AttachNetworkRequest where
  Config : Option NetworkAttachmentConfig
  ContainerID : GoString
  deriving DecidableEq, Repr

structure AttachNetworkResponse where
  AttachmentID : GoString
  deriving DecidableEq, Repr

structure DetachNetworkRequest where
  AttachmentID : GoString
  deriving DecidableEq, Repr

structure DetachNetworkResponse where
  deriving DecidableEq, Repr

/-- The enum `HealthCheckResponse_ServingStatus` of the health service. -/
inductive ServingStatus where
  | UNKNOWN
  | SERVING
  | NOT_SERVING
  deriving DecidableEq, Repr

structure HealthCheckRequest where
  Service : String
  deriving DecidableEq, Repr

structure HealthCheckResponse where
  Status : ServingStatus
  deriving DecidableEq, Repr

/-- A `*grpc.ClientConn`: `none` is the nil pointer, `some n` the connection
numbered `n`. -/
abbrev ClientConn := Option Nat

/-! ## Traces and procedures -/

/-- Which modifier of the proxy a trace entry is about. -/
inductive ModName where
  | redirectChecker
  | localCtxMod
  | remoteCtxMod
  deriving DecidableEq, Repr

/-- One interaction of the proxy with a collaborator. The forwarded RPCs
record the error `grpc.Invoke` returned. -/
inductive Event where
  | LeaderConn (ctx : Context)
  | ctxMod (name : ModName) (ctx : Context)
  | localAttachNetwork (ctx : Context) (r : AttachNetworkRequest)
  | localDetachNetwork (ctx : Context) (r : DetachNetworkRequest)
  | invokeAttachNetwork (cc : ClientConn) (ctx : Context) (r : AttachNetworkRequest)
      (err : Option Err)
  | invokeDetachNetwork (cc : ClientConn) (ctx : Context) (r : DetachNetworkRequest)
      (err : Option Err)
  | pollNewLeaderConn (ctx : Context)
  | selectCase (ctx : Context) (done : Option CtxErr)
  | Check (cc : ClientConn) (ctx : Context) (req : HealthCheckRequest)
  | authorize (ctx : Context) (roles : List String)
  deriving DecidableEq, Repr

/-- How a procedure ends: it returns a value, it panics (a nil function or a
nil pointer is used), or it is still running when the fuel of the poll loop is
spent. -/
inductive Outcome (α : Type) where
  | ret (a : α)
  | panic
  | running
  deriving DecidableEq, Repr

/-- The result of running a procedure: its outcome, the collaborator state it
leaves, and the interactions it made, in order. -/
structure Run (σ α : Type) where
  out : Outcome α
  st : σ
  trace : List Event

/-- A procedure over the collaborator state `σ`. -/
def Proc (σ α : Type) : Type := σ → Run σ α

/-- A function of a collaborator: it reads and updates the collaborator
state. -/
abbrev Oracle (σ α : Type) : Type := σ → α × σ

section Procedures

variable {σ α β : Type}

def Proc.ret (a : α) : Proc σ α := fun s => ⟨.ret a, s, []⟩

def Proc.seq (m : Proc σ α) (f : α → Proc σ β) : Proc σ β := fun s =>
  match (m s).out with
  | .ret a => ⟨(f a (m s).st).out, (f a (m s).st).st, (m s).trace ++ (f a (m s).st).trace⟩
  | .panic => ⟨.panic, (m s).st, (m s).trace⟩
  | .running => ⟨.running, (m s).st, (m s).trace⟩

instance : Monad (Proc σ) where
  pure := Proc.ret
  bind := Proc.seq

/-- A run-time panic. -/
def Proc.panic : Proc σ α := fun s => ⟨.panic, s, []⟩

/-- The poll loop has used up its fuel. -/
def Proc.running : Proc σ α := fun s => ⟨.running, s, []⟩

/-- A call to a collaborator, recorded in the trace as `ev` of its result. -/
def call (f : Oracle σ α) (ev : α → Event) : Proc σ α := fun s =>
  ⟨.ret (f s).1, (f s).2, [ev (f s).1]⟩

/-- An entry of the trace that is not a call to a collaborator: the entry into
a method of the proxy itself. -/
def note (ev : Event) : Proc σ Unit := fun s => ⟨.ret (), s, [ev]⟩

end Procedures

/-! ## Collaborators -/

/-- A context modifier `func(context.Context) (context.Context, error)` held
in a chain of the proxy; `fn = none` is the nil function. A Go function can
write into the metadata map of the context it is handed, and whoever holds
that context reads the write: `leaves ctx` is what the context `ctx` reads as
once the call `fn(ctx)` has returned. -/
structure CtxMod (σ : Type) where
  name : ModName
  fn : Option (Context → Oracle σ (Context × Option Err))
  leaves : Context → Context

/-- The interface `ResourceAllocatorServer`: the wrapped local
implementation. -/
structure ResourceAllocatorServer (σ : Type) where
  AttachNetwork : Context → AttachNetworkRequest →
    Oracle σ (Option AttachNetworkResponse × Option Err)
  DetachNetwork : Context → DetachNetworkRequest →
    Oracle σ (Option DetachNetworkResponse × Option Err)

/-- The interface `raftselector.ConnProvider`. -/
structure ConnProvider (σ : Type) where
  LeaderConn : Context → Oracle σ (ClientConn × Option Err)

/-- What the proxy uses of the grpc runtime: `grpc.Invoke` for the two
methods (it fills `out` and returns an error), the `Check` method of the health
client, and the `select` of the poll loop, which answers `none` when the ticker
fires and `some e` when `ctx.Done()` is closed with `ctx.Err() = e`. -/
structure Transport (σ : Type) where
  InvokeAttachNetwork : Context → AttachNetworkRequest → ClientConn →
    Oracle σ (AttachNetworkResponse × Option Err)
  InvokeDetachNetwork : Context → DetachNetworkRequest → ClientConn →
    Oracle σ (DetachNetworkResponse × Option Err)
  Check : ClientConn → Context → HealthCheckRequest →
    Oracle σ (Option HealthCheckResponse × Option Err)
  selectCase : Context → Oracle σ (Option CtxErr)

/-- The struct `raftProxyResourceAllocatorServer`. -/
structure raftProxyResourceAllocatorServer (σ : Type) where
  localSrv : ResourceAllocatorServer σ
  connSelector : ConnProvider σ
  localCtxMods : List (CtxMod σ)
  remoteCtxMods : List (CtxMod σ)

section Proxy

variable {σ : Type}

/-- The method `AttachNetwork` of `resourceAllocatorClient`, for the client
`NewResourceAllocatorClient(cc)`. -/
def resourceAllocatorClient.AttachNetwork (T : Transport σ) (cc : ClientConn)
    (ctx : Context) (req : AttachNetworkRequest) :
    Proc σ (Option AttachNetworkResponse × Option Err) := do
  let (out, err) ← call (T.InvokeAttachNetwork ctx req cc)
    (fun res => Event.invokeAttachNetwork cc ctx req res.2)
  match err with
  | some err => return (none, some err)
  | none => return (some out, none)

/-- The method `DetachNetwork` of `resourceAllocatorClient`. -/
def resourceAllocatorClient.DetachNetwork (T : Transport σ) (cc : ClientConn)
    (ctx : Context) (req : DetachNetworkRequest) :
    Proc σ (Option DetachNetworkResponse × Option Err) := do
  let (out, err) ← call (T.InvokeDetachNetwork ctx req cc)
    (fun res => Event.invokeDetachNetwork cc ctx req res.2)
  match err with
  | some err => return (none, some err)
  | none => return (some out, none)

/-- Function `NewRaftProxyResourceAllocatorServer`. The remote modifier is
appended to the remote chain as it is given, nil or not; the local modifier
only when it is not nil. The two modifiers of the caller are code outside
this file; like the other collaborators they are taken not to write into the
metadata of the context they are handed, so they leave it as it is. -/
def NewRaftProxyResourceAllocatorServer (localSrv : ResourceAllocatorServer σ)
    (connSelector : ConnProvider σ)
    (localCtxMod remoteCtxMod : Option (Context → Oracle σ (Context × Option Err))) :
    raftProxyResourceAllocatorServer σ :=
  let remoteMods : List (CtxMod σ) :=
    [⟨ModName.redirectChecker, some (fun ctx s => (redirectChecker ctx, s)),
      redirectChecker.leaves⟩]
  let remoteMods := remoteMods ++ [⟨ModName.remoteCtxMod, remoteCtxMod, id⟩]
  let localMods : List (CtxMod σ) :=
    if localCtxMod.isSome then [⟨ModName.localCtxMod, localCtxMod, id⟩] else []
  { localSrv := localSrv
    connSelector := connSelector
    localCtxMods := localMods
    remoteCtxMods := remoteMods }

/-- One iteration of the loop of `runCtxMods`: the call `mod(ctx)`. -/
def callMod (mod : CtxMod σ) (ctx : Context) : Proc σ (Context × Option Err) :=
  match mod.fn with
  | none => Proc.panic
  | some f => call (f ctx) (fun _ => Event.ctxMod mod.name ctx)

/-- The method `runCtxMods`. -/
def runCtxMods (ctx : Context) : List (CtxMod σ) → Proc σ (Context × Option Err)
  | [] => return (ctx, none)
  | mod :: ctxMods => do
    let (ctx, err) ← callMod mod ctx
    match err with
    | some err => return (ctx, some err)
    | none => runCtxMods ctx ctxMods

/-- What the context `ctx` handed to `runCtxMods` reads as once the chain has
run: the caller of `runCtxMods` keeps its own `ctx`, and goes on to use it.
The head of the chain is the one modifier that is handed `ctx` itself; the
modifiers after it are handed the context the one before returned. In the
chains the constructor builds, the redirect guard is the head of the remote
chain, and no other modifier writes. -/
def leftByCtxMods (ctx : Context) : List (CtxMod σ) → Context
  | [] => ctx
  | mod :: _ => mod.leaves ctx

/-- The `for` loop of `pollNewLeaderConn`, run for at most `fuel`
iterations. -/
def pollLoop (T : Transport σ) (p : raftProxyResourceAllocatorServer σ) (ctx : Context) :
    Nat → Proc σ (ClientConn × Option Err)
  | 0 => Proc.running
  | fuel + 1 => do
    let done ← call (T.selectCase ctx) (fun d => Event.selectCase ctx d)
    match done with
    | none =>
      let (conn, err) ← call (p.connSelector.LeaderConn ctx) (fun _ => Event.LeaderConn ctx)
      match err with
      | some err => return (none, some err)
      | none =>
        let (resp, err) ← call (T.Check conn ctx { Service := "Raft" })
          (fun _ => Event.Check conn ctx { Service := "Raft" })
        match err, resp with
        | some _, _ => pollLoop T p ctx fuel
        | none, none => Proc.panic
        | none, some resp =>
          if resp.Status != ServingStatus.SERVING then pollLoop T p ctx fuel
          else return (conn, none)
    | some e => return (none, some (Err.ctx e))

/-- The method `pollNewLeaderConn`. -/
def pollNewLeaderConn (T : Transport σ) (p : raftProxyResourceAllocatorServer σ)
    (fuel : Nat) (ctx : Context) : Proc σ (ClientConn × Option Err) := do
  note (Event.pollNewLeaderConn ctx)
  pollLoop T p ctx fuel

/-- The error message of a failed forwarded RPC contains one of the three
substrings the proxy methods look for. -/
def isConnErr (err : Err) : Bool :=
  strings.Contains err.Error "is closing"
    || strings.Contains err.Error "the connection is unavailable"
    || strings.Contains err.Error "connection error"

/-- The method `AttachNetwork` of `raftProxyResourceAllocatorServer`. From the
call of the remote chain on, the variable `ctx` of the method is read as the
chain left it (`leftByCtxMods`): the poller and the local implementation are
handed `ctx` after the redirect guard has written into its metadata. -/
def AttachNetwork (T : Transport σ) (p : raftProxyResourceAllocatorServer σ) (fuel : Nat)
    (ctx : Context) (r : AttachNetworkRequest) :
    Proc σ (Option AttachNetworkResponse × Option Err) := do
  let (conn, err) ← call (p.connSelector.LeaderConn ctx) (fun _ => Event.LeaderConn ctx)
  match err with
  | some err =>
    if err = Err.ErrIsLeader then
      let (ctx, err) ← runCtxMods ctx p.localCtxMods
      match err with
      | some err => return (none, some err)
      | none => call (p.localSrv.AttachNetwork ctx r) (fun _ => Event.localAttachNetwork ctx r)
    else return (none, some err)
  | none =>
    let (modCtx, err) ← runCtxMods ctx p.remoteCtxMods
    let ctx := leftByCtxMods ctx p.remoteCtxMods
    match err with
    | some err => return (none, some err)
    | none =>
      let (resp, err) ← resourceAllocatorClient.AttachNetwork T conn modCtx r
      match err with
      | some err =>
        if !strings.Contains err.Error "is closing"
            && !strings.Contains err.Error "the connection is unavailable"
            && !strings.Contains err.Error "connection error" then return (resp, some err)
        else
          let (conn, err) ← pollNewLeaderConn T p fuel ctx
          match err with
          | some err =>
            if err = Err.ErrIsLeader then
              call (p.localSrv.AttachNetwork ctx r) (fun _ => Event.localAttachNetwork ctx r)
            else return (none, some err)
          | none => resourceAllocatorClient.AttachNetwork T conn modCtx r
      | none => return (resp, none)

/-- The method `DetachNetwork` of `raftProxyResourceAllocatorServer`; the
variable `ctx` is read as in `AttachNetwork`. -/
def DetachNetwork (T : Transport σ) (p : raftProxyResourceAllocatorServer σ) (fuel : Nat)
    (ctx : Context) (r : DetachNetworkRequest) :
    Proc σ (Option DetachNetworkResponse × Option Err) := do
  let (conn, err) ← call (p.connSelector.LeaderConn ctx) (fun _ => Event.LeaderConn ctx)
  match err with
  | some err =>
    if err = Err.ErrIsLeader then
      let (ctx, err) ← runCtxMods ctx p.localCtxMods
      match err with
      | some err => return (none, some err)
      | none => call (p.localSrv.DetachNetwork ctx r) (fun _ => Event.localDetachNetwork ctx r)
    else return (none, some err)
  | none =>
    let (modCtx, err) ← runCtxMods ctx p.remoteCtxMods
    let ctx := leftByCtxMods ctx p.remoteCtxMods
    match err with
    | some err => return (none, some err)
    | none =>
      let (resp, err) ← resourceAllocatorClient.DetachNetwork T conn modCtx r
      match err with
      | some err =>
        if !strings.Contains err.Error "is closing"
            && !strings.Contains err.Error "the connection is unavailable"
            && !strings.Contains err.Error "connection error" then return (resp, some err)
        else
          let (conn, err) ← pollNewLeaderConn T p fuel ctx
          match err with
          | some err =>
            if err = Err.ErrIsLeader then
              call (p.localSrv.DetachNetwork ctx r) (fun _ => Event.localDetachNetwork ctx r)
            else return (none, some err)
          | none => resourceAllocatorClient.DetachNetwork T conn modCtx r
      | none => return (resp, none)

end Proxy

/-! ## The authenticated wrapper -/

/-- The struct `authenticatedWrapperResourceAllocatorServer`. -/
structure authenticatedWrapperResourceAllocatorServer (σ : Type) where
  localSrv : ResourceAllocatorServer σ
  authorize : Context → List String → Oracle σ (Option Err)

section Wrapper

variable {σ : Type}

/-- Function `NewAuthenticatedWrapperResourceAllocatorServer`. -/
def NewAuthenticatedWrapperResourceAllocatorServer (localSrv : ResourceAllocatorServer σ)
    (authorize : Context → List String → Oracle σ (Option Err)) :
    authenticatedWrapperResourceAllocatorServer σ :=
  { localSrv := localSrv
    authorize := authorize }

/-- The method `AttachNetwork` of `authenticatedWrapperResourceAllocatorServer`. -/
def authenticatedWrapperResourceAllocatorServer.AttachNetwork
    (p : authenticatedWrapperResourceAllocatorServer σ) (ctx : Context)
    (r : AttachNetworkRequest) : Proc σ (Option AttachNetworkResponse × Option Err) := do
  let err ← call (p.authorize ctx ["swarm-worker", "swarm-manager"])
    (fun _ => Event.authorize ctx ["swarm-worker", "swarm-manager"])
  match err with
  | some err => return (none, some err)
  | none => call (p.localSrv.AttachNetwork ctx r) (fun _ => Event.localAttachNetwork ctx r)

/-- The method `DetachNetwork` of `authenticatedWrapperResourceAllocatorServer`. -/
def authenticatedWrapperResourceAllocatorServer.DetachNetwork
    (p : authenticatedWrapperResourceAllocatorServer σ) (ctx : Context)
    (r : DetachNetworkRequest) : Proc σ (Option DetachNetworkResponse × Option Err) := do
  let err ← call (p.authorize ctx ["swarm-worker", "swarm-manager"])
    (fun _ => Event.authorize ctx ["swarm-worker", "swarm-manager"])
  match err with
  | some err => return (none, some err)
  | none => call (p.localSrv.DetachNetwork ctx r) (fun _ => Event.localDetachNetwork ctx r)

end Wrapper

/-! ## Reading a trace -/

/-- A forwarded RPC: a call of `grpc.Invoke` over a leader connection. -/
def Event.isForward : Event → Bool
  | .invokeAttachNetwork _ _ _ _ => true
  | .invokeDetachNetwork _ _ _ _ => true
  | _ => false

/-- An invocation of the wrapped local implementation. -/
def Event.isLocal : Event → Bool
  | .localAttachNetwork _ _ => true
  | .localDetachNetwork _ _ => true
  | _ => false

/-- An invocation of the poller `pollNewLeaderConn`. -/
def Event.isPoll : Event → Bool
  | .pollNewLeaderConn _ => true
  | _ => false

/-- A call of a context modifier. -/
def Event.isCtxMod : Event → Bool
  | .ctxMod _ _ => true
  | _ => false

/-- A forwarded RPC that failed with an error the proxy takes for a
connectivity error. -/
def Event.isConnFailure : Event → Bool
  | .invokeAttachNetwork _ _ _ (some err) => isConnErr err
  | .invokeDetachNetwork _ _ _ (some err) => isConnErr err
  | _ => false

/-- Scan of a trace: every poller invocation comes after a forwarded RPC that
failed with a connectivity error (`seen` tells whether one was met before the
trace starts). -/
def pollsFollowConnFailure (seen : Bool) : List Event → Bool
  | [] => true
  | e :: tr =>
    (if e.isPoll then seen else true) && pollsFollowConnFailure (seen || e.isConnFailure) tr

/-- The numbers of local invocations, of forwarded RPCs and of poller
invocations in a trace, in this order. -/
def tally (tr : List Event) : Nat × Nat × Nat :=
  (tr.countP Event.isLocal, tr.countP Event.isForward, tr.countP Event.isPoll)

section PollRuns

variable {σ : Type}

/-- One iteration of the poll loop that goes on to the next tick: the ticker
fires, `LeaderConn` answers a candidate without error, and the health probe on
the candidate answers an error or a status other than `SERVING`. The
iteration takes the collaborators from state `s` to state `s'`. -/
def pollContinues (T : Transport σ) (p : raftProxyResourceAllocatorServer σ) (ctx : Context)
    (s s' : σ) : Prop :=
  ∃ (s1 s2 : σ) (conn : ClientConn) (resp : Option HealthCheckResponse) (cerr : Option Err),
    T.selectCase ctx s = (none, s1)
    ∧ p.connSelector.LeaderConn ctx s1 = ((conn, none), s2)
    ∧ T.Check conn ctx { Service := "Raft" } s2 = ((resp, cerr), s')
    ∧ (cerr ≠ none ∨ ∃ r, resp = some r ∧ r.Status ≠ ServingStatus.SERVING)

/-- The poll loop goes through `k` iterations of the kind `pollContinues`. -/
def pollContinuesFor (T : Transport σ) (p : raftProxyResourceAllocatorServer σ) (ctx : Context) :
    Nat → σ → σ → Prop
  | 0, s, s' => s = s'
  | k + 1, s, s' => ∃ s1, pollContinues T p ctx s s1 ∧ pollContinuesFor T p ctx k s1 s'

/-- How the last iteration of a poll loop that returns `(conn, err)` ends, from
the collaborator state `s0` to the state `s'`, and the entries `last` it adds
to the trace. -/
def pollLastTick (T : Transport σ) (p : raftProxyResourceAllocatorServer σ) (ctx : Context)
    (s0 s' : σ) (conn : ClientConn) (err : Option Err) (last : List Event) : Prop :=
  (∃ e, T.selectCase ctx s0 = (some e, s') ∧ conn = none ∧ err = some (Err.ctx e)
      ∧ last = [Event.selectCase ctx (some e)])
  ∨ (∃ s1 c e, T.selectCase ctx s0 = (none, s1)
      ∧ p.connSelector.LeaderConn ctx s1 = ((c, some e), s') ∧ conn = none ∧ err = some e
      ∧ last = [Event.selectCase ctx none, Event.LeaderConn ctx])
  ∨ (∃ s1 s2, T.selectCase ctx s0 = (none, s1)
      ∧ p.connSelector.LeaderConn ctx s1 = ((conn, none), s2)
      ∧ T.Check conn ctx { Service := "Raft" } s2 = ((some ⟨ServingStatus.SERVING⟩, none), s')
      ∧ err = none
      ∧ last = [Event.selectCase ctx none, Event.LeaderConn ctx,
          Event.Check conn ctx { Service := "Raft" }])

/-- What the `select` of the poll loop finds when it takes a case: whether a
tick is waiting in `ticker.C`, and whether `ctx.Done()` is closed, with the
error `ctx.Err()` returns then. A `select` that finds no channel ready
blocks; what it finds when it goes on is meant. -/
structure Ready where
  tick : Bool
  done : Option CtxErr
  deriving DecidableEq, Repr

/-- The cases the `select` statement of Go may take: a case whose channel is
ready, and any of them when both are, by the choice of the runtime. `none` is
the case `<-ticker.C`, `some e` the case `<-ctx.Done()`. -/
def Ready.mayTake (r : Ready) : Option CtxErr → Prop
  | none => r.tick = true
  | some e => r.done = some e

/-- The `select` of the transport `T` is the one of Go: in every collaborator
state it takes a case that is ready there, `ready ctx s` telling what is ready
for the context `ctx` in the state `s`. -/
def SelectsAsGo (T : Transport σ) (ready : Context → σ → Ready) : Prop :=
  ∀ (ctx : Context) (s : σ), (ready ctx s).mayTake (T.selectCase ctx s).1

/-- The chain of modifiers as the spec words it, one step: "applied
left-to-right, short-circuiting on first error". The step takes the chain run
so far and one more modifier. -/
def specThreadStep (acc : Proc σ (Context × Option Err)) (mod : CtxMod σ) :
    Proc σ (Context × Option Err) := do
  let (ctx, err) ← acc
  match err with
  | some err => return (ctx, some err)
  | none => callMod mod ctx

/-- The chain of modifiers as the spec words it: the left fold of
`specThreadStep` over the list, from the input context. -/
def specFoldCtxMods (ctx : Context) (mods : List (CtxMod σ)) :
    Proc σ (Context × Option Err) :=
  mods.foldl specThreadStep (return (ctx, none))

end PollRuns

/-! ## A scripted cluster, for concrete runs

The collaborator state is the number of `LeaderConn` queries answered so far;
the selector answers from a script. Connection `some 2` serves every RPC;
every other connection fails it with the error `e1`. -/

def scriptedSelector (script : List (ClientConn × Option Err)) : ConnProvider Nat :=
  ⟨fun _ n => (script.getD n (none, some (Err.other "no leader")), n + 1)⟩

def demoLocal : ResourceAllocatorServer Nat :=
  { AttachNetwork := fun _ r n => ((some ⟨r.ContainerID⟩, none), n)
    DetachNetwork := fun _ _ n => ((some ⟨⟩, none), n) }

def demoTransport (e1 : Err) : Transport Nat :=
  { InvokeAttachNetwork := fun _ _ cc n =>
      (if cc = some 2 then (⟨[7]⟩, none) else (⟨[]⟩, some e1), n)
    InvokeDetachNetwork := fun _ _ cc n =>
      (if cc = some 2 then (⟨⟩, none) else (⟨⟩, some e1), n)
    Check := fun _ _ _ n => ((some ⟨ServingStatus.SERVING⟩, none), n)
    selectCase := fun _ n => (none, n) }

/-- A transport like `demoTransport`, whose health probe tells the
candidates apart (`some 2` is serving, `some 3` is not serving, the probe of
any other candidate fails) and whose context is canceled once `cancelAt`
queries of `LeaderConn` have been answered. -/
def probingTransport (e1 : Err) (cancelAt : Nat) : Transport Nat :=
  { InvokeAttachNetwork := (demoTransport e1).InvokeAttachNetwork
    InvokeDetachNetwork := (demoTransport e1).InvokeDetachNetwork
    Check := fun cc _ _ n =>
      (if cc = some 2 then (some ⟨ServingStatus.SERVING⟩, none)
       else if cc = some 3 then (some ⟨ServingStatus.NOT_SERVING⟩, none)
       else (none, some (Err.other "probe failed")), n)
    selectCase := fun _ n => (if cancelAt ≤ n then some CtxErr.Canceled else none, n) }

/-- What is ready under `probingTransport`: a tick, and the context not done,
until `cancelAt` queries of `LeaderConn` have been answered; from then on the
context is done and no tick is waiting. -/
def probingReady (cancelAt : Nat) : Context → Nat → Ready :=
  fun _ n => if cancelAt ≤ n then ⟨false, some CtxErr.Canceled⟩ else ⟨true, none⟩

/-- A context that is canceled, at moments when a tick is waiting too: both
cases of the `select` are ready in every state. -/
def canceledWhileTicking : Context → Nat → Ready :=
  fun _ _ => ⟨true, some CtxErr.Canceled⟩

/-- An authorizer that lets the role list of the wrapper through and rejects
every other role list. -/
def demoAuthorize : Context → List String → Oracle Nat (Option Err) :=
  fun _ roles n =>
    (if roles = ["swarm-worker", "swarm-manager"] then none
     else some (Err.other "permission denied"), n + 1)

/-- An authorizer that rejects every call. -/
def denyAuthorize : Context → List String → Oracle Nat (Option Err) :=
  fun _ _ n => (some (Err.other "permission denied"), n + 1)

/-- A proxy built by the constructor, without caller-supplied local modifier
and with a remote modifier that tags the context. -/
def demoProxy (script : List (ClientConn × Option Err)) :
    raftProxyResourceAllocatorServer Nat :=
  NewRaftProxyResourceAllocatorServer demoLocal (scriptedSelector script) none
    (some (fun ctx n => (({ ctx with rest := ctx.rest + 1 }, none), n)))

/-- A proxy whose caller-supplied modifiers both fail. -/
def failingModProxy (script : List (ClientConn × Option Err)) :
    raftProxyResourceAllocatorServer Nat :=
  NewRaftProxyResourceAllocatorServer demoLocal (scriptedSelector script)
    (some (fun ctx n => ((ctx, some (Err.other "local modifier failed")), n)))
    (some (fun ctx n => ((ctx, some (Err.other "remote modifier failed")), n)))

/-- A context that arrived over a transport stream from `10.0.0.1:4242`,
without metadata. -/
def freshCtx : Context :=
  { stream := some ⟨"10.0.0.1:4242"⟩, md := none, rest := 0 }

/-- A context that already bears a redirect marker for `10.0.0.9:4242`. -/
def redirectedCtx : Context :=
  { stream := some ⟨"10.0.0.1:4242"⟩, md := some [("redirect", ["10.0.0.9:4242"])], rest := 0 }

/-- A context bearing a redirect marker but no transport stream: the method
was not called through a grpc server transport. -/
def streamlessCtx : Context :=
  { stream := none, md := some [("redirect", ["10.0.0.9:4242"])], rest := 0 }

/-- The context `freshCtx` once the redirect guard has marked it. -/
def markedCtx : Context :=
  { stream := some ⟨"10.0.0.1:4242"⟩, md := some [("redirect", ["10.0.0.1:4242"])], rest := 0 }

/-- The context `freshCtx` once the whole remote chain of `demoProxy` has run. -/
def forwardedCtx : Context :=
  { stream := some ⟨"10.0.0.1:4242"⟩, md := some [("redirect", ["10.0.0.1:4242"])], rest := 1 }

/-- A context that arrived over a transport stream from `10.0.0.1:4242` with
the metadata a grpc client sends, here its `user-agent`. -/
def agentCtx : Context :=
  { stream := some ⟨"10.0.0.1:4242"⟩, md := some [("user-agent", ["grpc-go"])], rest := 0 }

/-- The context `agentCtx` with the marker of the redirect guard in its
metadata. -/
def markedAgentCtx : Context :=
  { stream := some ⟨"10.0.0.1:4242"⟩,
    md := some [("redirect", ["10.0.0.1:4242"]), ("user-agent", ["grpc-go"])], rest := 0 }

/-- The context `agentCtx` once the whole remote chain of `demoProxy` has
run. -/
def forwardedAgentCtx : Context :=
  { stream := some ⟨"10.0.0.1:4242"⟩,
    md := some [("redirect", ["10.0.0.1:4242"]), ("user-agent", ["grpc-go"])], rest := 1 }

/-- The request of the spec's scenario, `ContainerID: "c1"`. -/
def reqC1 : AttachNetworkRequest :=
  { Config := none, ContainerID := [99, 49] }

/-! ## The wire format

The decoding half of the file: the four `Unmarshal` methods and
`skipResource`. Indices are Go `int`s, here integers that wrap around at 64
bits where the source adds a decoded length to them; a `uint64` is a natural
number below `2^64`. -/

/-- The error `ErrInvalidLengthResource`. -/
def ErrInvalidLengthResource : Err :=
  Err.other "proto: negative length found during unmarshaling"

/-- The error `ErrIntOverflowResource`. -/
def ErrIntOverflowResource : Err :=
  Err.other "proto: integer overflow"

/-- The error `io.ErrUnexpectedEOF`. -/
def io.ErrUnexpectedEOF : Err :=
  Err.other "unexpected EOF"

/-- The value of a Go `int` expression of 64 bits whose mathematical value is
`n`: two's-complement wrap-around. -/
def wrap64 (n : Int) : Int :=
  (n + 9223372036854775808) % 18446744073709551616 - 9223372036854775808

/-- The conversion `int(x)` of a `uint64`. -/
def intOfUint64 (x : Nat) : Int :=
  wrap64 (x : Int)

/-- The conversion `int32(x)` of a `uint64`. -/
def int32OfUint64 (x : Nat) : Int :=
  ((x : Int) + 2147483648) % 4294967296 - 2147483648

/-- The run-time panics of the decoding code. -/
inductive Panic where
  | indexOutOfRange
  | sliceBoundsOutOfRange
  | unreachable
  deriving DecidableEq, Repr

/-- The outcome of a piece of decoding code that works at an index of the
input: it goes on at `iNdEx` with a value, it makes the function return the
error `err`, it panics, or it is still running when its fuel is spent. -/
inductive Step (α : Type) where
  | next (a : α) (iNdEx : Int)
  | fail (err : Err)
  | panic (why : Panic)
  | running
  deriving DecidableEq, Repr

/-- The outcome of `Unmarshal`: it returns nil and has decoded `m`, it
returns an error, it panics, or it is still running when its fuel is spent.
On an error the source leaves the message partly decoded; that message is not
kept here. -/
inductive Decoded (M : Type) where
  | ok (m : M)
  | error (err : Err)
  | panic (why : Panic)
  | running
  deriving DecidableEq, Repr

/-- The index expression `dAtA[i]`; `none` is the panic "index out of
range". -/
def byteAt (dAtA : List UInt8) (i : Int) : Option UInt8 :=
  if i < 0 then none else dAtA[i.toNat]?

/-- The slice expression `dAtA[lo:hi]`; `none` is the panic "slice bounds out
of range". The capacity of `dAtA` is taken to be its length. -/
def sliceOf (dAtA : List UInt8) (lo hi : Int) : Option (List UInt8) :=
  if 0 ≤ lo ∧ lo ≤ hi ∧ hi ≤ dAtA.length then
    some ((dAtA.drop lo.toNat).take (hi - lo).toNat)
  else none

/-- The slice expression `dAtA[lo:]`. -/
def sliceFrom (dAtA : List UInt8) (lo : Int) : Option (List UInt8) :=
  sliceOf dAtA lo dAtA.length

/-- The varint loop `for shift := uint(0); ; shift += 7` that decodes a
`uint64` from `dAtA` at `iNdEx`, for at most `fuel` iterations. The increment
`iNdEx++` comes after the test `iNdEx >= l` has failed, so it cannot
overflow. -/
def varintLoop (dAtA : List UInt8) : Nat → Nat → Int → Nat → Step Nat
  | 0, _, _, _ => .running
  | fuel + 1, shift, iNdEx, wire =>
    if shift ≥ 64 then .fail ErrIntOverflowResource
    else if iNdEx ≥ dAtA.length then .fail io.ErrUnexpectedEOF
    else
      match byteAt dAtA iNdEx with
      | none => .panic Panic.indexOutOfRange
      | some b =>
        let iNdEx := iNdEx + 1
        let wire := wire ||| (((b.toNat &&& 0x7F) <<< shift) % 18446744073709551616)
        if b.toNat < 0x80 then .next wire iNdEx
        else varintLoop dAtA fuel (shift + 7) iNdEx wire

/-- A varint loop of the source, from `shift = 0` and the value `0`. Eleven
iterations are enough: the eleventh has `shift = 70`. A loop that accumulates
an `int` (`msglen`, `length`) leaves the same 64 bits as this one; its value is
`intOfUint64` of the value decoded here. -/
def readVarint (dAtA : List UInt8) (iNdEx : Int) : Step Nat :=
  varintLoop dAtA 11 0 iNdEx 0

/-- The loop of `skipResource` that steps over a varint (wire type 0). -/
def skipVarintLoop (dAtA : List UInt8) : Nat → Nat → Int → Step Unit
  | 0, _, _ => .running
  | fuel + 1, shift, iNdEx =>
    if shift ≥ 64 then .fail ErrIntOverflowResource
    else if iNdEx ≥ dAtA.length then .fail io.ErrUnexpectedEOF
    else
      let iNdEx := iNdEx + 1
      match byteAt dAtA (iNdEx - 1) with
      | none => .panic Panic.indexOutOfRange
      | some b =>
        if b.toNat < 0x80 then .next () iNdEx
        else skipVarintLoop dAtA fuel (shift + 7) iNdEx

/-- The loop `for { ... }` of `skipResource` that steps over the fields of a
group (wire type 3), for at most `fuel` iterations; `skip` is the recursive
call of `skipResource`. -/
def skipGroupLoop (dAtA : List UInt8) (skip : List UInt8 → Step Unit) : Nat → Int → Step Unit
  | 0, _ => .running
  | fuel + 1, iNdEx =>
    let start := iNdEx
    match readVarint dAtA iNdEx with
    | .next innerWire iNdEx =>
      let innerWireType : Nat := innerWire &&& 0x7
      if innerWireType = 4 then .next () iNdEx
      else
        match sliceFrom dAtA start with
        | none => .panic Panic.sliceBoundsOutOfRange
        | some rest =>
          match skip rest with
          | .next () next => skipGroupLoop dAtA skip fuel (wrap64 (start + next))
          | .fail err => .fail err
          | .panic why => .panic why
          | .running => .running
    | .fail err => .fail err
    | .panic why => .panic why
    | .running => .running

/-- Function `skipResource` with `fuel` bounding the depth of its recursion
and the iterations of its group loop. `Step.next () n` is `return n, nil` and
`Step.fail err` is `return 0, err`. Every branch of the body of the loop
`for iNdEx < l` returns, so the body runs once, and not at all on the empty
slice. -/
def skipResourceFuel : Nat → List UInt8 → Step Unit
  | 0, _ => .running
  | fuel + 1, dAtA =>
    if (0 : Int) < dAtA.length then
      match readVarint dAtA 0 with
      | .next wire iNdEx =>
        let wireType : Nat := wire &&& 0x7
        if wireType = 0 then skipVarintLoop dAtA 11 0 iNdEx
        else if wireType = 1 then .next () (wrap64 (iNdEx + 8))
        else if wireType = 2 then
          match readVarint dAtA iNdEx with
          | .next length iNdEx =>
            let length := intOfUint64 length
            let iNdEx := wrap64 (iNdEx + length)
            if length < 0 then .fail ErrInvalidLengthResource
            else .next () iNdEx
          | .fail err => .fail err
          | .panic why => .panic why
          | .running => .running
        else if wireType = 3 then skipGroupLoop dAtA (skipResourceFuel fuel) fuel iNdEx
        else if wireType = 4 then .next () iNdEx
        else if wireType = 5 then .next () (wrap64 (iNdEx + 4))
        else .fail (Err.other ("proto: illegal wireType " ++ toString wireType))
      | .fail err => .fail err
      | .panic why => .panic why
      | .running => .running
    else .panic Panic.unreachable

/-- Function `skipResource`. -/
def skipResource (dAtA : List UInt8) : Step Unit :=
  skipResourceFuel (dAtA.length + 1) dAtA

/-- The method `Unmarshal` of `NetworkAttachmentConfig`, which is declared in
another file of the package: it updates the configuration from the bytes it
is given and returns an error or nil. It is a parameter of the decoding of
`AttachNetworkRequest`. -/
structure ConfigCodec where
  Unmarshal : NetworkAttachmentConfig → List UInt8 → NetworkAttachmentConfig × Option Err

/-- The head of an iteration of the loop of `Unmarshal`: the varint of the
tag, `fieldNum`, `wireType`, and the two tests on them; `name` is the name of
the message in the texts of the errors. -/
def readTag (name : String) (dAtA : List UInt8) (iNdEx : Int) : Step (Int × Nat) :=
  match readVarint dAtA iNdEx with
  | .next wire iNdEx =>
    let fieldNum := int32OfUint64 (wire >>> 3)
    let wireType : Nat := wire &&& 0x7
    if wireType = 4 then
      .fail (Err.other ("proto: " ++ name ++ ": wiretype end group for non-group"))
    else if fieldNum ≤ 0 then
      .fail (Err.other ("proto: " ++ name ++ ": illegal tag " ++ toString fieldNum
        ++ " (wire type " ++ toString wire ++ ")"))
    else .next (fieldNum, wireType) iNdEx
  | .fail err => .fail err
  | .panic why => .panic why
  | .running => .running

/-- The decoding of a length-delimited field after its tag, up to the slice
`dAtA[iNdEx:postIndex]`: the varint of the length (`msglen` or `stringLen`),
the test for a negative length, `postIndex`, and the test `postIndex > l`. It
goes on at `postIndex` with the bytes of the slice. -/
def readLengthDelimited (dAtA : List UInt8) (iNdEx : Int) : Step (List UInt8) :=
  match readVarint dAtA iNdEx with
  | .next len iNdEx =>
    let intLen := intOfUint64 len
    if intLen < 0 then .fail ErrInvalidLengthResource
    else
      let postIndex := wrap64 (iNdEx + intLen)
      if postIndex > dAtA.length then .fail io.ErrUnexpectedEOF
      else
        match sliceOf dAtA iNdEx postIndex with
        | none => .panic Panic.sliceBoundsOutOfRange
        | some bs => .next bs postIndex
  | .fail err => .fail err
  | .panic why => .panic why
  | .running => .running

/-- The `default` case of the switch on `fieldNum`: the field is stepped over
with `skipResource`, from `preIndex`. -/
def skipField (dAtA : List UInt8) (preIndex : Int) : Step Unit :=
  let iNdEx := preIndex
  match sliceFrom dAtA iNdEx with
  | none => .panic Panic.sliceBoundsOutOfRange
  | some rest =>
    match skipResource rest with
    | .next () skippy =>
      if skippy < 0 then .fail ErrInvalidLengthResource
      else if wrap64 (iNdEx + skippy) > dAtA.length then .fail io.ErrUnexpectedEOF
      else .next () (wrap64 (iNdEx + skippy))
    | .fail err => .fail err
    | .panic why => .panic why
    | .running => .running

/-- The body of the loop `for iNdEx < l` of an `Unmarshal` method: the head
of the iteration and the switch on `fieldNum`; `field` is that switch, given
the message, the input, `preIndex`, `iNdEx`, `fieldNum` and `wireType`. -/
def unmarshalStep {M : Type} (name : String)
    (field : M → List UInt8 → Int → Int → Int → Nat → Step M) (dAtA : List UInt8)
    (m : M) (iNdEx : Int) : Step M :=
  let preIndex := iNdEx
  match readTag name dAtA iNdEx with
  | .next (fieldNum, wireType) iNdEx => field m dAtA preIndex iNdEx fieldNum wireType
  | .fail err => .fail err
  | .panic why => .panic why
  | .running => .running

/-- The loop `for iNdEx < l` of an `Unmarshal` method and what follows it, for
at most `fuel` iterations. -/
def unmarshalLoop {M : Type} (name : String)
    (field : M → List UInt8 → Int → Int → Int → Nat → Step M) (dAtA : List UInt8) :
    Nat → M → Int → Decoded M
  | 0, _, _ => .running
  | fuel + 1, m, iNdEx =>
    if iNdEx < dAtA.length then
      match unmarshalStep name field dAtA m iNdEx with
      | .next m iNdEx => unmarshalLoop name field dAtA fuel m iNdEx
      | .fail err => .error err
      | .panic why => .panic why
      | .running => .running
    else if iNdEx > dAtA.length then .error io.ErrUnexpectedEOF
    else .ok m

/-- The switch on `fieldNum` of `AttachNetworkRequest.Unmarshal`. -/
def AttachNetworkRequest.unmarshalField (codec : ConfigCodec) (m : AttachNetworkRequest)
    (dAtA : List UInt8) (preIndex iNdEx : Int) (fieldNum : Int) (wireType : Nat) :
    Step AttachNetworkRequest :=
  if fieldNum = 1 then
    if wireType ≠ 2 then
      .fail (Err.other ("proto: wrong wireType = " ++ toString wireType ++ " for field Config"))
    else
      match readLengthDelimited dAtA iNdEx with
      | .next bs postIndex =>
        match codec.Unmarshal (m.Config.getD ⟨[]⟩) bs with
        | (_, some err) => .fail err
        | (config, none) => .next { m with Config := some config } postIndex
      | .fail err => .fail err
      | .panic why => .panic why
      | .running => .running
  else if fieldNum = 2 then
    if wireType ≠ 2 then
      .fail (Err.other
        ("proto: wrong wireType = " ++ toString wireType ++ " for field ContainerID"))
    else
      match readLengthDelimited dAtA iNdEx with
      | .next bs postIndex => .next { m with ContainerID := bs } postIndex
      | .fail err => .fail err
      | .panic why => .panic why
      | .running => .running
  else
    match skipField dAtA preIndex with
    | .next () iNdEx => .next m iNdEx
    | .fail err => .fail err
    | .panic why => .panic why
    | .running => .running

/-- The switch on `fieldNum` of `AttachNetworkResponse.Unmarshal`. -/
def AttachNetworkResponse.unmarshalField (m : AttachNetworkResponse)
    (dAtA : List UInt8) (preIndex iNdEx : Int) (fieldNum : Int) (wireType : Nat) :
    Step AttachNetworkResponse :=
  if fieldNum = 1 then
    if wireType ≠ 2 then
      .fail (Err.other
        ("proto: wrong wireType = " ++ toString wireType ++ " for field AttachmentID"))
    else
      match readLengthDelimited dAtA iNdEx with
      | .next bs postIndex => .next { m with AttachmentID := bs } postIndex
      | .fail err => .fail err
      | .panic why => .panic why
      | .running => .running
  else
    match skipField dAtA preIndex with
    | .next () iNdEx => .next m iNdEx
    | .fail err => .fail err
    | .panic why => .panic why
    | .running => .running

/-- The switch on `fieldNum` of `DetachNetworkRequest.Unmarshal`. -/
def DetachNetworkRequest.unmarshalField (m : DetachNetworkRequest)
    (dAtA : List UInt8) (preIndex iNdEx : Int) (fieldNum : Int) (wireType : Nat) :
    Step DetachNetworkRequest :=
  if fieldNum = 1 then
    if wireType ≠ 2 then
      .fail (Err.other
        ("proto: wrong wireType = " ++ toString wireType ++ " for field AttachmentID"))
    else
      match readLengthDelimited dAtA iNdEx with
      | .next bs postIndex => .next { m with AttachmentID := bs } postIndex
      | .fail err => .fail err
      | .panic why => .panic why
      | .running => .running
  else
    match skipField dAtA preIndex with
    | .next () iNdEx => .next m iNdEx
    | .fail err => .fail err
    | .panic why => .panic why
    | .running => .running

/-- The switch on `fieldNum` of `DetachNetworkResponse.Unmarshal`: it has the
`default` case only. -/
def DetachNetworkResponse.unmarshalField (m : DetachNetworkResponse)
    (dAtA : List UInt8) (preIndex _iNdEx : Int) (_fieldNum : Int) (_wireType : Nat) :
    Step DetachNetworkResponse :=
  match skipField dAtA preIndex with
  | .next () iNdEx => .next m iNdEx
  | .fail err => .fail err
  | .panic why => .panic why
  | .running => .running

/-- The method `Unmarshal` of `AttachNetworkRequest`. Each iteration of its
loop reads at least one byte, so `len(dAtA) + 1` iterations are enough. -/
def AttachNetworkRequest.Unmarshal (codec : ConfigCodec) (m : AttachNetworkRequest)
    (dAtA : List UInt8) : Decoded AttachNetworkRequest :=
  unmarshalLoop "AttachNetworkRequest" (AttachNetworkRequest.unmarshalField codec) dAtA
    (dAtA.length + 1) m 0

/-- The method `Unmarshal` of `AttachNetworkResponse`. -/
def AttachNetworkResponse.Unmarshal (m : AttachNetworkResponse) (dAtA : List UInt8) :
    Decoded AttachNetworkResponse :=
  unmarshalLoop "AttachNetworkResponse" AttachNetworkResponse.unmarshalField dAtA
    (dAtA.length + 1) m 0

/-- The method `Unmarshal` of `DetachNetworkRequest`. -/
def DetachNetworkRequest.Unmarshal (m : DetachNetworkRequest) (dAtA : List UInt8) :
    Decoded DetachNetworkRequest :=
  unmarshalLoop "DetachNetworkRequest" DetachNetworkRequest.unmarshalField dAtA
    (dAtA.length + 1) m 0

/-- The method `Unmarshal` of `DetachNetworkResponse`. -/
def DetachNetworkResponse.Unmarshal (m : DetachNetworkResponse) (dAtA : List UInt8) :
    Decoded DetachNetworkResponse :=
  unmarshalLoop "DetachNetworkResponse" DetachNetworkResponse.unmarshalField dAtA
    (dAtA.length + 1) m 0

/-- A codec of the nested configuration for concrete runs: it stores the
bytes it is given and accepts every input. -/
def demoCodec : ConfigCodec :=
  { Unmarshal := fun _ bs => (⟨bs⟩, none) }

/-- Moves the index a step goes on at by `d`. -/
def Step.shift {α : Type} (d : Int) : Step α → Step α
  | .next a i => .next a (i + d)
  | .fail err => .fail err
  | .panic why => .panic why
  | .running => .running

/-- The successful runs of the loop of `Unmarshal` on an input of length
`len`, with `step` the body of the loop: `Parses step len m i mf` holds when
the loop, started with the message `m` at the index `i`, reaches the end of
the input exactly and has decoded `mf`. -/
inductive Parses {M : Type} (step : M → Int → Step M) (len : Nat) : M → Int → M → Prop
  | done (m : M) : Parses step len m len m
  | step (m : M) (i : Int) (m' : M) (i' : Int) (mf : M) :
      i < len → step m i = .next m' i' → Parses step len m' i' mf → Parses step len m i mf

/-! ### Complete fields and the cases of the switch -/

/-- The bytes `t` are one varint of value `v`: the varint loop of the source
reads all of them and nothing is left. -/
def IsVarint (v : Nat) (t : List UInt8) : Prop :=
  readVarint t 0 = .next v t.length

instance (v : Nat) (t : List UInt8) : Decidable (IsVarint v t) := by
  unfold IsVarint
  infer_instance

/-- The bytes of a list of fields, one after the other. -/
def fieldBytes : List (Nat × List UInt8) → List UInt8
  | [] => []
  | g :: gs => g.2 ++ fieldBytes gs

/-- The bytes `f` are one complete field whose tag is the varint `wire`:
`IsField wire f`. The field has wire type 0 (a varint), 1 (eight bytes), 2 (a
length and that many bytes), 3 (complete fields up to an end-group tag) or 5
(four bytes). -/
inductive IsField : Nat → List UInt8 → Prop
  | varint (wire v : Nat) (t p : List UInt8) :
      IsVarint wire t → wire &&& 0x7 = 0 → IsVarint v p → IsField wire (t ++ p)
  | fixed64 (wire : Nat) (t p : List UInt8) :
      IsVarint wire t → wire &&& 0x7 = 1 → p.length = 8 → IsField wire (t ++ p)
  | bytes (wire len : Nat) (t lt data : List UInt8) :
      IsVarint wire t → wire &&& 0x7 = 2 → IsVarint len lt → len = data.length →
      IsField wire (t ++ (lt ++ data))
  | group (wire stop : Nat) (t : List UInt8) (inner : List (Nat × List UInt8))
      (e : List UInt8) :
      IsVarint wire t → wire &&& 0x7 = 3 → (∀ g ∈ inner, IsField g.1 g.2) →
      IsVarint stop e → stop &&& 0x7 = 4 → IsField wire (t ++ (fieldBytes inner ++ e))
  | fixed32 (wire : Nat) (t p : List UInt8) :
      IsVarint wire t → wire &&& 0x7 = 5 → p.length = 4 → IsField wire (t ++ p)

/-- The shapes a case of the switch on `fieldNum` takes in the four
`Unmarshal` methods: the `default` case, which steps over the field; a case
that reads a length-delimited field and stores its bytes, or fails on them;
a case that returns an error at once. -/
inductive FieldCase (M : Type) where
  | skip
  | bytes (store : List UInt8 → Except Err M)
  | reject (err : Err)

/-- What a case of the switch does, given the message, the input, `preIndex`
and `iNdEx`. -/
def FieldCase.run {M : Type} : FieldCase M → M → List UInt8 → Int → Int → Step M
  | .skip, m, dAtA, preIndex, _ =>
    match skipField dAtA preIndex with
    | .next () iNdEx => .next m iNdEx
    | .fail err => .fail err
    | .panic why => .panic why
    | .running => .running
  | .bytes store, _, dAtA, _, iNdEx =>
    match readLengthDelimited dAtA iNdEx with
    | .next bs postIndex =>
      match store bs with
      | .ok m => .next m postIndex
      | .error err => .fail err
    | .fail err => .fail err
    | .panic why => .panic why
    | .running => .running
  | .reject err, _, _, _, _ => .fail err

/-- Every case of the switch `field` has one of the three shapes, and those
that read a length-delimited field have tested `wireType` to be 2. -/
def RegularSwitch {M : Type} (field : M → List UInt8 → Int → Int → Int → Nat → Step M) : Prop :=
  ∀ (m : M) (fieldNum : Int) (wireType : Nat), ∃ c : FieldCase M,
    (∀ store, c = .bytes store → wireType = 2) ∧
    ∀ dAtA preIndex iNdEx, field m dAtA preIndex iNdEx fieldNum wireType
      = c.run m dAtA preIndex iNdEx

/-- The switch `field` steps over the fields numbered `fieldNum`. -/
def SkipsField {M : Type} (field : M → List UInt8 → Int → Int → Int → Nat → Step M)
    (fieldNum : Int) : Prop :=
  ∀ (m : M) (wireType : Nat) dAtA preIndex iNdEx,
    field m dAtA preIndex iNdEx fieldNum wireType = FieldCase.skip.run m dAtA preIndex iNdEx

/-- The bytes `a` are complete fields, one after the other. -/
def IsFields (a : List UInt8) : Prop :=
  ∃ fs : List (Nat × List UInt8), (∀ g ∈ fs, IsField g.1 g.2) ∧ a = fieldBytes fs

/-! ## The severity levels of `log_severity.pb.go` -/

/-- The type `LogSeverity`, an `int32`. -/
abbrev LogSeverity := Int

def LogSeverity_DEFAULT : LogSeverity := 0
def LogSeverity_DEBUG : LogSeverity := 100
def LogSeverity_INFO : LogSeverity := 200
def LogSeverity_NOTICE : LogSeverity := 300
def LogSeverity_WARNING : LogSeverity := 400
def LogSeverity_ERROR : LogSeverity := 500
def LogSeverity_CRITICAL : LogSeverity := 600
def LogSeverity_ALERT : LogSeverity := 700
def LogSeverity_EMERGENCY : LogSeverity := 800

/-- The map literal `LogSeverity_name`, a `map[int32]string`, as the list of
its entries. -/
def LogSeverity_name : List (Int × String) :=
  [(0, "DEFAULT"), (100, "DEBUG"), (200, "INFO"), (300, "NOTICE"), (400, "WARNING"),
   (500, "ERROR"), (600, "CRITICAL"), (700, "ALERT"), (800, "EMERGENCY")]

/-- The map literal `LogSeverity_value`, a `map[string]int32`. -/
def LogSeverity_value : List (String × Int) :=
  [("DEFAULT", 0), ("DEBUG", 100), ("INFO", 200), ("NOTICE", 300), ("WARNING", 400),
   ("ERROR", 500), ("CRITICAL", 600), ("ALERT", 700), ("EMERGENCY", 800)]

/-- The map read `v, ok := m[k]`: `none` when `ok` is false. -/
def mapGet {κ ν : Type} [DecidableEq κ] (m : List (κ × ν)) (k : κ) : Option ν :=
  match m.find? (fun kv => kv.1 = k) with
  | some kv => some kv.2
  | none => none

/-- The nine constants of the `const` block, each with the identifier it is
declared under (less the prefix `LogSeverity_`) and the number its doc comment
gives in brackets. -/
def logSeverityLevels : List (String × LogSeverity × Int) :=
  [("DEFAULT", LogSeverity_DEFAULT, 0), ("DEBUG", LogSeverity_DEBUG, 100),
   ("INFO", LogSeverity_INFO, 200), ("NOTICE", LogSeverity_NOTICE, 300),
   ("WARNING", LogSeverity_WARNING, 400), ("ERROR", LogSeverity_ERROR, 500),
   ("CRITICAL", LogSeverity_CRITICAL, 600), ("ALERT", LogSeverity_ALERT, 700),
   ("EMERGENCY", LogSeverity_EMERGENCY, 800)]

/-- The filter `severity > DEBUG AND severity <= WARNING` of the doc comment
of `LogSeverity`, read as comparisons of the numeric values. -/
def severityFilter (severity : LogSeverity) : Bool :=
  decide (severity > LogSeverity_DEBUG) && decide (severity ≤ LogSeverity_WARNING)

/-! ## The state machine of the spec, for any method -/

section GenericForward

variable {σ Req Resp : Type}

/-- The forwarding state machine as the spec words it for every exposed
method, with the method's local operation and remote operation as its only
parameters. Step 1: ask for the leader connection; on "is-leader" run the
local chain and then the local operation; on another error return it. Step 2:
run the remote chain on the original context. Step 3: the remote operation
with the modified context; a failure that is not a connection failure is
returned as it is. Step 4: the poller with the original context; on
"is-leader" the local operation with the original context, on a new connection
the remote operation once more with the modified context, on an error that
error. The original context of step 4 is the variable `ctx` of the methods,
read as the remote chain left it (`leftByCtxMods`). -/
def specForward (T : Transport σ) (p : raftProxyResourceAllocatorServer σ) (fuel : Nat)
    (localOp : Context → Req → Proc σ (Option Resp × Option Err))
    (remoteOp : ClientConn → Context → Req → Proc σ (Option Resp × Option Err))
    (ctx : Context) (r : Req) : Proc σ (Option Resp × Option Err) := do
  let (conn, err) ← call (p.connSelector.LeaderConn ctx) (fun _ => Event.LeaderConn ctx)
  match err with
  | some err =>
    if err = Err.ErrIsLeader then
      let (ctx, err) ← runCtxMods ctx p.localCtxMods
      match err with
      | some err => return (none, some err)
      | none => localOp ctx r
    else return (none, some err)
  | none =>
    let (modCtx, err) ← runCtxMods ctx p.remoteCtxMods
    let ctx := leftByCtxMods ctx p.remoteCtxMods
    match err with
    | some err => return (none, some err)
    | none =>
      let (resp, err) ← remoteOp conn modCtx r
      match err with
      | some err =>
        if !isConnErr err then return (resp, some err)
        else
          let (conn, err) ← pollNewLeaderConn T p fuel ctx
          match err with
          | some err =>
            if err = Err.ErrIsLeader then localOp ctx r
            else return (none, some err)
          | none => remoteOp conn modCtx r
      | none => return (resp, none)

end GenericForward

/-- A call of the proxy as the spec's state machine sees it: which
collaborator is called and with what, without the request of the method. -/
inductive CallShape where
  | LeaderConn (ctx : Context)
  | ctxMod (name : ModName) (ctx : Context)
  | localOp (ctx : Context)
  | remoteOp (cc : ClientConn) (ctx : Context) (err : Option Err)
  | pollNewLeaderConn (ctx : Context)
  | selectCase (ctx : Context) (done : Option CtxErr)
  | Check (cc : ClientConn) (ctx : Context) (req : HealthCheckRequest)
  | authorize (ctx : Context) (roles : List String)
  deriving DecidableEq, Repr

/-- The shape of a trace entry. -/
def Event.shape : Event → CallShape
  | .LeaderConn ctx => .LeaderConn ctx
  | .ctxMod name ctx => .ctxMod name ctx
  | .localAttachNetwork ctx _ => .localOp ctx
  | .localDetachNetwork ctx _ => .localOp ctx
  | .invokeAttachNetwork cc ctx _ err => .remoteOp cc ctx err
  | .invokeDetachNetwork cc ctx _ err => .remoteOp cc ctx err
  | .pollNewLeaderConn ctx => .pollNewLeaderConn ctx
  | .selectCase ctx done => .selectCase ctx done
  | .Check cc ctx req => .Check cc ctx req
  | .authorize ctx roles => .authorize ctx roles

/-- Two outcomes of methods correspond: both return, with the same error and
with responses that are both nil or both not nil; or both panic; or both are
still running. -/
def Outcome.corresponds {A B : Type} :
    Outcome (Option A × Option Err) → Outcome (Option B × Option Err) → Prop
  | .ret x, .ret y => x.2 = y.2 ∧ x.1.isSome = y.1.isSome
  | .panic, .panic => True
  | .running, .running => True
  | _, _ => False

/-- Two runs correspond: they leave the same collaborator state, their traces
have the same shapes, and their outcomes correspond. -/
def Run.corresponds {σ A B : Type} (x : Run σ (Option A × Option Err))
    (y : Run σ (Option B × Option Err)) : Prop :=
  x.st = y.st ∧ x.trace.map Event.shape = y.trace.map Event.shape
    ∧ Outcome.corresponds x.out y.out

/-! ### The runs of the loop, and malformed tags -/

/-- The runs of the loop of `Unmarshal` so far, on an input of length `len`
with `step` the body of the loop: `Reaches step len m i m2 i2` holds when the
loop, started with the message `m` at the index `i`, stands at the head of an
iteration with the message `m2` at the index `i2`, after any number of
iterations that went on. -/
inductive Reaches {M : Type} (step : M → Int → Step M) (len : Nat) : M → Int → M → Int → Prop
  | here (m : M) (i : Int) : Reaches step len m i m i
  | step (m : M) (i : Int) (m1 : M) (i1 : Int) (m2 : M) (i2 : Int) :
      i < len → step m i = .next m1 i1 → Reaches step len m1 i1 m2 i2 →
      Reaches step len m i m2 i2

/-- The tags the claim calls malformed, for a message whose declared field
numbers are `declared`: wire type 4, a field number that is not positive as
an `int32`, wire type 6 or 7, or a declared field number with a wire type
other than 2. The field number is `int32(wire >> 3)`, as the code computes
it; a declared number is its own `int32` value. -/
def MalformedTag (declared : List Int) (wire : Nat) : Prop :=
  wire &&& 0x7 = 4 ∨ int32OfUint64 (wire >>> 3) ≤ 0 ∨ wire &&& 0x7 = 6 ∨ wire &&& 0x7 = 7
    ∨ (int32OfUint64 (wire >>> 3) ∈ declared ∧ wire &&& 0x7 ≠ 2)

instance (declared : List Int) (wire : Nat) : Decidable (MalformedTag declared wire) := by
  unfold MalformedTag
  infer_instance

/-- The run of the loop of `Unmarshal` on `dAtA`, started with the message
`m0`, reads at the head of one of its iterations a tag of wire type 2 whose
field number, `int32(wire >> 3)`, is `fieldNum`. -/
def ReadsField {M : Type} (name : String)
    (field : M → List UInt8 → Int → Int → Int → Nat → Step M) (dAtA : List UInt8) (m0 : M)
    (fieldNum : Int) : Prop :=
  ∃ (m : M) (i : Int) (wire : Nat) (i1 : Int),
    Reaches (unmarshalStep name field dAtA) dAtA.length m0 0 m i
      ∧ readVarint dAtA i = .next wire i1
      ∧ int32OfUint64 (wire >>> 3) = fieldNum ∧ wire &&& 0x7 = 2

/-! ## The encoding half: `Size`, `MarshalTo` and `Marshal`

A buffer is the list of its bytes; code that writes into it returns the
buffer it leaves. A write outside the buffer is a panic. -/

/-- The run-time panics of the encoding code. -/
inductive EncPanic where
  | indexOutOfRange
  | sliceBoundsOutOfRange
  | makesliceLenOutOfRange
  deriving DecidableEq, Repr

/-- The outcome of encoding code that works on a buffer: it returns `a` and
leaves the buffer `dAtA`, it returns the error `err`, it panics, or it is
still running when its fuel is spent. -/
inductive Wrote (α : Type) where
  | ok (dAtA : List UInt8) (a : α)
  | fail (err : Err)
  | panic (why : EncPanic)
  | running
  deriving DecidableEq, Repr

/-- The assignment `dAtA[i] = b`; `none` is the panic "index out of range". -/
def setByte (dAtA : List UInt8) (i : Int) (b : UInt8) : Option (List UInt8) :=
  if 0 ≤ i ∧ i < dAtA.length then some (dAtA.set i.toNat b) else none

/-- The call `copy(dAtA[i:], s)`: the buffer it leaves and the number of bytes
copied; `none` is the panic "slice bounds out of range" of `dAtA[i:]`. -/
def copyInto (dAtA : List UInt8) (i : Int) (s : List UInt8) : Option (List UInt8 × Int) :=
  if 0 ≤ i ∧ i ≤ dAtA.length then
    let n := min (dAtA.length - i.toNat) s.length
    some (dAtA.take i.toNat ++ s.take n ++ dAtA.drop (i.toNat + n), (n : Int))
  else none

/-- The conversion `uint64(l)` of an `int`. -/
def uint64OfInt (l : Int) : Nat :=
  (l % 18446744073709551616).toNat

/-- The loop of `encodeVarintResource` and the statements after it, for at
most `fuel` bytes. The conversion `uint8(x)` is `UInt8.ofNat x`. -/
def encodeVarintLoop : List UInt8 → Nat → Int → Nat → Wrote Int
  | _, 0, _, _ => .running
  | dAtA, fuel + 1, offset, v =>
    if v ≥ 128 then
      match setByte dAtA offset (UInt8.ofNat ((v &&& 0x7f) ||| 0x80)) with
      | none => .panic EncPanic.indexOutOfRange
      | some dAtA => encodeVarintLoop dAtA fuel (offset + 1) (v >>> 7)
    else
      match setByte dAtA offset (UInt8.ofNat v) with
      | none => .panic EncPanic.indexOutOfRange
      | some dAtA => .ok dAtA (offset + 1)

/-- Function `encodeVarintResource`. A `uint64` takes at most ten bytes. -/
def encodeVarintResource (dAtA : List UInt8) (offset : Int) (v : Nat) : Wrote Int :=
  encodeVarintLoop dAtA 10 offset v

/-- The loop of `sovResource`, for at most `fuel` iterations; `none` when the
fuel is spent. -/
def sovLoop : Nat → Int → Nat → Option Int
  | 0, _, _ => none
  | fuel + 1, n, x =>
    let n := n + 1
    let x := x >>> 7
    if x = 0 then some n else sovLoop fuel n x

/-- Function `sovResource`. -/
def sovResource (x : Nat) : Option Int :=
  sovLoop 10 0 x

/-- The methods `Size` and `MarshalTo` of `NetworkAttachmentConfig`, which is
declared in another file of the package. `MarshalTo` is given the slice
`dAtA[i:]` and leaves it as the buffer of its outcome. They are parameters of
the encoding of `AttachNetworkRequest`. -/
structure ConfigMarshaler where
  Size : NetworkAttachmentConfig → Int
  MarshalTo : NetworkAttachmentConfig → List UInt8 → Wrote Int

/-- The statement `n += 1 + l + sovResource(uint64(l))` of the `Size`
methods. -/
def addFieldSize (n l : Int) : Option Int :=
  match sovResource (uint64OfInt l) with
  | some s => some (wrap64 (n + wrap64 (wrap64 (1 + l) + s)))
  | none => none

/-- The block of `MarshalTo` that writes a string field: the test
`len(s) > 0`, the tag byte, the length and the bytes of the string. -/
def marshalString (tag : UInt8) (s : GoString) (dAtA : List UInt8) (i : Int) : Wrote Int :=
  if (s.length : Int) > 0 then
    match setByte dAtA i tag with
    | none => .panic EncPanic.indexOutOfRange
    | some dAtA =>
      let i := i + 1
      match encodeVarintResource dAtA i (uint64OfInt s.length) with
      | .ok dAtA i =>
        match copyInto dAtA i s with
        | none => .panic EncPanic.sliceBoundsOutOfRange
        | some (dAtA, n) => .ok dAtA (i + n)
      | .fail err => .fail err
      | .panic why => .panic why
      | .running => .running
  else .ok dAtA i

/-- The method `Size` of `AttachNetworkRequest`. -/
def AttachNetworkRequest.Size (c : ConfigMarshaler) (m : AttachNetworkRequest) : Option Int :=
  let n : Option Int :=
    match m.Config with
    | some config => addFieldSize 0 (c.Size config)
    | none => some 0
  match n with
  | some n =>
    let l : Int := m.ContainerID.length
    if l > 0 then addFieldSize n l else some n
  | none => none

/-- The method `Size` of `AttachNetworkResponse`. -/
def AttachNetworkResponse.Size (m : AttachNetworkResponse) : Option Int :=
  let l : Int := m.AttachmentID.length
  if l > 0 then addFieldSize 0 l else some 0

/-- The method `Size` of `DetachNetworkRequest`. -/
def DetachNetworkRequest.Size (m : DetachNetworkRequest) : Option Int :=
  let l : Int := m.AttachmentID.length
  if l > 0 then addFieldSize 0 l else some 0

/-- The method `Size` of `DetachNetworkResponse`. -/
def DetachNetworkResponse.Size (_m : DetachNetworkResponse) : Option Int :=
  some 0

/-- The method `MarshalTo` of `AttachNetworkRequest`. -/
def AttachNetworkRequest.MarshalTo (c : ConfigMarshaler) (m : AttachNetworkRequest)
    (dAtA : List UInt8) : Wrote Int :=
  let i : Int := 0
  let first : Wrote Int :=
    match m.Config with
    | some config =>
      match setByte dAtA i 0xa with
      | none => .panic EncPanic.indexOutOfRange
      | some dAtA =>
        let i := i + 1
        match encodeVarintResource dAtA i (uint64OfInt (c.Size config)) with
        | .ok dAtA i =>
          if 0 ≤ i ∧ i ≤ dAtA.length then
            match c.MarshalTo config (dAtA.drop i.toNat) with
            | .ok rest n1 => .ok (dAtA.take i.toNat ++ rest) (wrap64 (i + n1))
            | .fail err => .fail err
            | .panic why => .panic why
            | .running => .running
          else .panic EncPanic.sliceBoundsOutOfRange
        | .fail err => .fail err
        | .panic why => .panic why
        | .running => .running
    | none => .ok dAtA i
  match first with
  | .ok dAtA i => marshalString 0x12 m.ContainerID dAtA i
  | .fail err => .fail err
  | .panic why => .panic why
  | .running => .running

/-- The method `MarshalTo` of `AttachNetworkResponse`. -/
def AttachNetworkResponse.MarshalTo (m : AttachNetworkResponse) (dAtA : List UInt8) :
    Wrote Int :=
  marshalString 0xa m.AttachmentID dAtA 0

/-- The method `MarshalTo` of `DetachNetworkRequest`. -/
def DetachNetworkRequest.MarshalTo (m : DetachNetworkRequest) (dAtA : List UInt8) :
    Wrote Int :=
  marshalString 0xa m.AttachmentID dAtA 0

/-- The method `MarshalTo` of `DetachNetworkResponse`. -/
def DetachNetworkResponse.MarshalTo (_m : DetachNetworkResponse) (dAtA : List UInt8) :
    Wrote Int :=
  .ok dAtA 0

/-- The body shared by the four `Marshal` methods: `make([]byte, size)`, the
call of `MarshalTo`, and the slice `dAtA[:n]`. The buffer `make` returns is
zeroed; that `make` fails for a size the memory cannot hold is not
modelled. -/
def marshalWith (size : Option Int) (marshalTo : List UInt8 → Wrote Int) : Wrote Unit :=
  match size with
  | none => .running
  | some size =>
    if size < 0 then .panic EncPanic.makesliceLenOutOfRange
    else
      match marshalTo (List.replicate size.toNat 0) with
      | .ok dAtA n =>
        if 0 ≤ n ∧ n ≤ dAtA.length then .ok (dAtA.take n.toNat) ()
        else .panic EncPanic.sliceBoundsOutOfRange
      | .fail err => .fail err
      | .panic why => .panic why
      | .running => .running

/-- The method `Marshal` of `AttachNetworkRequest`; `Wrote.ok dAtA ()` is
`return dAtA[:n], nil` and `Wrote.fail err` is `return nil, err`. -/
def AttachNetworkRequest.Marshal (c : ConfigMarshaler) (m : AttachNetworkRequest) :
    Wrote Unit :=
  marshalWith (AttachNetworkRequest.Size c m) (AttachNetworkRequest.MarshalTo c m)

/-- The method `Marshal` of `AttachNetworkResponse`. -/
def AttachNetworkResponse.Marshal (m : AttachNetworkResponse) : Wrote Unit :=
  marshalWith m.Size m.MarshalTo

/-- The method `Marshal` of `DetachNetworkRequest`. -/
def DetachNetworkRequest.Marshal (m : DetachNetworkRequest) : Wrote Unit :=
  marshalWith m.Size m.MarshalTo

/-- The method `Marshal` of `DetachNetworkResponse`. -/
def DetachNetworkResponse.Marshal (m : DetachNetworkResponse) : Wrote Unit :=
  marshalWith m.Size m.MarshalTo

/-- A marshaler of the nested configuration for concrete runs, the
counterpart of `demoCodec`: the encoding of a configuration is its payload. -/
def demoMarshaler : ConfigMarshaler :=
  { Size := fun config => config.payload.length
    MarshalTo := fun config dAtA =>
      match copyInto dAtA 0 config.payload with
      | some (dAtA, n) => .ok dAtA n
      | none => .panic EncPanic.sliceBoundsOutOfRange }

/-- The bytes `encodeVarintResource` writes for `v`, at most `fuel` of
them. -/
def varintBytes : Nat → Nat → List UInt8
  | 0, _ => []
  | fuel + 1, v =>
    if v ≥ 128 then UInt8.ofNat ((v &&& 0x7f) ||| 0x80) :: varintBytes fuel (v >>> 7)
    else [UInt8.ofNat v]

/-- The bytes the block `marshalString` writes: nothing for the empty string,
else the tag byte, the length and the string. -/
def stringFieldBytes (tag : UInt8) (s : GoString) : List UInt8 :=
  if (s.length : Int) > 0 then tag :: (varintBytes 10 s.length ++ s) else []

/-- The method `MarshalTo` of the configuration `config` writes the bytes
`enc`, as many as its method `Size` returns, at the start of the slice it is
given, and returns their number and a nil error. -/
def ConfigMarshaler.Writes (c : ConfigMarshaler) (config : NetworkAttachmentConfig)
    (enc : List UInt8) : Prop :=
  c.Size config = (enc.length : Int)
    ∧ ∀ dAtA : List UInt8, enc.length ≤ dAtA.length →
        c.MarshalTo config dAtA = .ok (enc ++ dAtA.drop enc.length) (enc.length : Int)

/-- The bytes `MarshalTo` of `AttachNetworkRequest` writes for the field
`Config`, when the configuration is encoded as `enc`: nothing for a nil
`Config`, else the tag byte, the length and `enc`. -/
def configFieldBytes (config : Option NetworkAttachmentConfig) (enc : List UInt8) :
    List UInt8 :=
  match config with
  | some _ => 0xa :: (varintBytes 10 enc.length ++ enc)
  | none => []

/-- The methods `Size`, `MarshalTo` and `Marshal` of a message agree: `Size`
returns a number `n` that is not negative; on every buffer of exactly `n`
bytes `MarshalTo` returns `n` and a nil error and leaves a buffer of `n`
bytes, without a write outside the buffer; and `Marshal` returns a nil error
and a slice of exactly `n` bytes. -/
def SizeAgrees (size : Option Int) (marshalTo : List UInt8 → Wrote Int)
    (marshal : Wrote Unit) : Prop :=
  ∃ n : Nat, size = some (n : Int)
    ∧ (∀ dAtA : List UInt8, dAtA.length = n →
        ∃ out, marshalTo dAtA = .ok out (n : Int) ∧ out.length = n)
    ∧ ∃ bytes, marshal = .ok bytes () ∧ bytes.length = n

/-- The bytes start with a length-delimited field whose length varint is
negative as a Go `int`, as `skipResource` meets it: a tag of wire type 2
followed by such a length, or a start-group tag (wire type 3) followed by
complete fields and then by bytes of this kind, a field inside the group. -/
inductive HasNegativeLength : List UInt8 → Prop
  | bytes (wire v : Nat) (t lt rest : List UInt8) :
      IsVarint wire t → wire &&& 0x7 = 2 → IsVarint v lt → intOfUint64 v < 0 →
      HasNegativeLength (t ++ (lt ++ rest))
  | group (wire : Nat) (t : List UInt8) (inner : List (Nat × List UInt8))
      (bad : List UInt8) :
      IsVarint wire t → wire &&& 0x7 = 3 → (∀ g ∈ inner, IsField g.1 g.2) →
      HasNegativeLength bad → HasNegativeLength (t ++ (fieldBytes inner ++ bad))

/-! ## What the chains and the poller leave in the trace -/

section TraceLemmas

variable {σ : Type}

theorem callMod_trace (m : CtxMod σ) (ctx : Context) (s : σ) :
    ∀ e ∈ (callMod m ctx s).trace, e = Event.ctxMod m.name ctx := by
  unfold callMod
  cases m.fn <;> simp [Proc.panic, call]

/-- Every entry `runCtxMods` adds to the trace is a call of a modifier of the
list it was given. -/
theorem runCtxMods_trace (mods : List (CtxMod σ)) :
    ∀ (ctx : Context) (s : σ), ∀ e ∈ (runCtxMods ctx mods s).trace,
      ∃ m ∈ mods, ∃ c, e = Event.ctxMod m.name c := by
  induction mods with
  | nil => intro ctx s e he; simp [runCtxMods, pure, Proc.ret] at he
  | cons m ms ih =>
    intro ctx s e he
    simp only [runCtxMods, bind, Proc.seq] at he
    split at he
    · rename_i a ha
      obtain ⟨c, err⟩ := a
      simp only [List.mem_append] at he
      rcases he with he | he
      · exact ⟨m, by simp, ctx, callMod_trace m ctx s e he⟩
      · cases err with
        | some err => simp [pure, Proc.ret] at he
        | none =>
          obtain ⟨m', hm', c', hc'⟩ := ih c _ e he
          exact ⟨m', by simp [hm'], c', hc'⟩
    · exact ⟨m, by simp, ctx, callMod_trace m ctx s e he⟩
    · exact ⟨m, by simp, ctx, callMod_trace m ctx s e he⟩

theorem runCtxMods_isCtxMod (mods : List (CtxMod σ)) (ctx : Context) (s : σ) :
    ∀ e ∈ (runCtxMods ctx mods s).trace, e.isCtxMod = true := by
  intro e he
  obtain ⟨m, _, c, hc⟩ := runCtxMods_trace mods ctx s e he
  simp [hc, Event.isCtxMod]

/-- Every entry the poll loop adds to the trace is a `select`, a `LeaderConn`
query or a health probe for the service "Raft", all on the context the poller
was given. -/
theorem pollLoop_trace (T : Transport σ) (p : raftProxyResourceAllocatorServer σ)
    (ctx : Context) (fuel : Nat) :
    ∀ (s : σ), ∀ e ∈ (pollLoop T p ctx fuel s).trace,
      (∃ d, e = Event.selectCase ctx d) ∨ e = Event.LeaderConn ctx
        ∨ ∃ cc, e = Event.Check cc ctx { Service := "Raft" } := by
  induction fuel with
  | zero => intro s e he; simp [pollLoop, Proc.running] at he
  | succ n ih =>
    intro s e he
    rcases hS : T.selectCase ctx s with ⟨d, s1⟩
    cases d with
    | some d =>
      simp [pollLoop, bind, Proc.seq, call, pure, Proc.ret, hS] at he
      exact Or.inl ⟨_, he⟩
    | none =>
      rcases hL : p.connSelector.LeaderConn ctx s1 with ⟨⟨conn, err⟩, s2⟩
      cases err with
      | some err =>
        simp [pollLoop, bind, Proc.seq, call, pure, Proc.ret, hS, hL] at he
        rcases he with he | he
        · exact Or.inl ⟨_, he⟩
        · exact Or.inr (Or.inl he)
      | none =>
        rcases hC : T.Check conn ctx { Service := "Raft" } s2 with ⟨⟨resp, cerr⟩, s3⟩
        have key : e = Event.selectCase ctx none ∨ e = Event.LeaderConn ctx
            ∨ e = Event.Check conn ctx { Service := "Raft" }
            ∨ e ∈ (pollLoop T p ctx n s3).trace := by
          cases cerr with
          | some ce =>
            simp [pollLoop, bind, Proc.seq, call, pure, Proc.ret, hS, hL, hC] at he
            tauto
          | none =>
            cases resp with
            | none =>
              simp [pollLoop, bind, Proc.seq, call, pure, Proc.ret, hS, hL, hC, Proc.panic] at he
              tauto
            | some resp =>
              by_cases hst : resp.Status = ServingStatus.SERVING
              · simp [pollLoop, bind, Proc.seq, call, pure, Proc.ret, hS, hL, hC, hst] at he
                tauto
              · simp [pollLoop, bind, Proc.seq, call, pure, Proc.ret, hS, hL, hC, hst] at he
                tauto
        rcases key with h | h | h | h
        · exact Or.inl ⟨_, h⟩
        · exact Or.inr (Or.inl h)
        · exact Or.inr (Or.inr ⟨_, h⟩)
        · exact ih _ e h

theorem pollNewLeaderConn_trace (T : Transport σ) (p : raftProxyResourceAllocatorServer σ)
    (fuel : Nat) (ctx : Context) (s : σ) :
    (pollNewLeaderConn T p fuel ctx s).trace
      = Event.pollNewLeaderConn ctx :: (pollLoop T p ctx fuel s).trace := by
  simp only [pollNewLeaderConn, bind, Proc.seq, note]
  rfl

theorem countP_of_isCtxMod (f : Event → Bool) (hf : ∀ n c, f (Event.ctxMod n c) = false)
    (l : List Event) (hl : ∀ e ∈ l, ∃ n c, e = Event.ctxMod n c) : l.countP f = 0 := by
  rw [List.countP_eq_zero]
  intro e he
  obtain ⟨n, c, rfl⟩ := hl e he
  simp [hf]

theorem countP_runCtxMods (f : Event → Bool) (hf : ∀ n c, f (Event.ctxMod n c) = false)
    (mods : List (CtxMod σ)) (ctx : Context) (s : σ) :
    (runCtxMods ctx mods s).trace.countP f = 0 := by
  apply countP_of_isCtxMod f hf
  intro e he
  obtain ⟨m, _, c, hc⟩ := runCtxMods_trace mods ctx s e he
  exact ⟨_, _, hc⟩

theorem countP_pollLoop (f : Event → Bool) (hs : ∀ c d, f (Event.selectCase c d) = false)
    (hl : ∀ c, f (Event.LeaderConn c) = false) (hc : ∀ cc c r, f (Event.Check cc c r) = false)
    (T : Transport σ) (p : raftProxyResourceAllocatorServer σ) (ctx : Context) (fuel : Nat)
    (s : σ) : (pollLoop T p ctx fuel s).trace.countP f = 0 := by
  rw [List.countP_eq_zero]
  intro e he
  rcases pollLoop_trace T p ctx fuel s e he with ⟨d, rfl⟩ | rfl | ⟨cc, rfl⟩ <;> simp [hs, hl, hc]

/-- The tally of a trace made of modifier calls only. -/
theorem tally_runCtxMods (mods : List (CtxMod σ)) (ctx : Context) (s : σ) :
    tally (runCtxMods ctx mods s).trace = (0, 0, 0) := by
  simp [tally, countP_runCtxMods, Event.isLocal, Event.isForward, Event.isPoll]

/-- The tally of the trace of one poller invocation. -/
theorem tally_pollNewLeaderConn (T : Transport σ) (p : raftProxyResourceAllocatorServer σ)
    (fuel : Nat) (ctx : Context) (s : σ) :
    tally (pollNewLeaderConn T p fuel ctx s).trace = (0, 0, 1) := by
  simp [tally, pollNewLeaderConn_trace, List.countP_cons, countP_pollLoop, Event.isLocal,
    Event.isForward, Event.isPoll]

theorem tally_append (a b : List Event) :
    tally (a ++ b) = ((tally a).1 + (tally b).1, (tally a).2.1 + (tally b).2.1,
      (tally a).2.2 + (tally b).2.2) := by
  simp [tally, List.countP_append]

theorem tally_cons (e : Event) (a : List Event) :
    tally (e :: a) = ((if e.isLocal then 1 else 0) + (tally a).1,
      (if e.isForward then 1 else 0) + (tally a).2.1,
      (if e.isPoll then 1 else 0) + (tally a).2.2) := by
  simp only [tally, List.countP_cons]
  simp [Nat.add_comm]

theorem tally_nil : tally [] = (0, 0, 0) := rfl

/-- The trace of a poller invocation: its entry, then selects, `LeaderConn`
queries and health probes on the context it was given. -/
theorem pollNewLeaderConn_shape (T : Transport σ) (p : raftProxyResourceAllocatorServer σ)
    (fuel : Nat) (ctx : Context) (s s' : σ) (o : Outcome (ClientConn × Option Err))
    (pt : List Event) (h : pollNewLeaderConn T p fuel ctx s = ⟨o, s', pt⟩) :
    ∃ pt', pt = Event.pollNewLeaderConn ctx :: pt' ∧
      ∀ e ∈ pt', (∃ d, e = Event.selectCase ctx d) ∨ e = Event.LeaderConn ctx
        ∨ ∃ cc, e = Event.Check cc ctx { Service := "Raft" } := by
  have h1 := pollNewLeaderConn_trace T p fuel ctx s
  rw [h] at h1
  exact ⟨_, h1, pollLoop_trace T p ctx fuel s⟩

/-- The condition under which the proxy methods return a failed forwarded RPC
as it is: the negation of `isConnErr`. -/
theorem notConn_eq (err : Err) :
    (!strings.Contains err.Error "is closing"
      && !strings.Contains err.Error "the connection is unavailable"
      && !strings.Contains err.Error "connection error") = !isConnErr err := by
  simp [isConnErr]

/-- Running a chain `a ++ b` is running `a` and, when it succeeds, running `b`
from the context `a` produced. -/
theorem runCtxMods_append (a b : List (CtxMod σ)) :
    ∀ (ctx : Context),
      runCtxMods ctx (a ++ b) = (do
        let (c, err) ← runCtxMods ctx a
        match err with
        | some err => return (c, some err)
        | none => runCtxMods c b) := by
  induction a with
  | nil =>
    intro ctx
    funext s
    simp [runCtxMods, bind, Proc.seq, pure, Proc.ret]
  | cons m ms ih =>
    intro ctx
    funext s
    simp only [List.cons_append, runCtxMods, bind, Proc.seq, pure, Proc.ret]
    cases hm : (callMod m ctx s).out with
    | ret a =>
      obtain ⟨c, err⟩ := a
      cases err with
      | some err => simp [Proc.ret]
      | none =>
        have h := congrFun (ih c) (callMod m ctx s).st
        simp only [bind, Proc.seq, pure, Proc.ret] at h
        cases hr : (runCtxMods c ms (callMod m ctx s).st).out with
        | ret a2 =>
          obtain ⟨c2, err2⟩ := a2
          rw [hr] at h
          cases err2 <;> simp [h, List.append_assoc, Proc.ret]
        | panic => rw [hr] at h; simp [h]
        | running => rw [hr] at h; simp [h]
    | panic => simp
    | running => simp

/-- A chain whose modifiers before `m` succeed and whose modifier `m` fails
with `err` fails with `err`, and calls nothing after `m`. -/
theorem runCtxMods_fails_at (pre post : List (CtxMod σ)) (m : CtxMod σ)
    (f : Context → Oracle σ (Context × Option Err)) (ctx c1 c2 : Context) (s1 s2 s3 : σ)
    (mt : List Event) (err : Err)
    (hpre : runCtxMods ctx pre s1 = ⟨.ret (c1, none), s2, mt⟩)
    (hf : m.fn = some f) (hfail : f c1 s2 = ((c2, some err), s3)) :
    runCtxMods ctx (pre ++ m :: post) s1
      = ⟨.ret (c2, some err), s3, mt ++ [Event.ctxMod m.name c1]⟩ := by
  rw [runCtxMods_append]
  simp [bind, Proc.seq, pure, Proc.ret, hpre, runCtxMods, callMod, hf, call, hfail]

end TraceLemmas

/-! ## The forwarding protocol of the two proxy methods -/

section Forwarding

variable {σ : Type}

/-- C1. When the first `LeaderConn` query answers `ErrIsLeader` and the local
chain succeeds with `ctx'`, both methods call the wrapped local implementation
once, with `ctx'` and the caller's request, and return its response and error
unchanged; the trace holds the `LeaderConn` query, the calls of modifiers of
the local chain and the local invocation, hence no forwarded RPC, no remote
modifier and no poller invocation. -/
theorem leader_executes_locally (T : Transport σ) (p : raftProxyResourceAllocatorServer σ)
    (fuel : Nat) (ctx ctx' : Context) (s s1 s2 : σ) (conn : ClientConn) (mt : List Event)
    (hL : p.connSelector.LeaderConn ctx s = ((conn, some Err.ErrIsLeader), s1))
    (hM : runCtxMods ctx p.localCtxMods s1 = ⟨.ret (ctx', none), s2, mt⟩) :
    (∀ r : AttachNetworkRequest,
      AttachNetwork T p fuel ctx r s =
          ⟨.ret (p.localSrv.AttachNetwork ctx' r s2).1, (p.localSrv.AttachNetwork ctx' r s2).2,
            Event.LeaderConn ctx :: mt ++ [Event.localAttachNetwork ctx' r]⟩
        ∧ tally (AttachNetwork T p fuel ctx r s).trace = (1, 0, 0))
    ∧ (∀ r : DetachNetworkRequest,
      DetachNetwork T p fuel ctx r s =
          ⟨.ret (p.localSrv.DetachNetwork ctx' r s2).1, (p.localSrv.DetachNetwork ctx' r s2).2,
            Event.LeaderConn ctx :: mt ++ [Event.localDetachNetwork ctx' r]⟩
        ∧ tally (DetachNetwork T p fuel ctx r s).trace = (1, 0, 0))
    ∧ (∀ e ∈ mt, ∃ m ∈ p.localCtxMods, ∃ c, e = Event.ctxMod m.name c) := by
  have hmt := tally_runCtxMods p.localCtxMods ctx s1
  have hmem := runCtxMods_trace p.localCtxMods ctx s1
  rw [hM] at hmt hmem
  simp only at hmt hmem
  refine ⟨fun r => ?_, fun r => ?_, hmem⟩
  · have h : AttachNetwork T p fuel ctx r s =
          ⟨.ret (p.localSrv.AttachNetwork ctx' r s2).1, (p.localSrv.AttachNetwork ctx' r s2).2,
            Event.LeaderConn ctx :: mt ++ [Event.localAttachNetwork ctx' r]⟩ := by
      unfold AttachNetwork
      simp [bind, Proc.seq, call, hL, hM, pure, Proc.ret]
    refine ⟨h, ?_⟩
    rw [h]
    simp [tally_cons, tally_append, tally_nil, hmt, Event.isLocal, Event.isForward,
      Event.isPoll]
  · have h : DetachNetwork T p fuel ctx r s =
          ⟨.ret (p.localSrv.DetachNetwork ctx' r s2).1, (p.localSrv.DetachNetwork ctx' r s2).2,
            Event.LeaderConn ctx :: mt ++ [Event.localDetachNetwork ctx' r]⟩ := by
      unfold DetachNetwork
      simp [bind, Proc.seq, call, hL, hM, pure, Proc.ret]
    refine ⟨h, ?_⟩
    rw [h]
    simp [tally_cons, tally_append, tally_nil, hmt, Event.isLocal, Event.isForward,
      Event.isPoll]

/-- C1, the scenario of the spec: the local node is leader and the request is
`ContainerID: "c1"`; the local `AttachNetwork` is invoked once and its response
is returned. -/
theorem leader_executes_locally_witness :
    AttachNetwork (demoTransport (Err.other "transport is closing"))
        (demoProxy [(none, some Err.ErrIsLeader)]) 0 freshCtx reqC1 0
      = ⟨.ret (some ⟨[99, 49]⟩, none), 1,
          [Event.LeaderConn freshCtx, Event.localAttachNetwork freshCtx reqC1]⟩
    ∧ tally (AttachNetwork (demoTransport (Err.other "transport is closing"))
        (demoProxy [(none, some Err.ErrIsLeader)]) 0 freshCtx reqC1 0).trace = (1, 0, 0) :=
  (leader_executes_locally (demoTransport (Err.other "transport is closing"))
    (demoProxy [(none, some Err.ErrIsLeader)]) 0 freshCtx freshCtx 0 1 1 none [] rfl rfl).1 reqC1

/-- C2. When `LeaderConn` answers a remote connection, the remote chain
succeeds and the forwarded RPC fails with an error that is not a connectivity
error, both methods return a nil response and exactly that error; that one
forwarded RPC is the last entry of the trace: no poller invocation, no local
invocation, no second forwarded RPC. -/
theorem application_error_returned_as_is (T : Transport σ)
    (p : raftProxyResourceAllocatorServer σ) (fuel : Nat) (ctx modCtx : Context)
    (s s1 s2 : σ) (conn : ClientConn) (mt : List Event)
    (hL : p.connSelector.LeaderConn ctx s = ((conn, none), s1))
    (hM : runCtxMods ctx p.remoteCtxMods s1 = ⟨.ret (modCtx, none), s2, mt⟩) :
    (∀ (r : AttachNetworkRequest) (out : AttachNetworkResponse) (err : Err) (s3 : σ),
      T.InvokeAttachNetwork modCtx r conn s2 = ((out, some err), s3) → isConnErr err = false →
      AttachNetwork T p fuel ctx r s =
          ⟨.ret (none, some err), s3,
            Event.LeaderConn ctx :: mt ++ [Event.invokeAttachNetwork conn modCtx r (some err)]⟩
        ∧ tally (AttachNetwork T p fuel ctx r s).trace = (0, 1, 0))
    ∧ (∀ (r : DetachNetworkRequest) (out : DetachNetworkResponse) (err : Err) (s3 : σ),
      T.InvokeDetachNetwork modCtx r conn s2 = ((out, some err), s3) → isConnErr err = false →
      DetachNetwork T p fuel ctx r s =
          ⟨.ret (none, some err), s3,
            Event.LeaderConn ctx :: mt ++ [Event.invokeDetachNetwork conn modCtx r (some err)]⟩
        ∧ tally (DetachNetwork T p fuel ctx r s).trace = (0, 1, 0)) := by
  have hmt := tally_runCtxMods p.remoteCtxMods ctx s1
  rw [hM] at hmt
  simp only at hmt
  refine ⟨fun r out err s3 hR hN => ?_, fun r out err s3 hR hN => ?_⟩
  · have h : AttachNetwork T p fuel ctx r s =
          ⟨.ret (none, some err), s3,
            Event.LeaderConn ctx :: mt ++ [Event.invokeAttachNetwork conn modCtx r (some err)]⟩ := by
      unfold AttachNetwork
      simp [bind, Proc.seq, call, hL, hM, pure, Proc.ret, resourceAllocatorClient.AttachNetwork,
        hR, notConn_eq, hN]
    refine ⟨h, ?_⟩
    rw [h]
    simp [tally_cons, tally_append, tally_nil, hmt, Event.isLocal, Event.isForward,
      Event.isPoll]
  · have h : DetachNetwork T p fuel ctx r s =
          ⟨.ret (none, some err), s3,
            Event.LeaderConn ctx :: mt ++ [Event.invokeDetachNetwork conn modCtx r (some err)]⟩ := by
      unfold DetachNetwork
      simp [bind, Proc.seq, call, hL, hM, pure, Proc.ret, resourceAllocatorClient.DetachNetwork,
        hR, notConn_eq, hN]
    refine ⟨h, ?_⟩
    rw [h]
    simp [tally_cons, tally_append, tally_nil, hmt, Event.isLocal, Event.isForward,
      Event.isPoll]

/-- C7. When the first `LeaderConn` query answers an error other than
`ErrIsLeader`, both methods return a nil response and exactly that error, and
the trace holds that query alone: no modifier call, no local invocation, no
forwarded RPC, no poller invocation. -/
theorem leader_resolution_error_propagated (T : Transport σ)
    (p : raftProxyResourceAllocatorServer σ) (fuel : Nat) (ctx : Context) (s s1 : σ)
    (conn : ClientConn) (err : Err)
    (hL : p.connSelector.LeaderConn ctx s = ((conn, some err), s1))
    (hne : err ≠ Err.ErrIsLeader) :
    (∀ r : AttachNetworkRequest,
      AttachNetwork T p fuel ctx r s = ⟨.ret (none, some err), s1, [Event.LeaderConn ctx]⟩)
    ∧ (∀ r : DetachNetworkRequest,
      DetachNetwork T p fuel ctx r s = ⟨.ret (none, some err), s1, [Event.LeaderConn ctx]⟩) := by
  refine ⟨fun r => ?_, fun r => ?_⟩
  · unfold AttachNetwork
    simp [bind, Proc.seq, call, hL, hne, pure, Proc.ret]
  · unfold DetachNetwork
    simp [bind, Proc.seq, call, hL, hne, pure, Proc.ret]

/-- C2 on a run: the leader `some 1` answers "permission denied". -/
theorem application_error_returned_as_is_witness :
    AttachNetwork (demoTransport (Err.other "permission denied")) (demoProxy [(some 1, none)])
        0 freshCtx reqC1 0
      = ⟨.ret (none, some (Err.other "permission denied")), 1,
          [Event.LeaderConn freshCtx, Event.ctxMod ModName.redirectChecker freshCtx,
            Event.ctxMod ModName.remoteCtxMod markedCtx,
            Event.invokeAttachNetwork (some 1) forwardedCtx reqC1
              (some (Err.other "permission denied"))]⟩
    ∧ tally (AttachNetwork (demoTransport (Err.other "permission denied"))
        (demoProxy [(some 1, none)]) 0 freshCtx reqC1 0).trace = (0, 1, 0) :=
  (application_error_returned_as_is (demoTransport (Err.other "permission denied"))
    (demoProxy [(some 1, none)]) 0 freshCtx forwardedCtx 0 1 1 (some 1)
    [Event.ctxMod ModName.redirectChecker freshCtx, Event.ctxMod ModName.remoteCtxMod markedCtx]
    rfl rfl).1 reqC1 ⟨[]⟩ (Err.other "permission denied") 1 rfl (by decide)

/-- C7 on a run: no leader is known. -/
theorem leader_resolution_error_propagated_witness :
    DetachNetwork (demoTransport (Err.other "transport is closing")) (demoProxy [])
        0 freshCtx ⟨[1]⟩ 0
      = ⟨.ret (none, some (Err.other "no leader")), 1, [Event.LeaderConn freshCtx]⟩ :=
  (leader_resolution_error_propagated (demoTransport (Err.other "transport is closing"))
    (demoProxy []) 0 freshCtx 0 1 none (Err.other "no leader") rfl (by decide)).2 ⟨[1]⟩

/-- The remote chain of a proxy built by the constructor stops at the
redirect guard when the guard fails. -/
theorem remote_chain_guard_fails (localSrv : ResourceAllocatorServer σ)
    (connSelector : ConnProvider σ)
    (localCtxMod remoteCtxMod : Option (Context → Oracle σ (Context × Option Err)))
    (ctx c : Context) (err : Err) (s : σ) (h : redirectChecker ctx = (c, some err)) :
    runCtxMods ctx (NewRaftProxyResourceAllocatorServer localSrv connSelector localCtxMod
        remoteCtxMod).remoteCtxMods s
      = ⟨.ret (c, some err), s, [Event.ctxMod ModName.redirectChecker ctx]⟩ := by
  simp [NewRaftProxyResourceAllocatorServer, runCtxMods, callMod, call, bind, Proc.seq, pure,
    Proc.ret, h]

/-- The context the remote chain of a proxy built by the constructor leaves
to its caller is the one the redirect guard leaves. -/
theorem leftByCtxMods_constructor (localSrv : ResourceAllocatorServer σ)
    (connSelector : ConnProvider σ)
    (localCtxMod remoteCtxMod : Option (Context → Oracle σ (Context × Option Err)))
    (ctx : Context) :
    leftByCtxMods ctx (NewRaftProxyResourceAllocatorServer localSrv connSelector localCtxMod
        remoteCtxMod).remoteCtxMods = redirectChecker.leaves ctx := rfl

/-- The redirect guard leaves a context without metadata as it is. -/
theorem redirectChecker.leaves_of_no_md (ctx : Context) (h : ctx.md = none) :
    redirectChecker.leaves ctx = ctx := by
  unfold redirectChecker.leaves
  cases hS : ctx.stream with
  | none => rfl
  | some st => simp [h]

/-- When the redirect guard succeeds on a context that carries metadata, the
marker it wrote is read through that context: the context is left with the
entry `redirect = [addr]`, it is the context the guard returned but for the
name, and it is no longer the context the caller passed. -/
theorem redirectChecker.leaves_of_md (ctx c : Context) (md : MD)
    (hg : redirectChecker ctx = (c, none)) (hmd : ctx.md = some md) :
    ∃ st, ctx.stream = some st ∧ md.get "redirect" = []
      ∧ redirectChecker.leaves ctx
        = { ctx with md := some (md.set "redirect" [st.remoteAddr]) }
      ∧ redirectChecker.leaves ctx = c
      ∧ redirectChecker.leaves ctx ≠ ctx := by
  have hstream : ∃ st, ctx.stream = some st := by
    cases hS : ctx.stream with
    | none => simp [redirectChecker, hS] at hg
    | some st => exact ⟨st, rfl⟩
  obtain ⟨st, hS⟩ := hstream
  by_cases hR : md.get "redirect" = []
  · have hc : c = { ctx with md := some (md.set "redirect" [st.remoteAddr]) } := by
      simp [redirectChecker, hS, hmd, hR, metadata.NewContext] at hg
      rw [hS]
      exact hg.symm
    have hl : redirectChecker.leaves ctx
        = { ctx with md := some (md.set "redirect" [st.remoteAddr]) } := by
      simp [redirectChecker.leaves, hS, hmd, hR]
    refine ⟨st, hS, hR, hl, by rw [hl, hc], fun h => ?_⟩
    rw [hl] at h
    have h2 := congrArg Context.md h
    simp only [hmd, Option.some.injEq] at h2
    have h4 : (md.set "redirect" [st.remoteAddr]).get "redirect" = [st.remoteAddr] := by
      simp [MD.get, MD.set]
    rw [h2, hR] at h4
    cases h4
  · simp [redirectChecker, hS, hmd, hR] at hg

/-- When the remote chain of a proxy built by the constructor succeeds, the
redirect guard has succeeded. -/
theorem remote_chain_guard_ok (localSrv : ResourceAllocatorServer σ)
    (connSelector : ConnProvider σ)
    (localCtxMod remoteCtxMod : Option (Context → Oracle σ (Context × Option Err)))
    (ctx modCtx : Context) (s1 s2 : σ) (mt : List Event)
    (hM : runCtxMods ctx (NewRaftProxyResourceAllocatorServer localSrv connSelector localCtxMod
        remoteCtxMod).remoteCtxMods s1 = ⟨.ret (modCtx, none), s2, mt⟩) :
    ∃ c, redirectChecker ctx = (c, none) := by
  rcases hg : redirectChecker ctx with ⟨c, e⟩
  cases e with
  | none => exact ⟨c, rfl⟩
  | some err =>
    rw [remote_chain_guard_fails localSrv connSelector localCtxMod remoteCtxMod ctx c err s1 hg]
      at hM
    simp at hM

/-- What the poller and the local fallback are handed by a proxy built by the
constructor, once its remote chain has succeeded on the caller's context
`ctx`: `ctx` itself when it carries no metadata; when it carries metadata,
`ctx` with the entry `redirect = [addr]` the guard wrote, which is not the
context the caller passed. -/
theorem caller_context_after_guard (p : raftProxyResourceAllocatorServer σ)
    (ctx modCtx : Context) (s1 s2 : σ) (mt : List Event)
    (hM : runCtxMods ctx p.remoteCtxMods s1 = ⟨.ret (modCtx, none), s2, mt⟩)
    (localSrv : ResourceAllocatorServer σ) (connSelector : ConnProvider σ)
    (localCtxMod remoteCtxMod : Option (Context → Oracle σ (Context × Option Err)))
    (hp : p = NewRaftProxyResourceAllocatorServer localSrv connSelector localCtxMod
      remoteCtxMod) :
    (ctx.md = none → leftByCtxMods ctx p.remoteCtxMods = ctx)
    ∧ (∀ md, ctx.md = some md → ∃ st, ctx.stream = some st ∧ md.get "redirect" = []
        ∧ leftByCtxMods ctx p.remoteCtxMods
          = { ctx with md := some (md.set "redirect" [st.remoteAddr]) }
        ∧ leftByCtxMods ctx p.remoteCtxMods ≠ ctx) := by
  subst hp
  rw [leftByCtxMods_constructor]
  refine ⟨redirectChecker.leaves_of_no_md ctx, fun md hmd => ?_⟩
  obtain ⟨c, hg⟩ := remote_chain_guard_ok localSrv connSelector localCtxMod remoteCtxMod ctx
    modCtx s1 s2 mt hM
  obtain ⟨st, hS, hR, hl, _, hne⟩ := redirectChecker.leaves_of_md ctx c md hg hmd
  exact ⟨st, hS, hR, hl, hne⟩

/-- C3. When the first forwarded RPC fails with a connectivity error and the
poller returns a new connection, both methods issue one follow-up RPC over
that connection, with the context the remote chain derived before and the same
request, and return whatever that follow-up yields. The trace holds two
forwarded RPCs, one poller invocation and no further modifier call. The
poller is handed the variable `ctx` of the method, which reads as the remote
chain left it. For a proxy built by the constructor this is the context the
caller passed only when that context carries no metadata: when it carries
metadata, the redirect guard has written its marker into the caller's own
map, and the poller is handed a context with the entry `redirect = [addr]`,
not the context as the caller passed it. -/
theorem recovery_retries_once (T : Transport σ) (p : raftProxyResourceAllocatorServer σ)
    (fuel : Nat) (ctx modCtx : Context) (s s1 s2 s3 s4 : σ) (conn conn' : ClientConn)
    (mt pt : List Event) (err : Err)
    (hL : p.connSelector.LeaderConn ctx s = ((conn, none), s1))
    (hM : runCtxMods ctx p.remoteCtxMods s1 = ⟨.ret (modCtx, none), s2, mt⟩)
    (hT : isConnErr err = true)
    (hP : pollNewLeaderConn T p fuel (leftByCtxMods ctx p.remoteCtxMods) s3
      = ⟨.ret (conn', none), s4, pt⟩) :
    (∀ (r : AttachNetworkRequest) (out : AttachNetworkResponse),
      T.InvokeAttachNetwork modCtx r conn s2 = ((out, some err), s3) →
      AttachNetwork T p fuel ctx r s =
          ⟨(resourceAllocatorClient.AttachNetwork T conn' modCtx r s4).out,
            (resourceAllocatorClient.AttachNetwork T conn' modCtx r s4).st,
            Event.LeaderConn ctx :: mt ++ [Event.invokeAttachNetwork conn modCtx r (some err)]
              ++ pt ++ [Event.invokeAttachNetwork conn' modCtx r
                (T.InvokeAttachNetwork modCtx r conn' s4).1.2]⟩
        ∧ (resourceAllocatorClient.AttachNetwork T conn' modCtx r s4).out
            = .ret (match (T.InvokeAttachNetwork modCtx r conn' s4).1 with
                | (_, some e) => (none, some e)
                | (out', none) => (some out', none))
        ∧ tally (AttachNetwork T p fuel ctx r s).trace = (0, 2, 1))
    ∧ (∀ (r : DetachNetworkRequest) (out : DetachNetworkResponse),
      T.InvokeDetachNetwork modCtx r conn s2 = ((out, some err), s3) →
      DetachNetwork T p fuel ctx r s =
          ⟨(resourceAllocatorClient.DetachNetwork T conn' modCtx r s4).out,
            (resourceAllocatorClient.DetachNetwork T conn' modCtx r s4).st,
            Event.LeaderConn ctx :: mt ++ [Event.invokeDetachNetwork conn modCtx r (some err)]
              ++ pt ++ [Event.invokeDetachNetwork conn' modCtx r
                (T.InvokeDetachNetwork modCtx r conn' s4).1.2]⟩
        ∧ (resourceAllocatorClient.DetachNetwork T conn' modCtx r s4).out
            = .ret (match (T.InvokeDetachNetwork modCtx r conn' s4).1 with
                | (_, some e) => (none, some e)
                | (out', none) => (some out', none))
        ∧ tally (DetachNetwork T p fuel ctx r s).trace = (0, 2, 1))
    ∧ (∃ pt', pt = Event.pollNewLeaderConn (leftByCtxMods ctx p.remoteCtxMods) :: pt' ∧
        ∀ e ∈ pt', (∃ d, e = Event.selectCase (leftByCtxMods ctx p.remoteCtxMods) d)
          ∨ e = Event.LeaderConn (leftByCtxMods ctx p.remoteCtxMods)
          ∨ ∃ cc, e = Event.Check cc (leftByCtxMods ctx p.remoteCtxMods) { Service := "Raft" })
    ∧ (∀ (localSrv : ResourceAllocatorServer σ) (connSelector : ConnProvider σ)
        (localCtxMod remoteCtxMod : Option (Context → Oracle σ (Context × Option Err))),
        p = NewRaftProxyResourceAllocatorServer localSrv connSelector localCtxMod
          remoteCtxMod →
        (ctx.md = none → leftByCtxMods ctx p.remoteCtxMods = ctx)
        ∧ (∀ md, ctx.md = some md → ∃ st, ctx.stream = some st ∧ md.get "redirect" = []
            ∧ leftByCtxMods ctx p.remoteCtxMods
              = { ctx with md := some (md.set "redirect" [st.remoteAddr]) }
            ∧ leftByCtxMods ctx p.remoteCtxMods ≠ ctx)) := by
  have hmt := tally_runCtxMods p.remoteCtxMods ctx s1
  rw [hM] at hmt
  have hpt := tally_pollNewLeaderConn T p fuel (leftByCtxMods ctx p.remoteCtxMods) s3
  rw [hP] at hpt
  simp only at hmt hpt
  refine ⟨fun r out hR => ?_, fun r out hR => ?_,
    pollNewLeaderConn_shape T p fuel (leftByCtxMods ctx p.remoteCtxMods) s3 s4 _ pt hP,
    fun localSrv connSelector localCtxMod remoteCtxMod hp =>
      caller_context_after_guard p ctx modCtx s1 s2 mt hM localSrv connSelector localCtxMod
        remoteCtxMod hp⟩
  · have h : AttachNetwork T p fuel ctx r s =
          ⟨(resourceAllocatorClient.AttachNetwork T conn' modCtx r s4).out,
            (resourceAllocatorClient.AttachNetwork T conn' modCtx r s4).st,
            Event.LeaderConn ctx :: mt ++ [Event.invokeAttachNetwork conn modCtx r (some err)]
              ++ pt ++ [Event.invokeAttachNetwork conn' modCtx r
                (T.InvokeAttachNetwork modCtx r conn' s4).1.2]⟩ := by
      unfold AttachNetwork
      rcases h2 : T.InvokeAttachNetwork modCtx r conn' s4 with ⟨⟨out2, e2⟩, s5⟩
      cases e2 <;>
        simp [bind, Proc.seq, call, hL, hM, pure, Proc.ret,
          resourceAllocatorClient.AttachNetwork, hR, notConn_eq, hT, hP, h2]
    refine ⟨h, ?_, ?_⟩
    · rcases h2 : T.InvokeAttachNetwork modCtx r conn' s4 with ⟨⟨out2, e2⟩, s5⟩
      cases e2 <;>
        simp [resourceAllocatorClient.AttachNetwork, bind, Proc.seq, call, pure, Proc.ret, h2]
    · rw [h]
      simp [tally_cons, tally_append, tally_nil, hmt, hpt, Event.isLocal, Event.isForward,
        Event.isPoll]
  · have h : DetachNetwork T p fuel ctx r s =
          ⟨(resourceAllocatorClient.DetachNetwork T conn' modCtx r s4).out,
            (resourceAllocatorClient.DetachNetwork T conn' modCtx r s4).st,
            Event.LeaderConn ctx :: mt ++ [Event.invokeDetachNetwork conn modCtx r (some err)]
              ++ pt ++ [Event.invokeDetachNetwork conn' modCtx r
                (T.InvokeDetachNetwork modCtx r conn' s4).1.2]⟩ := by
      unfold DetachNetwork
      rcases h2 : T.InvokeDetachNetwork modCtx r conn' s4 with ⟨⟨out2, e2⟩, s5⟩
      cases e2 <;>
        simp [bind, Proc.seq, call, hL, hM, pure, Proc.ret,
          resourceAllocatorClient.DetachNetwork, hR, notConn_eq, hT, hP, h2]
    refine ⟨h, ?_, ?_⟩
    · rcases h2 : T.InvokeDetachNetwork modCtx r conn' s4 with ⟨⟨out2, e2⟩, s5⟩
      cases e2 <;>
        simp [resourceAllocatorClient.DetachNetwork, bind, Proc.seq, call, pure, Proc.ret, h2]
    · rw [h]
      simp [tally_cons, tally_append, tally_nil, hmt, hpt, Event.isLocal, Event.isForward,
        Event.isPoll]

/-- C3 on two runs of the scenario of the spec: the call to leader `some 1`
fails with "transport is closing", the poller finds the new leader `some 2`
serving, and the retried call succeeds with the response of `some 2`, after
two forwarded RPCs. On `agentCtx`, which carries the metadata a grpc client
sends, the poller, its `LeaderConn` query and its health probe are handed
`markedAgentCtx`: the caller's context with the redirect marker in it. On
`freshCtx`, which carries no metadata, they are handed `freshCtx`. -/
theorem recovery_retries_once_witness :
    AttachNetwork (demoTransport (Err.other "transport is closing"))
        (demoProxy [(some 1, none), (some 2, none)]) 1 agentCtx reqC1 0
      = ⟨.ret (some ⟨[7]⟩, none), 2,
          [Event.LeaderConn agentCtx, Event.ctxMod ModName.redirectChecker agentCtx,
            Event.ctxMod ModName.remoteCtxMod markedAgentCtx,
            Event.invokeAttachNetwork (some 1) forwardedAgentCtx reqC1
              (some (Err.other "transport is closing")),
            Event.pollNewLeaderConn markedAgentCtx, Event.selectCase markedAgentCtx none,
            Event.LeaderConn markedAgentCtx,
            Event.Check (some 2) markedAgentCtx { Service := "Raft" },
            Event.invokeAttachNetwork (some 2) forwardedAgentCtx reqC1 none]⟩
    ∧ markedAgentCtx ≠ agentCtx
    ∧ AttachNetwork (demoTransport (Err.other "transport is closing"))
        (demoProxy [(some 1, none), (some 2, none)]) 1 freshCtx reqC1 0
      = ⟨.ret (some ⟨[7]⟩, none), 2,
          [Event.LeaderConn freshCtx, Event.ctxMod ModName.redirectChecker freshCtx,
            Event.ctxMod ModName.remoteCtxMod markedCtx,
            Event.invokeAttachNetwork (some 1) forwardedCtx reqC1
              (some (Err.other "transport is closing")),
            Event.pollNewLeaderConn freshCtx, Event.selectCase freshCtx none,
            Event.LeaderConn freshCtx, Event.Check (some 2) freshCtx { Service := "Raft" },
            Event.invokeAttachNetwork (some 2) forwardedCtx reqC1 none]⟩ :=
  ⟨((recovery_retries_once (demoTransport (Err.other "transport is closing"))
      (demoProxy [(some 1, none), (some 2, none)]) 1 agentCtx forwardedAgentCtx 0 1 1 1 2
      (some 1) (some 2)
      [Event.ctxMod ModName.redirectChecker agentCtx,
        Event.ctxMod ModName.remoteCtxMod markedAgentCtx]
      [Event.pollNewLeaderConn markedAgentCtx, Event.selectCase markedAgentCtx none,
        Event.LeaderConn markedAgentCtx,
        Event.Check (some 2) markedAgentCtx { Service := "Raft" }]
      (Err.other "transport is closing") rfl rfl (by decide) rfl).1 reqC1 ⟨[]⟩ rfl).1,
   by decide,
   ((recovery_retries_once (demoTransport (Err.other "transport is closing"))
      (demoProxy [(some 1, none), (some 2, none)]) 1 freshCtx forwardedCtx 0 1 1 1 2
      (some 1) (some 2)
      [Event.ctxMod ModName.redirectChecker freshCtx,
        Event.ctxMod ModName.remoteCtxMod markedCtx]
      [Event.pollNewLeaderConn freshCtx, Event.selectCase freshCtx none,
        Event.LeaderConn freshCtx, Event.Check (some 2) freshCtx { Service := "Raft" }]
      (Err.other "transport is closing") rfl rfl (by decide) rfl).1 reqC1 ⟨[]⟩ rfl).1⟩

/-- C4. When the first forwarded RPC fails with a connectivity error and the
poller returns `ErrIsLeader`, both methods call the wrapped local
implementation once, with the variable `ctx` of the method (not the context
the remote chain derived) and the caller's request, and return its response
and error unchanged. After the poller the trace holds that local invocation
alone: the local chain is not run and no second RPC is forwarded. The
variable `ctx` reads as the remote chain left it. For a proxy built by the
constructor this is the context the caller passed only when that context
carries no metadata: when it carries metadata, the redirect guard has written
its marker into the caller's own map, and the local implementation is handed
a context with the entry `redirect = [addr]`, not the context as the caller
passed it. -/
theorem recovery_falls_back_to_local (T : Transport σ)
    (p : raftProxyResourceAllocatorServer σ) (fuel : Nat) (ctx modCtx : Context)
    (s s1 s2 s3 s4 : σ) (conn conn' : ClientConn) (mt pt : List Event) (err : Err)
    (hL : p.connSelector.LeaderConn ctx s = ((conn, none), s1))
    (hM : runCtxMods ctx p.remoteCtxMods s1 = ⟨.ret (modCtx, none), s2, mt⟩)
    (hT : isConnErr err = true)
    (hP : pollNewLeaderConn T p fuel (leftByCtxMods ctx p.remoteCtxMods) s3
      = ⟨.ret (conn', some Err.ErrIsLeader), s4, pt⟩) :
    (∀ (r : AttachNetworkRequest) (out : AttachNetworkResponse),
      T.InvokeAttachNetwork modCtx r conn s2 = ((out, some err), s3) →
      AttachNetwork T p fuel ctx r s =
          ⟨.ret (p.localSrv.AttachNetwork (leftByCtxMods ctx p.remoteCtxMods) r s4).1,
            (p.localSrv.AttachNetwork (leftByCtxMods ctx p.remoteCtxMods) r s4).2,
            Event.LeaderConn ctx :: mt ++ [Event.invokeAttachNetwork conn modCtx r (some err)]
              ++ pt ++ [Event.localAttachNetwork (leftByCtxMods ctx p.remoteCtxMods) r]⟩
        ∧ tally (AttachNetwork T p fuel ctx r s).trace = (1, 1, 1))
    ∧ (∀ (r : DetachNetworkRequest) (out : DetachNetworkResponse),
      T.InvokeDetachNetwork modCtx r conn s2 = ((out, some err), s3) →
      DetachNetwork T p fuel ctx r s =
          ⟨.ret (p.localSrv.DetachNetwork (leftByCtxMods ctx p.remoteCtxMods) r s4).1,
            (p.localSrv.DetachNetwork (leftByCtxMods ctx p.remoteCtxMods) r s4).2,
            Event.LeaderConn ctx :: mt ++ [Event.invokeDetachNetwork conn modCtx r (some err)]
              ++ pt ++ [Event.localDetachNetwork (leftByCtxMods ctx p.remoteCtxMods) r]⟩
        ∧ tally (DetachNetwork T p fuel ctx r s).trace = (1, 1, 1))
    ∧ (∃ pt', pt = Event.pollNewLeaderConn (leftByCtxMods ctx p.remoteCtxMods) :: pt' ∧
        ∀ e ∈ pt', (∃ d, e = Event.selectCase (leftByCtxMods ctx p.remoteCtxMods) d)
          ∨ e = Event.LeaderConn (leftByCtxMods ctx p.remoteCtxMods)
          ∨ ∃ cc, e = Event.Check cc (leftByCtxMods ctx p.remoteCtxMods) { Service := "Raft" })
    ∧ (∀ (localSrv : ResourceAllocatorServer σ) (connSelector : ConnProvider σ)
        (localCtxMod remoteCtxMod : Option (Context → Oracle σ (Context × Option Err))),
        p = NewRaftProxyResourceAllocatorServer localSrv connSelector localCtxMod
          remoteCtxMod →
        (ctx.md = none → leftByCtxMods ctx p.remoteCtxMods = ctx)
        ∧ (∀ md, ctx.md = some md → ∃ st, ctx.stream = some st ∧ md.get "redirect" = []
            ∧ leftByCtxMods ctx p.remoteCtxMods
              = { ctx with md := some (md.set "redirect" [st.remoteAddr]) }
            ∧ leftByCtxMods ctx p.remoteCtxMods ≠ ctx)) := by
  have hmt := tally_runCtxMods p.remoteCtxMods ctx s1
  rw [hM] at hmt
  have hpt := tally_pollNewLeaderConn T p fuel (leftByCtxMods ctx p.remoteCtxMods) s3
  rw [hP] at hpt
  simp only at hmt hpt
  refine ⟨fun r out hR => ?_, fun r out hR => ?_,
    pollNewLeaderConn_shape T p fuel (leftByCtxMods ctx p.remoteCtxMods) s3 s4 _ pt hP,
    fun localSrv connSelector localCtxMod remoteCtxMod hp =>
      caller_context_after_guard p ctx modCtx s1 s2 mt hM localSrv connSelector localCtxMod
        remoteCtxMod hp⟩
  · have h : AttachNetwork T p fuel ctx r s =
          ⟨.ret (p.localSrv.AttachNetwork (leftByCtxMods ctx p.remoteCtxMods) r s4).1,
            (p.localSrv.AttachNetwork (leftByCtxMods ctx p.remoteCtxMods) r s4).2,
            Event.LeaderConn ctx :: mt ++ [Event.invokeAttachNetwork conn modCtx r (some err)]
              ++ pt ++ [Event.localAttachNetwork (leftByCtxMods ctx p.remoteCtxMods) r]⟩ := by
      unfold AttachNetwork
      simp [bind, Proc.seq, call, hL, hM, pure, Proc.ret,
        resourceAllocatorClient.AttachNetwork, hR, notConn_eq, hT, hP]
    refine ⟨h, ?_⟩
    rw [h]
    simp [tally_cons, tally_append, tally_nil, hmt, hpt, Event.isLocal, Event.isForward,
      Event.isPoll]
  · have h : DetachNetwork T p fuel ctx r s =
          ⟨.ret (p.localSrv.DetachNetwork (leftByCtxMods ctx p.remoteCtxMods) r s4).1,
            (p.localSrv.DetachNetwork (leftByCtxMods ctx p.remoteCtxMods) r s4).2,
            Event.LeaderConn ctx :: mt ++ [Event.invokeDetachNetwork conn modCtx r (some err)]
              ++ pt ++ [Event.localDetachNetwork (leftByCtxMods ctx p.remoteCtxMods) r]⟩ := by
      unfold DetachNetwork
      simp [bind, Proc.seq, call, hL, hM, pure, Proc.ret,
        resourceAllocatorClient.DetachNetwork, hR, notConn_eq, hT, hP]
    refine ⟨h, ?_⟩
    rw [h]
    simp [tally_cons, tally_append, tally_nil, hmt, hpt, Event.isLocal, Event.isForward,
      Event.isPoll]

/-- C4 on two runs: while the call to `some 1` fails, the local node becomes
leader. On `agentCtx`, which carries the metadata a grpc client sends, the
local implementation is handed `markedAgentCtx`, the caller's context with the
redirect marker in it. On `freshCtx`, which carries no metadata, it is handed
`freshCtx`. In both runs it is not handed the context the remote chain
returned. -/
theorem recovery_falls_back_to_local_witness :
    AttachNetwork (demoTransport (Err.other "transport is closing"))
        (demoProxy [(some 1, none), (none, some Err.ErrIsLeader)]) 1 agentCtx reqC1 0
      = ⟨.ret (some ⟨[99, 49]⟩, none), 2,
          [Event.LeaderConn agentCtx, Event.ctxMod ModName.redirectChecker agentCtx,
            Event.ctxMod ModName.remoteCtxMod markedAgentCtx,
            Event.invokeAttachNetwork (some 1) forwardedAgentCtx reqC1
              (some (Err.other "transport is closing")),
            Event.pollNewLeaderConn markedAgentCtx, Event.selectCase markedAgentCtx none,
            Event.LeaderConn markedAgentCtx, Event.localAttachNetwork markedAgentCtx reqC1]⟩
    ∧ markedAgentCtx ≠ agentCtx
    ∧ AttachNetwork (demoTransport (Err.other "transport is closing"))
        (demoProxy [(some 1, none), (none, some Err.ErrIsLeader)]) 1 freshCtx reqC1 0
      = ⟨.ret (some ⟨[99, 49]⟩, none), 2,
          [Event.LeaderConn freshCtx, Event.ctxMod ModName.redirectChecker freshCtx,
            Event.ctxMod ModName.remoteCtxMod markedCtx,
            Event.invokeAttachNetwork (some 1) forwardedCtx reqC1
              (some (Err.other "transport is closing")),
            Event.pollNewLeaderConn freshCtx, Event.selectCase freshCtx none,
            Event.LeaderConn freshCtx, Event.localAttachNetwork freshCtx reqC1]⟩ :=
  ⟨((recovery_falls_back_to_local (demoTransport (Err.other "transport is closing"))
      (demoProxy [(some 1, none), (none, some Err.ErrIsLeader)]) 1 agentCtx forwardedAgentCtx
      0 1 1 1 2 (some 1) none
      [Event.ctxMod ModName.redirectChecker agentCtx,
        Event.ctxMod ModName.remoteCtxMod markedAgentCtx]
      [Event.pollNewLeaderConn markedAgentCtx, Event.selectCase markedAgentCtx none,
        Event.LeaderConn markedAgentCtx]
      (Err.other "transport is closing") rfl rfl (by decide) rfl).1 reqC1 ⟨[]⟩ rfl).1,
   by decide,
   ((recovery_falls_back_to_local (demoTransport (Err.other "transport is closing"))
      (demoProxy [(some 1, none), (none, some Err.ErrIsLeader)]) 1 freshCtx forwardedCtx
      0 1 1 1 2 (some 1) none
      [Event.ctxMod ModName.redirectChecker freshCtx,
        Event.ctxMod ModName.remoteCtxMod markedCtx]
      [Event.pollNewLeaderConn freshCtx, Event.selectCase freshCtx none,
        Event.LeaderConn freshCtx]
      (Err.other "transport is closing") rfl rfl (by decide) rfl).1 reqC1 ⟨[]⟩ rfl).1⟩

/-- What the redirect guard answers on a context that has a transport stream
and a non-empty "redirect" entry in its metadata. -/
theorem redirectChecker_marked (ctx : Context) (st : Stream) (md : MD)
    (hS : ctx.stream = some st) (hmd : ctx.md = some md) (hR : md.get "redirect" ≠ []) :
    redirectChecker ctx = (ctx, some (Err.rpc codes.ResourceExhausted
      ("more than one redirect to leader from: " ++ fmtStrings (md.get "redirect")))) := by
  simp [redirectChecker, hS, hmd, hR]

/-- C5, amended. For a proxy built by the constructor: when `LeaderConn`
answers a remote connection and the caller's context has a transport stream
and a non-empty "redirect" entry in its metadata, both methods fail with code
`ResourceExhausted` and a message naming the recorded entry; the trace holds
the `LeaderConn` query and the call of the redirect guard only: no forwarded
RPC, no poller invocation, no local invocation. -/
theorem redirect_loop_rejected (T : Transport σ) (localSrv : ResourceAllocatorServer σ)
    (connSelector : ConnProvider σ)
    (localCtxMod remoteCtxMod : Option (Context → Oracle σ (Context × Option Err)))
    (fuel : Nat) (ctx : Context) (s s1 : σ) (conn : ClientConn) (st : Stream) (md : MD)
    (hL : connSelector.LeaderConn ctx s = ((conn, none), s1))
    (hS : ctx.stream = some st) (hmd : ctx.md = some md) (hR : md.get "redirect" ≠ []) :
    (∀ r : AttachNetworkRequest,
      AttachNetwork T (NewRaftProxyResourceAllocatorServer localSrv connSelector localCtxMod
          remoteCtxMod) fuel ctx r s
        = ⟨.ret (none, some (Err.rpc codes.ResourceExhausted
            ("more than one redirect to leader from: " ++ fmtStrings (md.get "redirect")))),
          s1, [Event.LeaderConn ctx, Event.ctxMod ModName.redirectChecker ctx]⟩)
    ∧ (∀ r : DetachNetworkRequest,
      DetachNetwork T (NewRaftProxyResourceAllocatorServer localSrv connSelector localCtxMod
          remoteCtxMod) fuel ctx r s
        = ⟨.ret (none, some (Err.rpc codes.ResourceExhausted
            ("more than one redirect to leader from: " ++ fmtStrings (md.get "redirect")))),
          s1, [Event.LeaderConn ctx, Event.ctxMod ModName.redirectChecker ctx]⟩) := by
  have hg := redirectChecker_marked ctx st md hS hmd hR
  have hM := remote_chain_guard_fails localSrv connSelector localCtxMod remoteCtxMod ctx ctx _
    s1 hg
  have hL' : (NewRaftProxyResourceAllocatorServer localSrv connSelector localCtxMod
      remoteCtxMod).connSelector.LeaderConn ctx s = ((conn, none), s1) := hL
  refine ⟨fun r => ?_, fun r => ?_⟩
  · unfold AttachNetwork
    simp [bind, Proc.seq, call, hL', hM, pure, Proc.ret]
  · unfold DetachNetwork
    simp [bind, Proc.seq, call, hL', hM, pure, Proc.ret]

/-- C5 amended, the scenario of the spec: a request that already bears a
redirect marker for `10.0.0.9:4242` reaches a proxy that wants to redirect. -/
theorem redirect_loop_rejected_witness :
    AttachNetwork (demoTransport (Err.other "transport is closing"))
        (demoProxy [(some 1, none)]) 0 redirectedCtx reqC1 0
      = ⟨.ret (none, some (Err.rpc 8 "more than one redirect to leader from: [10.0.0.9:4242]")),
          1, [Event.LeaderConn redirectedCtx,
            Event.ctxMod ModName.redirectChecker redirectedCtx]⟩ :=
  (redirect_loop_rejected (demoTransport (Err.other "transport is closing")) demoLocal
    (scriptedSelector [(some 1, none)]) none
    (some (fun ctx n => (({ ctx with rest := ctx.rest + 1 }, none), n)))
    0 redirectedCtx 0 1 (some 1) ⟨"10.0.0.1:4242"⟩ [("redirect", ["10.0.0.9:4242"])]
    rfl rfl rfl (by decide)).1 reqC1

/-- C5 as stated fails: the context `streamlessCtx` bears a non-empty redirect
marker and `LeaderConn` answers the remote connection `some 1`, yet the method
fails with code `InvalidArgument`, not with the redirect-loop error. -/
theorem redirect_loop_without_stream :
    (scriptedSelector [(some 1, none)]).LeaderConn streamlessCtx 0 = ((some 1, none), 1)
    ∧ (streamlessCtx.md.getD []).get "redirect" = ["10.0.0.9:4242"]
    ∧ AttachNetwork (demoTransport (Err.other "transport is closing"))
        (demoProxy [(some 1, none)]) 0 streamlessCtx reqC1 0
      = ⟨.ret (none, some (Err.rpc codes.InvalidArgument "remote addr is not found in context")),
          1, [Event.LeaderConn streamlessCtx,
            Event.ctxMod ModName.redirectChecker streamlessCtx]⟩
    ∧ ∀ desc, (AttachNetwork (demoTransport (Err.other "transport is closing"))
        (demoProxy [(some 1, none)]) 0 streamlessCtx reqC1 0).out
      ≠ .ret (none, some (Err.rpc codes.ResourceExhausted desc)) := by
  refine ⟨rfl, rfl, rfl, fun desc h => ?_⟩
  have h2 : (AttachNetwork (demoTransport (Err.other "transport is closing"))
        (demoProxy [(some 1, none)]) 0 streamlessCtx reqC1 0).out
      = .ret (none, some (Err.rpc codes.InvalidArgument "remote addr is not found in context")) :=
    rfl
  rw [h2] at h
  simp [codes.InvalidArgument, codes.ResourceExhausted] at h

/-- C8. A modifier-chain failure is fatal on either path. When the modifiers
before `m` in the chain succeed and `m` returns the error `err`, both methods
return a nil response and exactly `err`: on the is-leader path for the local
chain, on the forwarding path for the remote chain. The trace holds the
`LeaderConn` query and the modifier calls up to `m` only: no local
invocation, no forwarded RPC, no poller invocation. -/
theorem modifier_failure_is_fatal (T : Transport σ) (p : raftProxyResourceAllocatorServer σ)
    (fuel : Nat) (ctx c1 c2 : Context) (s s1 s2 s3 : σ) (conn : ClientConn)
    (pre post : List (CtxMod σ)) (m : CtxMod σ)
    (f : Context → Oracle σ (Context × Option Err)) (mt : List Event) (err : Err)
    (hpre : runCtxMods ctx pre s1 = ⟨.ret (c1, none), s2, mt⟩)
    (hf : m.fn = some f) (hfail : f c1 s2 = ((c2, some err), s3)) :
    (p.connSelector.LeaderConn ctx s = ((conn, some Err.ErrIsLeader), s1) →
      p.localCtxMods = pre ++ m :: post →
      (∀ r : AttachNetworkRequest,
        AttachNetwork T p fuel ctx r s
          = ⟨.ret (none, some err), s3, Event.LeaderConn ctx :: mt ++ [Event.ctxMod m.name c1]⟩)
      ∧ (∀ r : DetachNetworkRequest,
        DetachNetwork T p fuel ctx r s
          = ⟨.ret (none, some err), s3, Event.LeaderConn ctx :: mt ++ [Event.ctxMod m.name c1]⟩))
    ∧ (p.connSelector.LeaderConn ctx s = ((conn, none), s1) →
      p.remoteCtxMods = pre ++ m :: post →
      (∀ r : AttachNetworkRequest,
        AttachNetwork T p fuel ctx r s
          = ⟨.ret (none, some err), s3, Event.LeaderConn ctx :: mt ++ [Event.ctxMod m.name c1]⟩)
      ∧ (∀ r : DetachNetworkRequest,
        DetachNetwork T p fuel ctx r s
          = ⟨.ret (none, some err), s3, Event.LeaderConn ctx :: mt ++ [Event.ctxMod m.name c1]⟩))
    ∧ tally (Event.LeaderConn ctx :: mt ++ [Event.ctxMod m.name c1]) = (0, 0, 0) := by
  have hM := runCtxMods_fails_at pre post m f ctx c1 c2 s1 s2 s3 mt err hpre hf hfail
  have hmt := tally_runCtxMods pre ctx s1
  rw [hpre] at hmt
  simp only at hmt
  refine ⟨fun hL hc => ⟨fun r => ?_, fun r => ?_⟩, fun hL hc => ⟨fun r => ?_, fun r => ?_⟩, ?_⟩
  · rw [← hc] at hM
    unfold AttachNetwork
    simp [bind, Proc.seq, call, hL, hM, pure, Proc.ret]
  · rw [← hc] at hM
    unfold DetachNetwork
    simp [bind, Proc.seq, call, hL, hM, pure, Proc.ret]
  · rw [← hc] at hM
    unfold AttachNetwork
    simp [bind, Proc.seq, call, hL, hM, pure, Proc.ret]
  · rw [← hc] at hM
    unfold DetachNetwork
    simp [bind, Proc.seq, call, hL, hM, pure, Proc.ret]
  · simp [tally_cons, tally_append, tally_nil, hmt, Event.isLocal, Event.isForward,
      Event.isPoll]

/-- C8 on two runs of a proxy whose caller-supplied modifiers fail: on the
is-leader path the local modifier fails; on the forwarding path the redirect
guard succeeds and the remote modifier fails. -/
theorem modifier_failure_is_fatal_witness :
    AttachNetwork (demoTransport (Err.other "transport is closing"))
        (failingModProxy [(none, some Err.ErrIsLeader)]) 0 freshCtx reqC1 0
      = ⟨.ret (none, some (Err.other "local modifier failed")), 1,
          [Event.LeaderConn freshCtx, Event.ctxMod ModName.localCtxMod freshCtx]⟩
    ∧ AttachNetwork (demoTransport (Err.other "transport is closing"))
        (failingModProxy [(some 1, none)]) 0 freshCtx reqC1 0
      = ⟨.ret (none, some (Err.other "remote modifier failed")), 1,
          [Event.LeaderConn freshCtx, Event.ctxMod ModName.redirectChecker freshCtx,
            Event.ctxMod ModName.remoteCtxMod markedCtx]⟩ :=
  ⟨((modifier_failure_is_fatal (demoTransport (Err.other "transport is closing"))
      (failingModProxy [(none, some Err.ErrIsLeader)]) 0 freshCtx freshCtx freshCtx 0 1 1 1 none
      [] [] ⟨ModName.localCtxMod,
        some (fun ctx n => ((ctx, some (Err.other "local modifier failed")), n)), id⟩
      (fun ctx n => ((ctx, some (Err.other "local modifier failed")), n)) []
      (Err.other "local modifier failed") rfl rfl rfl).1 rfl rfl).1 reqC1,
   ((modifier_failure_is_fatal (demoTransport (Err.other "transport is closing"))
      (failingModProxy [(some 1, none)]) 0 freshCtx markedCtx markedCtx 0 1 1 1 (some 1)
      [⟨ModName.redirectChecker, some (fun ctx s => (redirectChecker ctx, s)),
        redirectChecker.leaves⟩] []
      ⟨ModName.remoteCtxMod,
        some (fun ctx n => ((ctx, some (Err.other "remote modifier failed")), n)), id⟩
      (fun ctx n => ((ctx, some (Err.other "remote modifier failed")), n))
      [Event.ctxMod ModName.redirectChecker freshCtx]
      (Err.other "remote modifier failed") rfl rfl rfl).2.1 rfl rfl).1 reqC1⟩

/-- No call of a modifier chain is a poller invocation. -/
theorem no_poll_of_runCtxMods (mods : List (CtxMod σ)) (ctx : Context) (s : σ) (c : Context) :
    Event.pollNewLeaderConn c ∉ (runCtxMods ctx mods s).trace := by
  intro h
  obtain ⟨m, _, c', hc⟩ := runCtxMods_trace mods ctx s _ h
  cases hc

/-- C10, amended. A failed first forwarded RPC proceeds to recovery (the
poller is invoked) if and only if its error message contains at least one of
the substrings "is closing", "the connection is unavailable" or "connection
error"; with any other error, both methods return a nil response and that
error, after that one forwarded RPC. -/
theorem recovery_iff_connectivity_error (T : Transport σ)
    (p : raftProxyResourceAllocatorServer σ) (fuel : Nat) (ctx modCtx : Context)
    (s s1 s2 : σ) (conn : ClientConn) (mt : List Event)
    (hL : p.connSelector.LeaderConn ctx s = ((conn, none), s1))
    (hM : runCtxMods ctx p.remoteCtxMods s1 = ⟨.ret (modCtx, none), s2, mt⟩) :
    (∀ (r : AttachNetworkRequest) (out : AttachNetworkResponse) (err : Err) (s3 : σ),
      T.InvokeAttachNetwork modCtx r conn s2 = ((out, some err), s3) →
      ((∃ c, Event.pollNewLeaderConn c ∈ (AttachNetwork T p fuel ctx r s).trace) ↔
          (strings.Contains err.Error "is closing" = true
            ∨ strings.Contains err.Error "the connection is unavailable" = true
            ∨ strings.Contains err.Error "connection error" = true))
        ∧ (¬ (strings.Contains err.Error "is closing" = true
              ∨ strings.Contains err.Error "the connection is unavailable" = true
              ∨ strings.Contains err.Error "connection error" = true) →
            AttachNetwork T p fuel ctx r s = ⟨.ret (none, some err), s3,
              Event.LeaderConn ctx :: mt
                ++ [Event.invokeAttachNetwork conn modCtx r (some err)]⟩))
    ∧ (∀ (r : DetachNetworkRequest) (out : DetachNetworkResponse) (err : Err) (s3 : σ),
      T.InvokeDetachNetwork modCtx r conn s2 = ((out, some err), s3) →
      ((∃ c, Event.pollNewLeaderConn c ∈ (DetachNetwork T p fuel ctx r s).trace) ↔
          (strings.Contains err.Error "is closing" = true
            ∨ strings.Contains err.Error "the connection is unavailable" = true
            ∨ strings.Contains err.Error "connection error" = true))
        ∧ (¬ (strings.Contains err.Error "is closing" = true
              ∨ strings.Contains err.Error "the connection is unavailable" = true
              ∨ strings.Contains err.Error "connection error" = true) →
            DetachNetwork T p fuel ctx r s = ⟨.ret (none, some err), s3,
              Event.LeaderConn ctx :: mt
                ++ [Event.invokeDetachNetwork conn modCtx r (some err)]⟩)) := by
  have hnp : ∀ c, Event.pollNewLeaderConn c ∉ mt := by
    intro c
    have := no_poll_of_runCtxMods p.remoteCtxMods ctx s1 c
    rw [hM] at this
    exact this
  have hcond : ∀ err : Err, (strings.Contains err.Error "is closing" = true
            ∨ strings.Contains err.Error "the connection is unavailable" = true
            ∨ strings.Contains err.Error "connection error" = true) ↔ isConnErr err = true := by
    intro err
    simp [isConnErr, or_assoc]
  refine ⟨fun r out err s3 hR => ?_, fun r out err s3 hR => ?_⟩
  · rw [hcond]
    cases hT : isConnErr err with
    | false =>
      have h : AttachNetwork T p fuel ctx r s = ⟨.ret (none, some err), s3,
          Event.LeaderConn ctx :: mt ++ [Event.invokeAttachNetwork conn modCtx r (some err)]⟩ := by
        unfold AttachNetwork
        simp [bind, Proc.seq, call, hL, hM, pure, Proc.ret,
          resourceAllocatorClient.AttachNetwork, hR, notConn_eq, hT]
      refine ⟨?_, fun _ => h⟩
      rw [h]
      simp [hnp]
    | true =>
      refine ⟨?_, fun hn => absurd rfl hn⟩
      simp only [iff_true]
      refine ⟨leftByCtxMods ctx p.remoteCtxMods, ?_⟩
      have hp := pollNewLeaderConn_trace T p fuel (leftByCtxMods ctx p.remoteCtxMods) s3
      unfold AttachNetwork
      cases ho : (pollNewLeaderConn T p fuel (leftByCtxMods ctx p.remoteCtxMods) s3).out <;>
        simp [bind, Proc.seq, call, hL, hM, pure, Proc.ret,
          resourceAllocatorClient.AttachNetwork, hR, notConn_eq, hT, hp, ho]
  · rw [hcond]
    cases hT : isConnErr err with
    | false =>
      have h : DetachNetwork T p fuel ctx r s = ⟨.ret (none, some err), s3,
          Event.LeaderConn ctx :: mt ++ [Event.invokeDetachNetwork conn modCtx r (some err)]⟩ := by
        unfold DetachNetwork
        simp [bind, Proc.seq, call, hL, hM, pure, Proc.ret,
          resourceAllocatorClient.DetachNetwork, hR, notConn_eq, hT]
      refine ⟨?_, fun _ => h⟩
      rw [h]
      simp [hnp]
    | true =>
      refine ⟨?_, fun hn => absurd rfl hn⟩
      simp only [iff_true]
      refine ⟨leftByCtxMods ctx p.remoteCtxMods, ?_⟩
      have hp := pollNewLeaderConn_trace T p fuel (leftByCtxMods ctx p.remoteCtxMods) s3
      unfold DetachNetwork
      cases ho : (pollNewLeaderConn T p fuel (leftByCtxMods ctx p.remoteCtxMods) s3).out <;>
        simp [bind, Proc.seq, call, hL, hM, pure, Proc.ret,
          resourceAllocatorClient.DetachNetwork, hR, notConn_eq, hT, hp, ho]

/-- C10 amended, on two runs: the leader `some 1` fails the call with
"grpc: the connection is unavailable" and the poller is invoked; it fails the
call with "permission denied" and the error is returned as it is. -/
theorem recovery_iff_connectivity_error_witness :
    ((∃ c, Event.pollNewLeaderConn c ∈
        (AttachNetwork (demoTransport (Err.other "grpc: the connection is unavailable"))
          (demoProxy [(some 1, none), (some 2, none)]) 1 freshCtx reqC1 0).trace) ↔
      (strings.Contains "grpc: the connection is unavailable" "is closing" = true
        ∨ strings.Contains "grpc: the connection is unavailable"
            "the connection is unavailable" = true
        ∨ strings.Contains "grpc: the connection is unavailable" "connection error" = true))
    ∧ AttachNetwork (demoTransport (Err.other "permission denied"))
        (demoProxy [(some 1, none), (some 2, none)]) 1 freshCtx reqC1 0
      = ⟨.ret (none, some (Err.other "permission denied")), 1,
          [Event.LeaderConn freshCtx, Event.ctxMod ModName.redirectChecker freshCtx,
            Event.ctxMod ModName.remoteCtxMod markedCtx,
            Event.invokeAttachNetwork (some 1) forwardedCtx reqC1
              (some (Err.other "permission denied"))]⟩ :=
  ⟨((recovery_iff_connectivity_error
      (demoTransport (Err.other "grpc: the connection is unavailable"))
      (demoProxy [(some 1, none), (some 2, none)]) 1 freshCtx forwardedCtx 0 1 1 (some 1)
      [Event.ctxMod ModName.redirectChecker freshCtx,
        Event.ctxMod ModName.remoteCtxMod markedCtx] rfl rfl).1 reqC1 ⟨[]⟩
      (Err.other "grpc: the connection is unavailable") 1 rfl).1,
   ((recovery_iff_connectivity_error (demoTransport (Err.other "permission denied"))
      (demoProxy [(some 1, none), (some 2, none)]) 1 freshCtx forwardedCtx 0 1 1 (some 1)
      [Event.ctxMod ModName.redirectChecker freshCtx,
        Event.ctxMod ModName.remoteCtxMod markedCtx] rfl rfl).1 reqC1 ⟨[]⟩
      (Err.other "permission denied") 1 rfl).2 (by decide)⟩

/-- C10 as stated fails: the error message "connection unavailable" contains
the substring "connection unavailable", yet the proxy does not invoke the
poller and returns the error as it is. -/
theorem connection_unavailable_not_retried :
    strings.Contains (Err.other "connection unavailable").Error "connection unavailable" = true
    ∧ AttachNetwork (demoTransport (Err.other "connection unavailable"))
        (demoProxy [(some 1, none), (some 2, none)]) 1 freshCtx reqC1 0
      = ⟨.ret (none, some (Err.other "connection unavailable")), 1,
          [Event.LeaderConn freshCtx, Event.ctxMod ModName.redirectChecker freshCtx,
            Event.ctxMod ModName.remoteCtxMod markedCtx,
            Event.invokeAttachNetwork (some 1) forwardedCtx reqC1
              (some (Err.other "connection unavailable"))]⟩
    ∧ ¬ ∃ c, Event.pollNewLeaderConn c ∈
        (AttachNetwork (demoTransport (Err.other "connection unavailable"))
          (demoProxy [(some 1, none), (some 2, none)]) 1 freshCtx reqC1 0).trace := by
  refine ⟨by decide, rfl, ?_⟩
  have h : (AttachNetwork (demoTransport (Err.other "connection unavailable"))
          (demoProxy [(some 1, none), (some 2, none)]) 1 freshCtx reqC1 0).trace
      = [Event.LeaderConn freshCtx, Event.ctxMod ModName.redirectChecker freshCtx,
            Event.ctxMod ModName.remoteCtxMod markedCtx,
            Event.invokeAttachNetwork (some 1) forwardedCtx reqC1
              (some (Err.other "connection unavailable"))] := rfl
  rw [h]
  simp

/-! ### The retry bound -/

theorem pollsFollow_append_quiet (q rest : List Event)
    (hq : ∀ e ∈ q, e.isPoll = false ∧ e.isConnFailure = false) (seen : Bool) :
    pollsFollowConnFailure seen (q ++ rest) = pollsFollowConnFailure seen rest := by
  induction q with
  | nil => rfl
  | cons e q ih =>
    have he := hq e (by simp)
    have ih' := ih (fun e' h' => hq e' (by simp [h']))
    simp [pollsFollowConnFailure, he.1, he.2, ih']

/-- What the scan `pollsFollowConnFailure` establishes: before every poller
invocation of the trace there is a forwarded RPC that failed with a
connectivity error. -/
theorem pollsFollow_spec (tr : List Event) :
    ∀ (seen : Bool), pollsFollowConnFailure seen tr = true →
      ∀ (pre post : List Event) (c : Context), tr = pre ++ Event.pollNewLeaderConn c :: post →
        seen = true ∨ ∃ e ∈ pre, e.isConnFailure = true := by
  induction tr with
  | nil => intro seen _ pre post c h; simp at h
  | cons e tr ih =>
    intro seen hs pre post c h
    simp only [pollsFollowConnFailure, Bool.and_eq_true] at hs
    cases pre with
    | nil =>
      simp only [List.nil_append, List.cons.injEq] at h
      obtain ⟨rfl, _⟩ := h
      simpa [Event.isPoll] using hs.1
    | cons e' pre =>
      simp only [List.cons_append, List.cons.injEq] at h
      obtain ⟨rfl, h⟩ := h
      rcases ih _ hs.2 pre post c h with h1 | ⟨x, hx, hx'⟩
      · simp only [Bool.or_eq_true] at h1
        rcases h1 with h1 | h1
        · exact Or.inl h1
        · exact Or.inr ⟨e, by simp, h1⟩
      · exact Or.inr ⟨x, by simp [hx], hx'⟩

theorem runCtxMods_quiet (mods : List (CtxMod σ)) (ctx : Context) (s : σ) :
    ∀ e ∈ (runCtxMods ctx mods s).trace, e.isPoll = false ∧ e.isConnFailure = false := by
  intro e he
  obtain ⟨m, _, c, rfl⟩ := runCtxMods_trace mods ctx s e he
  simp [Event.isPoll, Event.isConnFailure]

theorem pollLoop_quiet (T : Transport σ) (p : raftProxyResourceAllocatorServer σ)
    (ctx : Context) (fuel : Nat) (s : σ) :
    ∀ e ∈ (pollLoop T p ctx fuel s).trace, e.isPoll = false ∧ e.isConnFailure = false := by
  intro e he
  rcases pollLoop_trace T p ctx fuel s e he with ⟨d, rfl⟩ | rfl | ⟨cc, rfl⟩ <;>
    simp [Event.isPoll, Event.isConnFailure]

/-- The scan of a trace that starts with one poller invocation. -/
theorem pollsFollow_poll (T : Transport σ) (p : raftProxyResourceAllocatorServer σ)
    (fuel : Nat) (ctx : Context) (s : σ) (rest : List Event) (seen : Bool) :
    pollsFollowConnFailure seen ((pollNewLeaderConn T p fuel ctx s).trace ++ rest)
      = (seen && pollsFollowConnFailure seen rest) := by
  rw [pollNewLeaderConn_trace]
  simp [pollsFollowConnFailure, Event.isPoll, Event.isConnFailure,
    pollsFollow_append_quiet _ _ (pollLoop_quiet T p ctx fuel s)]

theorem pollsFollow_mods (mods : List (CtxMod σ)) (ctx : Context) (s : σ)
    (rest : List Event) (seen : Bool) :
    pollsFollowConnFailure seen ((runCtxMods ctx mods s).trace ++ rest)
      = pollsFollowConnFailure seen rest :=
  pollsFollow_append_quiet _ _ (runCtxMods_quiet mods ctx s) seen

theorem pollsFollow_mods_only (mods : List (CtxMod σ)) (ctx : Context) (s : σ) (seen : Bool) :
    pollsFollowConnFailure seen (runCtxMods ctx mods s).trace = true := by
  have h := pollsFollow_mods mods ctx s [] seen
  simpa [pollsFollowConnFailure] using h

theorem pollsFollow_poll_only (T : Transport σ) (p : raftProxyResourceAllocatorServer σ)
    (fuel : Nat) (ctx : Context) (s : σ) (seen : Bool) :
    pollsFollowConnFailure seen (pollNewLeaderConn T p fuel ctx s).trace = seen := by
  have h := pollsFollow_poll T p fuel ctx s [] seen
  simpa [pollsFollowConnFailure] using h

theorem pollsFollow_loop (T : Transport σ) (p : raftProxyResourceAllocatorServer σ)
    (fuel : Nat) (ctx : Context) (s : σ) (rest : List Event) (seen : Bool) :
    pollsFollowConnFailure seen ((pollLoop T p ctx fuel s).trace ++ rest)
      = pollsFollowConnFailure seen rest :=
  pollsFollow_append_quiet _ _ (pollLoop_quiet T p ctx fuel s) seen

theorem pollsFollow_loop_only (T : Transport σ) (p : raftProxyResourceAllocatorServer σ)
    (fuel : Nat) (ctx : Context) (s : σ) (seen : Bool) :
    pollsFollowConnFailure seen (pollLoop T p ctx fuel s).trace = true := by
  have h := pollsFollow_loop T p fuel ctx s [] seen
  simpa [pollsFollowConnFailure] using h

/-- The retry bound of `AttachNetwork`, on the tally and the scan of its
trace. -/
theorem attach_bound (T : Transport σ) (p : raftProxyResourceAllocatorServer σ) (fuel : Nat)
    (ctx : Context) (r : AttachNetworkRequest) (s : σ) :
    (tally (AttachNetwork T p fuel ctx r s).trace).1 ≤ 1
    ∧ (tally (AttachNetwork T p fuel ctx r s).trace).2.1 ≤ 2
    ∧ (tally (AttachNetwork T p fuel ctx r s).trace).1
        + (tally (AttachNetwork T p fuel ctx r s).trace).2.1 ≤ 2
    ∧ (tally (AttachNetwork T p fuel ctx r s).trace).2.2 ≤ 1
    ∧ pollsFollowConnFailure false (AttachNetwork T p fuel ctx r s).trace = true := by
  rcases hL : p.connSelector.LeaderConn ctx s with ⟨⟨conn, err⟩, s1⟩
  cases err with
  | some err =>
    by_cases he : err = Err.ErrIsLeader
    · subst he
      cases hM : (runCtxMods ctx p.localCtxMods s1).out with
      | ret a =>
        obtain ⟨c, e⟩ := a
        cases e <;>
          simp [AttachNetwork, bind, Proc.seq, call, hL, hM, pure, Proc.ret, tally_cons,
            tally_append, tally_nil, tally_runCtxMods, pollsFollowConnFailure, pollsFollow_mods,
            pollsFollow_mods_only, Event.isLocal, Event.isForward, Event.isPoll,
            Event.isConnFailure]
      | panic =>
        simp [AttachNetwork, bind, Proc.seq, call, hL, hM, pure, Proc.ret, tally_cons,
            tally_append, tally_nil, tally_runCtxMods, pollsFollowConnFailure, pollsFollow_mods,
            pollsFollow_mods_only, Event.isLocal, Event.isForward, Event.isPoll,
            Event.isConnFailure]
      | running =>
        simp [AttachNetwork, bind, Proc.seq, call, hL, hM, pure, Proc.ret, tally_cons,
            tally_append, tally_nil, tally_runCtxMods, pollsFollowConnFailure, pollsFollow_mods,
            pollsFollow_mods_only, Event.isLocal, Event.isForward, Event.isPoll,
            Event.isConnFailure]
    · simp [AttachNetwork, bind, Proc.seq, call, hL, he, pure, Proc.ret, tally_cons,
            tally_append, tally_nil, tally_runCtxMods, pollsFollowConnFailure, pollsFollow_mods,
            pollsFollow_mods_only, Event.isLocal, Event.isForward, Event.isPoll,
            Event.isConnFailure]
  | none =>
    cases hM : (runCtxMods ctx p.remoteCtxMods s1).out with
    | ret a =>
      obtain ⟨modCtx, e⟩ := a
      cases e with
      | some e =>
        simp [AttachNetwork, bind, Proc.seq, call, hL, hM, pure, Proc.ret, tally_cons,
          tally_append, tally_nil, tally_runCtxMods, pollsFollowConnFailure, pollsFollow_mods,
          pollsFollow_mods_only, Event.isLocal, Event.isForward, Event.isPoll,
          Event.isConnFailure]
      | none =>
        rcases hR : T.InvokeAttachNetwork modCtx r conn (runCtxMods ctx p.remoteCtxMods s1).st
          with ⟨⟨out, e1⟩, s3⟩
        cases e1 with
        | none =>
          simp [AttachNetwork, bind, Proc.seq, call, hL, hM, hR, pure, Proc.ret, tally_cons,
            resourceAllocatorClient.AttachNetwork,
            tally_append, tally_nil, tally_runCtxMods, pollsFollowConnFailure, pollsFollow_mods,
            pollsFollow_mods_only, Event.isLocal, Event.isForward, Event.isPoll,
            Event.isConnFailure]
        | some e1 =>
          cases hT : isConnErr e1 with
          | false =>
            simp [AttachNetwork, bind, Proc.seq, call, hL, hM, hR, hT, notConn_eq, pure,
              Proc.ret, tally_cons, resourceAllocatorClient.AttachNetwork,
              tally_append, tally_nil, tally_runCtxMods, pollsFollowConnFailure,
              pollsFollow_mods, pollsFollow_mods_only, Event.isLocal, Event.isForward,
              Event.isPoll, Event.isConnFailure]
          | true =>
            cases hP : (pollNewLeaderConn T p fuel (leftByCtxMods ctx p.remoteCtxMods) s3).out with
            | ret b =>
              obtain ⟨conn', e2⟩ := b
              cases e2 with
              | some e2 =>
                by_cases h2 : e2 = Err.ErrIsLeader
                · simp [AttachNetwork, bind, Proc.seq, call, hL, hM, hR, hT, hP, h2, notConn_eq,
                    pure, Proc.ret, tally_cons, resourceAllocatorClient.AttachNetwork,
                    tally_append, tally_nil, tally_runCtxMods, tally_pollNewLeaderConn,
                    pollsFollowConnFailure, pollsFollow_mods, pollsFollow_mods_only,
                    pollsFollow_poll, pollsFollow_poll_only, pollsFollow_loop, pollsFollow_loop_only, Event.isLocal, Event.isForward,
                    Event.isPoll, Event.isConnFailure]
                · simp [AttachNetwork, bind, Proc.seq, call, hL, hM, hR, hT, hP, h2, notConn_eq,
                    pure, Proc.ret, tally_cons, resourceAllocatorClient.AttachNetwork,
                    tally_append, tally_nil, tally_runCtxMods, tally_pollNewLeaderConn,
                    pollsFollowConnFailure, pollsFollow_mods, pollsFollow_mods_only,
                    pollsFollow_poll, pollsFollow_poll_only, pollsFollow_loop, pollsFollow_loop_only, Event.isLocal, Event.isForward,
                    Event.isPoll, Event.isConnFailure]
              | none =>
                rcases hR2 : T.InvokeAttachNetwork modCtx r conn'
                  (pollNewLeaderConn T p fuel (leftByCtxMods ctx p.remoteCtxMods) s3).st with ⟨⟨out2, e3⟩, s5⟩
                cases e3 <;>
                  simp [AttachNetwork, bind, Proc.seq, call, hL, hM, hR, hT, hP, hR2, notConn_eq,
                    pure, Proc.ret, tally_cons, resourceAllocatorClient.AttachNetwork,
                    tally_append, tally_nil, tally_runCtxMods, tally_pollNewLeaderConn,
                    pollsFollowConnFailure, pollsFollow_mods, pollsFollow_mods_only,
                    pollsFollow_poll, pollsFollow_poll_only, pollsFollow_loop, pollsFollow_loop_only, Event.isLocal, Event.isForward,
                    Event.isPoll, Event.isConnFailure]
            | panic =>
              simp [AttachNetwork, bind, Proc.seq, call, hL, hM, hR, hT, hP, notConn_eq,
                pure, Proc.ret, tally_cons, resourceAllocatorClient.AttachNetwork,
                tally_append, tally_nil, tally_runCtxMods, tally_pollNewLeaderConn,
                pollsFollowConnFailure, pollsFollow_mods, pollsFollow_mods_only,
                pollsFollow_poll, pollsFollow_poll_only, pollsFollow_loop, pollsFollow_loop_only, Event.isLocal, Event.isForward,
                Event.isPoll, Event.isConnFailure]
            | running =>
              simp [AttachNetwork, bind, Proc.seq, call, hL, hM, hR, hT, hP, notConn_eq,
                pure, Proc.ret, tally_cons, resourceAllocatorClient.AttachNetwork,
                tally_append, tally_nil, tally_runCtxMods, tally_pollNewLeaderConn,
                pollsFollowConnFailure, pollsFollow_mods, pollsFollow_mods_only,
                pollsFollow_poll, pollsFollow_poll_only, pollsFollow_loop, pollsFollow_loop_only, Event.isLocal, Event.isForward,
                Event.isPoll, Event.isConnFailure]
    | panic =>
      simp [AttachNetwork, bind, Proc.seq, call, hL, hM, pure, Proc.ret, tally_cons,
        tally_append, tally_nil, tally_runCtxMods, pollsFollowConnFailure, pollsFollow_mods,
        pollsFollow_mods_only, Event.isLocal, Event.isForward, Event.isPoll,
        Event.isConnFailure]
    | running =>
      simp [AttachNetwork, bind, Proc.seq, call, hL, hM, pure, Proc.ret, tally_cons,
        tally_append, tally_nil, tally_runCtxMods, pollsFollowConnFailure, pollsFollow_mods,
        pollsFollow_mods_only, Event.isLocal, Event.isForward, Event.isPoll,
        Event.isConnFailure]

/-- The retry bound of `DetachNetwork`, on the tally and the scan of its
trace. -/
theorem detach_bound (T : Transport σ) (p : raftProxyResourceAllocatorServer σ) (fuel : Nat)
    (ctx : Context) (r : DetachNetworkRequest) (s : σ) :
    (tally (DetachNetwork T p fuel ctx r s).trace).1 ≤ 1
    ∧ (tally (DetachNetwork T p fuel ctx r s).trace).2.1 ≤ 2
    ∧ (tally (DetachNetwork T p fuel ctx r s).trace).1
        + (tally (DetachNetwork T p fuel ctx r s).trace).2.1 ≤ 2
    ∧ (tally (DetachNetwork T p fuel ctx r s).trace).2.2 ≤ 1
    ∧ pollsFollowConnFailure false (DetachNetwork T p fuel ctx r s).trace = true := by
  rcases hL : p.connSelector.LeaderConn ctx s with ⟨⟨conn, err⟩, s1⟩
  cases err with
  | some err =>
    by_cases he : err = Err.ErrIsLeader
    · subst he
      cases hM : (runCtxMods ctx p.localCtxMods s1).out with
      | ret a =>
        obtain ⟨c, e⟩ := a
        cases e <;>
          simp [DetachNetwork, bind, Proc.seq, call, hL, hM, pure, Proc.ret, tally_cons,
            tally_append, tally_nil, tally_runCtxMods, pollsFollowConnFailure, pollsFollow_mods,
            pollsFollow_mods_only, Event.isLocal, Event.isForward, Event.isPoll,
            Event.isConnFailure]
      | panic =>
        simp [DetachNetwork, bind, Proc.seq, call, hL, hM, pure, Proc.ret, tally_cons,
            tally_append, tally_nil, tally_runCtxMods, pollsFollowConnFailure, pollsFollow_mods,
            pollsFollow_mods_only, Event.isLocal, Event.isForward, Event.isPoll,
            Event.isConnFailure]
      | running =>
        simp [DetachNetwork, bind, Proc.seq, call, hL, hM, pure, Proc.ret, tally_cons,
            tally_append, tally_nil, tally_runCtxMods, pollsFollowConnFailure, pollsFollow_mods,
            pollsFollow_mods_only, Event.isLocal, Event.isForward, Event.isPoll,
            Event.isConnFailure]
    · simp [DetachNetwork, bind, Proc.seq, call, hL, he, pure, Proc.ret, tally_cons,
            tally_append, tally_nil, tally_runCtxMods, pollsFollowConnFailure, pollsFollow_mods,
            pollsFollow_mods_only, Event.isLocal, Event.isForward, Event.isPoll,
            Event.isConnFailure]
  | none =>
    cases hM : (runCtxMods ctx p.remoteCtxMods s1).out with
    | ret a =>
      obtain ⟨modCtx, e⟩ := a
      cases e with
      | some e =>
        simp [DetachNetwork, bind, Proc.seq, call, hL, hM, pure, Proc.ret, tally_cons,
          tally_append, tally_nil, tally_runCtxMods, pollsFollowConnFailure, pollsFollow_mods,
          pollsFollow_mods_only, Event.isLocal, Event.isForward, Event.isPoll,
          Event.isConnFailure]
      | none =>
        rcases hR : T.InvokeDetachNetwork modCtx r conn (runCtxMods ctx p.remoteCtxMods s1).st
          with ⟨⟨out, e1⟩, s3⟩
        cases e1 with
        | none =>
          simp [DetachNetwork, bind, Proc.seq, call, hL, hM, hR, pure, Proc.ret, tally_cons,
            resourceAllocatorClient.DetachNetwork,
            tally_append, tally_nil, tally_runCtxMods, pollsFollowConnFailure, pollsFollow_mods,
            pollsFollow_mods_only, Event.isLocal, Event.isForward, Event.isPoll,
            Event.isConnFailure]
        | some e1 =>
          cases hT : isConnErr e1 with
          | false =>
            simp [DetachNetwork, bind, Proc.seq, call, hL, hM, hR, hT, notConn_eq, pure,
              Proc.ret, tally_cons, resourceAllocatorClient.DetachNetwork,
              tally_append, tally_nil, tally_runCtxMods, pollsFollowConnFailure,
              pollsFollow_mods, pollsFollow_mods_only, Event.isLocal, Event.isForward,
              Event.isPoll, Event.isConnFailure]
          | true =>
            cases hP : (pollNewLeaderConn T p fuel (leftByCtxMods ctx p.remoteCtxMods) s3).out with
            | ret b =>
              obtain ⟨conn', e2⟩ := b
              cases e2 with
              | some e2 =>
                by_cases h2 : e2 = Err.ErrIsLeader
                · simp [DetachNetwork, bind, Proc.seq, call, hL, hM, hR, hT, hP, h2, notConn_eq,
                    pure, Proc.ret, tally_cons, resourceAllocatorClient.DetachNetwork,
                    tally_append, tally_nil, tally_runCtxMods, tally_pollNewLeaderConn,
                    pollsFollowConnFailure, pollsFollow_mods, pollsFollow_mods_only,
                    pollsFollow_poll, pollsFollow_poll_only, pollsFollow_loop, pollsFollow_loop_only, Event.isLocal, Event.isForward,
                    Event.isPoll, Event.isConnFailure]
                · simp [DetachNetwork, bind, Proc.seq, call, hL, hM, hR, hT, hP, h2, notConn_eq,
                    pure, Proc.ret, tally_cons, resourceAllocatorClient.DetachNetwork,
                    tally_append, tally_nil, tally_runCtxMods, tally_pollNewLeaderConn,
                    pollsFollowConnFailure, pollsFollow_mods, pollsFollow_mods_only,
                    pollsFollow_poll, pollsFollow_poll_only, pollsFollow_loop, pollsFollow_loop_only, Event.isLocal, Event.isForward,
                    Event.isPoll, Event.isConnFailure]
              | none =>
                rcases hR2 : T.InvokeDetachNetwork modCtx r conn'
                  (pollNewLeaderConn T p fuel (leftByCtxMods ctx p.remoteCtxMods) s3).st with ⟨⟨out2, e3⟩, s5⟩
                cases e3 <;>
                  simp [DetachNetwork, bind, Proc.seq, call, hL, hM, hR, hT, hP, hR2, notConn_eq,
                    pure, Proc.ret, tally_cons, resourceAllocatorClient.DetachNetwork,
                    tally_append, tally_nil, tally_runCtxMods, tally_pollNewLeaderConn,
                    pollsFollowConnFailure, pollsFollow_mods, pollsFollow_mods_only,
                    pollsFollow_poll, pollsFollow_poll_only, pollsFollow_loop, pollsFollow_loop_only, Event.isLocal, Event.isForward,
                    Event.isPoll, Event.isConnFailure]
            | panic =>
              simp [DetachNetwork, bind, Proc.seq, call, hL, hM, hR, hT, hP, notConn_eq,
                pure, Proc.ret, tally_cons, resourceAllocatorClient.DetachNetwork,
                tally_append, tally_nil, tally_runCtxMods, tally_pollNewLeaderConn,
                pollsFollowConnFailure, pollsFollow_mods, pollsFollow_mods_only,
                pollsFollow_poll, pollsFollow_poll_only, pollsFollow_loop, pollsFollow_loop_only, Event.isLocal, Event.isForward,
                Event.isPoll, Event.isConnFailure]
            | running =>
              simp [DetachNetwork, bind, Proc.seq, call, hL, hM, hR, hT, hP, notConn_eq,
                pure, Proc.ret, tally_cons, resourceAllocatorClient.DetachNetwork,
                tally_append, tally_nil, tally_runCtxMods, tally_pollNewLeaderConn,
                pollsFollowConnFailure, pollsFollow_mods, pollsFollow_mods_only,
                pollsFollow_poll, pollsFollow_poll_only, pollsFollow_loop, pollsFollow_loop_only, Event.isLocal, Event.isForward,
                Event.isPoll, Event.isConnFailure]
    | panic =>
      simp [DetachNetwork, bind, Proc.seq, call, hL, hM, pure, Proc.ret, tally_cons,
        tally_append, tally_nil, tally_runCtxMods, pollsFollowConnFailure, pollsFollow_mods,
        pollsFollow_mods_only, Event.isLocal, Event.isForward, Event.isPoll,
        Event.isConnFailure]
    | running =>
      simp [DetachNetwork, bind, Proc.seq, call, hL, hM, pure, Proc.ret, tally_cons,
        tally_append, tally_nil, tally_runCtxMods, pollsFollowConnFailure, pollsFollow_mods,
        pollsFollow_mods_only, Event.isLocal, Event.isForward, Event.isPoll,
        Event.isConnFailure]

/-- From the tally and the scan of a trace to the retry bound in words. -/
theorem retry_bound_of_scan (tr : List Event)
    (h : (tally tr).1 ≤ 1 ∧ (tally tr).2.1 ≤ 2 ∧ (tally tr).1 + (tally tr).2.1 ≤ 2
      ∧ (tally tr).2.2 ≤ 1 ∧ pollsFollowConnFailure false tr = true) :
    tr.countP Event.isForward ≤ 2 ∧ tr.countP Event.isLocal ≤ 1
    ∧ tr.countP Event.isLocal + tr.countP Event.isForward ≤ 2
    ∧ tr.countP Event.isPoll ≤ 1
    ∧ ∀ (pre post : List Event) (c : Context), tr = pre ++ Event.pollNewLeaderConn c :: post →
        ∃ e ∈ pre, e.isForward = true ∧ e.isConnFailure = true := by
  obtain ⟨h1, h2, h3, h4, h5⟩ := h
  refine ⟨h2, h1, h3, h4, fun pre post c hc => ?_⟩
  rcases pollsFollow_spec tr false h5 pre post c hc with h6 | ⟨e, he, he'⟩
  · cases h6
  · refine ⟨e, he, ?_, he'⟩
    cases e <;> simp [Event.isConnFailure, Event.isForward] at he' ⊢

/-- C9. At most one retry: whatever the collaborators answer and whatever the
fuel of the poll loop, the trace of one call of `AttachNetwork` or
`DetachNetwork` holds at most two forwarded RPCs, at most one local
invocation, at most two service invocations in total, at most one poller
invocation, and every poller invocation comes after a forwarded RPC that
failed with a connectivity error. -/
theorem at_most_one_retry (T : Transport σ) (p : raftProxyResourceAllocatorServer σ)
    (fuel : Nat) (ctx : Context) (s : σ) :
    (∀ r : AttachNetworkRequest,
      (AttachNetwork T p fuel ctx r s).trace.countP Event.isForward ≤ 2
      ∧ (AttachNetwork T p fuel ctx r s).trace.countP Event.isLocal ≤ 1
      ∧ (AttachNetwork T p fuel ctx r s).trace.countP Event.isLocal
          + (AttachNetwork T p fuel ctx r s).trace.countP Event.isForward ≤ 2
      ∧ (AttachNetwork T p fuel ctx r s).trace.countP Event.isPoll ≤ 1
      ∧ ∀ (pre post : List Event) (c : Context),
          (AttachNetwork T p fuel ctx r s).trace = pre ++ Event.pollNewLeaderConn c :: post →
          ∃ e ∈ pre, e.isForward = true ∧ e.isConnFailure = true)
    ∧ (∀ r : DetachNetworkRequest,
      (DetachNetwork T p fuel ctx r s).trace.countP Event.isForward ≤ 2
      ∧ (DetachNetwork T p fuel ctx r s).trace.countP Event.isLocal ≤ 1
      ∧ (DetachNetwork T p fuel ctx r s).trace.countP Event.isLocal
          + (DetachNetwork T p fuel ctx r s).trace.countP Event.isForward ≤ 2
      ∧ (DetachNetwork T p fuel ctx r s).trace.countP Event.isPoll ≤ 1
      ∧ ∀ (pre post : List Event) (c : Context),
          (DetachNetwork T p fuel ctx r s).trace = pre ++ Event.pollNewLeaderConn c :: post →
          ∃ e ∈ pre, e.isForward = true ∧ e.isConnFailure = true) :=
  ⟨fun r => retry_bound_of_scan _ (attach_bound T p fuel ctx r s),
   fun r => retry_bound_of_scan _ (detach_bound T p fuel ctx r s)⟩

end Forwarding

/-! ## The redirect guard -/

theorem MD.get_set (md : MD) (key : String) (vals : List String) :
    (md.set key vals).get key = vals := by
  simp [MD.get, MD.set]

/-- C6. At most one redirect hop: a context the redirect guard derived carries
a non-empty "redirect" entry, and the guard applied to it fails with code
`ResourceExhausted`; it does not succeed a second time. -/
theorem redirect_guard_single_hop (ctx ctx' : Context)
    (h : redirectChecker ctx = (ctx', none)) :
    (∃ md, ctx'.md = some md ∧ md.get "redirect" ≠ [])
    ∧ redirectChecker ctx' = (ctx', some (Err.rpc codes.ResourceExhausted
        ("more than one redirect to leader from: "
          ++ fmtStrings ((ctx'.md.getD []).get "redirect"))))
    ∧ ∀ ctx'', redirectChecker ctx' ≠ (ctx'', none) := by
  have key : ∃ st md, ctx'.stream = some st ∧ ctx'.md = some md ∧ md.get "redirect" ≠ [] := by
    unfold redirectChecker at h
    cases hS : ctx.stream with
    | none => simp [hS] at h
    | some st =>
      simp only [hS] at h
      split at h
      · simp at h
      · simp only [Prod.mk.injEq, and_true] at h
        subst h
        refine ⟨st, _, hS, rfl, ?_⟩
        rw [MD.get_set]
        simp
  obtain ⟨st, md, hS, hmd, hR⟩ := key
  have h2 := redirectChecker_marked ctx' st md hS hmd hR
  refine ⟨⟨md, hmd, hR⟩, ?_, ?_⟩
  · rw [h2, hmd]
    rfl
  · intro ctx'' h3
    rw [h2] at h3
    simp at h3

/-- C6 on a run: the guard marks `freshCtx`, then rejects the marked
context. -/
theorem redirect_guard_single_hop_witness :
    redirectChecker freshCtx = (markedCtx, none)
    ∧ redirectChecker markedCtx = (markedCtx, some (Err.rpc 8
        "more than one redirect to leader from: [10.0.0.1:4242]")) :=
  ⟨rfl, (redirect_guard_single_hop freshCtx markedCtx rfl).2.1⟩

/-! ## The leader poller -/

section Poller

variable {σ : Type}

/-- An iteration of the poll loop whose `select` takes the case `ctx.Done()`
returns `ctx.Err()` and nothing else happens in it. -/
theorem pollLoop_done (T : Transport σ) (p : raftProxyResourceAllocatorServer σ)
    (ctx : Context) (fuel : Nat) (s s' : σ) (e : CtxErr)
    (hS : T.selectCase ctx s = (some e, s')) :
    pollLoop T p ctx (fuel + 1) s
      = ⟨.ret (none, some (Err.ctx e)), s', [Event.selectCase ctx (some e)]⟩ := by
  simp [pollLoop, bind, Proc.seq, call, pure, Proc.ret, hS]

/-- An iteration of the poll loop in which `LeaderConn` answers an error
returns that error, whatever it is, without a health probe. -/
theorem pollLoop_leader_error (T : Transport σ) (p : raftProxyResourceAllocatorServer σ)
    (ctx : Context) (fuel : Nat) (s s1 s' : σ) (conn : ClientConn) (e : Err)
    (hS : T.selectCase ctx s = (none, s1))
    (hL : p.connSelector.LeaderConn ctx s1 = ((conn, some e), s')) :
    pollLoop T p ctx (fuel + 1) s
      = ⟨.ret (none, some e), s', [Event.selectCase ctx none, Event.LeaderConn ctx]⟩ := by
  simp [pollLoop, bind, Proc.seq, call, pure, Proc.ret, hS, hL]

/-- An iteration of the poll loop in which the probe of the candidate answers
`SERVING` without error returns the candidate. -/
theorem pollLoop_serving (T : Transport σ) (p : raftProxyResourceAllocatorServer σ)
    (ctx : Context) (fuel : Nat) (s s1 s2 s' : σ) (conn : ClientConn)
    (hS : T.selectCase ctx s = (none, s1))
    (hL : p.connSelector.LeaderConn ctx s1 = ((conn, none), s2))
    (hC : T.Check conn ctx { Service := "Raft" } s2
      = ((some ⟨ServingStatus.SERVING⟩, none), s')) :
    pollLoop T p ctx (fuel + 1) s
      = ⟨.ret (conn, none), s', [Event.selectCase ctx none, Event.LeaderConn ctx,
          Event.Check conn ctx { Service := "Raft" }]⟩ := by
  simp [pollLoop, bind, Proc.seq, call, pure, Proc.ret, hS, hL, hC]

/-- An iteration of the poll loop in which the probe of the candidate answers
an error or a status other than `SERVING` does not return the candidate: the
loop goes on with the next iteration. -/
theorem pollLoop_not_serving (T : Transport σ) (p : raftProxyResourceAllocatorServer σ)
    (ctx : Context) (fuel : Nat) (s s1 s2 s' : σ) (conn : ClientConn)
    (resp : Option HealthCheckResponse) (cerr : Option Err)
    (hS : T.selectCase ctx s = (none, s1))
    (hL : p.connSelector.LeaderConn ctx s1 = ((conn, none), s2))
    (hC : T.Check conn ctx { Service := "Raft" } s2 = ((resp, cerr), s'))
    (hN : cerr ≠ none ∨ ∃ r, resp = some r ∧ r.Status ≠ ServingStatus.SERVING) :
    pollLoop T p ctx (fuel + 1) s
      = ⟨(pollLoop T p ctx fuel s').out, (pollLoop T p ctx fuel s').st,
          [Event.selectCase ctx none, Event.LeaderConn ctx,
            Event.Check conn ctx { Service := "Raft" }] ++ (pollLoop T p ctx fuel s').trace⟩ := by
  cases cerr with
  | some ce =>
    cases hO : (pollLoop T p ctx fuel s').out <;>
      simp [pollLoop, bind, Proc.seq, call, pure, Proc.ret, hS, hL, hC, hO]
  | none =>
    rcases hN with hN | ⟨r, rfl, hr⟩
    · exact absurd rfl hN
    · cases hO : (pollLoop T p ctx fuel s').out <;>
        simp [pollLoop, bind, Proc.seq, call, pure, Proc.ret, hS, hL, hC, hO, hr]

/-- Every return of the poll loop: after `k` iterations that went on to the
next tick, a last iteration ends in one of the three ways of `pollLastTick`. -/
theorem pollLoop_ret (T : Transport σ) (p : raftProxyResourceAllocatorServer σ)
    (ctx : Context) (fuel : Nat) :
    ∀ (s s' : σ) (conn : ClientConn) (err : Option Err) (pt : List Event),
      pollLoop T p ctx fuel s = ⟨.ret (conn, err), s', pt⟩ →
      ∃ (k : Nat) (s0 : σ) (pre last : List Event), k < fuel
        ∧ pollContinuesFor T p ctx k s s0 ∧ pollLastTick T p ctx s0 s' conn err last
        ∧ pt = pre ++ last ∧ pre.length = 3 * k := by
  induction fuel with
  | zero =>
    intro s s' conn err pt h
    simp [pollLoop, Proc.running] at h
  | succ n ih =>
    intro s s' conn err pt h
    rcases hS : T.selectCase ctx s with ⟨d, s1⟩
    cases d with
    | some e =>
      rw [pollLoop_done T p ctx n s s1 e hS] at h
      simp only [Run.mk.injEq, Outcome.ret.injEq, Prod.mk.injEq] at h
      obtain ⟨⟨rfl, rfl⟩, rfl, rfl⟩ := h
      exact ⟨0, s, [], _, Nat.succ_pos n, rfl, Or.inl ⟨e, hS, rfl, rfl, rfl⟩, rfl, rfl⟩
    | none =>
      rcases hL : p.connSelector.LeaderConn ctx s1 with ⟨⟨c, lerr⟩, s2⟩
      cases lerr with
      | some e =>
        rw [pollLoop_leader_error T p ctx n s s1 s2 c e hS hL] at h
        simp only [Run.mk.injEq, Outcome.ret.injEq, Prod.mk.injEq] at h
        obtain ⟨⟨rfl, rfl⟩, rfl, rfl⟩ := h
        exact ⟨0, s, [], _, Nat.succ_pos n, rfl,
          Or.inr (Or.inl ⟨s1, c, e, hS, hL, rfl, rfl, rfl⟩), rfl, rfl⟩
      | none =>
        rcases hC : T.Check c ctx { Service := "Raft" } s2 with ⟨⟨resp, cerr⟩, s3⟩
        by_cases hN : cerr ≠ none ∨ ∃ r, resp = some r ∧ r.Status ≠ ServingStatus.SERVING
        · rw [pollLoop_not_serving T p ctx n s s1 s2 s3 c resp cerr hS hL hC hN] at h
          simp only [Run.mk.injEq] at h
          obtain ⟨ho, hst, htr⟩ := h
          have hrun : pollLoop T p ctx n s3
              = ⟨.ret (conn, err), s', (pollLoop T p ctx n s3).trace⟩ := by
            cases hr : pollLoop T p ctx n s3 with
            | mk o st tr =>
              rw [hr] at ho hst
              simp only at ho hst
              rw [ho, hst]
          obtain ⟨k, s0, pre, last, hk, hc, hl, hpt, hlen⟩ := ih s3 s' conn err _ hrun
          refine ⟨k + 1, s0, [Event.selectCase ctx none, Event.LeaderConn ctx,
            Event.Check c ctx { Service := "Raft" }] ++ pre, last, Nat.succ_lt_succ hk,
            ⟨s3, ⟨s1, s2, c, resp, cerr, hS, hL, hC, hN⟩, hc⟩, hl, ?_, ?_⟩
          · rw [← htr, hpt]
            simp
          · simp [hlen]
            omega
        · have hcn : cerr = none := by
            by_contra hx
            exact hN (Or.inl hx)
          subst hcn
          cases resp with
          | none =>
            simp [pollLoop, bind, Proc.seq, call, pure, Proc.ret, hS, hL, hC, Proc.panic] at h
          | some r =>
            have hr : r.Status = ServingStatus.SERVING := by
              by_contra hx
              exact hN (Or.inr ⟨r, rfl, hx⟩)
            have hC' : T.Check c ctx { Service := "Raft" } s2
                = ((some ⟨ServingStatus.SERVING⟩, none), s3) := by
              rw [hC, ← hr]
            rw [pollLoop_serving T p ctx n s s1 s2 s3 c hS hL hC'] at h
            simp only [Run.mk.injEq, Outcome.ret.injEq, Prod.mk.injEq] at h
            obtain ⟨⟨rfl, rfl⟩, rfl, rfl⟩ := h
            exact ⟨0, s, [], _, Nat.succ_pos n, rfl,
              Or.inr (Or.inr ⟨s1, s2, hS, hL, hC', rfl, rfl⟩), rfl, rfl⟩

/-- The poller is its entry in the trace followed by the poll loop. -/
theorem pollNewLeaderConn_eq (T : Transport σ) (p : raftProxyResourceAllocatorServer σ)
    (fuel : Nat) (ctx : Context) (s : σ) :
    pollNewLeaderConn T p fuel ctx s
      = ⟨(pollLoop T p ctx fuel s).out, (pollLoop T p ctx fuel s).st,
          Event.pollNewLeaderConn ctx :: (pollLoop T p ctx fuel s).trace⟩ := by
  cases h : (pollLoop T p ctx fuel s).out <;>
    simp [pollNewLeaderConn, bind, Proc.seq, note, h]

/-- After `k` iterations that go on to the next tick, the poll loop is where
it would be if it had started from the state they lead to, with `k` units of
fuel less and three trace entries per iteration more. -/
theorem pollLoop_after (T : Transport σ) (p : raftProxyResourceAllocatorServer σ)
    (ctx : Context) (k : Nat) :
    ∀ (s s0 : σ), pollContinuesFor T p ctx k s s0 → ∀ fuel : Nat,
      ∃ pre : List Event, pre.length = 3 * k
        ∧ (∀ e ∈ pre, e ≠ Event.selectCase ctx (some CtxErr.Canceled)
            ∧ e ≠ Event.selectCase ctx (some CtxErr.DeadlineExceeded))
        ∧ pollLoop T p ctx (fuel + k) s
          = ⟨(pollLoop T p ctx fuel s0).out, (pollLoop T p ctx fuel s0).st,
              pre ++ (pollLoop T p ctx fuel s0).trace⟩ := by
  induction k with
  | zero =>
    intro s s0 h fuel
    simp only [pollContinuesFor] at h
    subst h
    exact ⟨[], rfl, by simp, by simp⟩
  | succ k ih =>
    intro s s0 h fuel
    obtain ⟨s3, ⟨s1, s2, c, resp, cerr, hS, hL, hC, hN⟩, hrest⟩ := h
    obtain ⟨pre, hlen, hpre, hrun⟩ := ih s3 s0 hrest fuel
    refine ⟨[Event.selectCase ctx none, Event.LeaderConn ctx,
      Event.Check c ctx { Service := "Raft" }] ++ pre, ?_, ?_, ?_⟩
    · simp [hlen]
      omega
    · intro e he
      simp only [List.cons_append, List.nil_append, List.mem_cons] at he
      rcases he with rfl | rfl | rfl | he
      · simp
      · simp
      · simp
      · exact hpre e he
    · rw [← Nat.add_assoc,
        pollLoop_not_serving T p ctx (fuel + k) s s1 s2 s3 c resp cerr hS hL hC hN, hrun]
      simp

/-- C11. Whenever the poller returns a connection with a nil error, that
connection is the answer of the last `LeaderConn` query of the run, and the
health probe issued on it for the service "Raft" answered no error and the
status `SERVING`; the trace of the run ends with that query and that probe.
An iteration whose probe answers an error or another status does not return
its candidate: the loop goes on with the next iteration. -/
theorem poller_returns_serving_candidate (T : Transport σ)
    (p : raftProxyResourceAllocatorServer σ) (fuel : Nat) (ctx : Context) (s s' : σ)
    (conn : ClientConn) (pt : List Event)
    (h : pollNewLeaderConn T p fuel ctx s = ⟨.ret (conn, none), s', pt⟩) :
    (∃ (k : Nat) (s0 s1 s2 : σ) (pre : List Event), k < fuel
      ∧ pollContinuesFor T p ctx k s s0
      ∧ T.selectCase ctx s0 = (none, s1)
      ∧ p.connSelector.LeaderConn ctx s1 = ((conn, none), s2)
      ∧ T.Check conn ctx { Service := "Raft" } s2
          = ((some ⟨ServingStatus.SERVING⟩, none), s')
      ∧ pt = Event.pollNewLeaderConn ctx :: pre ++ [Event.selectCase ctx none,
          Event.LeaderConn ctx, Event.Check conn ctx { Service := "Raft" }]
      ∧ pre.length = 3 * k)
    ∧ (∀ (n : Nat) (t s1 s2 s3 : σ) (c : ClientConn) (resp : Option HealthCheckResponse)
        (cerr : Option Err),
        T.selectCase ctx t = (none, s1) →
        p.connSelector.LeaderConn ctx s1 = ((c, none), s2) →
        T.Check c ctx { Service := "Raft" } s2 = ((resp, cerr), s3) →
        (cerr ≠ none ∨ ∃ r, resp = some r ∧ r.Status ≠ ServingStatus.SERVING) →
        pollLoop T p ctx (n + 1) t
          = ⟨(pollLoop T p ctx n s3).out, (pollLoop T p ctx n s3).st,
              [Event.selectCase ctx none, Event.LeaderConn ctx,
                Event.Check c ctx { Service := "Raft" }] ++ (pollLoop T p ctx n s3).trace⟩) := by
  refine ⟨?_, fun n t s1 s2 s3 c resp cerr hS hL hC hN =>
    pollLoop_not_serving T p ctx n t s1 s2 s3 c resp cerr hS hL hC hN⟩
  rw [pollNewLeaderConn_eq] at h
  simp only [Run.mk.injEq] at h
  obtain ⟨ho, hst, htr⟩ := h
  have hrun : pollLoop T p ctx fuel s
      = ⟨.ret (conn, none), s', (pollLoop T p ctx fuel s).trace⟩ := by
    cases hr : pollLoop T p ctx fuel s with
    | mk o st tr =>
      rw [hr] at ho hst
      simp only at ho hst
      rw [ho, hst]
  obtain ⟨k, s0, pre, last, hk, hc, hl, hpt, hlen⟩ := pollLoop_ret T p ctx fuel s s' conn none _ hrun
  rcases hl with ⟨e, _, _, he, _⟩ | ⟨s1, c, e, _, _, _, he, _⟩ | ⟨s1, s2, hS, hL, hC, _, hlast⟩
  · cases he
  · cases he
  · refine ⟨k, s0, s1, s2, pre, hk, hc, hS, hL, hC, ?_, hlen⟩
    rw [← htr, hpt, hlast]
    simp

/-- C11 on a run: the first candidate `some 3` is not serving and is not
returned; the second candidate `some 2` is serving and is returned. -/
theorem poller_returns_serving_candidate_witness :
    ∃ (k : Nat) (s0 s1 s2 : Nat) (pre : List Event), k < 5
      ∧ pollContinuesFor (probingTransport (Err.other "transport is closing") 9)
          (demoProxy [(some 3, none), (some 2, none)]) freshCtx k 0 s0
      ∧ (probingTransport (Err.other "transport is closing") 9).selectCase freshCtx s0
          = (none, s1)
      ∧ (demoProxy [(some 3, none), (some 2, none)]).connSelector.LeaderConn freshCtx s1
          = ((some 2, none), s2)
      ∧ (probingTransport (Err.other "transport is closing") 9).Check (some 2) freshCtx
          { Service := "Raft" } s2 = ((some ⟨ServingStatus.SERVING⟩, none), 2)
      ∧ [Event.pollNewLeaderConn freshCtx, Event.selectCase freshCtx none,
          Event.LeaderConn freshCtx, Event.Check (some 3) freshCtx { Service := "Raft" },
          Event.selectCase freshCtx none, Event.LeaderConn freshCtx,
          Event.Check (some 2) freshCtx { Service := "Raft" }]
        = Event.pollNewLeaderConn freshCtx :: pre ++ [Event.selectCase freshCtx none,
          Event.LeaderConn freshCtx, Event.Check (some 2) freshCtx { Service := "Raft" }]
      ∧ pre.length = 3 * k :=
  (poller_returns_serving_candidate (probingTransport (Err.other "transport is closing") 9)
    (demoProxy [(some 3, none), (some 2, none)]) 5 freshCtx 0 2 (some 2)
    [Event.pollNewLeaderConn freshCtx, Event.selectCase freshCtx none,
      Event.LeaderConn freshCtx, Event.Check (some 3) freshCtx { Service := "Raft" },
      Event.selectCase freshCtx none, Event.LeaderConn freshCtx,
      Event.Check (some 2) freshCtx { Service := "Raft" }] rfl).1

/-- C12, amended. The poller goes on polling until one of three things
happens, and returns then and only then: the `select` takes the case
`ctx.Done()` (the error of the context is returned), `LeaderConn` answers an
error, which is the is-leader signal or any other error (that error is
returned), or the probe of the candidate answers `SERVING` without error (the
candidate is returned). Every return of the poller comes after `k` iterations
that went on to the next tick and a last iteration that ends in one of these
three ways. Conversely, after any `k` iterations that went on to the next
tick, each of the three events makes the poller return the value that goes
with it, in that iteration; and an iteration whose probe answers an error or
another status goes on to the next iteration. -/
theorem poller_stops_three_ways (T : Transport σ) (p : raftProxyResourceAllocatorServer σ)
    (ctx : Context) :
    (∀ (fuel : Nat) (s s' : σ) (conn : ClientConn) (err : Option Err) (pt : List Event),
      pollNewLeaderConn T p fuel ctx s = ⟨.ret (conn, err), s', pt⟩ →
      ∃ (k : Nat) (s0 : σ) (pre last : List Event), k < fuel
        ∧ pollContinuesFor T p ctx k s s0
        ∧ pt = Event.pollNewLeaderConn ctx :: pre ++ last ∧ pre.length = 3 * k
        ∧ ((∃ e, T.selectCase ctx s0 = (some e, s') ∧ conn = none ∧ err = some (Err.ctx e)
              ∧ last = [Event.selectCase ctx (some e)])
          ∨ (∃ s1 c e, T.selectCase ctx s0 = (none, s1)
              ∧ p.connSelector.LeaderConn ctx s1 = ((c, some e), s') ∧ conn = none
              ∧ err = some e ∧ last = [Event.selectCase ctx none, Event.LeaderConn ctx])
          ∨ (∃ s1 s2, T.selectCase ctx s0 = (none, s1)
              ∧ p.connSelector.LeaderConn ctx s1 = ((conn, none), s2)
              ∧ T.Check conn ctx { Service := "Raft" } s2
                  = ((some ⟨ServingStatus.SERVING⟩, none), s')
              ∧ err = none
              ∧ last = [Event.selectCase ctx none, Event.LeaderConn ctx,
                  Event.Check conn ctx { Service := "Raft" }])))
    ∧ (∀ (k fuel : Nat) (s s0 : σ), pollContinuesFor T p ctx k s s0 →
      (∀ (e : CtxErr) (s' : σ), T.selectCase ctx s0 = (some e, s') →
        ∃ pre : List Event, pre.length = 3 * k
          ∧ pollNewLeaderConn T p (fuel + 1 + k) ctx s
            = ⟨.ret (none, some (Err.ctx e)), s',
                Event.pollNewLeaderConn ctx :: pre ++ [Event.selectCase ctx (some e)]⟩)
      ∧ (∀ (s1 s' : σ) (c : ClientConn) (e : Err), T.selectCase ctx s0 = (none, s1) →
        p.connSelector.LeaderConn ctx s1 = ((c, some e), s') →
        ∃ pre : List Event, pre.length = 3 * k
          ∧ pollNewLeaderConn T p (fuel + 1 + k) ctx s
            = ⟨.ret (none, some e), s',
                Event.pollNewLeaderConn ctx :: pre
                  ++ [Event.selectCase ctx none, Event.LeaderConn ctx]⟩)
      ∧ (∀ (s1 s2 s' : σ) (conn : ClientConn), T.selectCase ctx s0 = (none, s1) →
        p.connSelector.LeaderConn ctx s1 = ((conn, none), s2) →
        T.Check conn ctx { Service := "Raft" } s2
          = ((some ⟨ServingStatus.SERVING⟩, none), s') →
        ∃ pre : List Event, pre.length = 3 * k
          ∧ pollNewLeaderConn T p (fuel + 1 + k) ctx s
            = ⟨.ret (conn, none), s',
                Event.pollNewLeaderConn ctx :: pre
                  ++ [Event.selectCase ctx none, Event.LeaderConn ctx,
                    Event.Check conn ctx { Service := "Raft" }]⟩))
    ∧ (∀ (n : Nat) (t s1 s2 s3 : σ) (c : ClientConn) (resp : Option HealthCheckResponse)
        (cerr : Option Err),
        T.selectCase ctx t = (none, s1) →
        p.connSelector.LeaderConn ctx s1 = ((c, none), s2) →
        T.Check c ctx { Service := "Raft" } s2 = ((resp, cerr), s3) →
        (cerr ≠ none ∨ ∃ r, resp = some r ∧ r.Status ≠ ServingStatus.SERVING) →
        pollLoop T p ctx (n + 1) t
          = ⟨(pollLoop T p ctx n s3).out, (pollLoop T p ctx n s3).st,
              [Event.selectCase ctx none, Event.LeaderConn ctx,
                Event.Check c ctx { Service := "Raft" }] ++ (pollLoop T p ctx n s3).trace⟩) := by
  refine ⟨fun fuel s s' conn err pt h => ?_, fun k fuel s s0 hc => ⟨fun e s' hS => ?_,
    fun s1 s' c e hS hL => ?_, fun s1 s2 s' conn hS hL hC => ?_⟩,
    fun n t s1 s2 s3 c resp cerr hS hL hC hN =>
      pollLoop_not_serving T p ctx n t s1 s2 s3 c resp cerr hS hL hC hN⟩
  · rw [pollNewLeaderConn_eq] at h
    simp only [Run.mk.injEq] at h
    obtain ⟨ho, hst, htr⟩ := h
    have hrun : pollLoop T p ctx fuel s
        = ⟨.ret (conn, err), s', (pollLoop T p ctx fuel s).trace⟩ := by
      cases hr : pollLoop T p ctx fuel s with
      | mk o st tr =>
        rw [hr] at ho hst
        simp only at ho hst
        rw [ho, hst]
    obtain ⟨k, s0, pre, last, hk, hc, hl, hpt, hlen⟩ :=
      pollLoop_ret T p ctx fuel s s' conn err _ hrun
    refine ⟨k, s0, pre, last, hk, hc, ?_, hlen, hl⟩
    rw [← htr, hpt]
    simp
  · obtain ⟨pre, hlen, -, hrun⟩ := pollLoop_after T p ctx k s s0 hc (fuel + 1)
    refine ⟨pre, hlen, ?_⟩
    rw [pollNewLeaderConn_eq, hrun, pollLoop_done T p ctx fuel s0 s' e hS]
    simp
  · obtain ⟨pre, hlen, -, hrun⟩ := pollLoop_after T p ctx k s s0 hc (fuel + 1)
    refine ⟨pre, hlen, ?_⟩
    rw [pollNewLeaderConn_eq, hrun, pollLoop_leader_error T p ctx fuel s0 s1 s' c e hS hL]
    simp
  · obtain ⟨pre, hlen, -, hrun⟩ := pollLoop_after T p ctx k s s0 hc (fuel + 1)
    refine ⟨pre, hlen, ?_⟩
    rw [pollNewLeaderConn_eq, hrun, pollLoop_serving T p ctx fuel s0 s1 s2 s' conn hS hL hC]
    simp

/-- C12 amended, on two runs. After one candidate that was not serving, the
second `LeaderConn` query answers the is-leader signal, and the poller returns
it at once; when it answers the candidate `some 2`, whose probe reports
`SERVING`, the poller returns that candidate. -/
theorem poller_stops_three_ways_witness :
    (∃ pre : List Event, pre.length = 3 * 1
      ∧ pollNewLeaderConn (probingTransport (Err.other "transport is closing") 9)
          (demoProxy [(some 3, none), (none, some Err.ErrIsLeader)]) (0 + 1 + 1) freshCtx 0
        = ⟨.ret (none, some Err.ErrIsLeader), 2,
            Event.pollNewLeaderConn freshCtx :: pre
              ++ [Event.selectCase freshCtx none, Event.LeaderConn freshCtx]⟩)
    ∧ (∃ pre : List Event, pre.length = 3 * 1
      ∧ pollNewLeaderConn (probingTransport (Err.other "transport is closing") 9)
          (demoProxy [(some 3, none), (some 2, none)]) (0 + 1 + 1) freshCtx 0
        = ⟨.ret (some 2, none), 2,
            Event.pollNewLeaderConn freshCtx :: pre
              ++ [Event.selectCase freshCtx none, Event.LeaderConn freshCtx,
                Event.Check (some 2) freshCtx { Service := "Raft" }]⟩) :=
  ⟨((poller_stops_three_ways (probingTransport (Err.other "transport is closing") 9)
      (demoProxy [(some 3, none), (none, some Err.ErrIsLeader)]) freshCtx).2.1 1 0 0 1
      ⟨1, ⟨0, 1, some 3, some ⟨ServingStatus.NOT_SERVING⟩, none, rfl, rfl, rfl,
        Or.inr ⟨_, rfl, by decide⟩⟩, rfl⟩).2.1 1 2 none Err.ErrIsLeader rfl rfl,
   ((poller_stops_three_ways (probingTransport (Err.other "transport is closing") 9)
      (demoProxy [(some 3, none), (some 2, none)]) freshCtx).2.1 1 0 0 1
      ⟨1, ⟨0, 1, some 3, some ⟨ServingStatus.NOT_SERVING⟩, none, rfl, rfl, rfl,
        Or.inr ⟨_, rfl, by decide⟩⟩, rfl⟩).2.2 1 2 2 (some 2) rfl rfl rfl⟩

/-- C12 as stated fails: the poller stops polling although no serving
candidate was found, the local node is not leader and the context is not
done. The `LeaderConn` query of its first tick answers the error "no leader",
and the poller returns that error. -/
theorem poller_stops_on_any_leader_error :
    pollNewLeaderConn (demoTransport (Err.other "transport is closing")) (demoProxy []) 5
        freshCtx 0
      = ⟨.ret (none, some (Err.other "no leader")), 1,
          [Event.pollNewLeaderConn freshCtx, Event.selectCase freshCtx none,
            Event.LeaderConn freshCtx]⟩
    ∧ Err.other "no leader" ≠ Err.ErrIsLeader
    ∧ (∀ e : CtxErr, Err.other "no leader" ≠ Err.ctx e)
    ∧ (demoTransport (Err.other "transport is closing")).selectCase freshCtx 0 = (none, 0) := by
  refine ⟨rfl, by decide, fun e => by cases e <;> decide, rfl⟩

/-- The case a `select` of Go takes when the context is done and no tick is
waiting is the case `ctx.Done()`. -/
theorem SelectsAsGo.done_taken {T : Transport σ} {ready : Context → σ → Ready}
    (hG : SelectsAsGo T ready) (ctx : Context) (s : σ) (e : CtxErr)
    (hd : (ready ctx s).done = some e) (ht : (ready ctx s).tick = false) :
    T.selectCase ctx s = (some e, (T.selectCase ctx s).2) := by
  have h := hG ctx s
  rcases hS : T.selectCase ctx s with ⟨d, s'⟩
  rw [hS] at h
  cases d with
  | none =>
    simp only [Ready.mayTake] at h
    rw [ht] at h
    cases h
  | some e' =>
    simp only [Ready.mayTake] at h
    rw [hd] at h
    cases h
    rfl

/-- C13, amended. Cancellation during the poll loop, the `select` being the
one of Go. Once the context is done and no poll tick is waiting when the
`select` of an iteration runs, after any number `k` of iterations that went
on to the next tick, the `select` takes the case `ctx.Done()`; and whenever
the `select` takes that case, the poll loop returns `(nil, ctx.Err())` in that
iteration: the `select` is the last entry of its trace, so no `LeaderConn`
query and no health probe follow it. When the poller returns the error of
the context, both proxy methods return a nil response and that error, and
nothing follows the poller in the trace. -/
theorem cancellation_stops_poll (T : Transport σ) (p : raftProxyResourceAllocatorServer σ)
    (ready : Context → σ → Ready) (hG : SelectsAsGo T ready) (e : CtxErr) :
    (∀ (ctx : Context) (k fuel : Nat) (s s0 : σ), pollContinuesFor T p ctx k s s0 →
      (ready ctx s0).done = some e → (ready ctx s0).tick = false →
      ∃ pre : List Event, pre.length = 3 * k
        ∧ (∀ ev ∈ pre, ev ≠ Event.selectCase ctx (some CtxErr.Canceled)
            ∧ ev ≠ Event.selectCase ctx (some CtxErr.DeadlineExceeded))
        ∧ pollNewLeaderConn T p (fuel + 1 + k) ctx s
          = ⟨.ret (none, some (Err.ctx e)), (T.selectCase ctx s0).2,
              Event.pollNewLeaderConn ctx :: pre ++ [Event.selectCase ctx (some e)]⟩)
    ∧ (∀ (ctx : Context) (k fuel : Nat) (s s0 s' : σ), pollContinuesFor T p ctx k s s0 →
      T.selectCase ctx s0 = (some e, s') →
      ∃ pre : List Event, pre.length = 3 * k
        ∧ (∀ ev ∈ pre, ev ≠ Event.selectCase ctx (some CtxErr.Canceled)
            ∧ ev ≠ Event.selectCase ctx (some CtxErr.DeadlineExceeded))
        ∧ pollNewLeaderConn T p (fuel + 1 + k) ctx s
          = ⟨.ret (none, some (Err.ctx e)), s',
              Event.pollNewLeaderConn ctx :: pre ++ [Event.selectCase ctx (some e)]⟩)
    ∧ (∀ (ctx : Context) (fuel : Nat) (modCtx : Context) (s s1 s2 s3 s4 : σ)
        (conn conn' : ClientConn) (mt pt : List Event) (err : Err),
        p.connSelector.LeaderConn ctx s = ((conn, none), s1) →
        runCtxMods ctx p.remoteCtxMods s1 = ⟨.ret (modCtx, none), s2, mt⟩ →
        isConnErr err = true →
        pollNewLeaderConn T p fuel (leftByCtxMods ctx p.remoteCtxMods) s3
          = ⟨.ret (conn', some (Err.ctx e)), s4, pt⟩ →
        (∀ (r : AttachNetworkRequest) (out : AttachNetworkResponse),
          T.InvokeAttachNetwork modCtx r conn s2 = ((out, some err), s3) →
          AttachNetwork T p fuel ctx r s
            = ⟨.ret (none, some (Err.ctx e)), s4,
                Event.LeaderConn ctx :: mt
                  ++ [Event.invokeAttachNetwork conn modCtx r (some err)] ++ pt⟩)
        ∧ (∀ (r : DetachNetworkRequest) (out : DetachNetworkResponse),
          T.InvokeDetachNetwork modCtx r conn s2 = ((out, some err), s3) →
          DetachNetwork T p fuel ctx r s
            = ⟨.ret (none, some (Err.ctx e)), s4,
                Event.LeaderConn ctx :: mt
                  ++ [Event.invokeDetachNetwork conn modCtx r (some err)] ++ pt⟩)) := by
  have hsel : ∀ (ctx : Context) (k fuel : Nat) (s s0 s' : σ),
      pollContinuesFor T p ctx k s s0 → T.selectCase ctx s0 = (some e, s') →
      ∃ pre : List Event, pre.length = 3 * k
        ∧ (∀ ev ∈ pre, ev ≠ Event.selectCase ctx (some CtxErr.Canceled)
            ∧ ev ≠ Event.selectCase ctx (some CtxErr.DeadlineExceeded))
        ∧ pollNewLeaderConn T p (fuel + 1 + k) ctx s
          = ⟨.ret (none, some (Err.ctx e)), s',
              Event.pollNewLeaderConn ctx :: pre ++ [Event.selectCase ctx (some e)]⟩ := by
    intro ctx k fuel s s0 s' hc hS
    obtain ⟨pre, hlen, hpre, hrun⟩ := pollLoop_after T p ctx k s s0 hc (fuel + 1)
    refine ⟨pre, hlen, hpre, ?_⟩
    rw [pollNewLeaderConn_eq, hrun, pollLoop_done T p ctx fuel s0 s' e hS]
    simp
  refine ⟨fun ctx k fuel s s0 hc hd ht =>
      hsel ctx k fuel s s0 _ hc (hG.done_taken ctx s0 e hd ht), hsel,
    fun ctx fuel modCtx s s1 s2 s3 s4 conn conn' mt pt err hL hM hT hP =>
      ⟨fun r out hR => ?_, fun r out hR => ?_⟩⟩
  · unfold AttachNetwork
    simp [bind, Proc.seq, call, hL, hM, pure, Proc.ret,
      resourceAllocatorClient.AttachNetwork, hR, notConn_eq, hT, hP]
  · unfold DetachNetwork
    simp [bind, Proc.seq, call, hL, hM, pure, Proc.ret,
      resourceAllocatorClient.DetachNetwork, hR, notConn_eq, hT, hP]

/-- The `select` of `probingTransport` is the one of Go for the channels of
`probingReady`. -/
theorem probingTransport_selectsAsGo (e1 : Err) (cancelAt : Nat) :
    SelectsAsGo (probingTransport e1 cancelAt) (probingReady cancelAt) := by
  intro ctx s
  by_cases h : cancelAt ≤ s <;> simp [probingTransport, probingReady, Ready.mayTake, h]

/-- C13 amended, on a run: the call to `some 1` fails with "transport is
closing", the candidate `some 3` of the first tick is not serving, then the
context is canceled and no tick is waiting: the poller returns
`context.Canceled` at the `select` of its second iteration, and
`AttachNetwork` returns that error with a nil response. -/
theorem cancellation_stops_poll_witness :
    (∃ pre : List Event, pre.length = 3 * 1
      ∧ (∀ ev ∈ pre, ev ≠ Event.selectCase freshCtx (some CtxErr.Canceled)
          ∧ ev ≠ Event.selectCase freshCtx (some CtxErr.DeadlineExceeded))
      ∧ pollNewLeaderConn (probingTransport (Err.other "transport is closing") 2)
          (demoProxy [(some 1, none), (some 3, none)]) (0 + 1 + 1) freshCtx 1
        = ⟨.ret (none, some (Err.ctx CtxErr.Canceled)),
            ((probingTransport (Err.other "transport is closing") 2).selectCase freshCtx 2).2,
            Event.pollNewLeaderConn freshCtx :: pre
              ++ [Event.selectCase freshCtx (some CtxErr.Canceled)]⟩)
    ∧ AttachNetwork (probingTransport (Err.other "transport is closing") 2)
        (demoProxy [(some 1, none), (some 3, none)]) 2 freshCtx reqC1 0
      = ⟨.ret (none, some (Err.ctx CtxErr.Canceled)), 2,
          Event.LeaderConn freshCtx ::
            [Event.ctxMod ModName.redirectChecker freshCtx,
              Event.ctxMod ModName.remoteCtxMod markedCtx]
            ++ [Event.invokeAttachNetwork (some 1) forwardedCtx reqC1
              (some (Err.other "transport is closing"))]
            ++ [Event.pollNewLeaderConn freshCtx, Event.selectCase freshCtx none,
              Event.LeaderConn freshCtx, Event.Check (some 3) freshCtx { Service := "Raft" },
              Event.selectCase freshCtx (some CtxErr.Canceled)]⟩ :=
  ⟨(cancellation_stops_poll (probingTransport (Err.other "transport is closing") 2)
      (demoProxy [(some 1, none), (some 3, none)]) (probingReady 2)
      (probingTransport_selectsAsGo _ 2) CtxErr.Canceled).1 freshCtx 1 0 1 2
      ⟨2, ⟨1, 2, some 3, some ⟨ServingStatus.NOT_SERVING⟩, none, rfl, rfl, rfl,
        Or.inr ⟨_, rfl, by decide⟩⟩, rfl⟩ rfl rfl,
   ((cancellation_stops_poll (probingTransport (Err.other "transport is closing") 2)
      (demoProxy [(some 1, none), (some 3, none)]) (probingReady 2)
      (probingTransport_selectsAsGo _ 2) CtxErr.Canceled).2.2 freshCtx 2 forwardedCtx
      0 1 1 1 2 (some 1) none
      [Event.ctxMod ModName.redirectChecker freshCtx,
        Event.ctxMod ModName.remoteCtxMod markedCtx]
      [Event.pollNewLeaderConn freshCtx, Event.selectCase freshCtx none,
        Event.LeaderConn freshCtx, Event.Check (some 3) freshCtx { Service := "Raft" },
        Event.selectCase freshCtx (some CtxErr.Canceled)]
      (Err.other "transport is closing") rfl rfl (by decide) rfl).1 reqC1 ⟨[]⟩ rfl⟩

/-- C13 as stated fails: the context is canceled throughout, and a tick is
waiting whenever the `select` runs. The `select`, which is the one of Go,
takes the tick: the poller issues a `LeaderConn` query and a health probe
after the context is done and returns the candidate `some 2`, not the error
of the context; and `AttachNetwork` returns the response of the retried call,
not a cancellation error. -/
theorem canceled_context_still_queried :
    SelectsAsGo (demoTransport (Err.other "transport is closing")) canceledWhileTicking
    ∧ (∀ (ctx : Context) (s : Nat), (canceledWhileTicking ctx s).done = some CtxErr.Canceled)
    ∧ pollNewLeaderConn (demoTransport (Err.other "transport is closing"))
        (demoProxy [(some 2, none)]) 5 freshCtx 0
      = ⟨.ret (some 2, none), 1,
          [Event.pollNewLeaderConn freshCtx, Event.selectCase freshCtx none,
            Event.LeaderConn freshCtx, Event.Check (some 2) freshCtx { Service := "Raft" }]⟩
    ∧ AttachNetwork (demoTransport (Err.other "transport is closing"))
        (demoProxy [(some 1, none), (some 2, none)]) 1 freshCtx reqC1 0
      = ⟨.ret (some ⟨[7]⟩, none), 2,
          [Event.LeaderConn freshCtx, Event.ctxMod ModName.redirectChecker freshCtx,
            Event.ctxMod ModName.remoteCtxMod markedCtx,
            Event.invokeAttachNetwork (some 1) forwardedCtx reqC1
              (some (Err.other "transport is closing")),
            Event.pollNewLeaderConn freshCtx, Event.selectCase freshCtx none,
            Event.LeaderConn freshCtx, Event.Check (some 2) freshCtx { Service := "Raft" },
            Event.invokeAttachNetwork (some 2) forwardedCtx reqC1 none]⟩ := by
  refine ⟨fun ctx s => rfl, fun ctx s => rfl, rfl, rfl⟩

end Poller

/-! ## The modifier chains -/

section Chains

variable {σ : Type}

/-- A chain of one modifier is the call of that modifier. -/
theorem runCtxMods_single (m : CtxMod σ) (ctx : Context) :
    runCtxMods ctx [m] = callMod m ctx := by
  funext s
  simp only [runCtxMods, bind, Proc.seq, pure, Proc.ret]
  rcases hr : callMod m ctx s with ⟨o, st, tr⟩
  cases o with
  | ret a =>
    obtain ⟨c, err⟩ := a
    cases err <;> simp [Proc.ret]
  | panic => simp
  | running => simp

/-- One step of the fold of the spec extends the chain run so far by one
modifier. -/
theorem specThreadStep_runCtxMods (pre : List (CtxMod σ)) (m : CtxMod σ) (ctx : Context) :
    specThreadStep (runCtxMods ctx pre) m = runCtxMods ctx (pre ++ [m]) := by
  rw [runCtxMods_append]
  simp only [specThreadStep, runCtxMods_single]

theorem foldl_specThreadStep (mods : List (CtxMod σ)) :
    ∀ (pre : List (CtxMod σ)) (ctx : Context),
      mods.foldl specThreadStep (runCtxMods ctx pre) = runCtxMods ctx (pre ++ mods) := by
  induction mods with
  | nil => intro pre ctx; simp
  | cons m ms ih =>
    intro pre ctx
    rw [List.foldl_cons, specThreadStep_runCtxMods, ih]
    simp

/-- C15. The method `runCtxMods` is the left fold of the spec: it threads the
context through the modifiers from left to right and stops at the first one
that fails. When the modifiers before `m` succeed and `m` fails, the chain
returns the error of `m` and its trace ends with the call of `m`: no modifier
after `m` is called. On the empty list it returns the input context and a
nil error. On `a ++ b` it runs `a` and, when `a` succeeds, runs `b` from the
context `a` produced. -/
theorem runCtxMods_is_left_fold (ctx : Context) (a b : List (CtxMod σ)) :
    runCtxMods ctx a = specFoldCtxMods ctx a
    ∧ (∀ (pre post : List (CtxMod σ)) (m : CtxMod σ)
        (f : Context → Oracle σ (Context × Option Err)) (c1 c2 : Context) (s1 s2 s3 : σ)
        (mt : List Event) (err : Err),
        a = pre ++ m :: post →
        runCtxMods ctx pre s1 = ⟨.ret (c1, none), s2, mt⟩ →
        m.fn = some f → f c1 s2 = ((c2, some err), s3) →
        runCtxMods ctx a s1 = ⟨.ret (c2, some err), s3, mt ++ [Event.ctxMod m.name c1]⟩)
    ∧ (∀ s : σ, runCtxMods ctx ([] : List (CtxMod σ)) s = ⟨.ret (ctx, none), s, []⟩)
    ∧ runCtxMods ctx (a ++ b) = (do
        let (c, err) ← runCtxMods ctx a
        match err with
        | some err => return (c, some err)
        | none => runCtxMods c b) := by
  refine ⟨?_, ?_, fun s => rfl, runCtxMods_append a b ctx⟩
  · have h := foldl_specThreadStep a [] ctx
    simp only [List.nil_append] at h
    rw [← h]
    rfl
  · intro pre post m f c1 c2 s1 s2 s3 mt err ha hpre hf hfail
    rw [ha]
    exact runCtxMods_fails_at pre post m f ctx c1 c2 s1 s2 s3 mt err hpre hf hfail

/-- C15 on a run: in the remote chain of `failingModProxy` the redirect guard
succeeds and the remote modifier fails. -/
theorem runCtxMods_is_left_fold_witness :
    runCtxMods freshCtx (failingModProxy []).remoteCtxMods 0
      = ⟨.ret (markedCtx, some (Err.other "remote modifier failed")), 0,
          [Event.ctxMod ModName.redirectChecker freshCtx]
            ++ [Event.ctxMod ModName.remoteCtxMod markedCtx]⟩ :=
  (runCtxMods_is_left_fold freshCtx (failingModProxy []).remoteCtxMods []).2.1
    [⟨ModName.redirectChecker, some (fun ctx s => (redirectChecker ctx, s)),
        redirectChecker.leaves⟩] []
    ⟨ModName.remoteCtxMod,
      some (fun ctx n => ((ctx, some (Err.other "remote modifier failed")), n)), id⟩
    (fun ctx n => ((ctx, some (Err.other "remote modifier failed")), n))
    markedCtx markedCtx 0 0 0 [Event.ctxMod ModName.redirectChecker freshCtx]
    (Err.other "remote modifier failed") rfl rfl rfl rfl

/-- The trace of a sequence starts with the trace of its first part. -/
theorem seq_trace {α β : Type} (m : Proc σ α) (f : α → Proc σ β) (s : σ) :
    ∃ t, (Proc.seq m f s).trace = (m s).trace ++ t := by
  unfold Proc.seq
  split
  · exact ⟨_, rfl⟩
  · exact ⟨[], by simp⟩
  · exact ⟨[], by simp⟩

/-- The trace of a chain that starts with a non-nil modifier `g` starts with
the call of `g`. -/
theorem runCtxMods_cons_trace (g : CtxMod σ) (mods : List (CtxMod σ))
    (f : Context → Oracle σ (Context × Option Err)) (hf : g.fn = some f) (ctx : Context)
    (s : σ) : ∃ t, (runCtxMods ctx (g :: mods) s).trace = Event.ctxMod g.name ctx :: t := by
  obtain ⟨t, ht⟩ := seq_trace (callMod g ctx)
    (fun x => match x with
      | (ctx, err) =>
        match err with
        | some err => (pure (ctx, some err) : Proc σ (Context × Option Err))
        | none => runCtxMods ctx mods) s
  refine ⟨t, ?_⟩
  have hc : (callMod g ctx s).trace = [Event.ctxMod g.name ctx] := by
    simp [callMod, hf, call]
  rw [hc] at ht
  exact ht

/-- On the forwarding path the trace of `AttachNetwork` starts with the
`LeaderConn` query and goes on with the trace of the remote chain. -/
theorem attach_remote_trace (T : Transport σ) (p : raftProxyResourceAllocatorServer σ)
    (fuel : Nat) (ctx : Context) (r : AttachNetworkRequest) (s s1 : σ) (conn : ClientConn)
    (hL : p.connSelector.LeaderConn ctx s = ((conn, none), s1)) :
    ∃ t, (AttachNetwork T p fuel ctx r s).trace
      = Event.LeaderConn ctx :: ((runCtxMods ctx p.remoteCtxMods s1).trace ++ t) := by
  cases hM : (runCtxMods ctx p.remoteCtxMods s1).out with
  | ret a =>
    obtain ⟨c, e⟩ := a
    cases e with
    | some e =>
      exact ⟨[], by simp [AttachNetwork, bind, Proc.seq, call, hL, hM, pure, Proc.ret]⟩
    | none =>
      simp only [AttachNetwork, bind, Proc.seq, call, hL, hM, pure, Proc.ret]
      exact ⟨_, rfl⟩
  | panic => exact ⟨[], by simp [AttachNetwork, bind, Proc.seq, call, hL, hM, pure, Proc.ret]⟩
  | running => exact ⟨[], by simp [AttachNetwork, bind, Proc.seq, call, hL, hM, pure, Proc.ret]⟩

/-- On the forwarding path the trace of `DetachNetwork` starts with the
`LeaderConn` query and goes on with the trace of the remote chain. -/
theorem detach_remote_trace (T : Transport σ) (p : raftProxyResourceAllocatorServer σ)
    (fuel : Nat) (ctx : Context) (r : DetachNetworkRequest) (s s1 : σ) (conn : ClientConn)
    (hL : p.connSelector.LeaderConn ctx s = ((conn, none), s1)) :
    ∃ t, (DetachNetwork T p fuel ctx r s).trace
      = Event.LeaderConn ctx :: ((runCtxMods ctx p.remoteCtxMods s1).trace ++ t) := by
  cases hM : (runCtxMods ctx p.remoteCtxMods s1).out with
  | ret a =>
    obtain ⟨c, e⟩ := a
    cases e with
    | some e =>
      exact ⟨[], by simp [DetachNetwork, bind, Proc.seq, call, hL, hM, pure, Proc.ret]⟩
    | none =>
      simp only [DetachNetwork, bind, Proc.seq, call, hL, hM, pure, Proc.ret]
      exact ⟨_, rfl⟩
  | panic => exact ⟨[], by simp [DetachNetwork, bind, Proc.seq, call, hL, hM, pure, Proc.ret]⟩
  | running => exact ⟨[], by simp [DetachNetwork, bind, Proc.seq, call, hL, hM, pure, Proc.ret]⟩

/-- When the first `LeaderConn` query answers an error, the trace of
`AttachNetwork` holds that query, calls of modifiers of the local chain and
local invocations only. -/
theorem attach_local_trace (T : Transport σ) (p : raftProxyResourceAllocatorServer σ)
    (fuel : Nat) (ctx : Context) (r : AttachNetworkRequest) (s s1 : σ) (conn : ClientConn)
    (err : Err) (hL : p.connSelector.LeaderConn ctx s = ((conn, some err), s1)) :
    ∀ e ∈ (AttachNetwork T p fuel ctx r s).trace,
      e = Event.LeaderConn ctx ∨ (∃ m ∈ p.localCtxMods, ∃ c, e = Event.ctxMod m.name c)
        ∨ e.isLocal = true := by
  intro e he
  by_cases hE : err = Err.ErrIsLeader
  · subst hE
    have hm := runCtxMods_trace p.localCtxMods ctx s1
    cases hM : (runCtxMods ctx p.localCtxMods s1).out with
    | ret a =>
      obtain ⟨c, e'⟩ := a
      cases e' with
      | some e' =>
        simp [AttachNetwork, bind, Proc.seq, call, hL, hM, pure, Proc.ret] at he
        rcases he with he | he
        · exact Or.inl he
        · exact Or.inr (Or.inl (hm e he))
      | none =>
        simp [AttachNetwork, bind, Proc.seq, call, hL, hM, pure, Proc.ret] at he
        rcases he with he | he | he
        · exact Or.inl he
        · exact Or.inr (Or.inl (hm e he))
        · exact Or.inr (Or.inr (by simp [he, Event.isLocal]))
    | panic =>
      simp [AttachNetwork, bind, Proc.seq, call, hL, hM, pure, Proc.ret] at he
      rcases he with he | he
      · exact Or.inl he
      · exact Or.inr (Or.inl (hm e he))
    | running =>
      simp [AttachNetwork, bind, Proc.seq, call, hL, hM, pure, Proc.ret] at he
      rcases he with he | he
      · exact Or.inl he
      · exact Or.inr (Or.inl (hm e he))
  · simp [AttachNetwork, bind, Proc.seq, call, hL, hE, pure, Proc.ret] at he
    exact Or.inl he

/-- When the first `LeaderConn` query answers an error, the trace of
`DetachNetwork` holds that query, calls of modifiers of the local chain and
local invocations only. -/
theorem detach_local_trace (T : Transport σ) (p : raftProxyResourceAllocatorServer σ)
    (fuel : Nat) (ctx : Context) (r : DetachNetworkRequest) (s s1 : σ) (conn : ClientConn)
    (err : Err) (hL : p.connSelector.LeaderConn ctx s = ((conn, some err), s1)) :
    ∀ e ∈ (DetachNetwork T p fuel ctx r s).trace,
      e = Event.LeaderConn ctx ∨ (∃ m ∈ p.localCtxMods, ∃ c, e = Event.ctxMod m.name c)
        ∨ e.isLocal = true := by
  intro e he
  by_cases hE : err = Err.ErrIsLeader
  · subst hE
    have hm := runCtxMods_trace p.localCtxMods ctx s1
    cases hM : (runCtxMods ctx p.localCtxMods s1).out with
    | ret a =>
      obtain ⟨c, e'⟩ := a
      cases e' with
      | some e' =>
        simp [DetachNetwork, bind, Proc.seq, call, hL, hM, pure, Proc.ret] at he
        rcases he with he | he
        · exact Or.inl he
        · exact Or.inr (Or.inl (hm e he))
      | none =>
        simp [DetachNetwork, bind, Proc.seq, call, hL, hM, pure, Proc.ret] at he
        rcases he with he | he | he
        · exact Or.inl he
        · exact Or.inr (Or.inl (hm e he))
        · exact Or.inr (Or.inr (by simp [he, Event.isLocal]))
    | panic =>
      simp [DetachNetwork, bind, Proc.seq, call, hL, hM, pure, Proc.ret] at he
      rcases he with he | he
      · exact Or.inl he
      · exact Or.inr (Or.inl (hm e he))
    | running =>
      simp [DetachNetwork, bind, Proc.seq, call, hL, hM, pure, Proc.ret] at he
      rcases he with he | he
      · exact Or.inl he
      · exact Or.inr (Or.inl (hm e he))
  · simp [DetachNetwork, bind, Proc.seq, call, hL, hE, pure, Proc.ret] at he
    exact Or.inl he

/-- In a trace that starts with the `LeaderConn` query and the call of the
redirect guard, every forwarded RPC and every call of the caller's remote
modifier comes after the call of the guard. -/
theorem guard_first_of_prefix (tr t : List Event) (ctx : Context)
    (h : tr = Event.LeaderConn ctx :: Event.ctxMod ModName.redirectChecker ctx :: t) :
    ∀ (pre post : List Event) (e : Event), tr = pre ++ e :: post →
      (e.isForward = true ∨ ∃ c, e = Event.ctxMod ModName.remoteCtxMod c) →
      Event.ctxMod ModName.redirectChecker ctx ∈ pre := by
  intro pre post e hp he
  rw [h] at hp
  cases pre with
  | nil =>
    simp only [List.nil_append, List.cons.injEq] at hp
    obtain ⟨rfl, _⟩ := hp
    rcases he with he | ⟨c, he⟩
    · simp [Event.isForward] at he
    · cases he
  | cons x pre =>
    cases pre with
    | nil =>
      simp only [List.cons_append, List.nil_append, List.cons.injEq] at hp
      obtain ⟨_, rfl, _⟩ := hp
      rcases he with he | ⟨c, he⟩
      · simp [Event.isForward] at he
      · cases he
    | cons y pre =>
      simp only [List.cons_append, List.cons.injEq] at hp
      obtain ⟨_, rfl, _⟩ := hp
      simp

/-- C14. A proxy built by the constructor has the remote chain made of the
redirect guard followed by the caller's remote modifier, whatever modifiers
are passed. In every trace of `AttachNetwork` and `DetachNetwork` of such a
proxy, each forwarded RPC and each call of the caller's remote modifier comes
after the call of the guard on the caller's context. When the guard fails on
the forwarding path, the trace is the `LeaderConn` query and the call of the
guard: the caller's remote modifier is not called. -/
theorem redirect_guard_runs_first (T : Transport σ) (localSrv : ResourceAllocatorServer σ)
    (connSelector : ConnProvider σ)
    (localCtxMod remoteCtxMod : Option (Context → Oracle σ (Context × Option Err)))
    (fuel : Nat) (ctx : Context) (s : σ) :
    (NewRaftProxyResourceAllocatorServer localSrv connSelector localCtxMod
        remoteCtxMod).remoteCtxMods
      = [⟨ModName.redirectChecker, some (fun c st => (redirectChecker c, st)),
          redirectChecker.leaves⟩,
          ⟨ModName.remoteCtxMod, remoteCtxMod, id⟩]
    ∧ (∀ (r : AttachNetworkRequest) (pre post : List Event) (e : Event),
        (AttachNetwork T (NewRaftProxyResourceAllocatorServer localSrv connSelector
            localCtxMod remoteCtxMod) fuel ctx r s).trace = pre ++ e :: post →
        (e.isForward = true ∨ ∃ c, e = Event.ctxMod ModName.remoteCtxMod c) →
        Event.ctxMod ModName.redirectChecker ctx ∈ pre)
    ∧ (∀ (r : DetachNetworkRequest) (pre post : List Event) (e : Event),
        (DetachNetwork T (NewRaftProxyResourceAllocatorServer localSrv connSelector
            localCtxMod remoteCtxMod) fuel ctx r s).trace = pre ++ e :: post →
        (e.isForward = true ∨ ∃ c, e = Event.ctxMod ModName.remoteCtxMod c) →
        Event.ctxMod ModName.redirectChecker ctx ∈ pre)
    ∧ (∀ (conn : ClientConn) (s1 : σ) (c : Context) (err : Err),
        connSelector.LeaderConn ctx s = ((conn, none), s1) →
        redirectChecker ctx = (c, some err) →
        (∀ r : AttachNetworkRequest,
          AttachNetwork T (NewRaftProxyResourceAllocatorServer localSrv connSelector
              localCtxMod remoteCtxMod) fuel ctx r s
            = ⟨.ret (none, some err), s1,
                [Event.LeaderConn ctx, Event.ctxMod ModName.redirectChecker ctx]⟩)
        ∧ (∀ r : DetachNetworkRequest,
          DetachNetwork T (NewRaftProxyResourceAllocatorServer localSrv connSelector
              localCtxMod remoteCtxMod) fuel ctx r s
            = ⟨.ret (none, some err), s1,
                [Event.LeaderConn ctx, Event.ctxMod ModName.redirectChecker ctx]⟩)) := by
  have hloc : ∀ m ∈ (NewRaftProxyResourceAllocatorServer localSrv connSelector localCtxMod
      remoteCtxMod).localCtxMods, m.name = ModName.localCtxMod := by
    intro m hm
    cases hl : localCtxMod with
    | none => simp [NewRaftProxyResourceAllocatorServer, hl] at hm
    | some f =>
      simp [NewRaftProxyResourceAllocatorServer, hl] at hm
      rw [hm]
  have hnone : ∀ e : Event,
      (e = Event.LeaderConn ctx
        ∨ (∃ m ∈ (NewRaftProxyResourceAllocatorServer localSrv connSelector localCtxMod
            remoteCtxMod).localCtxMods, ∃ c, e = Event.ctxMod m.name c)
        ∨ e.isLocal = true) →
      ¬ (e.isForward = true ∨ ∃ c, e = Event.ctxMod ModName.remoteCtxMod c) := by
    intro e h1 h2
    rcases h1 with rfl | ⟨m, hm, c, rfl⟩ | h1
    · rcases h2 with h2 | ⟨c, h2⟩
      · simp [Event.isForward] at h2
      · cases h2
    · rcases h2 with h2 | ⟨c', h2⟩
      · simp [Event.isForward] at h2
      · rw [hloc m hm] at h2
        cases h2
    · rcases h2 with h2 | ⟨c, rfl⟩
      · cases e <;> simp [Event.isForward, Event.isLocal] at h1 h2
      · simp [Event.isLocal] at h1
  refine ⟨rfl, fun r pre post e hp he => ?_, fun r pre post e hp he => ?_,
    fun conn s1 c err hL hG => ?_⟩
  · rcases hL : connSelector.LeaderConn ctx s with ⟨⟨conn, lerr⟩, s1⟩
    cases lerr with
    | some lerr =>
      have hin : e ∈ (AttachNetwork T (NewRaftProxyResourceAllocatorServer localSrv
          connSelector localCtxMod remoteCtxMod) fuel ctx r s).trace := by
        rw [hp]
        simp
      exact absurd he (hnone e (attach_local_trace T _ fuel ctx r s s1 conn lerr hL e hin))
    | none =>
      obtain ⟨t, ht⟩ := attach_remote_trace T (NewRaftProxyResourceAllocatorServer localSrv
        connSelector localCtxMod remoteCtxMod) fuel ctx r s s1 conn hL
      obtain ⟨t', ht'⟩ := runCtxMods_cons_trace
        ⟨ModName.redirectChecker, some (fun c st => (redirectChecker c, st)),
            redirectChecker.leaves⟩
        [⟨ModName.remoteCtxMod, remoteCtxMod, id⟩] _ rfl ctx s1
      have hrem : (NewRaftProxyResourceAllocatorServer localSrv connSelector localCtxMod
          remoteCtxMod).remoteCtxMods
        = [⟨ModName.redirectChecker, some (fun c st => (redirectChecker c, st)),
            redirectChecker.leaves⟩,
            ⟨ModName.remoteCtxMod, remoteCtxMod, id⟩] := rfl
      rw [hrem, ht'] at ht
      exact guard_first_of_prefix _ (t' ++ t) ctx (by rw [ht]; simp) pre post e hp he
  · rcases hL : connSelector.LeaderConn ctx s with ⟨⟨conn, lerr⟩, s1⟩
    cases lerr with
    | some lerr =>
      have hin : e ∈ (DetachNetwork T (NewRaftProxyResourceAllocatorServer localSrv
          connSelector localCtxMod remoteCtxMod) fuel ctx r s).trace := by
        rw [hp]
        simp
      exact absurd he (hnone e (detach_local_trace T _ fuel ctx r s s1 conn lerr hL e hin))
    | none =>
      obtain ⟨t, ht⟩ := detach_remote_trace T (NewRaftProxyResourceAllocatorServer localSrv
        connSelector localCtxMod remoteCtxMod) fuel ctx r s s1 conn hL
      obtain ⟨t', ht'⟩ := runCtxMods_cons_trace
        ⟨ModName.redirectChecker, some (fun c st => (redirectChecker c, st)),
            redirectChecker.leaves⟩
        [⟨ModName.remoteCtxMod, remoteCtxMod, id⟩] _ rfl ctx s1
      have hrem : (NewRaftProxyResourceAllocatorServer localSrv connSelector localCtxMod
          remoteCtxMod).remoteCtxMods
        = [⟨ModName.redirectChecker, some (fun c st => (redirectChecker c, st)),
            redirectChecker.leaves⟩,
            ⟨ModName.remoteCtxMod, remoteCtxMod, id⟩] := rfl
      rw [hrem, ht'] at ht
      exact guard_first_of_prefix _ (t' ++ t) ctx (by rw [ht]; simp) pre post e hp he
  · have hM := remote_chain_guard_fails localSrv connSelector localCtxMod remoteCtxMod ctx c err
      s1 hG
    have hL' : (NewRaftProxyResourceAllocatorServer localSrv connSelector localCtxMod
        remoteCtxMod).connSelector.LeaderConn ctx s = ((conn, none), s1) := hL
    refine ⟨fun r => ?_, fun r => ?_⟩
    · unfold AttachNetwork
      simp [bind, Proc.seq, call, hL', hM, pure, Proc.ret]
    · unfold DetachNetwork
      simp [bind, Proc.seq, call, hL', hM, pure, Proc.ret]

/-- C14 on two runs. A proxy built with nil modifiers gets a context without
transport stream: the guard fails and nothing is called after it. In the run
of `demoProxy` that forwards the call, the forwarded RPC comes after the call
of the guard. -/
theorem redirect_guard_runs_first_witness :
    AttachNetwork (demoTransport (Err.other "transport is closing"))
        (NewRaftProxyResourceAllocatorServer demoLocal (scriptedSelector [(some 1, none)])
          none none) 0 streamlessCtx reqC1 0
      = ⟨.ret (none, some (Err.rpc 3 "remote addr is not found in context")), 1,
          [Event.LeaderConn streamlessCtx,
            Event.ctxMod ModName.redirectChecker streamlessCtx]⟩
    ∧ Event.ctxMod ModName.redirectChecker freshCtx
        ∈ [Event.LeaderConn freshCtx, Event.ctxMod ModName.redirectChecker freshCtx,
            Event.ctxMod ModName.remoteCtxMod markedCtx] :=
  ⟨((redirect_guard_runs_first (demoTransport (Err.other "transport is closing")) demoLocal
      (scriptedSelector [(some 1, none)]) none none 0 streamlessCtx 0).2.2.2 (some 1) 1
      streamlessCtx (Err.rpc 3 "remote addr is not found in context") rfl rfl).1 reqC1,
   (redirect_guard_runs_first (demoTransport (Err.other "transport is closing")) demoLocal
      (scriptedSelector [(some 2, none)]) none
      (some (fun ctx n => (({ ctx with rest := ctx.rest + 1 }, none), n))) 0 freshCtx 0).2.1
      reqC1
      [Event.LeaderConn freshCtx, Event.ctxMod ModName.redirectChecker freshCtx,
        Event.ctxMod ModName.remoteCtxMod markedCtx] []
      (Event.invokeAttachNetwork (some 2) forwardedCtx reqC1 none) rfl (Or.inl rfl)⟩

end Chains

/-! ## The authenticated wrapper -/

section WrapperLemmas

variable {σ : Type}

/-- C16. Both methods of the authenticated wrapper call `authorize` first,
once, with the caller's context and the roles "swarm-worker" and
"swarm-manager". When it answers an error, they return a nil response and
that error and do not call the wrapped implementation. Otherwise they call the
wrapped implementation once, with the same context and request, and return its
response and error unchanged. -/
theorem wrapper_authorizes_first (localSrv : ResourceAllocatorServer σ)
    (authorize : Context → List String → Oracle σ (Option Err)) (ctx : Context) (s s1 : σ) :
    (∀ err : Err, authorize ctx ["swarm-worker", "swarm-manager"] s = (some err, s1) →
      (∀ r : AttachNetworkRequest,
        (NewAuthenticatedWrapperResourceAllocatorServer localSrv authorize).AttachNetwork ctx r s
          = ⟨.ret (none, some err), s1,
              [Event.authorize ctx ["swarm-worker", "swarm-manager"]]⟩)
      ∧ (∀ r : DetachNetworkRequest,
        (NewAuthenticatedWrapperResourceAllocatorServer localSrv authorize).DetachNetwork ctx r s
          = ⟨.ret (none, some err), s1,
              [Event.authorize ctx ["swarm-worker", "swarm-manager"]]⟩))
    ∧ (authorize ctx ["swarm-worker", "swarm-manager"] s = (none, s1) →
      (∀ r : AttachNetworkRequest,
        (NewAuthenticatedWrapperResourceAllocatorServer localSrv authorize).AttachNetwork ctx r s
          = ⟨.ret (localSrv.AttachNetwork ctx r s1).1, (localSrv.AttachNetwork ctx r s1).2,
              [Event.authorize ctx ["swarm-worker", "swarm-manager"],
                Event.localAttachNetwork ctx r]⟩)
      ∧ (∀ r : DetachNetworkRequest,
        (NewAuthenticatedWrapperResourceAllocatorServer localSrv authorize).DetachNetwork ctx r s
          = ⟨.ret (localSrv.DetachNetwork ctx r s1).1, (localSrv.DetachNetwork ctx r s1).2,
              [Event.authorize ctx ["swarm-worker", "swarm-manager"],
                Event.localDetachNetwork ctx r]⟩)) := by
  refine ⟨fun err h => ⟨fun r => ?_, fun r => ?_⟩, fun h => ⟨fun r => ?_, fun r => ?_⟩⟩
  · simp [authenticatedWrapperResourceAllocatorServer.AttachNetwork,
      NewAuthenticatedWrapperResourceAllocatorServer, bind, Proc.seq, call, pure, Proc.ret, h]
  · simp [authenticatedWrapperResourceAllocatorServer.DetachNetwork,
      NewAuthenticatedWrapperResourceAllocatorServer, bind, Proc.seq, call, pure, Proc.ret, h]
  · simp [authenticatedWrapperResourceAllocatorServer.AttachNetwork,
      NewAuthenticatedWrapperResourceAllocatorServer, bind, Proc.seq, call, pure, Proc.ret, h]
  · simp [authenticatedWrapperResourceAllocatorServer.DetachNetwork,
      NewAuthenticatedWrapperResourceAllocatorServer, bind, Proc.seq, call, pure, Proc.ret, h]

/-- C16 on two runs: an authorizer that rejects the call, and one that lets
the two roles of the wrapper through. -/
theorem wrapper_authorizes_first_witness :
    (NewAuthenticatedWrapperResourceAllocatorServer demoLocal denyAuthorize).AttachNetwork
        freshCtx reqC1 0
      = ⟨.ret (none, some (Err.other "permission denied")), 1,
          [Event.authorize freshCtx ["swarm-worker", "swarm-manager"]]⟩
    ∧ (NewAuthenticatedWrapperResourceAllocatorServer demoLocal demoAuthorize).AttachNetwork
        freshCtx reqC1 0
      = ⟨.ret (some ⟨[99, 49]⟩, none), 1,
          [Event.authorize freshCtx ["swarm-worker", "swarm-manager"],
            Event.localAttachNetwork freshCtx reqC1]⟩ :=
  ⟨((wrapper_authorizes_first demoLocal denyAuthorize freshCtx 0 1).1
      (Err.other "permission denied") rfl).1 reqC1,
   ((wrapper_authorizes_first demoLocal demoAuthorize freshCtx 0 1).2 rfl).1 reqC1⟩

end WrapperLemmas

/-! ## The wire format: varints, slices and the loop of `Unmarshal` -/

section WireBasics

theorem sliceFrom_eq (dAtA : List UInt8) (i : Nat) (h : i ≤ dAtA.length) :
    sliceFrom dAtA (i : Int) = some (dAtA.drop i) := by
  unfold sliceFrom sliceOf
  have h1 : (0 : Int) ≤ (i : Int) ∧ (i : Int) ≤ (dAtA.length : Int)
      ∧ (dAtA.length : Int) ≤ (dAtA.length : Int) := by omega
  rw [if_pos h1]
  congr 1
  apply List.take_of_length_le
  simp

theorem byteAt_nat (dAtA : List UInt8) (i : Nat) : byteAt dAtA (i : Int) = dAtA[i]? := by
  unfold byteAt
  simp

theorem byteAt_drop (dAtA : List UInt8) (n j : Nat) :
    byteAt (dAtA.drop n) (j : Int) = byteAt dAtA ((n : Int) + j) := by
  have : ((n : Int) + (j : Int)) = ((n + j : Nat) : Int) := by push_cast; rfl
  rw [this, byteAt_nat, byteAt_nat, List.getElem?_drop]

theorem varintLoop_drop (dAtA : List UInt8) (n : Nat) (hn : n ≤ dAtA.length) (fuel : Nat) :
    ∀ (shift j w : Nat),
      varintLoop (dAtA.drop n) fuel shift (j : Int) w
        = (varintLoop dAtA fuel shift ((n : Int) + j) w).shift (-(n : Int)) := by
  induction fuel with
  | zero => intro shift j w; rfl
  | succ f ih =>
    intro shift j w
    unfold varintLoop
    by_cases hs : shift ≥ 64
    · rw [if_pos hs, if_pos hs]
      rfl
    · rw [if_neg hs, if_neg hs]
      by_cases hj : (j : Int) ≥ ((dAtA.drop n).length : Int)
      · have hj' : (n : Int) + (j : Int) ≥ (dAtA.length : Int) := by
          simp only [List.length_drop] at hj
          omega
        rw [if_pos hj, if_pos hj']
        rfl
      · have hj' : ¬ ((n : Int) + (j : Int) ≥ (dAtA.length : Int)) := by
          simp only [List.length_drop] at hj
          omega
        rw [if_neg hj, if_neg hj', byteAt_drop]
        cases hb : byteAt dAtA ((n : Int) + j) with
        | none => rfl
        | some b =>
          simp only
          by_cases hlt : b.toNat < 0x80
          · rw [if_pos hlt, if_pos hlt]
            simp only [Step.shift]
            congr 1
            omega
          · rw [if_neg hlt, if_neg hlt]
            have h := ih (shift + 7) (j + 1)
              (w ||| (((b.toNat &&& 0x7F) <<< shift) % 18446744073709551616))
            have e1 : ((j : Int) + 1) = ((j + 1 : Nat) : Int) := by push_cast; rfl
            have e2 : (n : Int) + (j : Int) + 1 = (n : Int) + ((j + 1 : Nat) : Int) := by
              push_cast; omega
            rw [e1, e2]
            exact h

theorem readVarint_drop (dAtA : List UInt8) (n : Nat) (hn : n ≤ dAtA.length) (j : Nat) :
    readVarint (dAtA.drop n) (j : Int)
      = (readVarint dAtA ((n : Int) + j)).shift (-(n : Int)) :=
  varintLoop_drop dAtA n hn 11 0 j 0


theorem Step.shift_shift {α : Type} (d e : Int) (r : Step α) :
    (r.shift d).shift e = r.shift (d + e) := by
  cases r <;> simp [Step.shift, Int.add_assoc]

theorem Step.shift_zero {α : Type} (r : Step α) : r.shift 0 = r := by
  cases r <;> simp [Step.shift]

/-- Reading a varint `j` bytes into the part `X` of the input `p ++ X`. -/
theorem readVarint_append_left (p X : List UInt8) (j : Nat) :
    readVarint (p ++ X) ((p.length : Int) + j) = (readVarint X (j : Int)).shift p.length := by
  have h := readVarint_drop (p ++ X) p.length (by simp) j
  rw [List.drop_left] at h
  rw [h, Step.shift_shift]
  simp [Step.shift_zero]

/-- A varint loop that succeeds started at a valid index, read at least one
byte and stopped inside the input. -/
theorem varintLoop_next (dAtA : List UInt8) (fuel : Nat) :
    ∀ (shift : Nat) (i : Int) (w v : Nat) (k : Int),
      varintLoop dAtA fuel shift i w = .next v k → 0 ≤ i ∧ i < k ∧ k ≤ dAtA.length := by
  induction fuel with
  | zero => intro shift i w v k h; simp [varintLoop] at h
  | succ f ih =>
    intro shift i w v k h
    unfold varintLoop at h
    by_cases hs : shift ≥ 64
    · rw [if_pos hs] at h; cases h
    · rw [if_neg hs] at h
      by_cases hi : i ≥ (dAtA.length : Int)
      · rw [if_pos hi] at h; cases h
      · rw [if_neg hi] at h
        cases hb : byteAt dAtA i with
        | none => rw [hb] at h; cases h
        | some b =>
          rw [hb] at h
          simp only at h
          have h0 : 0 ≤ i := by
            by_contra hneg
            unfold byteAt at hb
            rw [if_pos (by omega)] at hb
            cases hb
          by_cases hlt : b.toNat < 0x80
          · rw [if_pos hlt] at h
            simp only [Step.next.injEq] at h
            omega
          · rw [if_neg hlt] at h
            have := ih _ _ _ _ _ h
            omega

theorem readVarint_next (dAtA : List UInt8) (i : Int) (v : Nat) (k : Int)
    (h : readVarint dAtA i = .next v k) : 0 ≤ i ∧ i < k ∧ k ≤ dAtA.length :=
  varintLoop_next dAtA 11 0 i 0 v k h

theorem byteAt_append (X Y : List UInt8) (i : Int) (h : i < X.length) :
    byteAt (X ++ Y) i = byteAt X i := by
  unfold byteAt
  by_cases hneg : i < 0
  · rw [if_pos hneg, if_pos hneg]
  · rw [if_neg hneg, if_neg hneg]
    apply List.getElem?_append_left
    omega

/-- A varint loop that succeeds on an input succeeds in the same way on every
extension of the input. -/
theorem varintLoop_append (X Y : List UInt8) (fuel : Nat) :
    ∀ (shift : Nat) (i : Int) (w v : Nat) (k : Int),
      varintLoop X fuel shift i w = .next v k →
      varintLoop (X ++ Y) fuel shift i w = .next v k := by
  induction fuel with
  | zero => intro shift i w v k h; simp [varintLoop] at h
  | succ f ih =>
    intro shift i w v k h
    unfold varintLoop at h ⊢
    by_cases hs : shift ≥ 64
    · rw [if_pos hs] at h; cases h
    · rw [if_neg hs] at h ⊢
      by_cases hi : i ≥ (X.length : Int)
      · rw [if_pos hi] at h; cases h
      · rw [if_neg hi] at h
        have hi' : ¬ (i ≥ ((X ++ Y).length : Int)) := by
          simp only [List.length_append]
          push_cast
          omega
        rw [if_neg hi', byteAt_append X Y i (by omega)]
        cases hb : byteAt X i with
        | none => rw [hb] at h; cases h
        | some b =>
          rw [hb] at h
          simp only at h ⊢
          by_cases hlt : b.toNat < 0x80
          · rw [if_pos hlt] at h ⊢
            exact h
          · rw [if_neg hlt] at h ⊢
            exact ih _ _ _ _ _ h

theorem readVarint_append (X Y : List UInt8) (i : Int) (v : Nat) (k : Int)
    (h : readVarint X i = .next v k) : readVarint (X ++ Y) i = .next v k :=
  varintLoop_append X Y 11 0 i 0 v k h

/-- The loop that steps over a varint runs like the loop that decodes one. -/
theorem skipVarintLoop_eq (dAtA : List UInt8) (fuel : Nat) :
    ∀ (shift : Nat) (i : Int) (w : Nat),
      skipVarintLoop dAtA fuel shift i
        = match varintLoop dAtA fuel shift i w with
          | .next _ k => .next () k
          | .fail err => .fail err
          | .panic why => .panic why
          | .running => .running := by
  induction fuel with
  | zero => intro shift i w; rfl
  | succ f ih =>
    intro shift i w
    unfold skipVarintLoop varintLoop
    by_cases hs : shift ≥ 64
    · rw [if_pos hs, if_pos hs]
    · rw [if_neg hs, if_neg hs]
      by_cases hi : i ≥ (dAtA.length : Int)
      · rw [if_pos hi, if_pos hi]
      · rw [if_neg hi, if_neg hi]
        simp only [Int.add_sub_cancel]
        cases hb : byteAt dAtA i with
        | none => rfl
        | some b =>
          simp only
          by_cases hlt : b.toNat < 0x80
          · rw [if_pos hlt, if_pos hlt]
          · rw [if_neg hlt, if_neg hlt]
            exact ih _ _ _

/-- The decoded value of a varint is a `uint64`. -/
theorem varintLoop_lt (dAtA : List UInt8) (fuel : Nat) :
    ∀ (shift : Nat) (i : Int) (w v : Nat) (k : Int), w < 18446744073709551616 →
      varintLoop dAtA fuel shift i w = .next v k → v < 18446744073709551616 := by
  induction fuel with
  | zero => intro shift i w v k _ h; simp [varintLoop] at h
  | succ f ih =>
    intro shift i w v k hw h
    unfold varintLoop at h
    by_cases hs : shift ≥ 64
    · rw [if_pos hs] at h; cases h
    · rw [if_neg hs] at h
      by_cases hi : i ≥ (dAtA.length : Int)
      · rw [if_pos hi] at h; cases h
      · rw [if_neg hi] at h
        cases hb : byteAt dAtA i with
        | none => rw [hb] at h; cases h
        | some b =>
          rw [hb] at h
          simp only at h
          have hor : w ||| (((b.toNat &&& 0x7F) <<< shift) % 18446744073709551616)
              < 18446744073709551616 := by
            have h2 : (18446744073709551616 : Nat) = 2 ^ 64 := by norm_num
            rw [h2] at hw ⊢
            exact Nat.or_lt_two_pow hw (Nat.mod_lt _ (by positivity))
          by_cases hlt : b.toNat < 0x80
          · rw [if_pos hlt] at h
            simp only [Step.next.injEq] at h
            omega
          · rw [if_neg hlt] at h
            exact ih _ _ _ _ _ hor h

theorem readVarint_lt (dAtA : List UInt8) (i : Int) (v : Nat) (k : Int)
    (h : readVarint dAtA i = .next v k) : v < 18446744073709551616 :=
  varintLoop_lt dAtA 11 0 i 0 v k (by norm_num) h


theorem wrap64_of_lt (n : Int) (h0 : -9223372036854775808 ≤ n) (h1 : n < 9223372036854775808) :
    wrap64 n = n := by
  unfold wrap64
  omega

theorem wrap64_neg (n : Int) (h0 : 9223372036854775808 ≤ n) (h1 : n < 18446744073709551616) :
    wrap64 n < 0 := by
  unfold wrap64
  omega

theorem wrap64_range (n : Int) :
    -9223372036854775808 ≤ wrap64 n ∧ wrap64 n < 9223372036854775808 := by
  unfold wrap64
  omega

theorem intOfUint64_of_lt (v : Nat) (h : v < 9223372036854775808) :
    intOfUint64 v = (v : Int) := by
  unfold intOfUint64
  exact wrap64_of_lt _ (by omega) (by omega)

theorem intOfUint64_neg (v : Nat) (h0 : 9223372036854775808 ≤ v)
    (h1 : v < 18446744073709551616) : intOfUint64 v < 0 := by
  unfold intOfUint64
  exact wrap64_neg _ (by omega) (by omega)

/-- The group loop returns only after it has read a tag: it stops inside the
input, past the index it started from. -/
theorem skipGroupLoop_next (dAtA : List UInt8) (skip : List UInt8 → Step Unit) (fuel : Nat) :
    ∀ (i k : Int), skipGroupLoop dAtA skip fuel i = .next () k → 0 < k ∧ k ≤ dAtA.length := by
  induction fuel with
  | zero => intro i k h; simp [skipGroupLoop] at h
  | succ f ih =>
    intro i k h
    unfold skipGroupLoop at h
    cases hr : readVarint dAtA i with
    | next w i1 =>
      rw [hr] at h
      simp only at h
      have hb := readVarint_next dAtA i w i1 hr
      by_cases hw : w &&& 0x7 = 4
      · rw [if_pos hw] at h
        simp only [Step.next.injEq, true_and] at h
        omega
      · rw [if_neg hw] at h
        cases hsl : sliceFrom dAtA i with
        | none => rw [hsl] at h; cases h
        | some rest =>
          rw [hsl] at h
          simp only at h
          cases hsk : skip rest with
          | next u n =>
            rw [hsk] at h
            exact ih _ _ h
          | fail e => rw [hsk] at h; cases h
          | panic y => rw [hsk] at h; cases h
          | running => rw [hsk] at h; cases h
    | fail e => rw [hr] at h; cases h
    | panic y => rw [hr] at h; cases h
    | running => rw [hr] at h; cases h

/-- What `skipResource` returns without error is a 64-bit `int` that is at
least 1 unless an addition has wrapped around to a negative value. -/
theorem skipResourceFuel_next (fuel : Nat) (dAtA : List UInt8)
    (hl : dAtA.length < 9223372036854775808) (n : Int)
    (h : skipResourceFuel fuel dAtA = .next () n) :
    n < 9223372036854775808 ∧ (1 ≤ n ∨ n < 0) := by
  cases fuel with
  | zero => simp [skipResourceFuel] at h
  | succ f =>
    unfold skipResourceFuel at h
    by_cases h0 : (0 : Int) < (dAtA.length : Int)
    · rw [if_pos h0] at h
      cases hr : readVarint dAtA 0 with
      | next w i1 =>
        rw [hr] at h
        simp only at h
        have hb := readVarint_next dAtA 0 w i1 hr
        by_cases hw0 : w &&& 0x7 = 0
        · rw [if_pos hw0] at h
          rw [skipVarintLoop_eq dAtA 11 0 i1 0] at h
          cases hv : varintLoop dAtA 11 0 i1 0 with
          | next v k =>
            rw [hv] at h
            simp only [Step.next.injEq, true_and] at h
            have := varintLoop_next dAtA 11 0 i1 0 v k hv
            omega
          | fail e => rw [hv] at h; cases h
          | panic y => rw [hv] at h; cases h
          | running => rw [hv] at h; cases h
        · rw [if_neg hw0] at h
          by_cases hw1 : w &&& 0x7 = 1
          · rw [if_pos hw1] at h
            simp only [Step.next.injEq, true_and] at h
            have hr := wrap64_range (i1 + 8)
            by_cases hsum : i1 + 8 < 9223372036854775808
            · rw [wrap64_of_lt _ (by omega) hsum] at h
              omega
            · have := wrap64_neg (i1 + 8) (by omega) (by omega)
              omega
          · rw [if_neg hw1] at h
            by_cases hw2 : w &&& 0x7 = 2
            · rw [if_pos hw2] at h
              cases hr2 : readVarint dAtA i1 with
              | next v i2 =>
                rw [hr2] at h
                simp only at h
                have hb2 := readVarint_next dAtA i1 v i2 hr2
                have hv := readVarint_lt dAtA i1 v i2 hr2
                by_cases hneg : intOfUint64 v < 0
                · rw [if_pos hneg] at h; cases h
                · rw [if_neg hneg] at h
                  simp only [Step.next.injEq, true_and] at h
                  have hv2 : v < 9223372036854775808 := by
                    by_contra hc
                    exact hneg (intOfUint64_neg v (by omega) hv)
                  rw [intOfUint64_of_lt v hv2] at h
                  have hr := wrap64_range (i2 + (v : Int))
                  by_cases hsum : i2 + (v : Int) < 9223372036854775808
                  · rw [wrap64_of_lt _ (by omega) hsum] at h
                    omega
                  · have := wrap64_neg (i2 + (v : Int)) (by omega) (by omega)
                    omega
              | fail e => rw [hr2] at h; cases h
              | panic y => rw [hr2] at h; cases h
              | running => rw [hr2] at h; cases h
            · rw [if_neg hw2] at h
              by_cases hw3 : w &&& 0x7 = 3
              · rw [if_pos hw3] at h
                have := skipGroupLoop_next dAtA _ f i1 n h
                omega
              · rw [if_neg hw3] at h
                by_cases hw4 : w &&& 0x7 = 4
                · rw [if_pos hw4] at h
                  simp only [Step.next.injEq, true_and] at h
                  omega
                · rw [if_neg hw4] at h
                  by_cases hw5 : w &&& 0x7 = 5
                  · rw [if_pos hw5] at h
                    simp only [Step.next.injEq, true_and] at h
                    have hr := wrap64_range (i1 + 4)
                    by_cases hsum : i1 + 4 < 9223372036854775808
                    · rw [wrap64_of_lt _ (by omega) hsum] at h
                      omega
                    · have := wrap64_neg (i1 + 4) (by omega) (by omega)
                      omega
                  · rw [if_neg hw5] at h; cases h
      | fail e => rw [hr] at h; cases h
      | panic y => rw [hr] at h; cases h
      | running => rw [hr] at h; cases h
    · rw [if_neg h0] at h; cases h


end WireBasics

section Loop

variable {M : Type}

theorem unmarshalLoop_ok (name : String)
    (field : M → List UInt8 → Int → Int → Int → Nat → Step M) (dAtA : List UInt8)
    (fuel : Nat) :
    ∀ (m : M) (i : Int) (mf : M), unmarshalLoop name field dAtA fuel m i = .ok mf →
      Parses (unmarshalStep name field dAtA) dAtA.length m i mf := by
  induction fuel with
  | zero => intro m i mf h; simp [unmarshalLoop] at h
  | succ f ih =>
    intro m i mf h
    unfold unmarshalLoop at h
    by_cases hi : i < (dAtA.length : Int)
    · rw [if_pos hi] at h
      cases hs : unmarshalStep name field dAtA m i with
      | next m' i' =>
        rw [hs] at h
        exact Parses.step m i m' i' mf hi hs (ih m' i' mf h)
      | fail e => rw [hs] at h; cases h
      | panic y => rw [hs] at h; cases h
      | running => rw [hs] at h; cases h
    · rw [if_neg hi] at h
      by_cases hg : i > (dAtA.length : Int)
      · rw [if_pos hg] at h; cases h
      · rw [if_neg hg] at h
        have : i = (dAtA.length : Int) := by omega
        subst this
        cases h
        exact Parses.done _

/-- A successful run starts at a valid index, provided the body of the loop
fails at negative indices. -/
theorem Parses.nonneg {step : M → Int → Step M} {len : Nat}
    (hneg : ∀ m i m' i', step m i = .next m' i' → 0 ≤ i)
    {m : M} {i : Int} {mf : M} (h : Parses step len m i mf) : 0 ≤ i := by
  cases h with
  | done => omega
  | step _ _ m' i' _ _ hs _ => exact hneg _ _ _ _ hs

theorem unmarshalLoop_of_parses (name : String)
    (field : M → List UInt8 → Int → Int → Int → Nat → Step M) (dAtA : List UInt8)
    (hprog : ∀ m i m' i', unmarshalStep name field dAtA m i = .next m' i' →
      0 ≤ i ∧ (i < i' ∨ i' < 0))
    (m : M) (i : Int) (mf : M)
    (h : Parses (unmarshalStep name field dAtA) dAtA.length m i mf) :
    ∀ fuel : Nat, (dAtA.length : Int) - i < fuel →
      unmarshalLoop name field dAtA fuel m i = .ok mf := by
  induction h with
  | done m =>
    intro fuel hf
    cases fuel with
    | zero => omega
    | succ f => simp [unmarshalLoop]
  | step m i m' i' mf hi hs hrest ih =>
    intro fuel hf
    cases fuel with
    | zero => omega
    | succ f =>
      unfold unmarshalLoop
      rw [if_pos hi, hs]
      simp only
      apply ih
      have h1 := hprog m i m' i' hs
      have h2 := Parses.nonneg (fun m i m' i' h => (hprog m i m' i' h).1) hrest
      push_cast at hf
      omega

end Loop
/-! ## Decoding errors -/

section NegativeLength

/-- The field at the index `n` of the input as `skipResource` sees it when it
is handed the slice `dAtA[n:]`: a tag of wire type 2 and a length that is
negative as an `int` make it return `ErrInvalidLengthResource`. -/
theorem skipResource_negative_length (dAtA : List UInt8) (n : Nat) (i1 i2 : Int)
    (wire v : Nat) (hn : n < dAtA.length)
    (hT : readVarint dAtA n = .next wire i1) (hW : wire &&& 0x7 = 2)
    (hV : readVarint dAtA i1 = .next v i2) (hN : intOfUint64 v < 0) :
    skipResource (dAtA.drop n) = .fail ErrInvalidLengthResource := by
  have hb := readVarint_next dAtA n wire i1 hT
  obtain ⟨k1, rfl⟩ : ∃ k1 : Nat, i1 = (n : Int) + k1 := ⟨(i1 - n).toNat, by omega⟩
  have h1 : readVarint (dAtA.drop n) 0 = .next wire (k1 : Int) := by
    have := readVarint_drop dAtA n (by omega) 0
    simp only [Nat.cast_zero, Int.add_zero] at this
    rw [this, hT]
    simp [Step.shift]
  have h2 : readVarint (dAtA.drop n) (k1 : Int) = .next v (i2 - n) := by
    rw [readVarint_drop dAtA n (by omega) k1, hV]
    simp only [Step.shift]
    congr 1
  have h0 : (0 : Int) < ((dAtA.drop n).length : Int) := by
    simp only [List.length_drop]
    omega
  unfold skipResource skipResourceFuel
  rw [if_pos h0, h1]
  simp only [hW]
  simp only [show ¬ (2 = 0) by decide, show ¬ (2 = 1) by decide, if_false, if_true, h2, hN]

theorem readLengthDelimited_negative (dAtA : List UInt8) (i1 i2 : Int) (v : Nat)
    (hV : readVarint dAtA i1 = .next v i2) (hN : intOfUint64 v < 0) :
    readLengthDelimited dAtA i1 = .fail ErrInvalidLengthResource := by
  unfold readLengthDelimited
  rw [hV]
  simp only [hN, if_true]

theorem skipField_negative (dAtA : List UInt8) (n : Nat) (i1 i2 : Int)
    (wire v : Nat) (hn : n < dAtA.length)
    (hT : readVarint dAtA n = .next wire i1) (hW : wire &&& 0x7 = 2)
    (hV : readVarint dAtA i1 = .next v i2) (hN : intOfUint64 v < 0) :
    skipField dAtA n = .fail ErrInvalidLengthResource := by
  unfold skipField
  simp only
  rw [sliceFrom_eq dAtA n (by omega)]
  simp only
  rw [skipResource_negative_length dAtA n i1 i2 wire v hn hT hW hV hN]

theorem readTag_of_readVarint (name : String) (dAtA : List UInt8) (i i1 : Int) (wire : Nat)
    (hT : readVarint dAtA i = .next wire i1) (hW : wire &&& 0x7 ≠ 4)
    (hF : 0 < int32OfUint64 (wire >>> 3)) :
    readTag name dAtA i = .next (int32OfUint64 (wire >>> 3), wire &&& 0x7) i1 := by
  unfold readTag
  rw [hT]
  simp only
  rw [if_neg hW, if_neg (by omega)]

end NegativeLength

section Overflow

/-- C18 at the failing inputs. In each input a length-delimited field declares
the length `2^63 - 1` or `2^63 - 11`, far more than the bytes that remain
after its length prefix (none). The sum of the index and the declared length
wraps around to a negative `int`, the test `postIndex > l` (or
`iNdEx + skippy > l`) lets it through, and `Unmarshal` panics instead of
returning `io.ErrUnexpectedEOF`: on the slice expression
`dAtA[iNdEx:postIndex]` for a declared field, on the next `dAtA[iNdEx]` for a
skipped unknown field. -/
theorem truncated_length_overflow_panics :
    readVarint [0x0a, 0xff, 0xff, 0xff, 0xff, 0xff, 0xff, 0xff, 0xff, 0x7f] 1
      = .next 9223372036854775807 10
    ∧ AttachNetworkResponse.Unmarshal ⟨[]⟩
        [0x0a, 0xff, 0xff, 0xff, 0xff, 0xff, 0xff, 0xff, 0xff, 0x7f]
      = .panic Panic.sliceBoundsOutOfRange
    ∧ DetachNetworkRequest.Unmarshal ⟨[]⟩
        [0x0a, 0xff, 0xff, 0xff, 0xff, 0xff, 0xff, 0xff, 0xff, 0x7f]
      = .panic Panic.sliceBoundsOutOfRange
    ∧ AttachNetworkRequest.Unmarshal demoCodec ⟨none, []⟩
        [0x0a, 0xff, 0xff, 0xff, 0xff, 0xff, 0xff, 0xff, 0xff, 0x7f]
      = .panic Panic.sliceBoundsOutOfRange
    ∧ AttachNetworkRequest.Unmarshal demoCodec ⟨none, []⟩
        [0x12, 0xff, 0xff, 0xff, 0xff, 0xff, 0xff, 0xff, 0xff, 0x7f]
      = .panic Panic.sliceBoundsOutOfRange
    ∧ readVarint [0x08, 0x00, 0x0a, 0xf5, 0xff, 0xff, 0xff, 0xff, 0xff, 0xff, 0xff, 0x7f] 3
      = .next 9223372036854775797 12
    ∧ DetachNetworkResponse.Unmarshal ⟨⟩
        [0x08, 0x00, 0x0a, 0xf5, 0xff, 0xff, 0xff, 0xff, 0xff, 0xff, 0xff, 0x7f]
      = .panic Panic.indexOutOfRange := by
  refine ⟨?_, ?_, ?_, ?_, ?_, ?_, ?_⟩ <;> decide

/-- C19 at failing inputs: `Unmarshal` of each of the four messages panics,
and so does `skipResource` on a group whose inner field declares the length
`2^63 - 1`; the same inputs with a short declared length are decoded, or
rejected with an error. -/
theorem decoding_panics_on_overflow :
    AttachNetworkRequest.Unmarshal demoCodec ⟨none, []⟩
        [0x12, 0xff, 0xff, 0xff, 0xff, 0xff, 0xff, 0xff, 0xff, 0x7f]
      = .panic Panic.sliceBoundsOutOfRange
    ∧ AttachNetworkResponse.Unmarshal ⟨[]⟩
        [0x0a, 0xff, 0xff, 0xff, 0xff, 0xff, 0xff, 0xff, 0xff, 0x7f]
      = .panic Panic.sliceBoundsOutOfRange
    ∧ DetachNetworkRequest.Unmarshal ⟨[]⟩
        [0x0a, 0xff, 0xff, 0xff, 0xff, 0xff, 0xff, 0xff, 0xff, 0x7f]
      = .panic Panic.sliceBoundsOutOfRange
    ∧ DetachNetworkResponse.Unmarshal ⟨⟩
        [0x08, 0x00, 0x0a, 0xf5, 0xff, 0xff, 0xff, 0xff, 0xff, 0xff, 0xff, 0x7f]
      = .panic Panic.indexOutOfRange
    ∧ skipResource [0x0b, 0x0a, 0xff, 0xff, 0xff, 0xff, 0xff, 0xff, 0xff, 0xff, 0x7f]
      = .panic Panic.indexOutOfRange
    ∧ AttachNetworkResponse.Unmarshal ⟨[]⟩ [0x0a, 0x02, 0x61, 0x62] = .ok ⟨[0x61, 0x62]⟩
    ∧ AttachNetworkResponse.Unmarshal ⟨[]⟩ [0x0a, 0x05, 0x61, 0x62]
      = .error io.ErrUnexpectedEOF := by
  refine ⟨?_, ?_, ?_, ?_, ?_, ?_, ?_⟩ <;> decide

end Overflow

/-! ## Forward-compatible skipping -/

section Pieces

theorem sliceOf_eq (X : List UInt8) (lo n : Nat) (h : lo + n ≤ X.length) :
    sliceOf X (lo : Int) ((lo : Int) + n) = some ((X.drop lo).take n) := by
  unfold sliceOf
  rw [if_pos (by omega)]
  simp

/-- When the decoding of a length-delimited field goes on, the length it has
read is the number of bytes between the length prefix and the index it goes on
at, and those bytes are what it hands over. -/
theorem readLengthDelimited_next_iff (X : List UInt8) (hX : X.length < 9223372036854775808)
    (i : Int) (bs : List UInt8) (k : Int) :
    readLengthDelimited X i = .next bs k ↔
      ∃ (v i2 : Nat), readVarint X i = .next v i2 ∧ i2 + v ≤ X.length
        ∧ k = ((i2 + v : Nat) : Int) ∧ bs = (X.drop i2).take v := by
  constructor
  · intro h
    unfold readLengthDelimited at h
    cases hr : readVarint X i with
    | next v i2 =>
      rw [hr] at h
      simp only at h
      have hb := readVarint_next X i v i2 hr
      have hv := readVarint_lt X i v i2 hr
      by_cases hneg : intOfUint64 v < 0
      · rw [if_pos hneg] at h; cases h
      · rw [if_neg hneg] at h
        have hv2 : v < 9223372036854775808 := by
          by_contra hc
          exact hneg (intOfUint64_neg v (by omega) hv)
        rw [intOfUint64_of_lt v hv2] at h
        by_cases hgt : wrap64 (i2 + (v : Int)) > (X.length : Int)
        · rw [if_pos hgt] at h; cases h
        · rw [if_neg hgt] at h
          cases hsl : sliceOf X i2 (wrap64 (i2 + (v : Int))) with
          | none => rw [hsl] at h; cases h
          | some s =>
            rw [hsl] at h
            simp only [Step.next.injEq] at h
            obtain ⟨rfl, rfl⟩ := h
            unfold sliceOf at hsl
            by_cases hc : 0 ≤ i2 ∧ i2 ≤ wrap64 (i2 + (v : Int))
                ∧ wrap64 (i2 + (v : Int)) ≤ (X.length : Int)
            · have hsum : i2 + (v : Int) < 9223372036854775808 := by
                by_contra hx
                have := wrap64_neg (i2 + (v : Int)) (by omega) (by omega)
                omega
              have hw := wrap64_of_lt (i2 + (v : Int)) (by omega) hsum
              obtain ⟨n2, rfl⟩ : ∃ n2 : Nat, i2 = (n2 : Int) := ⟨i2.toNat, by omega⟩
              refine ⟨v, n2, rfl, by omega, ?_, ?_⟩
              · rw [hw]; push_cast; rfl
              · rw [if_pos hc] at hsl
                simp only [Option.some.injEq] at hsl
                rw [← hsl, hw]
                simp
            · rw [if_neg hc] at hsl; cases hsl
    | fail e => rw [hr] at h; cases h
    | panic y => rw [hr] at h; cases h
    | running => rw [hr] at h; cases h
  · rintro ⟨v, i2, hr, hle, rfl, rfl⟩
    unfold readLengthDelimited
    rw [hr]
    simp only
    have hv2 : v < 9223372036854775808 := by omega
    rw [intOfUint64_of_lt v hv2]
    have hw := wrap64_of_lt ((i2 : Int) + (v : Int)) (by omega) (by omega)
    rw [hw, if_neg (by omega), if_neg (by omega), sliceOf_eq X i2 v hle]
    simp


theorem skipResource_next (X : List UInt8) (hX : X.length < 9223372036854775808) (n : Int)
    (h : skipResource X = .next () n) : n < 9223372036854775808 ∧ (1 ≤ n ∨ n < 0) :=
  skipResourceFuel_next (X.length + 1) X hX n h

/-- When the `default` case goes on at a valid index, it has stepped over
`n ≥ 1` bytes that `skipResource` counted on the slice `dAtA[preIndex:]`, all
inside the input. -/
theorem skipField_next_iff (X : List UInt8) (hX : X.length < 9223372036854775808)
    (i : Int) (k : Int) :
    (skipField X i = .next () k ∧ 0 ≤ k) ↔
      ∃ (i0 n : Nat), i = (i0 : Int) ∧ i0 ≤ X.length
        ∧ skipResource (X.drop i0) = .next () (n : Int) ∧ 1 ≤ n ∧ i0 + n ≤ X.length
        ∧ k = ((i0 + n : Nat) : Int) := by
  constructor
  · rintro ⟨h, hk⟩
    unfold skipField at h
    simp only at h
    cases hsl : sliceFrom X i with
    | none => rw [hsl] at h; cases h
    | some rest =>
      rw [hsl] at h
      simp only at h
      have hi : 0 ≤ i ∧ i ≤ (X.length : Int) := by
        unfold sliceFrom sliceOf at hsl
        by_cases hc : 0 ≤ i ∧ i ≤ (X.length : Int) ∧ (X.length : Int) ≤ (X.length : Int)
        · exact ⟨hc.1, hc.2.1⟩
        · rw [if_neg hc] at hsl; cases hsl
      obtain ⟨i0, rfl⟩ : ∃ i0 : Nat, i = (i0 : Int) := ⟨i.toNat, by omega⟩
      have hi0 : i0 ≤ X.length := by omega
      rw [sliceFrom_eq X i0 hi0] at hsl
      simp only [Option.some.injEq] at hsl
      subst hsl
      cases hsk : skipResource (X.drop i0) with
      | next u n =>
        rw [hsk] at h
        simp only at h
        have hn := skipResource_next (X.drop i0) (by simp; omega) n hsk
        by_cases hneg : n < 0
        · rw [if_pos hneg] at h; cases h
        · rw [if_neg hneg] at h
          by_cases hgt : wrap64 ((i0 : Int) + n) > (X.length : Int)
          · rw [if_pos hgt] at h; cases h
          · rw [if_neg hgt] at h
            simp only [Step.next.injEq, true_and] at h
            have hsum : (i0 : Int) + n < 9223372036854775808 := by
              by_contra hx
              have := wrap64_neg ((i0 : Int) + n) (by omega) (by omega)
              omega
            have hw := wrap64_of_lt ((i0 : Int) + n) (by omega) hsum
            obtain ⟨n0, rfl⟩ : ∃ n0 : Nat, n = (n0 : Int) := ⟨n.toNat, by omega⟩
            refine ⟨i0, n0, rfl, hi0, hsk, by omega, by omega, ?_⟩
            rw [← h, hw]
            push_cast
            rfl
      | fail e => rw [hsk] at h; cases h
      | panic y => rw [hsk] at h; cases h
      | running => rw [hsk] at h; cases h
  · rintro ⟨i0, n, rfl, hi0, hsk, hn, hle, rfl⟩
    unfold skipField
    simp only
    rw [sliceFrom_eq X i0 hi0]
    simp only
    rw [hsk]
    simp only
    have hw := wrap64_of_lt ((i0 : Int) + (n : Int)) (by omega) (by omega)
    rw [if_neg (by omega), hw, if_neg (by omega)]
    constructor
    · congr 1
    · omega

/-- The head of an iteration, `j` bytes into the part `X` of the input
`p ++ X`. -/
theorem readTag_append_left (name : String) (p X : List UInt8) (j : Nat) :
    readTag name (p ++ X) ((p.length : Int) + j) = (readTag name X (j : Int)).shift p.length := by
  unfold readTag
  rw [readVarint_append_left]
  cases readVarint X (j : Int) with
  | next w i1 =>
    simp only [Step.shift]
    split
    · rfl
    · split <;> rfl
  | fail e => rfl
  | panic y => rfl
  | running => rfl

/-- A length-delimited field is decoded in the part `X` of the input `p ++ X`
as it is decoded in `X` alone. -/
theorem readLengthDelimited_shift (p X : List UInt8)
    (hX : (p ++ X).length < 9223372036854775808) (j : Nat) (bs : List UInt8) (k : Int) :
    readLengthDelimited (p ++ X) ((p.length : Int) + j) = .next bs k ↔
      ∃ k' : Nat, readLengthDelimited X (j : Int) = .next bs k' ∧ k = (p.length : Int) + k' := by
  have hX' : X.length < 9223372036854775808 := by
    simp only [List.length_append] at hX
    omega
  rw [readLengthDelimited_next_iff (p ++ X) hX]
  constructor
  · rintro ⟨v, i2, hr, hle, rfl, rfl⟩
    rw [readVarint_append_left] at hr
    cases hs : readVarint X (j : Int) with
    | next v' i2' =>
      rw [hs] at hr
      simp only [Step.shift, Step.next.injEq] at hr
      obtain ⟨rfl, hi2⟩ := hr
      have hb := readVarint_next X j v' i2' hs
      obtain ⟨n2, rfl⟩ : ∃ n2 : Nat, i2' = (n2 : Int) := ⟨i2'.toNat, by omega⟩
      have hi2' : i2 = n2 + p.length := by omega
      subst hi2'
      simp only [List.length_append] at hle
      refine ⟨n2 + v', ?_, by push_cast; omega⟩
      rw [readLengthDelimited_next_iff X hX']
      refine ⟨v', n2, hs, by omega, rfl, ?_⟩
      rw [Nat.add_comm n2 p.length, ← List.drop_drop, List.drop_left]
    | fail e => rw [hs] at hr; simp [Step.shift] at hr
    | panic y => rw [hs] at hr; simp [Step.shift] at hr
    | running => rw [hs] at hr; simp [Step.shift] at hr
  · rintro ⟨k', h, rfl⟩
    rw [readLengthDelimited_next_iff X hX'] at h
    obtain ⟨v, i2, hr, hle, hk, rfl⟩ := h
    refine ⟨v, p.length + i2, ?_, by simp only [List.length_append]; omega, ?_, ?_⟩
    · rw [readVarint_append_left, hr]
      simp only [Step.shift]
      congr 1
      push_cast
      omega
    · push_cast at hk ⊢
      omega
    · rw [← List.drop_drop, List.drop_left]

/-- An unknown field is stepped over in the part `X` of the input `p ++ X` as
it is stepped over in `X` alone. -/
theorem skipField_shift (p X : List UInt8)
    (hX : (p ++ X).length < 9223372036854775808) (j : Nat) (k : Int) :
    (skipField (p ++ X) ((p.length : Int) + j) = .next () k ∧ 0 ≤ k) ↔
      ∃ k' : Nat, skipField X (j : Int) = .next () k' ∧ k = (p.length : Int) + k' := by
  have hX' : X.length < 9223372036854775808 := by
    simp only [List.length_append] at hX
    omega
  rw [skipField_next_iff (p ++ X) hX]
  constructor
  · rintro ⟨i0, n, hi, hi0, hsk, hn, hle, rfl⟩
    have hi' : i0 = p.length + j := by omega
    subst hi'
    rw [← List.drop_drop, List.drop_left] at hsk
    simp only [List.length_append] at hle hi0
    refine ⟨j + n, ?_, by push_cast; omega⟩
    exact ((skipField_next_iff X hX' j ((j + n : Nat) : Int)).2
      ⟨j, n, rfl, by omega, hsk, hn, by omega, rfl⟩).1
  · rintro ⟨k', h, rfl⟩
    have h' := (skipField_next_iff X hX' j (k' : Int)).1 ⟨h, by omega⟩
    obtain ⟨i0, n, hi, hi0, hsk, hn, hle, hk⟩ := h'
    have hi' : i0 = j := by omega
    subst hi'
    refine ⟨p.length + i0, n, by push_cast; rfl, by simp only [List.length_append]; omega, ?_,
      hn, by simp only [List.length_append]; omega, ?_⟩
    · rw [← List.drop_drop, List.drop_left]
      exact hsk
    · push_cast at hk ⊢
      omega

end Pieces

section Fields

theorem IsVarint.one_le_length {v : Nat} {t : List UInt8} (h : IsVarint v t) : 1 ≤ t.length := by
  have := readVarint_next t 0 v t.length h
  omega

/-- A varint that stands after `p` is read there, whatever follows it. -/
theorem IsVarint.read {v : Nat} {t : List UInt8} (h : IsVarint v t) (p Y : List UInt8) :
    readVarint (p ++ (t ++ Y)) (p.length : Int) = .next v ((p.length + t.length : Nat) : Int) := by
  have h1 := readVarint_append t Y 0 v t.length h
  have h2 := readVarint_append_left p (t ++ Y) 0
  simp only [Nat.cast_zero, add_zero] at h2
  rw [h2, h1]
  simp only [Step.shift]
  congr 1
  push_cast
  omega

theorem IsVarint.read_zero {v : Nat} {t : List UInt8} (h : IsVarint v t) (Y : List UInt8) :
    readVarint (t ++ Y) 0 = .next v (t.length : Int) :=
  readVarint_append t Y 0 v t.length h

theorem IsField.tag {wire : Nat} {f : List UInt8} (h : IsField wire f) :
    ∃ t rest, f = t ++ rest ∧ IsVarint wire t ∧ wire &&& 0x7 ≠ 4 := by
  cases h with
  | varint _ v t p ht hw _ => exact ⟨t, p, rfl, ht, by omega⟩
  | fixed64 _ t p ht hw _ => exact ⟨t, p, rfl, ht, by omega⟩
  | bytes _ len t lt data ht hw _ _ => exact ⟨t, _, rfl, ht, by omega⟩
  | group _ stop t inner e ht hw _ _ _ => exact ⟨t, _, rfl, ht, by omega⟩
  | fixed32 _ t p ht hw _ => exact ⟨t, p, rfl, ht, by omega⟩

theorem IsField.nonempty {wire : Nat} {f : List UInt8} (h : IsField wire f) : 1 ≤ f.length := by
  obtain ⟨t, rest, rfl, ht, _⟩ := h.tag
  have := ht.one_le_length
  simp only [List.length_append]
  omega


theorem fieldBytes_length_le (inner : List (Nat × List UInt8))
    (h : ∀ g ∈ inner, 1 ≤ g.2.length) : inner.length ≤ (fieldBytes inner).length := by
  induction inner with
  | nil => simp [fieldBytes]
  | cons g gs ih =>
    have h1 := h g (List.mem_cons_self _ _)
    have h2 := ih (fun x hx => h x (List.mem_cons_of_mem _ hx))
    simp only [fieldBytes, List.length_cons, List.length_append]
    omega

theorem fieldBytes_mem_length (inner : List (Nat × List UInt8)) :
    ∀ g ∈ inner, g.2.length ≤ (fieldBytes inner).length := by
  induction inner with
  | nil => intro g hg; cases hg
  | cons x xs ih =>
    intro g hg
    simp only [fieldBytes, List.length_append]
    rcases List.mem_cons.1 hg with rfl | hg
    · omega
    · have := ih g hg
      omega

/-- The loop over the fields of a group steps over complete fields up to the
end-group tag, when the recursive call steps over each of them. -/
theorem skipGroupLoop_fields (skip : List UInt8 → Step Unit) (stop : Nat)
    (e Y : List UInt8) (he : IsVarint stop e) (hs : stop &&& 0x7 = 4) :
    ∀ (inner : List (Nat × List UInt8)),
      (∀ g ∈ inner, ∀ Y1, skip (g.2 ++ Y1) = .next () (g.2.length : Int)) →
      (∀ g ∈ inner, ∃ t rest, g.2 = t ++ rest ∧ IsVarint g.1 t ∧ g.1 &&& 0x7 ≠ 4) →
      ∀ (p : List UInt8) (n : Nat), inner.length + 1 ≤ n →
        p.length + (fieldBytes inner).length + e.length < 9223372036854775808 →
        skipGroupLoop (p ++ (fieldBytes inner ++ (e ++ Y))) skip n (p.length : Int)
          = .next () ((p.length + (fieldBytes inner).length + e.length : Nat) : Int) := by
  intro inner
  induction inner with
  | nil =>
    intro _ _ p n hn _
    obtain ⟨n1, rfl⟩ : ∃ n1, n = n1 + 1 := ⟨n - 1, by simp at hn; omega⟩
    unfold skipGroupLoop
    simp only [fieldBytes, List.nil_append]
    rw [he.read p Y]
    simp only
    rw [if_pos hs]
    simp
  | cons g gs ih =>
    intro hskip htag p n hn hlen
    obtain ⟨n1, rfl⟩ : ∃ n1, n = n1 + 1 := ⟨n - 1, by simp at hn; omega⟩
    obtain ⟨t, rest, hg, ht, hw⟩ := htag g (List.mem_cons_self _ _)
    simp only [fieldBytes, List.length_append] at hlen ⊢
    have hD : p ++ ((g.2 ++ fieldBytes gs) ++ (e ++ Y))
        = p ++ (t ++ (rest ++ (fieldBytes gs ++ (e ++ Y)))) := by
      rw [hg]; simp only [List.append_assoc]
    unfold skipGroupLoop
    simp only
    have hr : readVarint (p ++ ((g.2 ++ fieldBytes gs) ++ (e ++ Y))) (p.length : Int)
        = .next g.1 ((p.length + t.length : Nat) : Int) := by
      rw [hD]; exact ht.read p _
    rw [hr]
    simp only
    rw [if_neg hw, sliceFrom_eq _ p.length (by simp)]
    simp only [List.drop_left]
    rw [List.append_assoc, hskip g (List.mem_cons_self _ _)]
    simp only
    have hw64 : wrap64 ((p.length : Int) + (g.2.length : Int)) = ((p ++ g.2).length : Int) := by
      rw [wrap64_of_lt _ (by omega) (by omega)]
      simp
    rw [hw64]
    have := ih (fun x hx => hskip x (List.mem_cons_of_mem _ hx))
      (fun x hx => htag x (List.mem_cons_of_mem _ hx)) (p ++ g.2) n1
      (by simp at hn; omega) (by simp only [List.length_append]; omega)
    simp only [List.append_assoc] at this
    rw [this]
    simp only [List.length_append]
    exact congrArg (Step.next ()) (by omega)


/-- Function `skipResource` returns the length of a complete field that heads
its input, whatever follows the field. -/
theorem skipResourceFuel_field {wire : Nat} {f : List UInt8} (h : IsField wire f) :
    ∀ (Y : List UInt8) (F : Nat), f.length + 1 ≤ F → f.length < 9223372036854775808 →
      skipResourceFuel F (f ++ Y) = .next () (f.length : Int) := by
  induction h with
  | varint wire v t p ht hw hp =>
    intro Y F hF hlen
    obtain ⟨F1, rfl⟩ : ∃ F1, F = F1 + 1 := ⟨F - 1, by omega⟩
    have hpos := ht.one_le_length
    simp only [List.length_append] at hlen ⊢
    unfold skipResourceFuel
    rw [if_pos (by simp only [List.length_append]; omega), List.append_assoc, ht.read_zero]
    simp only
    rw [if_pos hw, skipVarintLoop_eq _ 11 0 _ 0]
    have := hp.read t Y
    unfold readVarint at this
    rw [this]
  | fixed64 wire t p ht hw hp =>
    intro Y F hF hlen
    obtain ⟨F1, rfl⟩ : ∃ F1, F = F1 + 1 := ⟨F - 1, by omega⟩
    have hpos := ht.one_le_length
    simp only [List.length_append] at hlen ⊢
    unfold skipResourceFuel
    rw [if_pos (by simp only [List.length_append]; omega), List.append_assoc, ht.read_zero]
    simp only
    rw [if_neg (by omega), if_pos hw, wrap64_of_lt _ (by omega) (by omega)]
    exact congrArg (Step.next ()) (by omega)
  | bytes wire len t lt data ht hw hl hd =>
    intro Y F hF hlen
    obtain ⟨F1, rfl⟩ : ∃ F1, F = F1 + 1 := ⟨F - 1, by omega⟩
    have hpos := ht.one_le_length
    simp only [List.length_append] at hlen ⊢
    unfold skipResourceFuel
    rw [if_pos (by simp only [List.length_append]; omega), List.append_assoc, ht.read_zero]
    simp only
    rw [if_neg (by omega), if_neg (by omega), if_pos hw, List.append_assoc, hl.read t (data ++ Y)]
    simp only
    rw [intOfUint64_of_lt len (by omega), if_neg (by omega),
      wrap64_of_lt _ (by omega) (by omega)]
    exact congrArg (Step.next ()) (by omega)
  | group wire stop t inner e ht hw hin he hs ih =>
    intro Y F hF hlen
    obtain ⟨F1, rfl⟩ : ∃ F1, F = F1 + 1 := ⟨F - 1, by omega⟩
    have hpos := ht.one_le_length
    have hepos := he.one_le_length
    simp only [List.length_append] at hlen hF ⊢
    unfold skipResourceFuel
    rw [if_pos (by simp only [List.length_append]; omega), List.append_assoc, ht.read_zero]
    simp only
    rw [if_neg (by omega), if_neg (by omega), if_neg (by omega), if_pos hw, List.append_assoc]
    have hcount := fieldBytes_length_le inner (fun g hg => (hin g hg).nonempty)
    rw [skipGroupLoop_fields (skipResourceFuel F1) stop e Y he hs inner
      (fun g hg Y1 => ih g hg Y1 F1
        (by have := fieldBytes_mem_length inner g hg; omega)
        (by have := fieldBytes_mem_length inner g hg; omega))
      (fun g hg => (hin g hg).tag) t F1 (by omega) (by omega)]
    exact congrArg (Step.next ()) (by omega)
  | fixed32 wire t p ht hw hp =>
    intro Y F hF hlen
    obtain ⟨F1, rfl⟩ : ∃ F1, F = F1 + 1 := ⟨F - 1, by omega⟩
    have hpos := ht.one_le_length
    simp only [List.length_append] at hlen ⊢
    unfold skipResourceFuel
    rw [if_pos (by simp only [List.length_append]; omega), List.append_assoc, ht.read_zero]
    simp only
    rw [if_neg (by omega), if_neg (by omega), if_neg (by omega), if_neg (by omega),
      if_neg (by omega), if_pos hw, wrap64_of_lt _ (by omega) (by omega)]
    exact congrArg (Step.next ()) (by omega)

theorem skipResource_field {wire : Nat} {f : List UInt8} (h : IsField wire f)
    (Y : List UInt8) (hlen : f.length < 9223372036854775808) :
    skipResource (f ++ Y) = .next () (f.length : Int) :=
  skipResourceFuel_field h Y _ (by simp only [List.length_append]; omega) hlen

end Fields

section Switch

variable {M : Type}

theorem FieldCase.run_skip_next (m : M) (dAtA : List UInt8) (pre i : Int) (m' : M) (k : Int) :
    FieldCase.skip.run m dAtA pre i = .next m' k ↔ m' = m ∧ skipField dAtA pre = .next () k := by
  unfold FieldCase.run
  cases hs : skipField dAtA pre with
  | next u n =>
    simp only [hs, Step.next.injEq, true_and]
    constructor
    · rintro ⟨h1, h2⟩; exact ⟨h1.symm, h2⟩
    · rintro ⟨h1, h2⟩; exact ⟨h1.symm, h2⟩
  | fail e => simp [hs]
  | panic y => simp [hs]
  | running => simp [hs]

theorem FieldCase.run_bytes_next (store : List UInt8 → Except Err M) (m : M)
    (dAtA : List UInt8) (pre i : Int) (m' : M) (k : Int) :
    (FieldCase.bytes store).run m dAtA pre i = .next m' k ↔
      ∃ bs, readLengthDelimited dAtA i = .next bs k ∧ store bs = .ok m' := by
  unfold FieldCase.run
  cases hr : readLengthDelimited dAtA i with
  | next bs n =>
    simp only [hr, Step.next.injEq]
    cases hs : store bs with
    | ok m1 =>
      simp only [hs, Step.next.injEq]
      constructor
      · rintro ⟨h1, h2⟩; exact ⟨bs, ⟨rfl, h2⟩, by rw [hs, h1]⟩
      · rintro ⟨bs1, ⟨h1, h2⟩, h3⟩
        subst h1
        rw [hs] at h3
        exact ⟨by injection h3, h2⟩
    | error e =>
      constructor
      · intro h; cases h
      · rintro ⟨bs1, ⟨h1, _⟩, h3⟩
        subst h1
        rw [hs] at h3
        cases h3
  | fail e => simp [hr]
  | panic y => simp [hr]
  | running => simp [hr]

theorem FieldCase.run_reject_next (err : Err) (m : M)
    (dAtA : List UInt8) (pre i : Int) (m' : M) (k : Int) :
    ¬ (FieldCase.reject err : FieldCase M).run m dAtA pre i = .next m' k := by
  simp [FieldCase.run]

/-- What the head of an iteration has read when it goes on. -/
theorem readTag_next (name : String) (dAtA : List UInt8) (i : Int) (fieldNum : Int)
    (wireType : Nat) (i1 : Int) (h : readTag name dAtA i = .next (fieldNum, wireType) i1) :
    ∃ wire, readVarint dAtA i = .next wire i1 ∧ fieldNum = int32OfUint64 (wire >>> 3)
      ∧ wireType = wire &&& 0x7 ∧ wireType ≠ 4 ∧ 0 < fieldNum := by
  unfold readTag at h
  cases hr : readVarint dAtA i with
  | next wire i2 =>
    rw [hr] at h
    simp only at h
    by_cases h4 : wire &&& 0x7 = 4
    · rw [if_pos h4] at h; cases h
    · rw [if_neg h4] at h
      by_cases h0 : int32OfUint64 (wire >>> 3) ≤ 0
      · rw [if_pos h0] at h; cases h
      · rw [if_neg h0] at h
        simp only [Step.next.injEq, Prod.mk.injEq] at h
        obtain ⟨⟨h1, h2⟩, h3⟩ := h
        subst h1 h2 h3
        exact ⟨wire, rfl, rfl, rfl, h4, by omega⟩
  | fail e => rw [hr] at h; cases h
  | panic y => rw [hr] at h; cases h
  | running => rw [hr] at h; cases h


theorem unmarshalStep_next_iff (name : String)
    (field : M → List UInt8 → Int → Int → Int → Nat → Step M) (X : List UInt8)
    (m : M) (i : Int) (m' : M) (k : Int) :
    unmarshalStep name field X m i = .next m' k ↔
      ∃ fieldNum wireType i1, readTag name X i = .next (fieldNum, wireType) i1
        ∧ field m X i i1 fieldNum wireType = .next m' k := by
  unfold unmarshalStep
  cases hr : readTag name X i with
  | next a i1 =>
    obtain ⟨fieldNum, wireType⟩ := a
    simp only [Step.next.injEq, Prod.mk.injEq]
    constructor
    · intro h; exact ⟨fieldNum, wireType, i1, ⟨⟨rfl, rfl⟩, rfl⟩, h⟩
    · rintro ⟨f1, w1, j1, ⟨⟨h1, h2⟩, h3⟩, h⟩
      subst h1 h2 h3
      exact h
  | fail e => simp
  | panic y => simp
  | running => simp

/-- A case of the switch runs in the part `X` of the input `p ++ X` as it
runs in `X` alone, when it goes on at a valid index. -/
theorem FieldCase.run_shift (c : FieldCase M) (p X : List UInt8)
    (hX : (p ++ X).length < 9223372036854775808) (m : M) (j n1 : Nat) (m' : M) (k : Int) :
    (c.run m (p ++ X) ((p.length : Int) + j) ((p.length : Int) + n1) = .next m' k ∧ 0 ≤ k) ↔
      ∃ k' : Nat, c.run m X (j : Int) (n1 : Int) = .next m' k' ∧ k = (p.length : Int) + k' := by
  cases c with
  | skip =>
    simp only [FieldCase.run_skip_next]
    constructor
    · rintro ⟨⟨h1, h2⟩, h3⟩
      obtain ⟨k', h4, h5⟩ := (skipField_shift p X hX j k).1 ⟨h2, h3⟩
      exact ⟨k', ⟨h1, h4⟩, h5⟩
    · rintro ⟨k', ⟨h1, h4⟩, h5⟩
      have := (skipField_shift p X hX j k).2 ⟨k', h4, h5⟩
      exact ⟨⟨h1, this.1⟩, this.2⟩
  | bytes store =>
    simp only [FieldCase.run_bytes_next]
    constructor
    · rintro ⟨⟨bs, h1, h2⟩, _⟩
      obtain ⟨k', h4, h5⟩ := (readLengthDelimited_shift p X hX n1 bs k).1 h1
      exact ⟨k', ⟨bs, h4, h2⟩, h5⟩
    · rintro ⟨k', ⟨bs, h4, h2⟩, h5⟩
      have := (readLengthDelimited_shift p X hX n1 bs k).2 ⟨k', h4, h5⟩
      exact ⟨⟨bs, this, h2⟩, by omega⟩
  | reject err =>
    constructor
    · rintro ⟨h, _⟩; exact absurd h (FieldCase.run_reject_next err m _ _ _ m' k)
    · rintro ⟨k', h, _⟩; exact absurd h (FieldCase.run_reject_next err m _ _ _ m' _)

/-- An iteration of the loop runs in the part `X` of the input `p ++ X` as it
runs in `X` alone, when it goes on at a valid index. -/
theorem unmarshalStep_shift (name : String)
    (field : M → List UInt8 → Int → Int → Int → Nat → Step M) (hreg : RegularSwitch field)
    (p X : List UInt8) (hX : (p ++ X).length < 9223372036854775808)
    (m : M) (j : Nat) (m' : M) (k : Int) :
    (unmarshalStep name field (p ++ X) m ((p.length : Int) + j) = .next m' k ∧ 0 ≤ k) ↔
      ∃ k' : Nat, unmarshalStep name field X m (j : Int) = .next m' k'
        ∧ k = (p.length : Int) + k' := by
  simp only [unmarshalStep_next_iff, readTag_append_left]
  constructor
  · rintro ⟨⟨fieldNum, wireType, i1, ht, hf⟩, hk⟩
    cases hr : readTag name X (j : Int) with
    | next a i2 =>
      obtain ⟨f2, w2⟩ := a
      rw [hr] at ht
      simp only [Step.shift, Step.next.injEq, Prod.mk.injEq] at ht
      obtain ⟨⟨rfl, rfl⟩, rfl⟩ := ht
      obtain ⟨wire, hv, -⟩ := readTag_next name X j f2 w2 i2 hr
      have hb := readVarint_next X j wire i2 hv
      obtain ⟨n1, rfl⟩ : ∃ n1 : Nat, i2 = (n1 : Int) := ⟨i2.toNat, by omega⟩
      obtain ⟨c, -, hc⟩ := hreg m f2 w2
      rw [hc, add_comm (n1 : Int)] at hf
      obtain ⟨k', h1, h2⟩ := (c.run_shift p X hX m j n1 m' k).1 ⟨hf, hk⟩
      exact ⟨k', ⟨f2, w2, n1, rfl, by rw [hc]; exact h1⟩, h2⟩
    | fail e => rw [hr] at ht; cases ht
    | panic y => rw [hr] at ht; cases ht
    | running => rw [hr] at ht; cases ht
  · rintro ⟨k', ⟨fieldNum, wireType, i1, ht, hf⟩, hk⟩
    obtain ⟨wire, hv, -⟩ := readTag_next name X j fieldNum wireType i1 ht
    have hb := readVarint_next X j wire i1 hv
    obtain ⟨n1, rfl⟩ : ∃ n1 : Nat, i1 = (n1 : Int) := ⟨i1.toNat, by omega⟩
    obtain ⟨c, -, hc⟩ := hreg m fieldNum wireType
    rw [hc] at hf
    have := (c.run_shift p X hX m j n1 m' k).2 ⟨k', hf, hk⟩
    refine ⟨⟨fieldNum, wireType, (p.length : Int) + n1, ?_, ?_⟩, this.2⟩
    · rw [ht]
      simp only [Step.shift]
      rw [add_comm]
    · rw [hc]; exact this.1

/-- An iteration of the loop that goes on has read at least one byte, unless
an addition has wrapped around to a negative index. -/
theorem unmarshalStep_progress (name : String)
    (field : M → List UInt8 → Int → Int → Int → Nat → Step M) (hreg : RegularSwitch field)
    (X : List UInt8) (hX : X.length < 9223372036854775808)
    (m : M) (i : Int) (m' : M) (k : Int)
    (h : unmarshalStep name field X m i = .next m' k) : 0 ≤ i ∧ (i < k ∨ k < 0) := by
  obtain ⟨fieldNum, wireType, i1, ht, hf⟩ := (unmarshalStep_next_iff name field X m i m' k).1 h
  obtain ⟨wire, hv, -⟩ := readTag_next name X i fieldNum wireType i1 ht
  have hb := readVarint_next X i wire i1 hv
  refine ⟨hb.1, ?_⟩
  obtain ⟨c, -, hc⟩ := hreg m fieldNum wireType
  rw [hc] at hf
  cases c with
  | skip =>
    obtain ⟨-, hs⟩ := (FieldCase.run_skip_next m X i i1 m' k).1 hf
    by_cases hk : 0 ≤ k
    · obtain ⟨i0, n, h1, h2, h3, h4, h5, h6⟩ := (skipField_next_iff X hX i k).1 ⟨hs, hk⟩
      left
      omega
    · right
      omega
  | bytes store =>
    obtain ⟨bs, hs, -⟩ := (FieldCase.run_bytes_next store m X i i1 m' k).1 hf
    obtain ⟨v, i2, h1, h2, h3, h4⟩ := (readLengthDelimited_next_iff X hX i1 bs k).1 hs
    have := readVarint_next X i1 v i2 h1
    left
    omega
  | reject err => exact absurd hf (FieldCase.run_reject_next err m _ _ _ m' k)

end Switch

section FieldSteps

variable {M : Type}

theorem FieldCase.run_skip_eq (m : M) (dAtA : List UInt8) (pre i : Int) :
    FieldCase.skip.run m dAtA pre i
      = match skipField dAtA pre with
        | .next () iNdEx => .next m iNdEx
        | .fail err => .fail err
        | .panic why => .panic why
        | .running => .running := rfl

theorem FieldCase.run_bytes_eq (store : List UInt8 → Except Err M) (m : M)
    (dAtA : List UInt8) (pre i : Int) :
    (FieldCase.bytes store).run m dAtA pre i
      = match readLengthDelimited dAtA i with
        | .next bs postIndex =>
          match store bs with
          | .ok m => .next m postIndex
          | .error err => .fail err
        | .fail err => .fail err
        | .panic why => .panic why
        | .running => .running := rfl

/-- The `default` case steps over a complete field that heads the input. -/
theorem skipField_field {wire : Nat} {f : List UInt8} (h : IsField wire f)
    (hlen : f.length < 9223372036854775808) (Y : List UInt8) :
    skipField (f ++ Y) 0 = .next () (f.length : Int) := by
  have hs := sliceFrom_eq (f ++ Y) 0 (by omega)
  simp only [Nat.cast_zero, List.drop_zero] at hs
  unfold skipField
  simp only
  rw [hs]
  simp only
  rw [skipResource_field h Y hlen]
  simp only
  rw [if_neg (by omega), zero_add, wrap64_of_lt _ (by omega) (by omega),
    if_neg (by simp only [List.length_append]; omega)]

/-- A length and that many bytes, standing after `p`, are read as a
length-delimited field, whatever follows them. -/
theorem readLengthDelimited_field {len : Nat} {lt data : List UInt8} (hl : IsVarint len lt)
    (hd : len = data.length) (p Y : List UInt8)
    (hlen : p.length + lt.length + data.length < 9223372036854775808) :
    readLengthDelimited (p ++ (lt ++ (data ++ Y))) (p.length : Int)
      = .next data ((p.length + lt.length + data.length : Nat) : Int) := by
  subst hd
  unfold readLengthDelimited
  rw [hl.read p (data ++ Y)]
  simp only
  rw [intOfUint64_of_lt _ (by omega), if_neg (by omega),
    wrap64_of_lt _ (by omega) (by omega),
    if_neg (by simp only [List.length_append]; omega)]
  have hsl := sliceOf_eq (p ++ (lt ++ (data ++ Y))) (p.length + lt.length) data.length
    (by simp only [List.length_append]; omega)
  have hdrop : (p ++ (lt ++ (data ++ Y))).drop (p.length + lt.length) = data ++ Y := by
    rw [← List.append_assoc, ← List.length_append, List.drop_left]
  rw [hdrop, List.take_left] at hsl
  rw [hsl]
  simp only
  exact congrArg (Step.next data) (by omega)

theorem IsField.bytes_inv {wire : Nat} {f : List UInt8} (h : IsField wire f)
    (hw : wire &&& 0x7 = 2) :
    ∃ (len : Nat) (t lt data : List UInt8), f = t ++ (lt ++ data) ∧ IsVarint wire t
      ∧ IsVarint len lt ∧ len = data.length := by
  cases h with
  | varint _ v t p ht hw1 _ => omega
  | fixed64 _ t p ht hw1 _ => omega
  | bytes _ len t lt data ht hw1 hl hd => exact ⟨len, t, lt, data, rfl, ht, hl, hd⟩
  | group _ stop t inner e ht hw1 _ _ _ => omega
  | fixed32 _ t p ht hw1 _ => omega

/-- An iteration whose tag is an end-group tag or has a field number that is
not positive returns an error that the tag alone decides. -/
theorem unmarshalStep_bad_tag (name : String)
    (field : M → List UInt8 → Int → Int → Int → Nat → Step M) (wire : Nat)
    (hbad : wire &&& 0x7 = 4 ∨ int32OfUint64 (wire >>> 3) ≤ 0) :
    ∃ err : Err, ∀ (X : List UInt8) (m : M) (i i1 : Int),
      readVarint X i = .next wire i1 → unmarshalStep name field X m i = .fail err := by
  by_cases h4 : wire &&& 0x7 = 4
  · refine ⟨Err.other ("proto: " ++ name ++ ": wiretype end group for non-group"),
      fun X m i i1 hr => ?_⟩
    unfold unmarshalStep readTag
    simp only
    rw [hr]
    simp only
    rw [if_pos h4]
  · have h0 : int32OfUint64 (wire >>> 3) ≤ 0 := by
      rcases hbad with h | h
      · exact absurd h h4
      · exact h
    refine ⟨Err.other ("proto: " ++ name ++ ": illegal tag "
      ++ toString (int32OfUint64 (wire >>> 3)) ++ " (wire type " ++ toString wire ++ ")"),
      fun X m i i1 hr => ?_⟩
    unfold unmarshalStep readTag
    simp only
    rw [hr]
    simp only
    rw [if_neg h4, if_pos h0]

theorem unmarshalStep_of_tag (name : String)
    (field : M → List UInt8 → Int → Int → Int → Nat → Step M) (wire : Nat)
    (h4 : wire &&& 0x7 ≠ 4) (h0 : 0 < int32OfUint64 (wire >>> 3))
    (X : List UInt8) (m : M) (i i1 : Int) (hr : readVarint X i = .next wire i1) :
    unmarshalStep name field X m i
      = field m X i i1 (int32OfUint64 (wire >>> 3)) (wire &&& 0x7) := by
  unfold unmarshalStep
  simp only
  rw [readTag_of_readVarint name X i i1 wire hr h4 h0]

/-- What an iteration of the loop does on a complete field that heads the
input does not depend on what follows the field, and when the iteration goes
on, it goes on right after the field. -/
theorem unmarshalStep_field (name : String)
    (field : M → List UInt8 → Int → Int → Int → Nat → Step M) (hreg : RegularSwitch field)
    {wire : Nat} {f : List UInt8} (hf : IsField wire f)
    (hlen : f.length < 9223372036854775808) (m : M) :
    ∃ r : Step M, (∀ Y, unmarshalStep name field (f ++ Y) m 0 = r)
      ∧ ∀ m' k, r = .next m' k → k = (f.length : Int) := by
  obtain ⟨t, rest, hft, ht, h4⟩ := hf.tag
  have hread : ∀ Y, readVarint (f ++ Y) 0 = .next wire (t.length : Int) := by
    intro Y
    rw [hft, List.append_assoc]
    exact ht.read_zero _
  by_cases h0 : int32OfUint64 (wire >>> 3) ≤ 0
  · obtain ⟨err, herr⟩ := unmarshalStep_bad_tag name field wire (Or.inr h0)
    exact ⟨.fail err, fun Y => herr (f ++ Y) m 0 _ (hread Y), fun m' k h => by cases h⟩
  · have hstep : ∀ Y, unmarshalStep name field (f ++ Y) m 0
        = field m (f ++ Y) 0 (t.length : Int) (int32OfUint64 (wire >>> 3)) (wire &&& 0x7) :=
      fun Y => unmarshalStep_of_tag name field wire h4 (by omega) (f ++ Y) m 0 _ (hread Y)
    obtain ⟨c, hc2, hc⟩ := hreg m (int32OfUint64 (wire >>> 3)) (wire &&& 0x7)
    cases c with
    | skip =>
      refine ⟨.next m (f.length : Int), fun Y => ?_, fun m' k h => ?_⟩
      · rw [hstep, hc, FieldCase.run_skip_eq, skipField_field hf hlen Y]
      · injection h with h1 h2
        exact h2.symm
    | bytes store =>
      have hw2 := hc2 store rfl
      obtain ⟨len, t2, lt, data, hf2, ht2, hl, hd⟩ := hf.bytes_inv hw2
      have hread2 : ∀ Y, readVarint (f ++ Y) 0 = .next wire (t2.length : Int) := by
        intro Y
        rw [hf2, List.append_assoc]
        exact ht2.read_zero _
      have ht12 : (t.length : Int) = (t2.length : Int) := by
        have := (hread []).symm.trans (hread2 [])
        injection this
      have hfl : f.length = t2.length + lt.length + data.length := by
        rw [hf2]; simp only [List.length_append]; omega
      have hrl : ∀ Y, readLengthDelimited (f ++ Y) (t.length : Int)
          = .next data (f.length : Int) := by
        intro Y
        rw [ht12, hf2, List.append_assoc, List.append_assoc,
          readLengthDelimited_field hl hd t2 Y (by omega)]
        exact congrArg (Step.next data) (by simp only [List.length_append]; omega)
      cases hs : store data with
      | ok m1 =>
        refine ⟨.next m1 (f.length : Int), fun Y => ?_, fun m' k h => ?_⟩
        · rw [hstep, hc, FieldCase.run_bytes_eq, hrl Y]
          simp only [hs]
        · injection h with h1 h2
          exact h2.symm
      | error e =>
        refine ⟨.fail e, fun Y => ?_, fun m' k h => by cases h⟩
        rw [hstep, hc, FieldCase.run_bytes_eq, hrl Y]
        simp only [hs]
    | reject err =>
      refine ⟨.fail err, fun Y => ?_, fun m' k h => by cases h⟩
      rw [hstep, hc]
      rfl

/-- An iteration of the loop steps over a complete field whose field number
is positive and falls in the `default` case, and leaves the message as it
was. -/
theorem unmarshalStep_unknown (name : String)
    (field : M → List UInt8 → Int → Int → Int → Nat → Step M)
    {wire : Nat} {u : List UInt8} (hu : IsField wire u)
    (h0 : 0 < int32OfUint64 (wire >>> 3))
    (hskip : SkipsField field (int32OfUint64 (wire >>> 3)))
    (hlen : u.length < 9223372036854775808) (m : M) (Y : List UInt8) :
    unmarshalStep name field (u ++ Y) m 0 = .next m (u.length : Int) := by
  obtain ⟨t, rest, hft, ht, h4⟩ := hu.tag
  have hread : readVarint (u ++ Y) 0 = .next wire (t.length : Int) := by
    rw [hft, List.append_assoc]
    exact ht.read_zero _
  rw [unmarshalStep_of_tag name field wire h4 h0 (u ++ Y) m 0 _ hread, hskip,
    FieldCase.run_skip_eq, skipField_field hu hlen Y]

end FieldSteps

section Insertion

variable {M : Type}

theorem unmarshalStep_nonneg (name : String)
    (field : M → List UInt8 → Int → Int → Int → Nat → Step M) (X : List UInt8)
    (m : M) (i : Int) (m' : M) (k : Int)
    (h : unmarshalStep name field X m i = .next m' k) : 0 ≤ i := by
  obtain ⟨fieldNum, wireType, i1, ht, -⟩ := (unmarshalStep_next_iff name field X m i m' k).1 h
  obtain ⟨wire, hv, -⟩ := readTag_next name X i fieldNum wireType i1 ht
  exact (readVarint_next X i wire i1 hv).1

/-- The successful runs of the loop from an index inside the part `X` of the
input `p ++ X` are the successful runs on `X` alone. -/
theorem Parses.shift_iff (name : String)
    (field : M → List UInt8 → Int → Int → Int → Nat → Step M) (hreg : RegularSwitch field)
    (p X : List UInt8) (hX : (p ++ X).length < 9223372036854775808)
    (m : M) (j : Nat) (mf : M) :
    Parses (unmarshalStep name field (p ++ X)) (p ++ X).length m ((p.length : Int) + j) mf ↔
      Parses (unmarshalStep name field X) X.length m (j : Int) mf := by
  constructor
  · have key : ∀ (m : M) (i : Int) (mf : M),
        Parses (unmarshalStep name field (p ++ X)) (p ++ X).length m i mf →
        ∀ j : Nat, i = (p.length : Int) + j →
          Parses (unmarshalStep name field X) X.length m (j : Int) mf := by
      intro m i mf h
      induction h with
      | done m =>
        intro j hj
        have : (j : Int) = (X.length : Int) := by
          simp only [List.length_append] at hj
          omega
        rw [this]
        exact Parses.done m
      | step m i m' i' mf hi hs hrest ih =>
        intro j hj
        subst hj
        have hi' : 0 ≤ i' := Parses.nonneg (unmarshalStep_nonneg name field (p ++ X)) hrest
        obtain ⟨k', h1, h2⟩ := (unmarshalStep_shift name field hreg p X hX m j m' i').1 ⟨hs, hi'⟩
        refine Parses.step m j m' k' mf ?_ h1 (ih k' h2)
        simp only [List.length_append] at hi
        omega
    exact fun h => key m _ mf h j rfl
  · have key : ∀ (m : M) (i : Int) (mf : M),
        Parses (unmarshalStep name field X) X.length m i mf →
        ∀ j : Nat, i = (j : Int) →
          Parses (unmarshalStep name field (p ++ X)) (p ++ X).length m
            ((p.length : Int) + j) mf := by
      intro m i mf h
      induction h with
      | done m =>
        intro j hj
        have : (p.length : Int) + (j : Int) = ((p ++ X).length : Int) := by
          simp only [List.length_append]
          omega
        rw [this]
        exact Parses.done m
      | step m i m' i' mf hi hs hrest ih =>
        intro j hj
        subst hj
        have hi' : 0 ≤ i' := Parses.nonneg (unmarshalStep_nonneg name field X) hrest
        obtain ⟨k', rfl⟩ : ∃ k' : Nat, i' = (k' : Int) := ⟨i'.toNat, by omega⟩
        have h1 := (unmarshalStep_shift name field hreg p X hX m j m' _).2 ⟨k', hs, rfl⟩
        refine Parses.step m _ m' _ mf ?_ h1.1 (ih k' rfl)
        simp only [List.length_append]
        omega
    exact fun h => key m _ mf h j rfl

/-- The successful runs of the loop from the start of the part `X` of the
input `p ++ X`, when `X` is not empty, begin with the iteration the loop makes
at the start of `X` alone. -/
theorem Parses.head_iff (name : String)
    (field : M → List UInt8 → Int → Int → Int → Nat → Step M) (hreg : RegularSwitch field)
    (p X : List UInt8) (hX : (p ++ X).length < 9223372036854775808) (hne : 1 ≤ X.length)
    (m : M) (mf : M) :
    Parses (unmarshalStep name field (p ++ X)) (p ++ X).length m (p.length : Int) mf ↔
      ∃ (m' : M) (k' : Nat), unmarshalStep name field X m 0 = .next m' k'
        ∧ Parses (unmarshalStep name field (p ++ X)) (p ++ X).length m'
            ((p.length : Int) + k') mf := by
  have hsh := fun m' k => unmarshalStep_shift name field hreg p X hX m 0 m' k
  simp only [Nat.cast_zero, add_zero] at hsh
  constructor
  · intro h
    generalize hi0 : (p.length : Int) = i0 at h
    cases h with
    | done =>
      simp only [List.length_append] at hi0
      omega
    | step _ _ m' i' _ hi hs hrest =>
      subst hi0
      have hi' : 0 ≤ i' := Parses.nonneg (unmarshalStep_nonneg name field (p ++ X)) hrest
      obtain ⟨k', h1, h2⟩ := (hsh m' i').1 ⟨hs, hi'⟩
      subst h2
      exact ⟨m', k', h1, hrest⟩
  · rintro ⟨m', k', h1, hrest⟩
    have h2 := (hsh m' ((p.length : Int) + k')).2 ⟨k', h1, rfl⟩
    refine Parses.step m _ m' _ mf ?_ h2.1 hrest
    simp only [List.length_append]
    omega


/-- Inserting a complete field that the loop steps over, after complete
fields, changes neither whether the loop succeeds nor the message it has
decoded. -/
theorem Parses.insert_iff (name : String)
    (field : M → List UInt8 → Int → Int → Int → Nat → Step M) (hreg : RegularSwitch field)
    {wire : Nat} {u : List UInt8} (hu : IsField wire u)
    (h0 : 0 < int32OfUint64 (wire >>> 3))
    (hskip : SkipsField field (int32OfUint64 (wire >>> 3)))
    (b : List UInt8) (mf : M) :
    ∀ (fs : List (Nat × List UInt8)), (∀ g ∈ fs, IsField g.1 g.2) →
      ∀ (p : List UInt8) (m : M),
        (p ++ (fieldBytes fs ++ (u ++ b))).length < 9223372036854775808 →
        (Parses (unmarshalStep name field (p ++ (fieldBytes fs ++ (u ++ b))))
            (p ++ (fieldBytes fs ++ (u ++ b))).length m (p.length : Int) mf ↔
          Parses (unmarshalStep name field (p ++ (fieldBytes fs ++ b)))
            (p ++ (fieldBytes fs ++ b)).length m (p.length : Int) mf) := by
  intro fs
  induction fs with
  | nil =>
    intro _ p m hlen
    simp only [fieldBytes, List.nil_append] at hlen ⊢
    have hupos := hu.nonempty
    have hul : u.length < 9223372036854775808 := by
      simp only [List.length_append] at hlen
      omega
    rw [Parses.head_iff name field hreg p (u ++ b) hlen
      (by simp only [List.length_append]; omega) m mf]
    have hstep := unmarshalStep_unknown name field hu h0 hskip hul m b
    have h1 := Parses.shift_iff name field hreg (p ++ u) b
      (by simpa only [List.append_assoc] using hlen) m 0 mf
    have h2 := Parses.shift_iff name field hreg p b
      (by simp only [List.length_append] at hlen ⊢; omega) m 0 mf
    simp only [Nat.cast_zero, add_zero, List.append_assoc, List.length_append,
      Nat.cast_add] at h1 h2
    simp only [List.length_append]
    constructor
    · rintro ⟨m', k', hs, hrest⟩
      rw [hstep] at hs
      injection hs with hm hk
      subst hm
      have hk' : k' = u.length := by omega
      subst hk'
      exact h2.2 (h1.1 hrest)
    · intro h
      exact ⟨m, u.length, hstep, h1.2 (h2.1 h)⟩
  | cons g gs ih =>
    intro hfs p m hlen
    have hg := hfs g (List.mem_cons_self _ _)
    have hgpos := hg.nonempty
    have hgs : ∀ x ∈ gs, IsField x.1 x.2 := fun x hx => hfs x (List.mem_cons_of_mem _ hx)
    simp only [fieldBytes, List.append_assoc] at hlen ⊢
    have hl1 : (p ++ (g.2 ++ (fieldBytes gs ++ (u ++ b)))).length < 9223372036854775808 := hlen
    have hl2 : (p ++ (g.2 ++ (fieldBytes gs ++ b))).length < 9223372036854775808 := by
      simp only [List.length_append] at hlen ⊢
      omega
    have hgl : g.2.length < 9223372036854775808 := by
      simp only [List.length_append] at hlen
      omega
    obtain ⟨r, hr, hk⟩ := unmarshalStep_field name field hreg hg hgl m
    rw [Parses.head_iff name field hreg p _ hl1 (by simp only [List.length_append]; omega) m mf,
      Parses.head_iff name field hreg p _ hl2 (by simp only [List.length_append]; omega) m mf,
      hr, hr]
    have hih := fun m' => ih hgs (p ++ g.2) m'
      (by simpa only [List.append_assoc] using hlen)
    simp only [List.append_assoc, List.length_append, Nat.cast_add] at hih
    constructor
    · rintro ⟨m', k', hs, hrest⟩
      have hk' := hk m' k' hs
      have hk2 : k' = g.2.length := by omega
      subst hk2
      simp only [List.length_append] at hrest
      refine ⟨m', g.2.length, hs, ?_⟩
      simp only [List.length_append]
      exact (hih m').1 hrest
    · rintro ⟨m', k', hs, hrest⟩
      have hk' := hk m' k' hs
      have hk2 : k' = g.2.length := by omega
      subst hk2
      simp only [List.length_append] at hrest
      refine ⟨m', g.2.length, hs, ?_⟩
      simp only [List.length_append]
      exact (hih m').2 hrest

/-- The loop of `Unmarshal` returns nil with `mf` exactly on the successful
runs. -/
theorem unmarshalLoop_ok_iff (name : String)
    (field : M → List UInt8 → Int → Int → Int → Nat → Step M) (hreg : RegularSwitch field)
    (X : List UInt8) (hX : X.length < 9223372036854775808) (m mf : M) :
    unmarshalLoop name field X (X.length + 1) m 0 = .ok mf ↔
      Parses (unmarshalStep name field X) X.length m 0 mf := by
  constructor
  · exact unmarshalLoop_ok name field X (X.length + 1) m 0 mf
  · intro h
    exact unmarshalLoop_of_parses name field X
      (fun m i m' i' hs => unmarshalStep_progress name field hreg X hX m i m' i' hs)
      m 0 mf h (X.length + 1) (by push_cast; omega)

/-- Forward-compatible skipping, for a loop whose switch is regular. -/
theorem unmarshalLoop_insert (name : String)
    (field : M → List UInt8 → Int → Int → Int → Nat → Step M) (hreg : RegularSwitch field)
    {wire : Nat} {u : List UInt8} (hu : IsField wire u)
    (h0 : 0 < int32OfUint64 (wire >>> 3))
    (hskip : SkipsField field (int32OfUint64 (wire >>> 3)))
    (a b : List UInt8) (ha : IsFields a)
    (hlen : (a ++ u ++ b).length < 9223372036854775808) (m mf : M) :
    unmarshalLoop name field (a ++ u ++ b) ((a ++ u ++ b).length + 1) m 0 = .ok mf ↔
      unmarshalLoop name field (a ++ b) ((a ++ b).length + 1) m 0 = .ok mf := by
  obtain ⟨fs, hfs, rfl⟩ := ha
  have hlen2 : (fieldBytes fs ++ b).length < 9223372036854775808 := by
    simp only [List.length_append] at hlen ⊢
    omega
  rw [unmarshalLoop_ok_iff name field hreg _ hlen, unmarshalLoop_ok_iff name field hreg _ hlen2]
  have := Parses.insert_iff name field hreg hu h0 hskip b mf fs hfs [] m
    (by simpa only [List.nil_append, List.append_assoc] using hlen)
  simp only [List.nil_append, List.length_nil, Nat.cast_zero] at this
  simp only [List.append_assoc]
  exact this

end Insertion

section Forward

theorem attachRequest_switch_regular (codec : ConfigCodec) :
    RegularSwitch (AttachNetworkRequest.unmarshalField codec) := by
  intro m fieldNum wireType
  by_cases h1 : fieldNum = 1
  · by_cases hw : wireType = 2
    · refine ⟨.bytes (fun bs =>
        match codec.Unmarshal (m.Config.getD ⟨[]⟩) bs with
        | (_, some err) => .error err
        | (config, none) => .ok { m with Config := some config }), fun _ _ => hw, ?_⟩
      intro dAtA preIndex iNdEx
      rw [FieldCase.run_bytes_eq]
      unfold AttachNetworkRequest.unmarshalField
      rw [if_pos h1, if_neg (by simp [hw])]
      cases hr : readLengthDelimited dAtA iNdEx with
      | next bs post =>
        simp only
        rcases hc : codec.Unmarshal (m.Config.getD ⟨[]⟩) bs with ⟨cfg, _ | e⟩ <;> simp only
      | fail e => simp only
      | panic y => simp only
      | running => simp only
    · refine ⟨.reject (Err.other
        ("proto: wrong wireType = " ++ toString wireType ++ " for field Config")),
        (fun _ h => by cases h), ?_⟩
      intro dAtA preIndex iNdEx
      unfold AttachNetworkRequest.unmarshalField
      rw [if_pos h1, if_pos hw]
      rfl
  · by_cases h2 : fieldNum = 2
    · by_cases hw : wireType = 2
      · refine ⟨.bytes (fun bs => .ok { m with ContainerID := bs }), fun _ _ => hw, ?_⟩
        intro dAtA preIndex iNdEx
        rw [FieldCase.run_bytes_eq]
        unfold AttachNetworkRequest.unmarshalField
        rw [if_neg h1, if_pos h2, if_neg (by simp [hw])]
      · refine ⟨.reject (Err.other
          ("proto: wrong wireType = " ++ toString wireType ++ " for field ContainerID")),
          (fun _ h => by cases h), ?_⟩
        intro dAtA preIndex iNdEx
        unfold AttachNetworkRequest.unmarshalField
        rw [if_neg h1, if_pos h2, if_pos hw]
        rfl
    · refine ⟨.skip, (fun _ h => by cases h), ?_⟩
      intro dAtA preIndex iNdEx
      unfold AttachNetworkRequest.unmarshalField
      rw [if_neg h1, if_neg h2, FieldCase.run_skip_eq]

theorem attachRequest_switch_skips (codec : ConfigCodec) (fieldNum : Int)
    (h1 : fieldNum ≠ 1) (h2 : fieldNum ≠ 2) :
    SkipsField (AttachNetworkRequest.unmarshalField codec) fieldNum := by
  intro m wireType dAtA preIndex iNdEx
  unfold AttachNetworkRequest.unmarshalField
  rw [if_neg h1, if_neg h2, FieldCase.run_skip_eq]

theorem attachResponse_switch_regular :
    RegularSwitch AttachNetworkResponse.unmarshalField := by
  intro m fieldNum wireType
  by_cases h1 : fieldNum = 1
  · by_cases hw : wireType = 2
    · refine ⟨.bytes (fun bs => .ok { m with AttachmentID := bs }), fun _ _ => hw, ?_⟩
      intro dAtA preIndex iNdEx
      rw [FieldCase.run_bytes_eq]
      unfold AttachNetworkResponse.unmarshalField
      rw [if_pos h1, if_neg (by simp [hw])]
    · refine ⟨.reject (Err.other
        ("proto: wrong wireType = " ++ toString wireType ++ " for field AttachmentID")),
        (fun _ h => by cases h), ?_⟩
      intro dAtA preIndex iNdEx
      unfold AttachNetworkResponse.unmarshalField
      rw [if_pos h1, if_pos hw]
      rfl
  · refine ⟨.skip, (fun _ h => by cases h), ?_⟩
    intro dAtA preIndex iNdEx
    unfold AttachNetworkResponse.unmarshalField
    rw [if_neg h1, FieldCase.run_skip_eq]

theorem attachResponse_switch_skips (fieldNum : Int) (h1 : fieldNum ≠ 1) :
    SkipsField AttachNetworkResponse.unmarshalField fieldNum := by
  intro m wireType dAtA preIndex iNdEx
  unfold AttachNetworkResponse.unmarshalField
  rw [if_neg h1, FieldCase.run_skip_eq]

theorem detachRequest_switch_regular :
    RegularSwitch DetachNetworkRequest.unmarshalField := by
  intro m fieldNum wireType
  by_cases h1 : fieldNum = 1
  · by_cases hw : wireType = 2
    · refine ⟨.bytes (fun bs => .ok { m with AttachmentID := bs }), fun _ _ => hw, ?_⟩
      intro dAtA preIndex iNdEx
      rw [FieldCase.run_bytes_eq]
      unfold DetachNetworkRequest.unmarshalField
      rw [if_pos h1, if_neg (by simp [hw])]
    · refine ⟨.reject (Err.other
        ("proto: wrong wireType = " ++ toString wireType ++ " for field AttachmentID")),
        (fun _ h => by cases h), ?_⟩
      intro dAtA preIndex iNdEx
      unfold DetachNetworkRequest.unmarshalField
      rw [if_pos h1, if_pos hw]
      rfl
  · refine ⟨.skip, (fun _ h => by cases h), ?_⟩
    intro dAtA preIndex iNdEx
    unfold DetachNetworkRequest.unmarshalField
    rw [if_neg h1, FieldCase.run_skip_eq]

theorem detachRequest_switch_skips (fieldNum : Int) (h1 : fieldNum ≠ 1) :
    SkipsField DetachNetworkRequest.unmarshalField fieldNum := by
  intro m wireType dAtA preIndex iNdEx
  unfold DetachNetworkRequest.unmarshalField
  rw [if_neg h1, FieldCase.run_skip_eq]

theorem detachResponse_switch_skips (fieldNum : Int) :
    SkipsField DetachNetworkResponse.unmarshalField fieldNum := by
  intro m wireType dAtA preIndex iNdEx
  unfold DetachNetworkResponse.unmarshalField
  rw [FieldCase.run_skip_eq]

theorem detachResponse_switch_regular :
    RegularSwitch DetachNetworkResponse.unmarshalField := by
  intro m fieldNum wireType
  exact ⟨.skip, (fun _ h => by cases h),
    fun dAtA preIndex iNdEx =>
      detachResponse_switch_skips fieldNum m wireType dAtA preIndex iNdEx⟩

theorem int32OfUint64_fieldNum (n : Nat) (h : n ≤ 536870911) : int32OfUint64 n = (n : Int) := by
  unfold int32OfUint64
  omega


/-- C20. Forward-compatible skipping. Let `u` be one complete field whose
tag `wire` has a field number `wire >>> 3` between 1 and 2^29 - 1 (wire type
0, 1, 2 or 5 with its payload fully present; a complete group is stepped over
as well), let `a` be complete fields one after the other, and let the input
`a ++ u ++ b` be shorter than 2^63 bytes, as every Go slice is. For each of
the four messages that does not declare the field number, `Unmarshal` of
`a ++ u ++ b` returns nil with the message `mf` exactly when `Unmarshal` of
`a ++ b` does, from every message `m` it is called on; and `skipResource` of
`u ++ b` returns the length of `u`. Both hold for every `b`, complete fields
or not. -/
theorem unknown_field_is_skipped (codec : ConfigCodec) (wire : Nat) (a u b : List UInt8)
    (ha : IsFields a) (hu : IsField wire u)
    (hnum : 1 ≤ wire >>> 3 ∧ wire >>> 3 ≤ 536870911)
    (hlen : (a ++ u ++ b).length < 9223372036854775808) :
    (wire >>> 3 ≠ 1 → wire >>> 3 ≠ 2 → ∀ m mf,
      AttachNetworkRequest.Unmarshal codec m (a ++ u ++ b) = .ok mf ↔
        AttachNetworkRequest.Unmarshal codec m (a ++ b) = .ok mf)
    ∧ (wire >>> 3 ≠ 1 → ∀ m mf,
      AttachNetworkResponse.Unmarshal m (a ++ u ++ b) = .ok mf ↔
        AttachNetworkResponse.Unmarshal m (a ++ b) = .ok mf)
    ∧ (wire >>> 3 ≠ 1 → ∀ m mf,
      DetachNetworkRequest.Unmarshal m (a ++ u ++ b) = .ok mf ↔
        DetachNetworkRequest.Unmarshal m (a ++ b) = .ok mf)
    ∧ (∀ m mf,
      DetachNetworkResponse.Unmarshal m (a ++ u ++ b) = .ok mf ↔
        DetachNetworkResponse.Unmarshal m (a ++ b) = .ok mf)
    ∧ skipResource (u ++ b) = .next () (u.length : Int) := by
  have hfn := int32OfUint64_fieldNum (wire >>> 3) hnum.2
  have h0 : 0 < int32OfUint64 (wire >>> 3) := by omega
  have hul : u.length < 9223372036854775808 := by
    simp only [List.length_append] at hlen
    omega
  refine ⟨fun h1 h2 m mf => ?_, fun h1 m mf => ?_, fun h1 m mf => ?_, fun m mf => ?_,
    skipResource_field hu b hul⟩
  · exact unmarshalLoop_insert "AttachNetworkRequest" _
      (attachRequest_switch_regular codec) hu h0
      (attachRequest_switch_skips codec _ (by omega) (by omega)) a b ha hlen m mf
  · exact unmarshalLoop_insert "AttachNetworkResponse" _
      attachResponse_switch_regular hu h0
      (attachResponse_switch_skips _ (by omega)) a b ha hlen m mf
  · exact unmarshalLoop_insert "DetachNetworkRequest" _
      detachRequest_switch_regular hu h0
      (detachRequest_switch_skips _ (by omega)) a b ha hlen m mf
  · exact unmarshalLoop_insert "DetachNetworkResponse" _
      detachResponse_switch_regular hu h0
      (detachResponse_switch_skips _) a b ha hlen m mf

/-- C20 on an input: the varint field 3 with the value 5, which
`AttachNetworkRequest` does not declare, between its `Config` field and its
`ContainerID` field. -/
theorem unknown_field_is_skipped_witness :
    (∀ m mf,
      AttachNetworkRequest.Unmarshal demoCodec m
          ([0x0a, 0x01, 0x41] ++ [0x18, 0x05] ++ [0x12, 0x01, 0x42]) = .ok mf ↔
        AttachNetworkRequest.Unmarshal demoCodec m
          ([0x0a, 0x01, 0x41] ++ [0x12, 0x01, 0x42]) = .ok mf)
    ∧ skipResource ([0x18, 0x05] ++ [0x12, 0x01, 0x42]) = .next () 2 :=
  have h := unknown_field_is_skipped demoCodec 24 [0x0a, 0x01, 0x41] [0x18, 0x05]
    [0x12, 0x01, 0x42]
    ⟨[(10, [0x0a, 0x01, 0x41])],
      fun g hg => by
        rw [List.mem_singleton] at hg
        subst hg
        exact IsField.bytes 10 1 [0x0a] [0x01] [0x41] (by decide) (by decide) (by decide) rfl,
      rfl⟩
    (IsField.varint 24 5 [0x18] [0x05] (by decide) (by decide) (by decide))
    (by decide) (by decide)
  ⟨h.1 (by decide) (by decide), h.2.2.2.2⟩

end Forward

/-! ## The severity levels -/

section Severity

theorem mapGet_eq_some_iff {κ ν : Type} [DecidableEq κ] (m : List (κ × ν))
    (hnd : (m.map Prod.fst).Nodup) (k : κ) (v : ν) :
    mapGet m k = some v ↔ (k, v) ∈ m := by
  induction m with
  | nil => simp [mapGet]
  | cons x xs ih =>
    obtain ⟨k0, v0⟩ := x
    simp only [List.map_cons, List.nodup_cons] at hnd
    have ih1 := ih hnd.2
    unfold mapGet at ih1 ⊢
    by_cases hk : k0 = k
    · subst hk
      simp only [List.find?_cons, decide_True, Option.some.injEq, List.mem_cons, Prod.mk.injEq,
        true_and]
      constructor
      · intro h; exact Or.inl h.symm
      · rintro (h | h)
        · exact h.symm
        · exact absurd (List.mem_map_of_mem Prod.fst h) hnd.1
    · simp only [List.find?_cons, hk, decide_False, List.mem_cons, Prod.mk.injEq]
      rw [ih1]
      constructor
      · intro h; exact Or.inr h
      · rintro (⟨h, _⟩ | h)
        · exact absurd h.symm hk
        · exact h

/-- C21. The nine `LogSeverity` constants have the numbers their doc
comments give; `LogSeverity_name` sends the value of each to its name and
`LogSeverity_value` sends the name of each back to its value; the two maps
hold those nine entries and no other, with nine distinct keys each, and a
lookup in one succeeds exactly when the lookup the other way round does; and
of the nine levels the documented filter `severity > DEBUG AND severity <=
WARNING` matches `INFO`, `NOTICE` and `WARNING` and no other. -/
theorem log_severity_tables_agree :
    logSeverityLevels.map (fun l => (l.1, l.2.1))
        = [("DEFAULT", 0), ("DEBUG", 100), ("INFO", 200), ("NOTICE", 300), ("WARNING", 400),
           ("ERROR", 500), ("CRITICAL", 600), ("ALERT", 700), ("EMERGENCY", 800)]
    ∧ logSeverityLevels.map (fun l => l.2.1) = logSeverityLevels.map (fun l => l.2.2)
    ∧ logSeverityLevels.map (fun l => mapGet LogSeverity_name l.2.1)
        = logSeverityLevels.map (fun l => some l.1)
    ∧ logSeverityLevels.map (fun l => mapGet LogSeverity_value l.1)
        = logSeverityLevels.map (fun l => some l.2.1)
    ∧ LogSeverity_name = logSeverityLevels.map (fun l => (l.2.1, l.1))
    ∧ LogSeverity_value = logSeverityLevels.map (fun l => (l.1, l.2.1))
    ∧ LogSeverity_name.length = 9 ∧ (LogSeverity_name.map Prod.fst).Nodup
    ∧ LogSeverity_value.length = 9 ∧ (LogSeverity_value.map Prod.fst).Nodup
    ∧ (∀ (v : Int) (n : String),
        mapGet LogSeverity_name v = some n ↔ mapGet LogSeverity_value n = some v)
    ∧ (logSeverityLevels.filter (fun l => severityFilter l.2.1)).map (fun l => l.1)
        = ["INFO", "NOTICE", "WARNING"] := by
  have hn : (LogSeverity_name.map Prod.fst).Nodup := by decide
  have hv : (LogSeverity_value.map Prod.fst).Nodup := by decide
  refine ⟨by decide, by decide, by decide, by decide, by decide, by decide, by decide, hn,
    by decide, hv, fun v n => ?_, by decide⟩
  rw [mapGet_eq_some_iff _ hn, mapGet_eq_some_iff _ hv]
  have hsw : LogSeverity_value = LogSeverity_name.map Prod.swap := by decide
  rw [hsw, List.mem_map]
  constructor
  · intro h; exact ⟨(v, n), h, rfl⟩
  · rintro ⟨⟨v1, n1⟩, h, heq⟩
    simp only [Prod.swap_prod_mk, Prod.mk.injEq] at heq
    obtain ⟨rfl, rfl⟩ := heq
    exact h

end Severity

/-! ## The redirect guard, case by case -/

section GuardCases

theorem MD.get_set_ne (md : MD) (key key' : String) (vals : List String) (h : key' ≠ key) :
    (md.set key vals).get key' = md.get key' := by
  unfold MD.get MD.set
  have hne : ((key == key') = false) := by
    simp only [beq_eq_false_iff_ne, ne_eq]
    exact fun e => h e.symm
  rw [List.find?_cons]
  simp only [hne]
  have hf : ∀ l : List (String × List String),
      List.find? (fun kv => kv.1 == key') (l.filter (fun kv => kv.1 != key))
        = List.find? (fun kv => kv.1 == key') l := by
    intro l
    induction l with
    | nil => rfl
    | cons x xs ih =>
      by_cases hx : x.1 = key
      · have h1 : (x.1 != key) = false := by simp [hx]
        have h2 : (x.1 == key') = false := by
          simp only [beq_eq_false_iff_ne, ne_eq, hx]
          exact fun e => h e.symm
        rw [List.filter_cons, List.find?_cons]
        simp [h1, h2, ih]
      · have h1 : (x.1 != key) = true := by simp [hx]
        rw [List.filter_cons]
        simp only [h1, if_true, List.find?_cons, ih]
  rw [hf]

/-- C22. The redirect guard, case by case. Without a transport stream it
fails with code `InvalidArgument` and returns the context it was given,
whatever the metadata. With a stream and metadata whose "redirect" entry is
not empty it fails with code `ResourceExhausted`, with a message that names
the entry, and returns the context it was given. With a stream and no
metadata, or metadata whose "redirect" entry is empty or absent, it returns
nil and the context it was given with new metadata, in which "redirect" is
the one-element list of the remote address of the stream and every other key
reads as it did before. -/
theorem redirect_guard_three_way (ctx : Context) :
    (ctx.stream = none →
      redirectChecker ctx
        = (ctx, some (Err.rpc codes.InvalidArgument "remote addr is not found in context")))
    ∧ (∀ (s : Stream) (md : MD), ctx.stream = some s → ctx.md = some md →
        md.get "redirect" ≠ [] →
        redirectChecker ctx
          = (ctx, some (Err.rpc codes.ResourceExhausted
              ("more than one redirect to leader from: " ++ fmtStrings (md.get "redirect")))))
    ∧ (∀ (s : Stream), ctx.stream = some s →
        (ctx.md = none ∨ ∃ md, ctx.md = some md ∧ md.get "redirect" = []) →
        ∃ md' : MD, redirectChecker ctx = ({ ctx with md := some md' }, none)
          ∧ md'.get "redirect" = [s.remoteAddr]
          ∧ ∀ key, key ≠ "redirect" → md'.get key = (ctx.md.getD []).get key) := by
  refine ⟨fun h => ?_, fun s md hs hmd hr => ?_, fun s hs hmd => ?_⟩
  · unfold redirectChecker
    rw [h]
  · unfold redirectChecker
    rw [hs]
    have hlen : (md.get "redirect").length ≠ 0 := by
      intro h0
      exact hr (List.length_eq_zero.1 h0)
    simp [hmd, hlen]
  · unfold redirectChecker
    rw [hs]
    rcases hmd with hnone | ⟨md, hsome, hr⟩
    · refine ⟨MD.set [] "redirect" [s.remoteAddr], ?_, MD.get_set _ _ _, ?_⟩
      · simp [hnone, hs, metadata.NewContext, MD.get]
      · intro key hk
        rw [MD.get_set_ne _ _ _ _ hk, hnone]
        rfl
    · refine ⟨MD.set md "redirect" [s.remoteAddr], ?_, MD.get_set _ _ _, ?_⟩
      · simp [hsome, hs, hr, metadata.NewContext]
      · intro key hk
        rw [MD.get_set_ne _ _ _ _ hk, hsome]
        rfl

/-- C22 on three contexts: one without a stream, one that bears a marker, and
a fresh one, which the guard marks with the address of its stream. -/
theorem redirect_guard_three_way_witness :
    redirectChecker streamlessCtx
        = (streamlessCtx, some (Err.rpc 3 "remote addr is not found in context"))
    ∧ redirectChecker redirectedCtx
        = (redirectedCtx,
            some (Err.rpc 8 "more than one redirect to leader from: [10.0.0.9:4242]"))
    ∧ ∃ md' : MD, redirectChecker freshCtx = ({ freshCtx with md := some md' }, none)
        ∧ md'.get "redirect" = ["10.0.0.1:4242"]
        ∧ ∀ key, key ≠ "redirect" → md'.get key = [] :=
  ⟨(redirect_guard_three_way streamlessCtx).1 rfl,
    (redirect_guard_three_way redirectedCtx).2.1 ⟨"10.0.0.1:4242"⟩
      [("redirect", ["10.0.0.9:4242"])] rfl rfl (by decide),
    (redirect_guard_three_way freshCtx).2.2 ⟨"10.0.0.1:4242"⟩ rfl (Or.inl rfl)⟩

end GuardCases

/-! ## One state machine for both methods -/

section OneMachine

variable {σ : Type}

theorem AttachNetwork_eq_specForward (T : Transport σ) (p : raftProxyResourceAllocatorServer σ)
    (fuel : Nat) :
    AttachNetwork T p fuel
      = specForward T p fuel
          (fun ctx r => call (p.localSrv.AttachNetwork ctx r)
            (fun _ => Event.localAttachNetwork ctx r))
          (resourceAllocatorClient.AttachNetwork T) := by
  funext ctx r
  unfold AttachNetwork specForward isConnErr
  simp only [Bool.not_or]

theorem DetachNetwork_eq_specForward (T : Transport σ) (p : raftProxyResourceAllocatorServer σ)
    (fuel : Nat) :
    DetachNetwork T p fuel
      = specForward T p fuel
          (fun ctx r => call (p.localSrv.DetachNetwork ctx r)
            (fun _ => Event.localDetachNetwork ctx r))
          (resourceAllocatorClient.DetachNetwork T) := by
  funext ctx r
  unfold DetachNetwork specForward isConnErr
  simp only [Bool.not_or]


variable {α A B : Type}

theorem Run.corresponds_ret (x : Option A × Option Err) (y : Option B × Option Err) (s : σ)
    (h1 : x.2 = y.2) (h2 : x.1.isSome = y.1.isSome) :
    Run.corresponds ((pure x : Proc σ _) s) ((pure y : Proc σ _) s) :=
  ⟨rfl, rfl, h1, h2⟩

/-- Two procedures that begin with the same step and go on with
corresponding runs have corresponding runs. -/
theorem Run.corresponds_seq_same (m : Proc σ α) (f : α → Proc σ (Option A × Option Err))
    (g : α → Proc σ (Option B × Option Err))
    (h : ∀ a s, Run.corresponds (f a s) (g a s)) (s : σ) :
    Run.corresponds ((m >>= f) s) ((m >>= g) s) := by
  show Run.corresponds (Proc.seq m f s) (Proc.seq m g s)
  unfold Proc.seq
  cases hm : (m s).out with
  | ret a =>
    obtain ⟨h1, h2, h3⟩ := h a (m s).st
    exact ⟨h1, by simp only [List.map_append, h2], h3⟩
  | panic => exact ⟨rfl, rfl, trivial⟩
  | running => exact ⟨rfl, rfl, trivial⟩

/-- Two procedures that begin with corresponding steps and go on with
corresponding runs have corresponding runs. -/
theorem Run.corresponds_seq {C D : Type} (m1 : Proc σ (Option A × Option Err))
    (m2 : Proc σ (Option B × Option Err))
    (f : Option A × Option Err → Proc σ (Option C × Option Err))
    (g : Option B × Option Err → Proc σ (Option D × Option Err)) (s : σ)
    (hm : Run.corresponds (m1 s) (m2 s))
    (h : ∀ x y s, x.2 = y.2 → x.1.isSome = y.1.isSome → Run.corresponds (f x s) (g y s)) :
    Run.corresponds ((m1 >>= f) s) ((m2 >>= g) s) := by
  show Run.corresponds (Proc.seq m1 f s) (Proc.seq m2 g s)
  obtain ⟨hst, htr, hout⟩ := hm
  unfold Proc.seq
  cases h1 : (m1 s).out with
  | ret x =>
    cases h2 : (m2 s).out with
    | ret y =>
      rw [h1, h2] at hout
      obtain ⟨k1, k2, k3⟩ := h x y (m1 s).st hout.1 hout.2
      rw [hst] at k1 k2 k3
      refine ⟨?_, ?_, ?_⟩
      · simpa [hst] using k1
      · simp only [List.map_append, htr]
        simpa [hst] using congrArg (fun t => List.map Event.shape (m2 s).trace ++ t) k2
      · simpa [hst] using k3
    | panic => rw [h1, h2] at hout; exact absurd hout id
    | running => rw [h1, h2] at hout; exact absurd hout id
  | panic =>
    cases h2 : (m2 s).out with
    | ret y => rw [h1, h2] at hout; exact absurd hout id
    | panic => exact ⟨hst, htr, trivial⟩
    | running => rw [h1, h2] at hout; exact absurd hout id
  | running =>
    cases h2 : (m2 s).out with
    | ret y => rw [h1, h2] at hout; exact absurd hout id
    | panic => rw [h1, h2] at hout; exact absurd hout id
    | running => exact ⟨hst, htr, trivial⟩


/-- The state machine run with corresponding local operations and
corresponding remote operations makes corresponding runs. -/
theorem specForward_corresponds {Req1 Resp1 Req2 Resp2 : Type} (T : Transport σ)
    (p : raftProxyResourceAllocatorServer σ) (fuel : Nat)
    (local1 : Context → Req1 → Proc σ (Option Resp1 × Option Err))
    (remote1 : ClientConn → Context → Req1 → Proc σ (Option Resp1 × Option Err))
    (local2 : Context → Req2 → Proc σ (Option Resp2 × Option Err))
    (remote2 : ClientConn → Context → Req2 → Proc σ (Option Resp2 × Option Err))
    (r1 : Req1) (r2 : Req2)
    (hl : ∀ ctx s, Run.corresponds (local1 ctx r1 s) (local2 ctx r2 s))
    (hr : ∀ cc ctx s, Run.corresponds (remote1 cc ctx r1 s) (remote2 cc ctx r2 s))
    (ctx : Context) (s : σ) :
    Run.corresponds (specForward T p fuel local1 remote1 ctx r1 s)
      (specForward T p fuel local2 remote2 ctx r2 s) := by
  unfold specForward
  refine Run.corresponds_seq_same _ _ _ (fun a s => ?_) s
  obtain ⟨conn, err⟩ := a
  cases err with
  | some err =>
    simp only
    by_cases hE : err = Err.ErrIsLeader
    · simp only [hE, if_true]
      refine Run.corresponds_seq_same _ _ _ (fun a s => ?_) s
      obtain ⟨ctx1, err1⟩ := a
      cases err1 with
      | some e => exact Run.corresponds_ret _ _ s rfl rfl
      | none => exact hl ctx1 s
    · simp only [hE, if_false]
      exact Run.corresponds_ret _ _ s rfl rfl
  | none =>
    simp only
    refine Run.corresponds_seq_same _ _ _ (fun a s => ?_) s
    obtain ⟨modCtx, err1⟩ := a
    cases err1 with
    | some e => exact Run.corresponds_ret _ _ s rfl rfl
    | none =>
      simp only
      refine Run.corresponds_seq _ _ _ _ s (hr conn modCtx s) (fun x y s hxy hsome => ?_)
      obtain ⟨resp1, e1⟩ := x
      obtain ⟨resp2, e2⟩ := y
      simp only at hxy hsome
      subst hxy
      cases e1 with
      | none => exact Run.corresponds_ret _ _ s rfl hsome
      | some e =>
        simp only
        by_cases hC : isConnErr e = true
        · simp only [hC, Bool.not_true, Bool.false_eq_true, if_false]
          refine Run.corresponds_seq_same _ _ _ (fun a s => ?_) s
          obtain ⟨conn2, err2⟩ := a
          cases err2 with
          | some e2 =>
            simp only
            by_cases hE : e2 = Err.ErrIsLeader
            · simp only [hE, if_true]
              exact hl _ s
            · simp only [hE, if_false]
              exact Run.corresponds_ret _ _ s rfl rfl
          | none => exact hr conn2 modCtx s
        · have hC' : isConnErr e = false := by simpa using hC
          simp only [hC', Bool.not_false, if_true]
          exact Run.corresponds_ret _ _ s rfl hsome


theorem localOp_corresponds (p : raftProxyResourceAllocatorServer σ)
    (ra : AttachNetworkRequest) (rd : DetachNetworkRequest) (ctx : Context) (s : σ)
    (h : (p.localSrv.AttachNetwork ctx ra s).2 = (p.localSrv.DetachNetwork ctx rd s).2
      ∧ (p.localSrv.AttachNetwork ctx ra s).1.2 = (p.localSrv.DetachNetwork ctx rd s).1.2
      ∧ (p.localSrv.AttachNetwork ctx ra s).1.1.isSome
          = (p.localSrv.DetachNetwork ctx rd s).1.1.isSome) :
    Run.corresponds
      (call (p.localSrv.AttachNetwork ctx ra) (fun _ => Event.localAttachNetwork ctx ra) s)
      (call (p.localSrv.DetachNetwork ctx rd) (fun _ => Event.localDetachNetwork ctx rd) s) :=
  ⟨h.1, rfl, h.2.1, h.2.2⟩

theorem remoteOp_corresponds (T : Transport σ)
    (ra : AttachNetworkRequest) (rd : DetachNetworkRequest) (cc : ClientConn) (ctx : Context)
    (s : σ)
    (h : (T.InvokeAttachNetwork ctx ra cc s).2 = (T.InvokeDetachNetwork ctx rd cc s).2
      ∧ (T.InvokeAttachNetwork ctx ra cc s).1.2 = (T.InvokeDetachNetwork ctx rd cc s).1.2) :
    Run.corresponds (resourceAllocatorClient.AttachNetwork T cc ctx ra s)
      (resourceAllocatorClient.DetachNetwork T cc ctx rd s) := by
  obtain ⟨h1, h2⟩ := h
  rcases hA : T.InvokeAttachNetwork ctx ra cc s with ⟨⟨outA, errA⟩, sA⟩
  rcases hD : T.InvokeDetachNetwork ctx rd cc s with ⟨⟨outD, errD⟩, sD⟩
  rw [hA, hD] at h1 h2
  simp only at h1 h2
  subst h1 h2
  cases errA <;>
    simp [resourceAllocatorClient.AttachNetwork, resourceAllocatorClient.DetachNetwork,
      Run.corresponds, Outcome.corresponds, Event.shape, bind, Proc.seq, call, pure, Proc.ret,
      hA, hD]

/-- C24. The two methods of the raft proxy are one state machine. Each is
equal to `specForward`, the forwarding state machine of the spec, applied to
the method's own local operation (the call of the wrapped server) and remote
operation (the call of the client over the leader connection). So when the
collaborators answer the two methods alike (the wrapped server and
`grpc.Invoke` return the same errors, leave the same state, and return
responses that are both nil or both not nil), the runs of the two methods
correspond: the same calls of `LeaderConn`, of the modifiers, of the remote
operation, of the poller and of the local operation, in the same order with
the same contexts, connections and errors, the same state at the end, and
corresponding outcomes. -/
theorem one_forwarding_machine (T : Transport σ) (p : raftProxyResourceAllocatorServer σ)
    (fuel : Nat) :
    AttachNetwork T p fuel
      = specForward T p fuel
          (fun ctx r => call (p.localSrv.AttachNetwork ctx r)
            (fun _ => Event.localAttachNetwork ctx r))
          (resourceAllocatorClient.AttachNetwork T)
    ∧ DetachNetwork T p fuel
      = specForward T p fuel
          (fun ctx r => call (p.localSrv.DetachNetwork ctx r)
            (fun _ => Event.localDetachNetwork ctx r))
          (resourceAllocatorClient.DetachNetwork T)
    ∧ ∀ (ra : AttachNetworkRequest) (rd : DetachNetworkRequest),
        (∀ ctx s,
          (p.localSrv.AttachNetwork ctx ra s).2 = (p.localSrv.DetachNetwork ctx rd s).2
          ∧ (p.localSrv.AttachNetwork ctx ra s).1.2 = (p.localSrv.DetachNetwork ctx rd s).1.2
          ∧ (p.localSrv.AttachNetwork ctx ra s).1.1.isSome
              = (p.localSrv.DetachNetwork ctx rd s).1.1.isSome) →
        (∀ ctx cc s,
          (T.InvokeAttachNetwork ctx ra cc s).2 = (T.InvokeDetachNetwork ctx rd cc s).2
          ∧ (T.InvokeAttachNetwork ctx ra cc s).1.2
              = (T.InvokeDetachNetwork ctx rd cc s).1.2) →
        ∀ ctx s, Run.corresponds (AttachNetwork T p fuel ctx ra s)
          (DetachNetwork T p fuel ctx rd s) := by
  refine ⟨AttachNetwork_eq_specForward T p fuel, DetachNetwork_eq_specForward T p fuel,
    fun ra rd hl hr ctx s => ?_⟩
  rw [AttachNetwork_eq_specForward, DetachNetwork_eq_specForward]
  exact specForward_corresponds T p fuel _ _ _ _ ra rd
    (fun ctx s => localOp_corresponds p ra rd ctx s (hl ctx s))
    (fun cc ctx s => remoteOp_corresponds T ra rd cc ctx s (hr ctx cc s)) ctx s

/-- C24 on a run: the first forwarded call fails with a connection error, the
poller finds a new leader and the call is made once more; the attach and the
detach method go through the same calls. -/
theorem one_forwarding_machine_witness :
    Run.corresponds
      (AttachNetwork (demoTransport (Err.other "connection error"))
        (demoProxy [(some 1, none), (some 2, none)]) 3 freshCtx reqC1 0)
      (DetachNetwork (demoTransport (Err.other "connection error"))
        (demoProxy [(some 1, none), (some 2, none)]) 3 freshCtx ⟨[7]⟩ 0)
    ∧ (AttachNetwork (demoTransport (Err.other "connection error"))
        (demoProxy [(some 1, none), (some 2, none)]) 3 freshCtx reqC1 0).trace.map Event.shape
      = [CallShape.LeaderConn freshCtx, CallShape.ctxMod ModName.redirectChecker freshCtx,
         CallShape.ctxMod ModName.remoteCtxMod markedCtx,
         CallShape.remoteOp (some 1) forwardedCtx (some (Err.other "connection error")),
         CallShape.pollNewLeaderConn freshCtx, CallShape.selectCase freshCtx none,
         CallShape.LeaderConn freshCtx,
         CallShape.Check (some 2) freshCtx ⟨"Raft"⟩,
         CallShape.remoteOp (some 2) forwardedCtx none] :=
  ⟨(one_forwarding_machine (demoTransport (Err.other "connection error"))
      (demoProxy [(some 1, none), (some 2, none)]) 3).2.2 reqC1 ⟨[7]⟩
      (fun _ _ => ⟨rfl, rfl, rfl⟩)
      (fun _ cc _ => by
        by_cases h : cc = some 2 <;> simp [demoTransport, h])
      freshCtx 0,
    by decide⟩

end OneMachine

/-! ## The constructor and nil modifiers -/

section NilModifier

/-- C28 at the failing input. The constructor leaves a nil local modifier out
of the local chain, yet it appends the remote modifier to the remote chain as
it is given: with a nil `remoteCtxMod` the remote chain is the redirect guard
followed by a nil function. On a node that is not the leader, a call that
comes in over a transport stream without a redirect marker passes the guard,
and `runCtxMods` then calls the nil function: `AttachNetwork` and
`DetachNetwork` panic, after `LeaderConn` and the guard and before any
forwarded RPC. -/
theorem nil_remote_modifier_panics :
    (NewRaftProxyResourceAllocatorServer demoLocal (scriptedSelector [(some 2, none)])
        none none).localCtxMods.length = 0
    ∧ (NewRaftProxyResourceAllocatorServer demoLocal (scriptedSelector [(some 2, none)])
        none none).remoteCtxMods.map (fun m => (m.name, m.fn.isSome))
      = [(ModName.redirectChecker, true), (ModName.remoteCtxMod, false)]
    ∧ (AttachNetwork (demoTransport (Err.other "connection error"))
        (NewRaftProxyResourceAllocatorServer demoLocal (scriptedSelector [(some 2, none)])
          none none) 3 freshCtx reqC1 0).out = Outcome.panic
    ∧ (AttachNetwork (demoTransport (Err.other "connection error"))
        (NewRaftProxyResourceAllocatorServer demoLocal (scriptedSelector [(some 2, none)])
          none none) 3 freshCtx reqC1 0).trace
      = [Event.LeaderConn freshCtx, Event.ctxMod ModName.redirectChecker freshCtx]
    ∧ (DetachNetwork (demoTransport (Err.other "connection error"))
        (NewRaftProxyResourceAllocatorServer demoLocal (scriptedSelector [(some 2, none)])
          none none) 3 freshCtx ⟨[7]⟩ 0).out = Outcome.panic
    ∧ (DetachNetwork (demoTransport (Err.other "connection error"))
        (NewRaftProxyResourceAllocatorServer demoLocal (scriptedSelector [(some 2, none)])
          none none) 3 freshCtx ⟨[7]⟩ 0).trace
      = [Event.LeaderConn freshCtx, Event.ctxMod ModName.redirectChecker freshCtx] := by
  refine ⟨by decide, by decide, by decide, by decide, by decide, by decide⟩

end NilModifier

/-! ## Malformed tags -/

section Malformed

variable {M : Type}

theorem skipResource_illegal_wireType (dAtA : List UInt8) (n : Nat) (i1 : Int) (wire : Nat)
    (hT : readVarint dAtA n = .next wire i1) (hW : wire &&& 0x7 = 6 ∨ wire &&& 0x7 = 7) :
    skipResource (dAtA.drop n)
      = .fail (Err.other ("proto: illegal wireType " ++ toString (wire &&& 0x7))) := by
  have hb := readVarint_next dAtA n wire i1 hT
  have h1 : readVarint (dAtA.drop n) 0 = .next wire (i1 - n) := by
    have := readVarint_drop dAtA n (by omega) 0
    simp only [Nat.cast_zero, Int.add_zero] at this
    rw [this, hT]
    simp only [Step.shift]
    congr 1
  have h0 : (0 : Int) < ((dAtA.drop n).length : Int) := by
    simp only [List.length_drop]
    omega
  unfold skipResource skipResourceFuel
  rw [if_pos h0, h1]
  simp only
  rw [if_neg (by omega), if_neg (by omega), if_neg (by omega), if_neg (by omega),
    if_neg (by omega), if_neg (by omega)]

theorem skipField_illegal_wireType (dAtA : List UInt8) (n : Nat) (i1 : Int) (wire : Nat)
    (hT : readVarint dAtA n = .next wire i1) (hW : wire &&& 0x7 = 6 ∨ wire &&& 0x7 = 7) :
    skipField dAtA n
      = .fail (Err.other ("proto: illegal wireType " ++ toString (wire &&& 0x7))) := by
  have hb := readVarint_next dAtA n wire i1 hT
  unfold skipField
  simp only
  rw [sliceFrom_eq dAtA n (by omega)]
  simp only
  rw [skipResource_illegal_wireType dAtA n i1 wire hT hW]

theorem unmarshalLoop_fail (name : String)
    (field : M → List UInt8 → Int → Int → Int → Nat → Step M) (dAtA : List UInt8)
    (fuel : Nat) (m : M) (i : Int) (err : Err) (hi : i < dAtA.length)
    (hs : unmarshalStep name field dAtA m i = .fail err) :
    unmarshalLoop name field dAtA (fuel + 1) m i = .error err := by
  unfold unmarshalLoop
  rw [if_pos hi, hs]

/-- The loop that has made the iterations of a run so far goes on as the loop
started where the run stands, with the fuel that is left. -/
theorem unmarshalLoop_of_reaches (name : String)
    (field : M → List UInt8 → Int → Int → Int → Nat → Step M) (hreg : RegularSwitch field)
    (dAtA : List UInt8) (hX : dAtA.length < 9223372036854775808)
    (m : M) (i : Int) (m2 : M) (i2 : Int)
    (h : Reaches (unmarshalStep name field dAtA) dAtA.length m i m2 i2) :
    0 ≤ i2 → ∃ k : Nat, (k : Int) ≤ i2 - i ∧ ∀ fuel, k ≤ fuel →
      unmarshalLoop name field dAtA fuel m i
        = unmarshalLoop name field dAtA (fuel - k) m2 i2 := by
  induction h with
  | here m i => exact fun _ => ⟨0, by omega, fun fuel _ => rfl⟩
  | step m i m1 i1 m2 i2 hi hs hrest ih =>
    intro h2
    have hp := unmarshalStep_progress name field hreg dAtA hX m i m1 i1 hs
    have hi1 : 0 ≤ i1 := by
      cases hrest with
      | here => exact h2
      | step _ _ m3 i3 _ _ _ hs3 _ => exact unmarshalStep_nonneg name field dAtA _ _ _ _ hs3
    obtain ⟨k, hk, hloop⟩ := ih h2
    refine ⟨k + 1, by push_cast; omega, fun fuel hf => ?_⟩
    obtain ⟨f, rfl⟩ : ∃ f, fuel = f + 1 := ⟨fuel - 1, by omega⟩
    rw [show f + 1 - (k + 1) = f - k by omega, ← hloop f (by omega)]
    conv_lhs => unfold unmarshalLoop
    rw [if_pos hi, hs]

/-- A run of `Unmarshal` that stands at a tag on which the body of the loop
fails returns that error. -/
theorem unmarshalLoop_reaches_fail (name : String)
    (field : M → List UInt8 → Int → Int → Int → Nat → Step M) (hreg : RegularSwitch field)
    (dAtA : List UInt8) (hX : dAtA.length < 9223372036854775808)
    (m0 m : M) (i : Int) (err : Err)
    (h : Reaches (unmarshalStep name field dAtA) dAtA.length m0 0 m i)
    (hi0 : 0 ≤ i) (hi : i < dAtA.length)
    (hs : unmarshalStep name field dAtA m i = .fail err) :
    unmarshalLoop name field dAtA (dAtA.length + 1) m0 0 = .error err := by
  obtain ⟨k, hk, hloop⟩ := unmarshalLoop_of_reaches name field hreg dAtA hX m0 0 m i h hi0
  rw [hloop _ (by omega)]
  obtain ⟨f, hf⟩ : ∃ f, dAtA.length + 1 - k = f + 1 := ⟨dAtA.length - k, by omega⟩
  rw [hf]
  exact unmarshalLoop_fail name field dAtA f m i err hi hs


/-- The `default` case on a tag of wire type 6 or 7, for any message. -/
theorem default_case_illegal_wireType (dAtA : List UInt8) (m : M) (i i1 : Int) (wire : Nat)
    (hT : readVarint dAtA i = .next wire i1) (hW : wire &&& 0x7 = 6 ∨ wire &&& 0x7 = 7) :
    FieldCase.skip.run m dAtA i i1
      = .fail (Err.other ("proto: illegal wireType " ++ toString (wire &&& 0x7))) := by
  have hb := readVarint_next dAtA i wire i1 hT
  obtain ⟨n, rfl⟩ : ∃ n : Nat, i = (n : Int) := ⟨i.toNat, by omega⟩
  rw [FieldCase.run_skip_eq, skipField_illegal_wireType dAtA n i1 wire hT hW]

theorem attachRequest_malformed (codec : ConfigCodec) (wire : Nat)
    (h : MalformedTag [1, 2] wire) :
    ∃ err : Err, ∀ (dAtA : List UInt8) (m : AttachNetworkRequest) (i i1 : Int),
      readVarint dAtA i = .next wire i1 →
      unmarshalStep "AttachNetworkRequest" (AttachNetworkRequest.unmarshalField codec) dAtA m i
        = .fail err := by
  by_cases hbad : wire &&& 0x7 = 4 ∨ int32OfUint64 (wire >>> 3) ≤ 0
  · exact unmarshalStep_bad_tag _ _ wire hbad
  · have h4 : wire &&& 0x7 ≠ 4 := fun e => hbad (Or.inl e)
    have h0 : 0 < int32OfUint64 (wire >>> 3) := by
      by_contra hx
      exact hbad (Or.inr (by omega))
    have hw2 : wire &&& 0x7 ≠ 2 := by
      rcases h with h | h | h | h | h
      · exact absurd h h4
      · omega
      · omega
      · omega
      · exact h.2
    by_cases h1 : int32OfUint64 (wire >>> 3) = 1
    · refine ⟨Err.other ("proto: wrong wireType = " ++ toString (wire &&& 0x7) ++ " for field Config"),
        fun dAtA m i i1 hT => ?_⟩
      rw [unmarshalStep_of_tag _ _ wire h4 h0 dAtA m i i1 hT]
      unfold AttachNetworkRequest.unmarshalField
      rw [if_pos h1, if_pos hw2]
    · by_cases h2 : int32OfUint64 (wire >>> 3) = 2
      · refine ⟨Err.other ("proto: wrong wireType = " ++ toString (wire &&& 0x7) ++ " for field ContainerID"),
          fun dAtA m i i1 hT => ?_⟩
        rw [unmarshalStep_of_tag _ _ wire h4 h0 dAtA m i i1 hT]
        unfold AttachNetworkRequest.unmarshalField
        rw [if_neg h1, if_pos h2, if_pos hw2]
      · have hW : wire &&& 0x7 = 6 ∨ wire &&& 0x7 = 7 := by
          rcases h with h | h | h | h | h
          · exact absurd h h4
          · omega
          · exact Or.inl h
          · exact Or.inr h
          · simp only [List.mem_cons, List.mem_singleton, List.not_mem_nil, or_false] at h
            rcases h.1 with e | e
            · exact absurd e h1
            · exact absurd e h2
        refine ⟨Err.other ("proto: illegal wireType " ++ toString (wire &&& 0x7)),
          fun dAtA m i i1 hT => ?_⟩
        rw [unmarshalStep_of_tag _ _ wire h4 h0 dAtA m i i1 hT,
          attachRequest_switch_skips codec _ h1 h2,
          default_case_illegal_wireType dAtA m i i1 wire hT hW]

theorem attachResponse_malformed (wire : Nat) (h : MalformedTag [1] wire) :
    ∃ err : Err, ∀ (dAtA : List UInt8) (m : AttachNetworkResponse) (i i1 : Int),
      readVarint dAtA i = .next wire i1 →
      unmarshalStep "AttachNetworkResponse" AttachNetworkResponse.unmarshalField dAtA m i
        = .fail err := by
  by_cases hbad : wire &&& 0x7 = 4 ∨ int32OfUint64 (wire >>> 3) ≤ 0
  · exact unmarshalStep_bad_tag _ _ wire hbad
  · have h4 : wire &&& 0x7 ≠ 4 := fun e => hbad (Or.inl e)
    have h0 : 0 < int32OfUint64 (wire >>> 3) := by
      by_contra hx
      exact hbad (Or.inr (by omega))
    have hw2 : wire &&& 0x7 ≠ 2 := by
      rcases h with h | h | h | h | h
      · exact absurd h h4
      · omega
      · omega
      · omega
      · exact h.2
    by_cases h1 : int32OfUint64 (wire >>> 3) = 1
    · refine ⟨Err.other ("proto: wrong wireType = " ++ toString (wire &&& 0x7) ++ " for field AttachmentID"),
        fun dAtA m i i1 hT => ?_⟩
      rw [unmarshalStep_of_tag _ _ wire h4 h0 dAtA m i i1 hT]
      unfold AttachNetworkResponse.unmarshalField
      rw [if_pos h1, if_pos hw2]
    · have hW : wire &&& 0x7 = 6 ∨ wire &&& 0x7 = 7 := by
        rcases h with h | h | h | h | h
        · exact absurd h h4
        · omega
        · exact Or.inl h
        · exact Or.inr h
        · simp only [List.mem_singleton] at h
          exact absurd h.1 h1
      refine ⟨Err.other ("proto: illegal wireType " ++ toString (wire &&& 0x7)),
        fun dAtA m i i1 hT => ?_⟩
      rw [unmarshalStep_of_tag _ _ wire h4 h0 dAtA m i i1 hT,
        attachResponse_switch_skips _ h1,
        default_case_illegal_wireType dAtA m i i1 wire hT hW]

theorem detachRequest_malformed (wire : Nat) (h : MalformedTag [1] wire) :
    ∃ err : Err, ∀ (dAtA : List UInt8) (m : DetachNetworkRequest) (i i1 : Int),
      readVarint dAtA i = .next wire i1 →
      unmarshalStep "DetachNetworkRequest" DetachNetworkRequest.unmarshalField dAtA m i
        = .fail err := by
  by_cases hbad : wire &&& 0x7 = 4 ∨ int32OfUint64 (wire >>> 3) ≤ 0
  · exact unmarshalStep_bad_tag _ _ wire hbad
  · have h4 : wire &&& 0x7 ≠ 4 := fun e => hbad (Or.inl e)
    have h0 : 0 < int32OfUint64 (wire >>> 3) := by
      by_contra hx
      exact hbad (Or.inr (by omega))
    have hw2 : wire &&& 0x7 ≠ 2 := by
      rcases h with h | h | h | h | h
      · exact absurd h h4
      · omega
      · omega
      · omega
      · exact h.2
    by_cases h1 : int32OfUint64 (wire >>> 3) = 1
    · refine ⟨Err.other ("proto: wrong wireType = " ++ toString (wire &&& 0x7) ++ " for field AttachmentID"),
        fun dAtA m i i1 hT => ?_⟩
      rw [unmarshalStep_of_tag _ _ wire h4 h0 dAtA m i i1 hT]
      unfold DetachNetworkRequest.unmarshalField
      rw [if_pos h1, if_pos hw2]
    · have hW : wire &&& 0x7 = 6 ∨ wire &&& 0x7 = 7 := by
        rcases h with h | h | h | h | h
        · exact absurd h h4
        · omega
        · exact Or.inl h
        · exact Or.inr h
        · simp only [List.mem_singleton] at h
          exact absurd h.1 h1
      refine ⟨Err.other ("proto: illegal wireType " ++ toString (wire &&& 0x7)),
        fun dAtA m i i1 hT => ?_⟩
      rw [unmarshalStep_of_tag _ _ wire h4 h0 dAtA m i i1 hT,
        detachRequest_switch_skips _ h1,
        default_case_illegal_wireType dAtA m i i1 wire hT hW]

theorem detachResponse_malformed (wire : Nat) (h : MalformedTag [] wire) :
    ∃ err : Err, ∀ (dAtA : List UInt8) (m : DetachNetworkResponse) (i i1 : Int),
      readVarint dAtA i = .next wire i1 →
      unmarshalStep "DetachNetworkResponse" DetachNetworkResponse.unmarshalField dAtA m i
        = .fail err := by
  by_cases hbad : wire &&& 0x7 = 4 ∨ int32OfUint64 (wire >>> 3) ≤ 0
  · exact unmarshalStep_bad_tag _ _ wire hbad
  · have h4 : wire &&& 0x7 ≠ 4 := fun e => hbad (Or.inl e)
    have h0 : 0 < int32OfUint64 (wire >>> 3) := by
      by_contra hx
      exact hbad (Or.inr (by omega))
    have hW : wire &&& 0x7 = 6 ∨ wire &&& 0x7 = 7 := by
      rcases h with h | h | h | h | h
      · exact absurd h h4
      · omega
      · exact Or.inl h
      · exact Or.inr h
      · simp only [List.not_mem_nil, false_and] at h
    refine ⟨Err.other ("proto: illegal wireType " ++ toString (wire &&& 0x7)),
      fun dAtA m i i1 hT => ?_⟩
    rw [unmarshalStep_of_tag _ _ wire h4 h0 dAtA m i i1 hT,
      detachResponse_switch_skips _,
      default_case_illegal_wireType dAtA m i i1 wire hT hW]


/-- C23. Malformed tags are rejected. Let `wire` be a tag that is malformed
for a message: wire type 4, a field number that is zero or negative as an
`int32`, wire type 6 or 7, or a declared field number with a wire type other
than 2. There is an error such that, on every input and at every index where
that tag is read, the loop of `Unmarshal` of the message returns the error,
whatever the message decoded so far; and `Unmarshal` itself returns it
whenever its run comes to stand at that index (the input being shorter than
2^63 bytes, as every Go slice is). -/
theorem malformed_tag_is_rejected (codec : ConfigCodec) (wire : Nat) :
    (MalformedTag [1, 2] wire → ∃ err : Err, ∀ (dAtA : List UInt8) (i i1 : Int),
      readVarint dAtA i = .next wire i1 →
      (∀ (fuel : Nat) (m : AttachNetworkRequest),
        unmarshalLoop "AttachNetworkRequest" (AttachNetworkRequest.unmarshalField codec) dAtA
          (fuel + 1) m i = .error err)
      ∧ (dAtA.length < 9223372036854775808 → ∀ (m0 m : AttachNetworkRequest),
        Reaches (unmarshalStep "AttachNetworkRequest"
          (AttachNetworkRequest.unmarshalField codec) dAtA) dAtA.length m0 0 m i →
        AttachNetworkRequest.Unmarshal codec m0 dAtA = .error err))
    ∧ (MalformedTag [1] wire → ∃ err : Err, ∀ (dAtA : List UInt8) (i i1 : Int),
      readVarint dAtA i = .next wire i1 →
      (∀ (fuel : Nat) (m : AttachNetworkResponse),
        unmarshalLoop "AttachNetworkResponse" AttachNetworkResponse.unmarshalField dAtA
          (fuel + 1) m i = .error err)
      ∧ (dAtA.length < 9223372036854775808 → ∀ (m0 m : AttachNetworkResponse),
        Reaches (unmarshalStep "AttachNetworkResponse"
          AttachNetworkResponse.unmarshalField dAtA) dAtA.length m0 0 m i →
        AttachNetworkResponse.Unmarshal m0 dAtA = .error err))
    ∧ (MalformedTag [1] wire → ∃ err : Err, ∀ (dAtA : List UInt8) (i i1 : Int),
      readVarint dAtA i = .next wire i1 →
      (∀ (fuel : Nat) (m : DetachNetworkRequest),
        unmarshalLoop "DetachNetworkRequest" DetachNetworkRequest.unmarshalField dAtA
          (fuel + 1) m i = .error err)
      ∧ (dAtA.length < 9223372036854775808 → ∀ (m0 m : DetachNetworkRequest),
        Reaches (unmarshalStep "DetachNetworkRequest"
          DetachNetworkRequest.unmarshalField dAtA) dAtA.length m0 0 m i →
        DetachNetworkRequest.Unmarshal m0 dAtA = .error err))
    ∧ (MalformedTag [] wire → ∃ err : Err, ∀ (dAtA : List UInt8) (i i1 : Int),
      readVarint dAtA i = .next wire i1 →
      (∀ (fuel : Nat) (m : DetachNetworkResponse),
        unmarshalLoop "DetachNetworkResponse" DetachNetworkResponse.unmarshalField dAtA
          (fuel + 1) m i = .error err)
      ∧ (dAtA.length < 9223372036854775808 → ∀ (m0 m : DetachNetworkResponse),
        Reaches (unmarshalStep "DetachNetworkResponse"
          DetachNetworkResponse.unmarshalField dAtA) dAtA.length m0 0 m i →
        DetachNetworkResponse.Unmarshal m0 dAtA = .error err)) := by
  refine ⟨fun hbad => ?_, fun hbad => ?_, fun hbad => ?_, fun hbad => ?_⟩
  · obtain ⟨err, herr⟩ := attachRequest_malformed codec wire hbad
    refine ⟨err, fun dAtA i i1 hT => ?_⟩
    have hb := readVarint_next dAtA i wire i1 hT
    exact ⟨fun fuel m => unmarshalLoop_fail _ _ dAtA fuel m i err (by omega) (herr dAtA m i i1 hT),
      fun hX m0 m hreach => unmarshalLoop_reaches_fail _ _ (attachRequest_switch_regular codec)
        dAtA hX m0 m i err hreach hb.1 (by omega) (herr dAtA m i i1 hT)⟩
  · obtain ⟨err, herr⟩ := attachResponse_malformed wire hbad
    refine ⟨err, fun dAtA i i1 hT => ?_⟩
    have hb := readVarint_next dAtA i wire i1 hT
    exact ⟨fun fuel m => unmarshalLoop_fail _ _ dAtA fuel m i err (by omega) (herr dAtA m i i1 hT),
      fun hX m0 m hreach => unmarshalLoop_reaches_fail _ _ attachResponse_switch_regular
        dAtA hX m0 m i err hreach hb.1 (by omega) (herr dAtA m i i1 hT)⟩
  · obtain ⟨err, herr⟩ := detachRequest_malformed wire hbad
    refine ⟨err, fun dAtA i i1 hT => ?_⟩
    have hb := readVarint_next dAtA i wire i1 hT
    exact ⟨fun fuel m => unmarshalLoop_fail _ _ dAtA fuel m i err (by omega) (herr dAtA m i i1 hT),
      fun hX m0 m hreach => unmarshalLoop_reaches_fail _ _ detachRequest_switch_regular
        dAtA hX m0 m i err hreach hb.1 (by omega) (herr dAtA m i i1 hT)⟩
  · obtain ⟨err, herr⟩ := detachResponse_malformed wire hbad
    refine ⟨err, fun dAtA i i1 hT => ?_⟩
    have hb := readVarint_next dAtA i wire i1 hT
    exact ⟨fun fuel m => unmarshalLoop_fail _ _ dAtA fuel m i err (by omega) (herr dAtA m i i1 hT),
      fun hX m0 m hreach => unmarshalLoop_reaches_fail _ _ detachResponse_switch_regular
        dAtA hX m0 m i err hreach hb.1 (by omega) (herr dAtA m i i1 hT)⟩

/-- C23 on an input: the string field 1 with the value "A", then the tag
`0x0e`, field 1 with wire type 6. -/
theorem malformed_tag_is_rejected_witness :
    ∃ err : Err, AttachNetworkResponse.Unmarshal ⟨[]⟩ [0x0a, 0x01, 0x41, 0x0e, 0x00]
      = .error err :=
  have hr : Reaches (unmarshalStep "AttachNetworkResponse" AttachNetworkResponse.unmarshalField
      [0x0a, 0x01, 0x41, 0x0e, 0x00]) [0x0a, 0x01, 0x41, 0x0e, 0x00].length
      (⟨[]⟩ : AttachNetworkResponse) 0 ⟨[0x41]⟩ 3 :=
    Reaches.step _ _ _ _ _ _ (by decide) (by decide) (Reaches.here _ _)
  match (malformed_tag_is_rejected demoCodec 14).2.1 (by decide) with
  | ⟨err, h⟩ =>
    ⟨err, (h [0x0a, 0x01, 0x41, 0x0e, 0x00] 3 4 (by decide)).2 (by decide) ⟨[]⟩ ⟨[0x41]⟩ hr⟩

end Malformed

/-! ## Which tags assign a declared field -/

section Assignment

variable {M : Type}

theorem Reaches.snoc {step : M → Int → Step M} {len : Nat} {m0 : M} {i0 : Int} {m : M}
    {i : Int} (h : Reaches step len m0 i0 m i) (m1 : M) (i1 : Int) (hi : i < len)
    (hs : step m i = .next m1 i1) : Reaches step len m0 i0 m1 i1 := by
  induction h with
  | here m i => exact Reaches.step m i m1 i1 m1 i1 hi hs (Reaches.here m1 i1)
  | step a i b j c k hia hsa _ ih => exact Reaches.step a i b j m1 i1 hia hsa (ih hi hs)

/-- The tag an iteration that goes on has read. -/
theorem unmarshalStep_tag (name : String)
    (field : M → List UInt8 → Int → Int → Int → Nat → Step M) (dAtA : List UInt8)
    (m : M) (i : Int) (m' : M) (k : Int)
    (h : unmarshalStep name field dAtA m i = .next m' k) :
    ∃ (wire : Nat) (i1 : Int), readVarint dAtA i = .next wire i1
      ∧ wire &&& 0x7 ≠ 4 ∧ 0 < int32OfUint64 (wire >>> 3)
      ∧ field m dAtA i i1 (int32OfUint64 (wire >>> 3)) (wire &&& 0x7) = .next m' k := by
  obtain ⟨fieldNum, wireType, i1, ht, hf⟩ :=
    (unmarshalStep_next_iff name field dAtA m i m' k).1 h
  obtain ⟨wire, hv, h1, h2, h3, h4⟩ := readTag_next name dAtA i fieldNum wireType i1 ht
  rw [h1, h2] at hf
  rw [h2] at h3
  rw [h1] at h4
  exact ⟨wire, i1, hv, h3, h4, hf⟩

/-- When a successful run changes a component of the message, one of its
iterations has changed it. -/
theorem Parses.changed {β : Type} (f : M → β) (P : Nat → Prop) (dAtA : List UInt8)
    (step : M → Int → Step M) (len : Nat)
    (hstep : ∀ m i m' i', step m i = .next m' i' → f m' ≠ f m →
      ∃ (wire : Nat) (i1 : Int), readVarint dAtA i = .next wire i1 ∧ P wire)
    (m0 : M) (m : M) (i : Int) (mf : M) (h : Parses step len m i mf) :
    Reaches step len m0 0 m i → f mf ≠ f m →
      ∃ (m2 : M) (i2 : Int) (wire : Nat) (i1 : Int), Reaches step len m0 0 m2 i2
        ∧ readVarint dAtA i2 = .next wire i1 ∧ P wire := by
  induction h with
  | done m => exact fun _ hne => absurd rfl hne
  | step m i m' i' mf hi hs _ ih =>
    intro hreach hne
    by_cases hch : f m' = f m
    · exact ih (hreach.snoc m' i' hi hs) (by rw [hch]; exact hne)
    · obtain ⟨wire, i1, hv, hP⟩ := hstep m i m' i' hs hch
      exact ⟨m, i, wire, i1, hreach, hv, hP⟩

theorem attachRequest_step_assigns (codec : ConfigCodec) (dAtA : List UInt8)
    (m : AttachNetworkRequest) (i : Int) (m' : AttachNetworkRequest) (i' : Int)
    (h : unmarshalStep "AttachNetworkRequest" (AttachNetworkRequest.unmarshalField codec)
      dAtA m i = .next m' i') :
    ∃ (wire : Nat) (i1 : Int), readVarint dAtA i = .next wire i1
      ∧ (m'.Config ≠ m.Config → int32OfUint64 (wire >>> 3) = 1 ∧ wire &&& 0x7 = 2)
      ∧ (m'.ContainerID ≠ m.ContainerID → int32OfUint64 (wire >>> 3) = 2 ∧ wire &&& 0x7 = 2) := by
  obtain ⟨wire, i1, hv, -, -, hf⟩ := unmarshalStep_tag _ _ dAtA m i m' i' h
  refine ⟨wire, i1, hv, ?_⟩
  by_cases h1 : int32OfUint64 (wire >>> 3) = 1
  · by_cases hw : wire &&& 0x7 = 2
    · refine ⟨fun _ => ⟨h1, hw⟩, fun hne => ?_⟩
      exfalso
      apply hne
      unfold AttachNetworkRequest.unmarshalField at hf
      rw [if_pos h1, if_neg (by simp [hw])] at hf
      cases hr : readLengthDelimited dAtA i1 with
      | next bs post =>
        rw [hr] at hf
        simp only at hf
        rcases hc : codec.Unmarshal (m.Config.getD ⟨[]⟩) bs with ⟨cfg, _ | e⟩
        · rw [hc] at hf
          simp only [Step.next.injEq] at hf
          rw [← hf.1]
        · rw [hc] at hf
          cases hf
      | fail e => rw [hr] at hf; cases hf
      | panic y => rw [hr] at hf; cases hf
      | running => rw [hr] at hf; cases hf
    · unfold AttachNetworkRequest.unmarshalField at hf
      rw [if_pos h1, if_pos hw] at hf
      cases hf
  · by_cases h2 : int32OfUint64 (wire >>> 3) = 2
    · by_cases hw : wire &&& 0x7 = 2
      · refine ⟨fun hne => ?_, fun _ => ⟨h2, hw⟩⟩
        exfalso
        apply hne
        unfold AttachNetworkRequest.unmarshalField at hf
        rw [if_neg h1, if_pos h2, if_neg (by simp [hw])] at hf
        cases hr : readLengthDelimited dAtA i1 with
        | next bs post =>
          rw [hr] at hf
          simp only [Step.next.injEq] at hf
          rw [← hf.1]
        | fail e => rw [hr] at hf; cases hf
        | panic y => rw [hr] at hf; cases hf
        | running => rw [hr] at hf; cases hf
      · unfold AttachNetworkRequest.unmarshalField at hf
        rw [if_neg h1, if_pos h2, if_pos hw] at hf
        cases hf
    · rw [attachRequest_switch_skips codec _ h1 h2] at hf
      obtain ⟨hm, -⟩ := (FieldCase.run_skip_next m dAtA i i1 m' i').1 hf
      subst hm
      exact ⟨fun hne => absurd rfl hne, fun hne => absurd rfl hne⟩

theorem attachResponse_step_assigns (dAtA : List UInt8)
    (m : AttachNetworkResponse) (i : Int) (m' : AttachNetworkResponse) (i' : Int)
    (h : unmarshalStep "AttachNetworkResponse" AttachNetworkResponse.unmarshalField
      dAtA m i = .next m' i') :
    ∃ (wire : Nat) (i1 : Int), readVarint dAtA i = .next wire i1
      ∧ (m'.AttachmentID ≠ m.AttachmentID →
          int32OfUint64 (wire >>> 3) = 1 ∧ wire &&& 0x7 = 2) := by
  obtain ⟨wire, i1, hv, -, -, hf⟩ := unmarshalStep_tag _ _ dAtA m i m' i' h
  refine ⟨wire, i1, hv, ?_⟩
  by_cases h1 : int32OfUint64 (wire >>> 3) = 1
  · by_cases hw : wire &&& 0x7 = 2
    · exact fun _ => ⟨h1, hw⟩
    · unfold AttachNetworkResponse.unmarshalField at hf
      rw [if_pos h1, if_pos hw] at hf
      cases hf
  · rw [attachResponse_switch_skips _ h1] at hf
    obtain ⟨hm, -⟩ := (FieldCase.run_skip_next m dAtA i i1 m' i').1 hf
    subst hm
    exact fun hne => absurd rfl hne

theorem detachRequest_step_assigns (dAtA : List UInt8)
    (m : DetachNetworkRequest) (i : Int) (m' : DetachNetworkRequest) (i' : Int)
    (h : unmarshalStep "DetachNetworkRequest" DetachNetworkRequest.unmarshalField
      dAtA m i = .next m' i') :
    ∃ (wire : Nat) (i1 : Int), readVarint dAtA i = .next wire i1
      ∧ (m'.AttachmentID ≠ m.AttachmentID →
          int32OfUint64 (wire >>> 3) = 1 ∧ wire &&& 0x7 = 2) := by
  obtain ⟨wire, i1, hv, -, -, hf⟩ := unmarshalStep_tag _ _ dAtA m i m' i' h
  refine ⟨wire, i1, hv, ?_⟩
  by_cases h1 : int32OfUint64 (wire >>> 3) = 1
  · by_cases hw : wire &&& 0x7 = 2
    · exact fun _ => ⟨h1, hw⟩
    · unfold DetachNetworkRequest.unmarshalField at hf
      rw [if_pos h1, if_pos hw] at hf
      cases hf
  · rw [detachRequest_switch_skips _ h1] at hf
    obtain ⟨hm, -⟩ := (FieldCase.run_skip_next m dAtA i i1 m' i').1 hf
    subst hm
    exact fun hne => absurd rfl hne


/-- The claim C27 as it is stated fails: the tag `8a 80 80 80 80 01` decodes
to `wire = 2^35 + 10`, whose field number `wire >> 3` is `2^32 + 1`, not 1;
the code converts the field number to `int32`, gets 1, and assigns the
`AttachmentID` (for the tag `92 80 80 80 80 01`, with `wire >> 3 = 2^32 + 2`,
the `ContainerID`). -/
theorem assigned_from_other_field_number :
    readVarint [0x8a, 0x80, 0x80, 0x80, 0x80, 0x01, 0x01, 0x41] 0 = .next 34359738378 6
    ∧ 34359738378 >>> 3 = 4294967297
    ∧ AttachNetworkResponse.Unmarshal ⟨[]⟩ [0x8a, 0x80, 0x80, 0x80, 0x80, 0x01, 0x01, 0x41]
      = .ok ⟨[0x41]⟩
    ∧ DetachNetworkRequest.Unmarshal ⟨[]⟩ [0x8a, 0x80, 0x80, 0x80, 0x80, 0x01, 0x01, 0x41]
      = .ok ⟨[0x41]⟩
    ∧ readVarint [0x92, 0x80, 0x80, 0x80, 0x80, 0x01, 0x01, 0x41] 0 = .next 34359738386 6
    ∧ 34359738386 >>> 3 = 4294967298
    ∧ AttachNetworkRequest.Unmarshal demoCodec ⟨none, []⟩
        [0x92, 0x80, 0x80, 0x80, 0x80, 0x01, 0x01, 0x41]
      = .ok ⟨none, [0x41]⟩ := by
  refine ⟨by decide, by decide, by decide, by decide, by decide, by decide, by decide⟩

/-- C27, amended. A declared field is assigned only from a tag of wire type 2
whose field number as the code computes it, `int32(wire >> 3)`, is that
field's number. In every iteration of the loop that goes on, for every
message and input: if the iteration changes `Config` its tag has the number 1,
if it changes `ContainerID` the number 2, if it changes `AttachmentID` the
number 1. And whenever `Unmarshal` returns nil with a declared field that
differs from the one of the message it was called on, its run has read such a
tag at the head of an iteration. -/
theorem declared_field_assigned_by_own_tag (codec : ConfigCodec) (dAtA : List UInt8) :
    (∀ (m : AttachNetworkRequest) (i : Int) (m' : AttachNetworkRequest) (i' : Int),
      unmarshalStep "AttachNetworkRequest" (AttachNetworkRequest.unmarshalField codec)
        dAtA m i = .next m' i' →
      ∃ (wire : Nat) (i1 : Int), readVarint dAtA i = .next wire i1
        ∧ (m'.Config ≠ m.Config → int32OfUint64 (wire >>> 3) = 1 ∧ wire &&& 0x7 = 2)
        ∧ (m'.ContainerID ≠ m.ContainerID →
            int32OfUint64 (wire >>> 3) = 2 ∧ wire &&& 0x7 = 2))
    ∧ (∀ (m : AttachNetworkResponse) (i : Int) (m' : AttachNetworkResponse) (i' : Int),
      unmarshalStep "AttachNetworkResponse" AttachNetworkResponse.unmarshalField
        dAtA m i = .next m' i' →
      ∃ (wire : Nat) (i1 : Int), readVarint dAtA i = .next wire i1
        ∧ (m'.AttachmentID ≠ m.AttachmentID →
            int32OfUint64 (wire >>> 3) = 1 ∧ wire &&& 0x7 = 2))
    ∧ (∀ (m : DetachNetworkRequest) (i : Int) (m' : DetachNetworkRequest) (i' : Int),
      unmarshalStep "DetachNetworkRequest" DetachNetworkRequest.unmarshalField
        dAtA m i = .next m' i' →
      ∃ (wire : Nat) (i1 : Int), readVarint dAtA i = .next wire i1
        ∧ (m'.AttachmentID ≠ m.AttachmentID →
            int32OfUint64 (wire >>> 3) = 1 ∧ wire &&& 0x7 = 2))
    ∧ (∀ (m0 mf : AttachNetworkRequest),
      AttachNetworkRequest.Unmarshal codec m0 dAtA = .ok mf →
      (mf.Config ≠ m0.Config →
        ReadsField "AttachNetworkRequest" (AttachNetworkRequest.unmarshalField codec)
          dAtA m0 1)
      ∧ (mf.ContainerID ≠ m0.ContainerID →
        ReadsField "AttachNetworkRequest" (AttachNetworkRequest.unmarshalField codec)
          dAtA m0 2))
    ∧ (∀ (m0 mf : AttachNetworkResponse),
      AttachNetworkResponse.Unmarshal m0 dAtA = .ok mf →
      mf.AttachmentID ≠ m0.AttachmentID →
      ReadsField "AttachNetworkResponse" AttachNetworkResponse.unmarshalField dAtA m0 1)
    ∧ (∀ (m0 mf : DetachNetworkRequest),
      DetachNetworkRequest.Unmarshal m0 dAtA = .ok mf →
      mf.AttachmentID ≠ m0.AttachmentID →
      ReadsField "DetachNetworkRequest" DetachNetworkRequest.unmarshalField dAtA m0 1) := by
  refine ⟨attachRequest_step_assigns codec dAtA, attachResponse_step_assigns dAtA,
    detachRequest_step_assigns dAtA, fun m0 mf h => ⟨fun hne => ?_, fun hne => ?_⟩,
    fun m0 mf h hne => ?_, fun m0 mf h hne => ?_⟩
  · have hp := unmarshalLoop_ok _ _ dAtA _ m0 0 mf h
    obtain ⟨m2, i2, wire, i1, hr, hv, hP⟩ := Parses.changed (fun m => m.Config)
      (fun wire => int32OfUint64 (wire >>> 3) = 1 ∧ wire &&& 0x7 = 2) dAtA _ _
      (fun m i m' i' hs hch => by
        obtain ⟨wire, i1, hv, h1, -⟩ := attachRequest_step_assigns codec dAtA m i m' i' hs
        exact ⟨wire, i1, hv, h1 hch⟩) m0 m0 0 mf hp (Reaches.here _ _) hne
    exact ⟨m2, i2, wire, i1, hr, hv, hP.1, hP.2⟩
  · have hp := unmarshalLoop_ok _ _ dAtA _ m0 0 mf h
    obtain ⟨m2, i2, wire, i1, hr, hv, hP⟩ := Parses.changed (fun m => m.ContainerID)
      (fun wire => int32OfUint64 (wire >>> 3) = 2 ∧ wire &&& 0x7 = 2) dAtA _ _
      (fun m i m' i' hs hch => by
        obtain ⟨wire, i1, hv, -, h2⟩ := attachRequest_step_assigns codec dAtA m i m' i' hs
        exact ⟨wire, i1, hv, h2 hch⟩) m0 m0 0 mf hp (Reaches.here _ _) hne
    exact ⟨m2, i2, wire, i1, hr, hv, hP.1, hP.2⟩
  · have hp := unmarshalLoop_ok _ _ dAtA _ m0 0 mf h
    obtain ⟨m2, i2, wire, i1, hr, hv, hP⟩ := Parses.changed (fun m => m.AttachmentID)
      (fun wire => int32OfUint64 (wire >>> 3) = 1 ∧ wire &&& 0x7 = 2) dAtA _ _
      (fun m i m' i' hs hch => by
        obtain ⟨wire, i1, hv, h1⟩ := attachResponse_step_assigns dAtA m i m' i' hs
        exact ⟨wire, i1, hv, h1 hch⟩) m0 m0 0 mf hp (Reaches.here _ _) hne
    exact ⟨m2, i2, wire, i1, hr, hv, hP.1, hP.2⟩
  · have hp := unmarshalLoop_ok _ _ dAtA _ m0 0 mf h
    obtain ⟨m2, i2, wire, i1, hr, hv, hP⟩ := Parses.changed (fun m => m.AttachmentID)
      (fun wire => int32OfUint64 (wire >>> 3) = 1 ∧ wire &&& 0x7 = 2) dAtA _ _
      (fun m i m' i' hs hch => by
        obtain ⟨wire, i1, hv, h1⟩ := detachRequest_step_assigns dAtA m i m' i' hs
        exact ⟨wire, i1, hv, h1 hch⟩) m0 m0 0 mf hp (Reaches.here _ _) hne
    exact ⟨m2, i2, wire, i1, hr, hv, hP.1, hP.2⟩

/-- C27 on an input: the string field 1 with the value "A" changes the
`AttachmentID` of the zero message, and the run has read a tag with the field
number 1. -/
theorem declared_field_assigned_by_own_tag_witness :
    AttachNetworkResponse.Unmarshal ⟨[]⟩ [0x0a, 0x01, 0x41] = .ok ⟨[0x41]⟩
    ∧ ReadsField "AttachNetworkResponse" AttachNetworkResponse.unmarshalField
        [0x0a, 0x01, 0x41] ⟨[]⟩ 1 :=
  ⟨by decide,
    (declared_field_assigned_by_own_tag demoCodec [0x0a, 0x01, 0x41]).2.2.2.2.1 ⟨[]⟩ ⟨[0x41]⟩
      (by decide) (by decide)⟩

end Assignment

/-! ## Termination of `skipResource` and its last statement -/

section SkipTotal

theorem varintLoop_not_running (dAtA : List UInt8) (fuel : Nat) :
    ∀ (shift : Nat) (i : Int) (w : Nat), 1 ≤ fuel → 77 ≤ shift + 7 * fuel →
      varintLoop dAtA fuel shift i w ≠ .running := by
  induction fuel with
  | zero =>
    intro shift i w h1 h
    omega
  | succ f ih =>
    intro shift i w _ h
    unfold varintLoop
    by_cases hs : shift ≥ 64
    · rw [if_pos hs]; exact fun e => by cases e
    · rw [if_neg hs]
      by_cases hi : i ≥ (dAtA.length : Int)
      · rw [if_pos hi]; exact fun e => by cases e
      · rw [if_neg hi]
        cases hb : byteAt dAtA i with
        | none => exact fun e => by cases e
        | some b =>
          simp only
          by_cases hlt : b.toNat < 0x80
          · rw [if_pos hlt]; exact fun e => by cases e
          · rw [if_neg hlt]
            exact ih _ _ _ (by omega) (by omega)

theorem readVarint_not_running (dAtA : List UInt8) (i : Int) :
    readVarint dAtA i ≠ .running :=
  varintLoop_not_running dAtA 11 0 i 0 (by omega) (by omega)

theorem varintLoop_panic (dAtA : List UInt8) (fuel : Nat) :
    ∀ (shift : Nat) (i : Int) (w : Nat) (why : Panic),
      varintLoop dAtA fuel shift i w = .panic why → why = Panic.indexOutOfRange := by
  induction fuel with
  | zero => intro shift i w why h; simp [varintLoop] at h
  | succ f ih =>
    intro shift i w why h
    unfold varintLoop at h
    by_cases hs : shift ≥ 64
    · rw [if_pos hs] at h; cases h
    · rw [if_neg hs] at h
      by_cases hi : i ≥ (dAtA.length : Int)
      · rw [if_pos hi] at h; cases h
      · rw [if_neg hi] at h
        cases hb : byteAt dAtA i with
        | none =>
          rw [hb] at h
          simp only [Step.panic.injEq] at h
          exact h.symm
        | some b =>
          rw [hb] at h
          simp only at h
          by_cases hlt : b.toNat < 0x80
          · rw [if_pos hlt] at h; cases h
          · rw [if_neg hlt] at h
            exact ih _ _ _ _ h

theorem readVarint_panic (dAtA : List UInt8) (i : Int) (why : Panic)
    (h : readVarint dAtA i = .panic why) : why = Panic.indexOutOfRange :=
  varintLoop_panic dAtA 11 0 i 0 why h

theorem skipVarintLoop_not_running (dAtA : List UInt8) (i : Int) :
    skipVarintLoop dAtA 11 0 i ≠ .running := by
  rw [skipVarintLoop_eq dAtA 11 0 i 0]
  have := varintLoop_not_running dAtA 11 0 i 0 (by omega) (by omega)
  cases hv : varintLoop dAtA 11 0 i 0 with
  | next v k => exact fun e => by cases e
  | fail e => exact fun e => by cases e
  | panic y => exact fun e => by cases e
  | running => exact absurd hv this

theorem skipVarintLoop_panic (dAtA : List UInt8) (i : Int) (why : Panic)
    (h : skipVarintLoop dAtA 11 0 i = .panic why) : why = Panic.indexOutOfRange := by
  rw [skipVarintLoop_eq dAtA 11 0 i 0] at h
  cases hv : varintLoop dAtA 11 0 i 0 with
  | next v k => rw [hv] at h; cases h
  | fail e => rw [hv] at h; cases h
  | panic y =>
    rw [hv] at h
    simp only [Step.panic.injEq] at h
    rw [← h]
    exact varintLoop_panic dAtA 11 0 i 0 y hv
  | running => rw [hv] at h; cases h


/-- What `skipResource` returns without error: a length of at least 1, or,
when an addition has wrapped around, a negative number so far below zero that
no index of the input added to it is an index again. -/
theorem skipResourceFuel_bounds (fuel : Nat) (dAtA : List UInt8)
    (hl : dAtA.length < 9223372036854775808) (n : Int)
    (h : skipResourceFuel fuel dAtA = .next () n) :
    (1 ≤ n ∧ n < 9223372036854775808)
      ∨ (-9223372036854775808 ≤ n ∧ n + 9223372036854775809 ≤ dAtA.length) := by
  cases fuel with
  | zero => simp [skipResourceFuel] at h
  | succ f =>
    unfold skipResourceFuel at h
    by_cases h0 : (0 : Int) < (dAtA.length : Int)
    · rw [if_pos h0] at h
      cases hr : readVarint dAtA 0 with
      | next w i1 =>
        rw [hr] at h
        simp only at h
        have hb := readVarint_next dAtA 0 w i1 hr
        by_cases hw0 : w &&& 0x7 = 0
        · rw [if_pos hw0] at h
          rw [skipVarintLoop_eq dAtA 11 0 i1 0] at h
          cases hv : varintLoop dAtA 11 0 i1 0 with
          | next v k =>
            rw [hv] at h
            simp only [Step.next.injEq, true_and] at h
            have := varintLoop_next dAtA 11 0 i1 0 v k hv
            omega
          | fail e => rw [hv] at h; cases h
          | panic y => rw [hv] at h; cases h
          | running => rw [hv] at h; cases h
        · rw [if_neg hw0] at h
          by_cases hw1 : w &&& 0x7 = 1
          · rw [if_pos hw1] at h
            simp only [Step.next.injEq, true_and] at h
            unfold wrap64 at h
            omega
          · rw [if_neg hw1] at h
            by_cases hw2 : w &&& 0x7 = 2
            · rw [if_pos hw2] at h
              cases hr2 : readVarint dAtA i1 with
              | next v i2 =>
                rw [hr2] at h
                simp only at h
                have hb2 := readVarint_next dAtA i1 v i2 hr2
                have hv := readVarint_lt dAtA i1 v i2 hr2
                by_cases hneg : intOfUint64 v < 0
                · rw [if_pos hneg] at h; cases h
                · rw [if_neg hneg] at h
                  simp only [Step.next.injEq, true_and] at h
                  have hv2 : v < 9223372036854775808 := by
                    by_contra hc
                    exact hneg (intOfUint64_neg v (by omega) hv)
                  rw [intOfUint64_of_lt v hv2] at h
                  unfold wrap64 at h
                  omega
              | fail e => rw [hr2] at h; cases h
              | panic y => rw [hr2] at h; cases h
              | running => rw [hr2] at h; cases h
            · rw [if_neg hw2] at h
              by_cases hw3 : w &&& 0x7 = 3
              · rw [if_pos hw3] at h
                have := skipGroupLoop_next dAtA _ f i1 n h
                omega
              · rw [if_neg hw3] at h
                by_cases hw4 : w &&& 0x7 = 4
                · rw [if_pos hw4] at h
                  simp only [Step.next.injEq, true_and] at h
                  omega
                · rw [if_neg hw4] at h
                  by_cases hw5 : w &&& 0x7 = 5
                  · rw [if_pos hw5] at h
                    simp only [Step.next.injEq, true_and] at h
                    unfold wrap64 at h
                    omega
                  · rw [if_neg hw5] at h
                    cases h
      | fail e => rw [hr] at h; cases h
      | panic y => rw [hr] at h; cases h
      | running => rw [hr] at h; cases h
    · rw [if_neg h0] at h
      cases h

/-- The group loop returns within `n` iterations when there are that many
bytes left and the recursive call returns on every slice it is given. -/
theorem skipGroupLoop_not_running (dAtA : List UInt8)
    (hl : dAtA.length < 9223372036854775808) (F : Nat)
    (hskip : ∀ j : Nat, 1 ≤ j → j < dAtA.length →
      skipResourceFuel F (dAtA.drop j) ≠ .running) (n : Nat) :
    ∀ (i : Int), (1 ≤ i ∨ i < 0) → 1 ≤ n → (0 ≤ i → (dAtA.length : Int) - i + 1 ≤ n) →
      skipGroupLoop dAtA (skipResourceFuel F) n i ≠ .running := by
  induction n with
  | zero => intro i _ h1 _; omega
  | succ f ih =>
    intro i hi _ hn
    unfold skipGroupLoop
    cases hr : readVarint dAtA i with
    | next w k =>
      simp only
      have hb := readVarint_next dAtA i w k hr
      by_cases hw : w &&& 0x7 = 4
      · rw [if_pos hw]; exact fun e => by cases e
      · rw [if_neg hw]
        obtain ⟨j, rfl⟩ : ∃ j : Nat, i = (j : Int) := ⟨i.toNat, by omega⟩
        rw [sliceFrom_eq dAtA j (by omega)]
        simp only
        cases hs : skipResourceFuel F (dAtA.drop j) with
        | next u nx =>
          simp only
          have hbd := skipResourceFuel_bounds F (dAtA.drop j)
            (by simp only [List.length_drop]; omega) nx hs
          simp only [List.length_drop] at hbd
          have hidx : wrap64 ((j : Int) + nx) < 0 ∨ (j : Int) < wrap64 ((j : Int) + nx) := by
            unfold wrap64
            omega
          have hn' := hn (by omega)
          refine ih _ ?_ (by omega) (fun h0 => ?_)
          · omega
          · omega
        | fail e => exact fun e => by cases e
        | panic y => exact fun e => by cases e
        | running => exact absurd hs (hskip j (by omega) (by omega))
    | fail e => exact fun e => by cases e
    | panic y => exact fun e => by cases e
    | running => exact absurd hr (readVarint_not_running dAtA i)

/-- Function `skipResource` returns or panics on every input: `fuel` is never
used up when it exceeds the length of the input. -/
theorem skipResourceFuel_not_running (F : Nat) :
    ∀ (dAtA : List UInt8), dAtA.length < 9223372036854775808 → dAtA.length + 1 ≤ F →
      skipResourceFuel F dAtA ≠ .running := by
  induction F with
  | zero => intro dAtA _ h; omega
  | succ f ih =>
    intro dAtA hl hF
    unfold skipResourceFuel
    by_cases h0 : (0 : Int) < (dAtA.length : Int)
    · rw [if_pos h0]
      cases hr : readVarint dAtA 0 with
      | next w i1 =>
        simp only
        have hb := readVarint_next dAtA 0 w i1 hr
        by_cases hw0 : w &&& 0x7 = 0
        · rw [if_pos hw0]
          exact skipVarintLoop_not_running dAtA i1
        · rw [if_neg hw0]
          by_cases hw1 : w &&& 0x7 = 1
          · rw [if_pos hw1]; exact fun e => by cases e
          · rw [if_neg hw1]
            by_cases hw2 : w &&& 0x7 = 2
            · rw [if_pos hw2]
              cases hr2 : readVarint dAtA i1 with
              | next v i2 =>
                simp only
                by_cases hneg : intOfUint64 v < 0
                · rw [if_pos hneg]; exact fun e => by cases e
                · rw [if_neg hneg]; exact fun e => by cases e
              | fail e => exact fun e => by cases e
              | panic y => exact fun e => by cases e
              | running => exact absurd hr2 (readVarint_not_running dAtA i1)
            · rw [if_neg hw2]
              by_cases hw3 : w &&& 0x7 = 3
              · rw [if_pos hw3]
                refine skipGroupLoop_not_running dAtA hl f (fun j hj1 hj2 => ?_) f i1
                  (by omega) (by omega) (fun _ => by omega)
                exact ih (dAtA.drop j) (by simp only [List.length_drop]; omega)
                  (by simp only [List.length_drop]; omega)
              · rw [if_neg hw3]
                by_cases hw4 : w &&& 0x7 = 4
                · rw [if_pos hw4]; exact fun e => by cases e
                · rw [if_neg hw4]
                  by_cases hw5 : w &&& 0x7 = 5
                  · rw [if_pos hw5]; exact fun e => by cases e
                  · rw [if_neg hw5]; exact fun e => by cases e
      | fail e => exact fun e => by cases e
      | panic y => exact fun e => by cases e
      | running => exact absurd hr (readVarint_not_running dAtA 0)
    · rw [if_neg h0]; exact fun e => by cases e


theorem skipGroupLoop_panic (dAtA : List UInt8) (skip : List UInt8 → Step Unit)
    (hskip : ∀ j : Nat, j < dAtA.length → skip (dAtA.drop j) ≠ .panic Panic.unreachable)
    (n : Nat) :
    ∀ (i : Int), skipGroupLoop dAtA skip n i ≠ .panic Panic.unreachable := by
  induction n with
  | zero => intro i h; simp [skipGroupLoop] at h
  | succ f ih =>
    intro i h
    unfold skipGroupLoop at h
    cases hr : readVarint dAtA i with
    | next w k =>
      rw [hr] at h
      simp only at h
      have hb := readVarint_next dAtA i w k hr
      by_cases hw : w &&& 0x7 = 4
      · rw [if_pos hw] at h; cases h
      · rw [if_neg hw] at h
        obtain ⟨j, rfl⟩ : ∃ j : Nat, i = (j : Int) := ⟨i.toNat, by omega⟩
        rw [sliceFrom_eq dAtA j (by omega)] at h
        simp only at h
        cases hs : skip (dAtA.drop j) with
        | next u nx =>
          rw [hs] at h
          exact ih _ h
        | fail e => rw [hs] at h; cases h
        | panic y =>
          rw [hs] at h
          simp only [Step.panic.injEq] at h
          rw [h] at hs
          exact hskip j (by omega) hs
        | running => rw [hs] at h; cases h
    | fail e => rw [hr] at h; cases h
    | panic y =>
      rw [hr] at h
      simp only [Step.panic.injEq] at h
      have := readVarint_panic dAtA i y hr
      rw [h] at this
      cases this
    | running => rw [hr] at h; cases h

/-- On an input that is not empty `skipResource` does not come to its last
statement, `panic("unreachable")`. -/
theorem skipResourceFuel_panic (F : Nat) :
    ∀ (dAtA : List UInt8), dAtA ≠ [] →
      skipResourceFuel F dAtA ≠ .panic Panic.unreachable := by
  induction F with
  | zero => intro dAtA _ h; simp [skipResourceFuel] at h
  | succ f ih =>
    intro dAtA hne h
    have h0 : (0 : Int) < (dAtA.length : Int) := by
      have := List.length_pos.2 hne
      omega
    unfold skipResourceFuel at h
    rw [if_pos h0] at h
    cases hr : readVarint dAtA 0 with
    | next w i1 =>
      rw [hr] at h
      simp only at h
      by_cases hw0 : w &&& 0x7 = 0
      · rw [if_pos hw0] at h
        have := skipVarintLoop_panic dAtA i1 _ h
        cases this
      · rw [if_neg hw0] at h
        by_cases hw1 : w &&& 0x7 = 1
        · rw [if_pos hw1] at h; cases h
        · rw [if_neg hw1] at h
          by_cases hw2 : w &&& 0x7 = 2
          · rw [if_pos hw2] at h
            cases hr2 : readVarint dAtA i1 with
            | next v i2 =>
              rw [hr2] at h
              simp only at h
              by_cases hneg : intOfUint64 v < 0
              · rw [if_pos hneg] at h; cases h
              · rw [if_neg hneg] at h; cases h
            | fail e => rw [hr2] at h; cases h
            | panic y =>
              rw [hr2] at h
              simp only [Step.panic.injEq] at h
              have := readVarint_panic dAtA i1 y hr2
              rw [h] at this
              cases this
            | running => rw [hr2] at h; cases h
          · rw [if_neg hw2] at h
            by_cases hw3 : w &&& 0x7 = 3
            · rw [if_pos hw3] at h
              refine skipGroupLoop_panic dAtA _ (fun j hj => ?_) f i1 h
              exact ih (dAtA.drop j) (by
                intro e
                have := congrArg List.length e
                simp only [List.length_drop, List.length_nil] at this
                omega)
            · rw [if_neg hw3] at h
              by_cases hw4 : w &&& 0x7 = 4
              · rw [if_pos hw4] at h; cases h
              · rw [if_neg hw4] at h
                by_cases hw5 : w &&& 0x7 = 5
                · rw [if_pos hw5] at h; cases h
                · rw [if_neg hw5] at h; cases h
    | fail e => rw [hr] at h; cases h
    | panic y =>
      rw [hr] at h
      simp only [Step.panic.injEq] at h
      have := readVarint_panic dAtA 0 y hr
      rw [h] at this
      cases this
    | running => rw [hr] at h; cases h

/-- The group loop calls `skipResource` on slices that are not empty and are
shorter than its input only: it runs the same with any function in the place
of the recursive call that agrees with `skipResource` on those slices. -/
theorem skipGroupLoop_congr (dAtA : List UInt8) (hl : dAtA.length < 9223372036854775808)
    (F : Nat) (skip : List UInt8 → Step Unit)
    (hskip : ∀ rest : List UInt8, rest ≠ [] → rest.length < dAtA.length →
      skip rest = skipResourceFuel F rest) (n : Nat) :
    ∀ (i : Int), (1 ≤ i ∨ i < 0) →
      skipGroupLoop dAtA skip n i = skipGroupLoop dAtA (skipResourceFuel F) n i := by
  induction n with
  | zero => intro i _; rfl
  | succ f ih =>
    intro i hi
    unfold skipGroupLoop
    cases hr : readVarint dAtA i with
    | next w k =>
      simp only
      have hb := readVarint_next dAtA i w k hr
      by_cases hw : w &&& 0x7 = 4
      · rw [if_pos hw, if_pos hw]
      · rw [if_neg hw, if_neg hw]
        obtain ⟨j, rfl⟩ : ∃ j : Nat, i = (j : Int) := ⟨i.toNat, by omega⟩
        rw [sliceFrom_eq dAtA j (by omega)]
        simp only
        have hrest : skip (dAtA.drop j) = skipResourceFuel F (dAtA.drop j) := by
          refine hskip _ ?_ (by simp only [List.length_drop]; omega)
          intro e
          have := congrArg List.length e
          simp only [List.length_drop, List.length_nil] at this
          omega
        rw [hrest]
        cases hs : skipResourceFuel F (dAtA.drop j) with
        | next u nx =>
          simp only
          have hbd := skipResourceFuel_bounds F (dAtA.drop j)
            (by simp only [List.length_drop]; omega) nx hs
          simp only [List.length_drop] at hbd
          refine ih _ ?_
          unfold wrap64
          omega
        | fail e => rfl
        | panic y => rfl
        | running => rfl
    | fail e => rfl
    | panic y => rfl
    | running => rfl


variable {M : Type}

theorem readTag_panic (name : String) (dAtA : List UInt8) (i : Int) :
    readTag name dAtA i ≠ .panic Panic.unreachable := by
  intro h
  unfold readTag at h
  cases hr : readVarint dAtA i with
  | next w k =>
    rw [hr] at h
    simp only at h
    by_cases h4 : w &&& 0x7 = 4
    · rw [if_pos h4] at h; cases h
    · rw [if_neg h4] at h
      by_cases h0 : int32OfUint64 (w >>> 3) ≤ 0
      · rw [if_pos h0] at h; cases h
      · rw [if_neg h0] at h; cases h
  | fail e => rw [hr] at h; cases h
  | panic y =>
    rw [hr] at h
    simp only [Step.panic.injEq] at h
    have := readVarint_panic dAtA i y hr
    rw [h] at this
    cases this
  | running => rw [hr] at h; cases h

theorem readLengthDelimited_panic (dAtA : List UInt8) (i : Int) :
    readLengthDelimited dAtA i ≠ .panic Panic.unreachable := by
  intro h
  unfold readLengthDelimited at h
  cases hr : readVarint dAtA i with
  | next v k =>
    rw [hr] at h
    simp only at h
    by_cases hneg : intOfUint64 v < 0
    · rw [if_pos hneg] at h; cases h
    · rw [if_neg hneg] at h
      by_cases hgt : wrap64 (k + intOfUint64 v) > (dAtA.length : Int)
      · rw [if_pos hgt] at h; cases h
      · rw [if_neg hgt] at h
        cases hsl : sliceOf dAtA k (wrap64 (k + intOfUint64 v)) with
        | none => rw [hsl] at h; cases h
        | some bs => rw [hsl] at h; cases h
  | fail e => rw [hr] at h; cases h
  | panic y =>
    rw [hr] at h
    simp only [Step.panic.injEq] at h
    have := readVarint_panic dAtA i y hr
    rw [h] at this
    cases this
  | running => rw [hr] at h; cases h

/-- The slice the `default` case passes to `skipResource` is not empty: it
starts at the tag the iteration has just read. -/
theorem default_case_slice (name : String) (dAtA : List UInt8) (i : Int) (x : Int × Nat)
    (i1 : Int) (h : readTag name dAtA i = .next x i1) :
    ∃ rest, sliceFrom dAtA i = some rest ∧ rest ≠ [] := by
  obtain ⟨fieldNum, wireType⟩ := x
  obtain ⟨wire, hv, -⟩ := readTag_next name dAtA i fieldNum wireType i1 h
  have hb := readVarint_next dAtA i wire i1 hv
  obtain ⟨j, rfl⟩ : ∃ j : Nat, i = (j : Int) := ⟨i.toNat, by omega⟩
  refine ⟨dAtA.drop j, sliceFrom_eq dAtA j (by omega), ?_⟩
  intro e
  have := congrArg List.length e
  simp only [List.length_drop, List.length_nil] at this
  omega

theorem skipField_panic (name : String) (dAtA : List UInt8) (i : Int) (x : Int × Nat)
    (i1 : Int) (ht : readTag name dAtA i = .next x i1) :
    skipField dAtA i ≠ .panic Panic.unreachable := by
  obtain ⟨rest, hsl, hne⟩ := default_case_slice name dAtA i x i1 ht
  intro h
  unfold skipField at h
  simp only at h
  rw [hsl] at h
  simp only at h
  cases hs : skipResource rest with
  | next u n =>
    rw [hs] at h
    simp only at h
    by_cases hneg : n < 0
    · rw [if_pos hneg] at h; cases h
    · rw [if_neg hneg] at h
      by_cases hgt : wrap64 (i + n) > (dAtA.length : Int)
      · rw [if_pos hgt] at h; cases h
      · rw [if_neg hgt] at h; cases h
  | fail e => rw [hs] at h; cases h
  | panic y =>
    rw [hs] at h
    simp only [Step.panic.injEq] at h
    rw [h] at hs
    exact skipResourceFuel_panic _ rest hne hs
  | running => rw [hs] at h; cases h

theorem unmarshalStep_panic (name : String)
    (field : M → List UInt8 → Int → Int → Int → Nat → Step M) (hreg : RegularSwitch field)
    (dAtA : List UInt8) (m : M) (i : Int) :
    unmarshalStep name field dAtA m i ≠ .panic Panic.unreachable := by
  intro h
  unfold unmarshalStep at h
  cases ht : readTag name dAtA i with
  | next x i1 =>
    obtain ⟨fieldNum, wireType⟩ := x
    rw [ht] at h
    simp only at h
    obtain ⟨c, -, hc⟩ := hreg m fieldNum wireType
    rw [hc] at h
    cases c with
    | skip =>
      rw [FieldCase.run_skip_eq] at h
      have hp := skipField_panic name dAtA i _ i1 ht
      cases hs : skipField dAtA i with
      | next u n => rw [hs] at h; cases h
      | fail e => rw [hs] at h; cases h
      | panic y =>
        rw [hs] at h
        simp only [Step.panic.injEq] at h
        rw [h] at hs
        exact hp hs
      | running => rw [hs] at h; cases h
    | bytes store =>
      rw [FieldCase.run_bytes_eq] at h
      have hp := readLengthDelimited_panic dAtA i1
      cases hs : readLengthDelimited dAtA i1 with
      | next bs post =>
        rw [hs] at h
        simp only at h
        cases hst : store bs with
        | ok m1 => rw [hst] at h; cases h
        | error e => rw [hst] at h; cases h
      | fail e => rw [hs] at h; cases h
      | panic y =>
        rw [hs] at h
        simp only [Step.panic.injEq] at h
        rw [h] at hs
        exact hp hs
      | running => rw [hs] at h; cases h
    | reject err => cases h
  | fail e => rw [ht] at h; cases h
  | panic y =>
    rw [ht] at h
    simp only [Step.panic.injEq] at h
    rw [h] at ht
    exact readTag_panic name dAtA i ht
  | running => rw [ht] at h; cases h

theorem unmarshalLoop_panic (name : String)
    (field : M → List UInt8 → Int → Int → Int → Nat → Step M) (hreg : RegularSwitch field)
    (dAtA : List UInt8) (fuel : Nat) :
    ∀ (m : M) (i : Int), unmarshalLoop name field dAtA fuel m i ≠ .panic Panic.unreachable := by
  induction fuel with
  | zero => intro m i h; simp [unmarshalLoop] at h
  | succ f ih =>
    intro m i h
    unfold unmarshalLoop at h
    by_cases hi : i < (dAtA.length : Int)
    · rw [if_pos hi] at h
      cases hs : unmarshalStep name field dAtA m i with
      | next m1 i1 =>
        rw [hs] at h
        exact ih m1 i1 h
      | fail e => rw [hs] at h; cases h
      | panic y =>
        rw [hs] at h
        simp only [Decoded.panic.injEq] at h
        rw [h] at hs
        exact unmarshalStep_panic name field hreg dAtA m i hs
      | running => rw [hs] at h; cases h
    · rw [if_neg hi] at h
      by_cases hgt : i > (dAtA.length : Int)
      · rw [if_pos hgt] at h; cases h
      · rw [if_neg hgt] at h; cases h


/-- C29. Function `skipResource` terminates and its last statement is dead
code for `Unmarshal`. On every input (shorter than 2^63 bytes, as every Go
slice is) `skipResource` returns or panics: the fuel of the embedding is never
used up when it exceeds the length of the input, however deep the groups
nest. It comes to `panic("unreachable")` on the empty slice and on no other
input. Its group loop calls it on slices that are not empty and are shorter
than the input only: the loop runs the same with any function in the place of
the recursive call that agrees with it on those slices. The slice the
`default` case of an `Unmarshal` method passes to it starts at the tag the
iteration has read and is not empty, and no `Unmarshal` method comes to
`panic("unreachable")`. -/
theorem skipResource_terminates (codec : ConfigCodec) (dAtA : List UInt8) :
    (dAtA.length < 9223372036854775808 →
      (∀ F : Nat, dAtA.length + 1 ≤ F → skipResourceFuel F dAtA ≠ .running)
      ∧ skipResource dAtA ≠ .running
      ∧ ∀ (F : Nat) (skip : List UInt8 → Step Unit),
          (∀ rest : List UInt8, rest ≠ [] → rest.length < dAtA.length →
            skip rest = skipResourceFuel F rest) →
          ∀ (n : Nat) (i : Int), 1 ≤ i →
            skipGroupLoop dAtA skip n i = skipGroupLoop dAtA (skipResourceFuel F) n i)
    ∧ (skipResource dAtA = .panic Panic.unreachable ↔ dAtA = [])
    ∧ (∀ (name : String) (i : Int) (x : Int × Nat) (i1 : Int),
        readTag name dAtA i = .next x i1 →
        ∃ rest, sliceFrom dAtA i = some rest ∧ rest ≠ [])
    ∧ (∀ m, AttachNetworkRequest.Unmarshal codec m dAtA ≠ .panic Panic.unreachable)
    ∧ (∀ m, AttachNetworkResponse.Unmarshal m dAtA ≠ .panic Panic.unreachable)
    ∧ (∀ m, DetachNetworkRequest.Unmarshal m dAtA ≠ .panic Panic.unreachable)
    ∧ (∀ m, DetachNetworkResponse.Unmarshal m dAtA ≠ .panic Panic.unreachable) := by
  refine ⟨fun hl => ⟨fun F hF => skipResourceFuel_not_running F dAtA hl hF,
      skipResourceFuel_not_running _ dAtA hl (le_refl _),
      fun F skip hskip n i hi => skipGroupLoop_congr dAtA hl F skip hskip n i (Or.inl hi)⟩,
    ⟨fun h => ?_, fun h => ?_⟩,
    fun name i x i1 h => default_case_slice name dAtA i x i1 h,
    fun m => unmarshalLoop_panic _ _ (attachRequest_switch_regular codec) dAtA _ m 0,
    fun m => unmarshalLoop_panic _ _ attachResponse_switch_regular dAtA _ m 0,
    fun m => unmarshalLoop_panic _ _ detachRequest_switch_regular dAtA _ m 0,
    fun m => unmarshalLoop_panic _ _ detachResponse_switch_regular dAtA _ m 0⟩
  · by_contra hne
    exact skipResourceFuel_panic _ dAtA hne h
  · subst h
    rfl

/-- C29 on an input: a group in a group around a varint field. -/
theorem skipResource_terminates_witness :
    skipResource [0x0b, 0x0b, 0x08, 0x01, 0x0c, 0x0c] = .next () 6
    ∧ skipResource [0x0b, 0x0b, 0x08, 0x01, 0x0c, 0x0c] ≠ .running :=
  ⟨by decide,
    ((skipResource_terminates demoCodec [0x0b, 0x0b, 0x08, 0x01, 0x0c, 0x0c]).1
      (by decide)).2.1⟩

end SkipTotal

/-! ## `Size` and `MarshalTo` -/

section Encoding


theorem varintBytes_length (fuel : Nat) :
    ∀ v : Nat, 1 ≤ fuel → v < 2 ^ (7 * fuel) →
      1 ≤ (varintBytes fuel v).length ∧ (varintBytes fuel v).length ≤ fuel := by
  induction fuel with
  | zero => intro v h _; omega
  | succ f ih =>
    intro v _ hv
    unfold varintBytes
    by_cases hge : v ≥ 128
    · rw [if_pos hge]
      have hq : v >>> 7 < 2 ^ (7 * f) := by
        rw [Nat.shiftRight_eq_div_pow]
        rw [show 7 * (f + 1) = 7 * f + 7 by ring, Nat.pow_add] at hv
        exact Nat.div_lt_of_lt_mul (by rw [Nat.mul_comm]; exact hv)
      have hf : 1 ≤ f := by
        by_contra h0
        have : f = 0 := by omega
        subst this
        simp at hv
        omega
      have := ih (v >>> 7) hf hq
      simp only [List.length_cons]
      omega
    · rw [if_neg hge]
      simp

/-- Function `sovResource` counts the bytes `encodeVarintResource` writes. -/
theorem sovLoop_eq (fuel : Nat) :
    ∀ (n : Int) (v : Nat), 1 ≤ fuel → v < 2 ^ (7 * fuel) →
      sovLoop fuel n v = some (n + (varintBytes fuel v).length) := by
  induction fuel with
  | zero => intro n v h _; omega
  | succ f ih =>
    intro n v _ hv
    unfold sovLoop varintBytes
    simp only
    have hdiv : v >>> 7 = v / 128 := by rw [Nat.shiftRight_eq_div_pow]
    by_cases hge : v ≥ 128
    · have hne : ¬ v >>> 7 = 0 := by rw [hdiv]; omega
      rw [if_neg hne, if_pos hge]
      have hq : v >>> 7 < 2 ^ (7 * f) := by
        rw [Nat.shiftRight_eq_div_pow]
        rw [show 7 * (f + 1) = 7 * f + 7 by ring, Nat.pow_add] at hv
        exact Nat.div_lt_of_lt_mul (by rw [Nat.mul_comm]; exact hv)
      have hf : 1 ≤ f := by
        by_contra h0
        have : f = 0 := by omega
        subst this
        simp at hq
        omega
      rw [ih (n + 1) (v >>> 7) hf hq]
      simp only [List.length_cons]
      congr 1
      push_cast
      ring
    · have he : v >>> 7 = 0 := by rw [hdiv]; omega
      rw [if_pos he, if_neg hge]
      simp

theorem setByte_ok (dAtA : List UInt8) (o : Nat) (b : UInt8) (h : o < dAtA.length) :
    setByte dAtA (o : Int) b = some (dAtA.take o ++ b :: dAtA.drop (o + 1)) := by
  unfold setByte
  rw [if_pos (by omega)]
  simp only [Int.toNat_ofNat, Option.some.injEq]
  rw [List.set_eq_take_append_cons_drop, if_pos h]

/-- Function `encodeVarintResource` writes the bytes `varintBytes` at
`offset` and leaves the rest of the buffer as it was. -/
theorem encodeVarintLoop_ok (fuel : Nat) :
    ∀ (v : Nat) (dAtA : List UInt8) (o : Nat), 1 ≤ fuel → v < 2 ^ (7 * fuel) →
      o + (varintBytes fuel v).length ≤ dAtA.length →
      encodeVarintLoop dAtA fuel (o : Int) v
        = .ok (dAtA.take o ++ varintBytes fuel v
            ++ dAtA.drop (o + (varintBytes fuel v).length))
          ((o + (varintBytes fuel v).length : Nat) : Int) := by
  induction fuel with
  | zero => intro v dAtA o h _ _; omega
  | succ f ih =>
    intro v dAtA o _ hv hlen
    unfold encodeVarintLoop
    by_cases hge : v ≥ 128
    · rw [if_pos hge]
      have hvb : varintBytes (f + 1) v
          = UInt8.ofNat ((v &&& 0x7f) ||| 0x80) :: varintBytes f (v >>> 7) := by
        conv_lhs => unfold varintBytes
        rw [if_pos hge]
      rw [hvb] at hlen ⊢
      simp only [List.length_cons] at hlen ⊢
      have hq : v >>> 7 < 2 ^ (7 * f) := by
        rw [Nat.shiftRight_eq_div_pow]
        rw [show 7 * (f + 1) = 7 * f + 7 by ring, Nat.pow_add] at hv
        exact Nat.div_lt_of_lt_mul (by rw [Nat.mul_comm]; exact hv)
      have hf : 1 ≤ f := by
        by_contra h0
        have : f = 0 := by omega
        subst this
        simp at hq
        have hdiv : v >>> 7 = v / 128 := by rw [Nat.shiftRight_eq_div_pow]
        omega
      rw [setByte_ok dAtA o _ (by omega)]
      simp only
      have hcast : ((o : Int) + 1) = ((o + 1 : Nat) : Int) := by push_cast; rfl
      rw [hcast, ih (v >>> 7) _ (o + 1) hf hq (by simp only [List.length_append,
        List.length_take, List.length_cons, List.length_drop]; omega)]
      have h1 : (dAtA.take o ++ UInt8.ofNat ((v &&& 0x7f) ||| 0x80) :: dAtA.drop (o + 1)).take
          (o + 1) = dAtA.take o ++ [UInt8.ofNat ((v &&& 0x7f) ||| 0x80)] := by
        rw [List.take_append_eq_append_take]
        simp only [List.length_take]
        rw [Nat.min_eq_left (by omega), List.take_take, Nat.min_eq_right (by omega)]
        simp
      have h2 : ∀ k, (dAtA.take o ++ UInt8.ofNat ((v &&& 0x7f) ||| 0x80)
          :: dAtA.drop (o + 1)).drop (o + 1 + k) = dAtA.drop (o + 1 + k) := by
        intro k
        rw [List.drop_append_eq_append_drop]
        simp only [List.length_take]
        rw [Nat.min_eq_left (by omega), List.drop_eq_nil_of_le (by
          simp only [List.length_take]; omega)]
        rw [show o + 1 + k - o = (k + 1) by omega, List.nil_append, List.drop_succ_cons,
          List.drop_drop]
      rw [h1, h2, show o + 1 + (varintBytes f (v >>> 7)).length
        = o + ((varintBytes f (v >>> 7)).length + 1) by omega]
      simp only [List.append_assoc, List.singleton_append]
    · rw [if_neg hge]
      have hvb : varintBytes (f + 1) v = [UInt8.ofNat v] := by
        conv_lhs => unfold varintBytes
        rw [if_neg hge]
      rw [hvb] at hlen ⊢
      simp only [List.length_singleton] at hlen ⊢
      rw [setByte_ok dAtA o _ (by omega)]
      simp only
      refine congr (congrArg Wrote.ok ?_) ?_
      · simp
      · push_cast; rfl


theorem take_written (dAtA a : List UInt8) (o k : Nat) (hk : k = o + a.length)
    (h : o + a.length ≤ dAtA.length) :
    (dAtA.take o ++ a ++ dAtA.drop (o + a.length)).take k = dAtA.take o ++ a := by
  subst hk
  have hl : (dAtA.take o ++ a).length = o + a.length := by
    simp only [List.length_append, List.length_take]
    omega
  rw [← hl, List.take_left]

theorem drop_written (dAtA a : List UInt8) (o k : Nat) (hk : k = o + a.length)
    (h : o + a.length ≤ dAtA.length) :
    (dAtA.take o ++ a ++ dAtA.drop (o + a.length)).drop k = dAtA.drop k := by
  subst hk
  have hl : (dAtA.take o ++ a).length = o + a.length := by
    simp only [List.length_append, List.length_take]
    omega
  conv_lhs => rw [← hl, List.drop_left]
  rw [hl]

/-- Writing `b` right after `a` is writing `a ++ b`. -/
theorem write_write (dAtA a b : List UInt8) (o k : Nat) (hk : k = o + a.length)
    (h : o + a.length ≤ dAtA.length) :
    (dAtA.take o ++ a ++ dAtA.drop (o + a.length)).take k ++ b
        ++ (dAtA.take o ++ a ++ dAtA.drop (o + a.length)).drop (k + b.length)
      = dAtA.take o ++ (a ++ b) ++ dAtA.drop (o + (a ++ b).length) := by
  subst hk
  have hl : (dAtA.take o ++ a).length = o + a.length := by
    simp only [List.length_append, List.length_take]
    omega
  have h1 : (dAtA.take o ++ a ++ dAtA.drop (o + a.length)).take (o + a.length)
      = dAtA.take o ++ a := by
    rw [← hl, List.take_left]
  have h2 : (dAtA.take o ++ a ++ dAtA.drop (o + a.length)).drop (o + a.length + b.length)
      = dAtA.drop (o + (a ++ b).length) := by
    rw [← hl, List.drop_append, List.drop_drop, hl, List.length_append]
    congr 1
    omega
  rw [h1, h2]
  simp only [List.append_assoc]

theorem encodeVarintResource_ok (v : Nat) (hv : v < 18446744073709551616)
    (dAtA : List UInt8) (o : Nat) (h : o + (varintBytes 10 v).length ≤ dAtA.length) :
    encodeVarintResource dAtA (o : Int) v
      = .ok (dAtA.take o ++ varintBytes 10 v ++ dAtA.drop (o + (varintBytes 10 v).length))
          ((o + (varintBytes 10 v).length : Nat) : Int) :=
  encodeVarintLoop_ok 10 v dAtA o (by omega) (by norm_num; omega) h

theorem sovResource_eq (v : Nat) (hv : v < 18446744073709551616) :
    sovResource v = some ((varintBytes 10 v).length : Int) := by
  unfold sovResource
  rw [sovLoop_eq 10 0 v (by omega) (by norm_num; omega)]
  simp

theorem varintBytes_bounds (v : Nat) (hv : v < 18446744073709551616) :
    1 ≤ (varintBytes 10 v).length ∧ (varintBytes 10 v).length ≤ 10 :=
  varintBytes_length 10 v (by omega) (by norm_num; omega)

theorem uint64OfInt_nat (n : Nat) (h : n < 18446744073709551616) :
    uint64OfInt (n : Int) = n := by
  unfold uint64OfInt
  omega

theorem addFieldSize_eq (n l : Nat) (h : n + l + 11 < 9223372036854775808) :
    addFieldSize (n : Int) (l : Int)
      = some ((n + (1 + (varintBytes 10 l).length + l) : Nat) : Int) := by
  unfold addFieldSize
  have hb := varintBytes_bounds l (by omega)
  rw [uint64OfInt_nat l (by omega), sovResource_eq l (by omega)]
  simp only
  rw [wrap64_of_lt (1 + (l : Int)) (by omega) (by omega),
    wrap64_of_lt (1 + (l : Int) + _) (by omega) (by omega),
    wrap64_of_lt _ (by omega) (by omega)]
  congr 1
  push_cast
  ring

theorem copyInto_ok (dAtA : List UInt8) (o : Nat) (s : List UInt8)
    (h : o + s.length ≤ dAtA.length) :
    copyInto dAtA (o : Int) s
      = some (dAtA.take o ++ s ++ dAtA.drop (o + s.length), (s.length : Int)) := by
  unfold copyInto
  rw [if_pos (by omega)]
  simp only [Int.toNat_ofNat]
  rw [Nat.min_eq_right (by omega), List.take_length]

theorem stringFieldBytes_length (tag : UInt8) (s : GoString) :
    (stringFieldBytes tag s).length
      = if s.length = 0 then 0 else 1 + (varintBytes 10 s.length).length + s.length := by
  unfold stringFieldBytes
  by_cases h : s.length = 0
  · rw [if_neg (by omega), if_pos h]
    rfl
  · rw [if_pos (by omega), if_neg h]
    simp only [List.length_cons, List.length_append]
    omega

/-- The block that writes a string field writes `stringFieldBytes` at `i`
and leaves the rest of the buffer as it was. -/
theorem marshalString_ok (tag : UInt8) (s : GoString) (hs : s.length < 9223372036854775808)
    (dAtA : List UInt8) (o : Nat) (h : o + (stringFieldBytes tag s).length ≤ dAtA.length) :
    marshalString tag s dAtA (o : Int)
      = .ok (dAtA.take o ++ stringFieldBytes tag s
          ++ dAtA.drop (o + (stringFieldBytes tag s).length))
        ((o + (stringFieldBytes tag s).length : Nat) : Int) := by
  have hlen := stringFieldBytes_length tag s
  unfold marshalString
  by_cases h0 : s.length = 0
  · rw [if_pos h0] at hlen
    rw [if_neg (by omega)]
    have hnil : stringFieldBytes tag s = [] := List.length_eq_zero.1 hlen
    rw [hnil]
    simp
  · rw [if_neg h0] at hlen
    rw [hlen] at h
    rw [if_pos (by omega), setByte_ok dAtA o tag (by omega)]
    simp only
    have hcast : ((o : Int) + 1) = ((o + 1 : Nat) : Int) := by push_cast; rfl
    rw [hcast, uint64OfInt_nat s.length (by omega),
      encodeVarintResource_ok s.length (by omega) _ (o + 1) (by
        simp only [List.length_append, List.length_take, List.length_cons, List.length_drop]
        omega)]
    simp only
    rw [copyInto_ok _ _ s (by
        simp only [List.length_append, List.length_take, List.length_cons, List.length_drop]
        omega)]
    simp only
    have hsf : stringFieldBytes tag s = tag :: (varintBytes 10 s.length ++ s) := by
      unfold stringFieldBytes
      rw [if_pos (by omega)]
    have hB1 : dAtA.take o ++ tag :: dAtA.drop (o + 1)
        = dAtA.take o ++ [tag] ++ dAtA.drop (o + [tag].length) := by
      simp
    rw [hB1, write_write dAtA [tag] (varintBytes 10 s.length) o (o + 1) rfl
        (by simp only [List.length_singleton]; omega),
      write_write dAtA ([tag] ++ varintBytes 10 s.length) s o
        (o + 1 + (varintBytes 10 s.length).length)
        (by simp only [List.length_append, List.length_singleton]; omega)
        (by simp only [List.length_append, List.length_singleton]; omega)]
    have hsf2 : [tag] ++ varintBytes 10 s.length ++ s = stringFieldBytes tag s := by
      rw [hsf]
      simp
    rw [hsf2]
    refine congrArg (Wrote.ok _) ?_
    rw [hlen]
    push_cast
    ring


theorem marshalWith_ok (size : Option Int) (marshalTo : List UInt8 → Wrote Int) (n : Nat)
    (out : List UInt8) (hsize : size = some (n : Int))
    (hto : marshalTo (List.replicate n 0) = .ok out (n : Int)) (hout : out.length = n) :
    marshalWith size marshalTo = .ok out () := by
  unfold marshalWith
  rw [hsize]
  simp only
  rw [if_neg (by omega), Int.toNat_ofNat, hto]
  simp only
  rw [if_pos (by omega), Int.toNat_ofNat, ← hout, List.take_length]

theorem stringSize_eq (tag : UInt8) (s : GoString) (hs : s.length + 11 < 9223372036854775808)
    (n : Nat) :
    n + s.length + 11 < 9223372036854775808 →
    (if ((s.length : Nat) : Int) > 0 then addFieldSize (n : Int) ((s.length : Nat) : Int)
      else some (n : Int))
      = some ((n + (stringFieldBytes tag s).length : Nat) : Int) := by
  intro hn
  rw [stringFieldBytes_length]
  by_cases h0 : s.length = 0
  · rw [if_neg (by omega), if_pos h0]
    rfl
  · rw [if_pos (by omega), if_neg h0, addFieldSize_eq n s.length (by omega)]

/-- A message whose only field is a string: its `Size`, `MarshalTo` and
`Marshal` agree, and `Marshal` returns `stringFieldBytes`. -/
theorem stringMessage_agrees (tag : UInt8) (s : GoString)
    (hs : s.length + 11 < 9223372036854775808) :
    SizeAgrees
        (if ((s.length : Nat) : Int) > 0 then addFieldSize 0 ((s.length : Nat) : Int)
          else some 0)
        (fun dAtA => marshalString tag s dAtA 0)
        (marshalWith
          (if ((s.length : Nat) : Int) > 0 then addFieldSize 0 ((s.length : Nat) : Int)
            else some 0)
          (fun dAtA => marshalString tag s dAtA 0))
    ∧ marshalWith
        (if ((s.length : Nat) : Int) > 0 then addFieldSize 0 ((s.length : Nat) : Int)
          else some 0)
        (fun dAtA => marshalString tag s dAtA 0) = .ok (stringFieldBytes tag s) () := by
  have hsize := stringSize_eq tag s hs 0 (by omega)
  simp only [Nat.cast_zero, Nat.zero_add] at hsize
  have hto : ∀ dAtA : List UInt8, dAtA.length = (stringFieldBytes tag s).length →
      marshalString tag s dAtA 0 = .ok (stringFieldBytes tag s)
        ((stringFieldBytes tag s).length : Int) := by
    intro dAtA hd
    have := marshalString_ok tag s (by omega) dAtA 0 (by omega)
    simp only [Nat.cast_zero, List.take_zero, List.nil_append, Nat.zero_add] at this
    rw [this, List.drop_eq_nil_of_le (by omega), List.append_nil]
  have hm := marshalWith_ok _ (fun dAtA => marshalString tag s dAtA 0)
    (stringFieldBytes tag s).length (stringFieldBytes tag s) hsize
    (hto _ (by simp)) rfl
  exact ⟨⟨(stringFieldBytes tag s).length, hsize, fun dAtA hd => ⟨_, hto dAtA hd, rfl⟩,
    _, hm, rfl⟩, hm⟩

/-- The bytes `MarshalTo` of `AttachNetworkRequest` writes, at the start of
its buffer. -/
theorem attachRequest_marshalTo (c : ConfigMarshaler) (m : AttachNetworkRequest)
    (enc : List UInt8) (hc : ∀ config, m.Config = some config → c.Writes config enc)
    (hb : enc.length + m.ContainerID.length + 22 < 9223372036854775808)
    (dAtA : List UInt8)
    (hd : (configFieldBytes m.Config enc ++ stringFieldBytes 0x12 m.ContainerID).length
      ≤ dAtA.length) :
    AttachNetworkRequest.MarshalTo c m dAtA
      = .ok (configFieldBytes m.Config enc ++ stringFieldBytes 0x12 m.ContainerID
          ++ dAtA.drop
            (configFieldBytes m.Config enc ++ stringFieldBytes 0x12 m.ContainerID).length)
        ((configFieldBytes m.Config enc ++ stringFieldBytes 0x12 m.ContainerID).length : Int)
    := by
  unfold AttachNetworkRequest.MarshalTo
  simp only
  cases hcfg : m.Config with
  | none =>
    simp only [configFieldBytes, hcfg, List.nil_append] at hd ⊢
    have := marshalString_ok 0x12 m.ContainerID (by omega) dAtA 0 (by omega)
    simp only [Nat.cast_zero, List.take_zero, List.nil_append, Nat.zero_add] at this
    rw [this]
  | some config =>
    obtain ⟨hsize, hwrite⟩ := hc config hcfg
    have hvb := varintBytes_bounds enc.length (by omega)
    simp only [configFieldBytes, hcfg, List.length_append, List.length_cons] at hd ⊢
    have h0 := setByte_ok dAtA 0 0xa (by omega)
    simp only [Nat.cast_zero, List.take_zero, List.nil_append, Nat.zero_add] at h0
    rw [h0]
    simp only
    have hB1 : (10 : UInt8) :: dAtA.drop 1
        = dAtA.take 0 ++ [(10 : UInt8)] ++ dAtA.drop (0 + [(10 : UInt8)].length) := by
      simp
    rw [hsize, uint64OfInt_nat enc.length (by omega), hB1,
      show ((0 : Int) + 1) = ((0 + 1 : Nat) : Int) by rfl,
      encodeVarintResource_ok enc.length (by omega) _ (0 + 1) (by
        simp only [List.length_append, List.length_take, List.length_cons, List.length_drop,
          List.length_nil]
        omega),
      write_write dAtA [(10 : UInt8)] (varintBytes 10 enc.length) 0 (0 + 1) rfl
        (by simp only [List.length_singleton]; omega)]
    simp only
    rw [if_pos (by
      simp only [List.length_append, List.length_take, List.length_cons, List.length_drop,
        List.length_nil]
      omega), Int.toNat_ofNat]
    rw [drop_written dAtA ([(10 : UInt8)] ++ varintBytes 10 enc.length) 0
        (0 + 1 + (varintBytes 10 enc.length).length)
        (by simp only [List.length_append, List.length_singleton]; omega)
        (by simp only [List.length_append, List.length_singleton]; omega),
      take_written dAtA ([(10 : UInt8)] ++ varintBytes 10 enc.length) 0
        (0 + 1 + (varintBytes 10 enc.length).length)
        (by simp only [List.length_append, List.length_singleton]; omega)
        (by simp only [List.length_append, List.length_singleton]; omega),
      hwrite _ (by simp only [List.length_drop]; omega)]
    simp only
    rw [List.drop_drop, wrap64_of_lt _ (by omega) (by omega)]
    have hform : dAtA.take 0 ++ ([(10 : UInt8)] ++ varintBytes 10 enc.length)
          ++ (enc ++ dAtA.drop (0 + 1 + (varintBytes 10 enc.length).length + enc.length))
        = dAtA.take 0 ++ ([(10 : UInt8)] ++ varintBytes 10 enc.length ++ enc)
          ++ dAtA.drop (0 + ([(10 : UInt8)] ++ varintBytes 10 enc.length ++ enc).length) := by
      simp only [List.take_zero, List.nil_append, List.append_assoc, List.length_append,
        List.length_singleton, Nat.zero_add]
      rw [Nat.add_assoc]
    have hidx : (((0 + 1 + (varintBytes 10 enc.length).length : Nat) : Int) + (enc.length : Int))
        = ((0 + ([(10 : UInt8)] ++ varintBytes 10 enc.length ++ enc).length : Nat) : Int) := by
      simp only [List.length_append, List.length_singleton]
      push_cast
      ring
    rw [hform, hidx, marshalString_ok 0x12 m.ContainerID (by omega) _ _ (by
        simp only [List.length_append, List.length_take, List.length_cons, List.length_drop,
          List.length_nil]
        omega),
      write_write dAtA ([(10 : UInt8)] ++ varintBytes 10 enc.length ++ enc)
        (stringFieldBytes 0x12 m.ContainerID) 0 _ rfl (by
          simp only [List.length_append, List.length_singleton]; omega)]
    refine congr (congrArg Wrote.ok ?_) ?_
    · simp only [List.take_zero, List.nil_append, List.append_assoc, List.length_append,
        List.length_singleton, Nat.zero_add, List.singleton_append, List.cons_append,
        List.length_cons]
      rw [show (varintBytes 10 enc.length).length
            + (enc.length + (stringFieldBytes 18 m.ContainerID).length) + 1
          = (varintBytes 10 enc.length).length + enc.length + 1
            + (stringFieldBytes 18 m.ContainerID).length by omega]
    · simp only [List.length_append, List.length_singleton]
      push_cast
      ring


theorem configFieldBytes_length (config : Option NetworkAttachmentConfig) (enc : List UInt8) :
    (configFieldBytes config enc).length
      = if config.isSome then 1 + (varintBytes 10 enc.length).length + enc.length else 0 := by
  cases config with
  | none => rfl
  | some cfg =>
    simp only [configFieldBytes, List.length_cons, List.length_append, Option.isSome_some,
      if_true]
    omega

theorem attachRequest_size (c : ConfigMarshaler) (m : AttachNetworkRequest)
    (enc : List UInt8) (hc : ∀ config, m.Config = some config → c.Writes config enc)
    (hb : enc.length + m.ContainerID.length + 22 < 9223372036854775808) :
    AttachNetworkRequest.Size c m
      = some ((configFieldBytes m.Config enc
          ++ stringFieldBytes 0x12 m.ContainerID).length : Int) := by
  have hvb := varintBytes_bounds enc.length (by omega)
  have hcl := configFieldBytes_length m.Config enc
  unfold AttachNetworkRequest.Size
  cases hcfg : m.Config with
  | none =>
    rw [hcfg] at hcl
    simp only [Option.isSome_none, Bool.false_eq_true, if_false] at hcl
    simp only
    have := stringSize_eq 0x12 m.ContainerID (by omega) 0 (by omega)
    simp only [Nat.cast_zero, Nat.zero_add] at this
    rw [this, List.length_append, hcl, Nat.zero_add]
  | some config =>
    rw [hcfg] at hcl
    simp only [Option.isSome_some, if_true] at hcl
    obtain ⟨hsize, -⟩ := hc config hcfg
    simp only
    have h1 := addFieldSize_eq 0 enc.length (by omega)
    simp only [Nat.cast_zero, Nat.zero_add] at h1
    rw [hsize, h1]
    simp only
    rw [stringSize_eq 0x12 m.ContainerID (by omega) _ (by omega), List.length_append, hcl]

theorem attachRequest_marshal (c : ConfigMarshaler) (m : AttachNetworkRequest)
    (enc : List UInt8) (hc : ∀ config, m.Config = some config → c.Writes config enc)
    (hb : enc.length + m.ContainerID.length + 22 < 9223372036854775808) :
    AttachNetworkRequest.Marshal c m
      = .ok (configFieldBytes m.Config enc ++ stringFieldBytes 0x12 m.ContainerID) () := by
  unfold AttachNetworkRequest.Marshal
  refine marshalWith_ok _ _ _ _ (attachRequest_size c m enc hc hb) ?_ rfl
  rw [attachRequest_marshalTo c m enc hc hb _ (by simp),
    List.drop_eq_nil_of_le (by simp), List.append_nil]

theorem attachRequest_agrees (c : ConfigMarshaler) (m : AttachNetworkRequest)
    (enc : List UInt8) (hc : ∀ config, m.Config = some config → c.Writes config enc)
    (hb : enc.length + m.ContainerID.length + 22 < 9223372036854775808) :
    SizeAgrees (AttachNetworkRequest.Size c m) (AttachNetworkRequest.MarshalTo c m)
      (AttachNetworkRequest.Marshal c m) := by
  refine ⟨_, attachRequest_size c m enc hc hb, fun dAtA hd => ⟨_, ?_, rfl⟩,
    _, attachRequest_marshal c m enc hc hb, rfl⟩
  rw [attachRequest_marshalTo c m enc hc hb dAtA (by omega),
    List.drop_eq_nil_of_le (by omega), List.append_nil]

/-- C26. `Size` and `MarshalTo` agree. For every `uint64` value,
`sovResource` returns the number of bytes `encodeVarintResource` writes for
it, between 1 and 10, and `encodeVarintResource` writes them at `offset` and
nothing else. For every message of the four types whose encoding fits in an
`int` (for `AttachNetworkRequest`, with a `Config` whose `MarshalTo` writes
exactly `Config.Size()` bytes), `Size` returns a number `n`, `MarshalTo` on
every buffer of exactly `n` bytes returns `n` and nil without a write outside
the buffer, and `Marshal` returns nil and a slice of exactly `n` bytes. -/
theorem size_and_marshalTo_agree (c : ConfigMarshaler) :
    (∀ v : Nat, v < 18446744073709551616 →
      sovResource v = some ((varintBytes 10 v).length : Int)
      ∧ 1 ≤ (varintBytes 10 v).length ∧ (varintBytes 10 v).length ≤ 10
      ∧ ∀ (dAtA : List UInt8) (o : Nat), o + (varintBytes 10 v).length ≤ dAtA.length →
          encodeVarintResource dAtA (o : Int) v
            = .ok (dAtA.take o ++ varintBytes 10 v
                ++ dAtA.drop (o + (varintBytes 10 v).length))
              ((o + (varintBytes 10 v).length : Nat) : Int))
    ∧ (∀ (m : AttachNetworkRequest) (enc : List UInt8),
        (∀ config, m.Config = some config → c.Writes config enc) →
        enc.length + m.ContainerID.length + 22 < 9223372036854775808 →
        SizeAgrees (AttachNetworkRequest.Size c m) (AttachNetworkRequest.MarshalTo c m)
          (AttachNetworkRequest.Marshal c m))
    ∧ (∀ m : AttachNetworkResponse, m.AttachmentID.length + 11 < 9223372036854775808 →
        SizeAgrees m.Size m.MarshalTo m.Marshal)
    ∧ (∀ m : DetachNetworkRequest, m.AttachmentID.length + 11 < 9223372036854775808 →
        SizeAgrees m.Size m.MarshalTo m.Marshal)
    ∧ (∀ m : DetachNetworkResponse, SizeAgrees m.Size m.MarshalTo m.Marshal) := by
  refine ⟨fun v hv => ⟨sovResource_eq v hv, (varintBytes_bounds v hv).1,
      (varintBytes_bounds v hv).2, fun dAtA o h => encodeVarintResource_ok v hv dAtA o h⟩,
    fun m enc hc hb => attachRequest_agrees c m enc hc hb,
    fun m hm => (stringMessage_agrees 0xa m.AttachmentID hm).1,
    fun m hm => (stringMessage_agrees 0xa m.AttachmentID hm).1,
    fun m => ⟨0, rfl, fun dAtA hd => ⟨dAtA, rfl, hd⟩, [], rfl, rfl⟩⟩

/-- C26 on a message: the response with the `AttachmentID` "AB" has the size
4, and `Marshal` returns the four bytes `0a 02 41 42`. -/
theorem size_and_marshalTo_agree_witness :
    SizeAgrees (AttachNetworkResponse.Size ⟨[0x41, 0x42]⟩)
        (AttachNetworkResponse.MarshalTo ⟨[0x41, 0x42]⟩)
        (AttachNetworkResponse.Marshal ⟨[0x41, 0x42]⟩)
    ∧ AttachNetworkResponse.Size ⟨[0x41, 0x42]⟩ = some 4
    ∧ AttachNetworkResponse.Marshal ⟨[0x41, 0x42]⟩ = .ok [0x0a, 0x02, 0x41, 0x42] () :=
  ⟨(size_and_marshalTo_agree demoMarshaler).2.2.1 ⟨[0x41, 0x42]⟩ (by decide),
    by decide, by decide⟩

end Encoding

/-! ## The round trip of `Marshal` and `Unmarshal` -/

section RoundTrip

theorem low7_eq_mod (n : Nat) : n &&& 0x7F = n % 128 :=
  Nat.and_pow_two_sub_one_eq_mod n 7

theorem continuationByte_toNat (v : Nat) :
    (UInt8.ofNat ((v &&& 0x7f) ||| 0x80)).toNat = v % 128 + 128 := by
  have h1 : v &&& 0x7f = v % 128 := Nat.and_pow_two_sub_one_eq_mod v 7
  have h2 : (v % 128) ||| 0x80 = v % 128 + 128 := by
    have := Nat.mul_add_lt_is_or (show v % 128 < 2 ^ 7 by omega) 1
    rw [Nat.or_comm]
    norm_num at this
    omega
  rw [h1, h2]
  exact UInt8.toNat_ofNat_of_lt (by show v % 128 + 128 < 256; omega)

theorem lastByte_toNat (v : Nat) (h : v < 128) : (UInt8.ofNat v).toNat = v := by
  exact UInt8.toNat_ofNat_of_lt (by show v < 256; omega)

theorem varint_or (acc x shift : Nat) (ha : acc < 2 ^ shift)
    (hx : x * 2 ^ shift < 18446744073709551616) :
    acc ||| ((x <<< shift) % 18446744073709551616) = acc + x * 2 ^ shift := by
  rw [Nat.shiftLeft_eq, Nat.mod_eq_of_lt hx, Nat.or_comm, Nat.mul_comm,
    ← Nat.mul_add_lt_is_or ha x, Nat.add_comm]

theorem byteAt_of_drop (dAtA : List UInt8) (o : Nat) (b : UInt8) (rest : List UInt8)
    (h : dAtA.drop o = b :: rest) :
    o < dAtA.length ∧ byteAt dAtA (o : Int) = some b ∧ dAtA.drop (o + 1) = rest := by
  have hlt : o < dAtA.length := by
    by_contra hge
    rw [List.drop_eq_nil_of_le (by omega)] at h
    cases h
  refine ⟨hlt, ?_, ?_⟩
  · unfold byteAt
    rw [if_neg (by omega)]
    simp only [Int.toNat_ofNat]
    have := List.getElem?_drop (L := dAtA) (i := o) (j := 0)
    rw [h] at this
    simpa using this.symm
  · rw [← List.drop_drop, h]
    rfl

/-- The varint loop of `Unmarshal` reads back the value whose bytes
`encodeVarintResource` wrote. -/
theorem varintLoop_varintBytes (fuel : Nat) :
    ∀ (dfuel v shift acc : Nat) (dAtA : List UInt8) (o : Nat) (Y : List UInt8),
      1 ≤ fuel → fuel ≤ dfuel → v < 2 ^ (7 * fuel) → shift < 64 → acc < 2 ^ shift →
      acc + v * 2 ^ shift < 18446744073709551616 →
      dAtA.drop o = varintBytes fuel v ++ Y →
      varintLoop dAtA dfuel shift (o : Int) acc
        = .next (acc + v * 2 ^ shift) ((o + (varintBytes fuel v).length : Nat) : Int) := by
  induction fuel with
  | zero => intro dfuel v shift acc dAtA o Y h; omega
  | succ f ih =>
    intro dfuel v shift acc dAtA o Y _ hdf hv hs hacc hsum hdrop
    obtain ⟨d, rfl⟩ : ∃ d, dfuel = d + 1 := ⟨dfuel - 1, by omega⟩
    unfold varintLoop
    rw [if_neg (by omega)]
    by_cases hge : v ≥ 128
    · have hvb : varintBytes (f + 1) v
          = UInt8.ofNat ((v &&& 0x7f) ||| 0x80) :: varintBytes f (v >>> 7) := by
        conv_lhs => unfold varintBytes
        rw [if_pos hge]
      rw [hvb] at hdrop ⊢
      rw [List.cons_append] at hdrop
      obtain ⟨hlt, hb, hrest⟩ := byteAt_of_drop dAtA o _ _ hdrop
      rw [if_neg (by omega), hb]
      simp only
      have hbn := continuationByte_toNat v
      rw [if_neg (by omega), hbn, low7_eq_mod,
        show (v % 128 + 128) % 128 = v % 128 by omega]
      have hdiv : v >>> 7 = v / 128 := by rw [Nat.shiftRight_eq_div_pow]
      have hpow : (2 : Nat) ^ (shift + 7) = 2 ^ shift * 128 := by rw [Nat.pow_add]
      have hpos : 0 < 2 ^ shift := Nat.two_pow_pos shift
      have hsplit : v * 2 ^ shift = (v % 128) * 2 ^ shift + (v / 128) * (2 ^ shift * 128) := by
        have := Nat.div_add_mod v 128
        calc v * 2 ^ shift = (128 * (v / 128) + v % 128) * 2 ^ shift := by rw [this]
          _ = _ := by ring
      have hlow : (v % 128) * 2 ^ shift < 18446744073709551616 := by
        have : (v % 128) * 2 ^ shift ≤ v * 2 ^ shift :=
          Nat.mul_le_mul_right _ (Nat.mod_le v 128)
        omega
      rw [varint_or acc (v % 128) shift hacc hlow]
      have hq : v >>> 7 < 2 ^ (7 * f) := by
        rw [Nat.shiftRight_eq_div_pow]
        rw [show 7 * (f + 1) = 7 * f + 7 by ring, Nat.pow_add] at hv
        exact Nat.div_lt_of_lt_mul (by rw [Nat.mul_comm]; exact hv)
      have hf : 1 ≤ f := by
        by_contra h0
        have : f = 0 := by omega
        subst this
        simp at hq
        omega
      have hacc' : acc + v % 128 * 2 ^ shift < 2 ^ (shift + 7) := by
        rw [hpow]
        have : v % 128 * 2 ^ shift ≤ 127 * 2 ^ shift :=
          Nat.mul_le_mul_right _ (by omega)
        omega
      have hs' : shift + 7 < 64 := by
        by_contra hcon
        have h64 : (2 : Nat) ^ 64 ≤ 2 ^ (shift + 7) :=
          Nat.pow_le_pow_right (by decide) (by omega)
        have h1 : 1 * (2 ^ shift * 128) ≤ v / 128 * (2 ^ shift * 128) :=
          Nat.mul_le_mul_right _ (by omega)
        rw [hpow] at h64
        norm_num at h64
        omega
      have hsum' : acc + v % 128 * 2 ^ shift + (v >>> 7) * 2 ^ (shift + 7)
          < 18446744073709551616 := by
        rw [hdiv, hpow]
        omega
      have hcast : ((o : Int) + 1) = ((o + 1 : Nat) : Int) := by push_cast; rfl
      rw [hcast, ih d (v >>> 7) (shift + 7) _ dAtA (o + 1) Y hf (by omega) hq hs' hacc' hsum'
        hrest]
      refine congr (congrArg Step.next ?_) ?_
      · rw [hdiv, hpow]; omega
      · simp only [List.length_cons]
        exact congrArg Nat.cast (by omega)
    · have hvb : varintBytes (f + 1) v = [UInt8.ofNat v] := by
        conv_lhs => unfold varintBytes
        rw [if_neg hge]
      rw [hvb] at hdrop ⊢
      rw [List.singleton_append] at hdrop
      obtain ⟨hlt, hb, -⟩ := byteAt_of_drop dAtA o _ _ hdrop
      rw [if_neg (by omega), hb]
      simp only
      have hbn := lastByte_toNat v (by omega)
      rw [if_pos (by omega), hbn, low7_eq_mod, Nat.mod_eq_of_lt (show v < 128 by omega)]
      have hlow : v * 2 ^ shift < 18446744073709551616 := by omega
      rw [varint_or acc v shift hacc hlow]
      rfl

/-- The bytes `encodeVarintResource` writes for a `uint64` are one varint of
that value. -/
theorem varintBytes_isVarint (v : Nat) (hv : v < 18446744073709551616) :
    IsVarint v (varintBytes 10 v) := by
  unfold IsVarint readVarint
  have h := varintLoop_varintBytes 10 11 v 0 0 (varintBytes 10 v) 0 [] (by decide) (by decide)
    (by norm_num; omega) (by decide) (by decide) (by omega) (by simp)
  simpa using h

variable {M : Type}

/-- A length-delimited field as `MarshalTo` writes it: a tag of one byte, the
length and the bytes. The head of the iteration hands it to the switch, and
the case that reads it gets the bytes back. -/
theorem unmarshalStep_written (name : String)
    (field : M → List UInt8 → Int → Int → Int → Nat → Step M) (tag : UInt8) (wire : Nat)
    (ht : IsVarint wire [tag]) (h4 : wire &&& 0x7 ≠ 4) (h0 : 0 < int32OfUint64 (wire >>> 3))
    (data p Y : List UInt8) (m : M)
    (hlen : p.length + 1 + (varintBytes 10 data.length).length + data.length
      < 9223372036854775808) :
    unmarshalStep name field (p ++ (tag :: (varintBytes 10 data.length ++ data) ++ Y)) m
        (p.length : Int)
      = field m (p ++ (tag :: (varintBytes 10 data.length ++ data) ++ Y)) (p.length : Int)
          ((p.length : Int) + 1) (int32OfUint64 (wire >>> 3)) (wire &&& 0x7)
    ∧ readLengthDelimited (p ++ (tag :: (varintBytes 10 data.length ++ data) ++ Y))
        ((p.length : Int) + 1)
      = .next data
          ((p.length + (tag :: (varintBytes 10 data.length ++ data)).length : Nat) : Int) := by
  constructor
  · refine unmarshalStep_of_tag name field wire h4 h0 _ m _ _ ?_
    have := ht.read p ((varintBytes 10 data.length ++ data) ++ Y)
    simp only [List.singleton_append, List.length_singleton] at this
    rw [List.cons_append, this]
    exact congrArg (Step.next wire) (by push_cast; rfl)
  · have hv := varintBytes_isVarint data.length (by omega)
    have := readLengthDelimited_field hv rfl (p ++ [tag]) Y (by
      simp only [List.length_append, List.length_singleton]; omega)
    simp only [List.length_append, List.length_singleton, List.append_assoc,
      List.singleton_append] at this
    have e : ((p.length + 1 : Nat) : Int) = (p.length : Int) + 1 := by push_cast; rfl
    rw [e] at this
    rw [List.cons_append, List.append_assoc, this]
    exact congrArg (Step.next data) (by
      simp only [List.length_cons, List.length_append]
      exact congrArg Nat.cast (by omega))

/-- The bytes `Marshal` writes for a message with the one string `s` are
decoded into that message. -/
theorem attachResponse_reads (s : GoString) (hs : s.length + 11 < 9223372036854775808) :
    AttachNetworkResponse.Unmarshal ⟨[]⟩ (stringFieldBytes 0xa s) = .ok ⟨s⟩ := by
  have hlenb := stringFieldBytes_length 0xa s
  by_cases hpos : (s.length : Int) > 0
  · have hvb := varintBytes_bounds s.length (by omega)
    rw [if_neg (by omega)] at hlenb
    have hX : (stringFieldBytes 0xa s).length < 9223372036854775808 := by omega
    unfold AttachNetworkResponse.Unmarshal
    rw [unmarshalLoop_ok_iff _ _ attachResponse_switch_regular _ hX]
    have hbytes : stringFieldBytes 0xa s = 0xa :: (varintBytes 10 s.length ++ s) := by
      unfold stringFieldBytes
      rw [if_pos hpos]
    obtain ⟨h1, h2⟩ := unmarshalStep_written "AttachNetworkResponse"
      AttachNetworkResponse.unmarshalField 0xa 10 (by decide) (by decide) (by decide) s [] []
      (⟨[]⟩ : AttachNetworkResponse) (by simp only [List.length_nil]; omega)
    simp only [List.nil_append, List.append_nil, List.length_nil, Nat.cast_zero,
      Int.zero_add, Nat.zero_add] at h1 h2
    rw [← hbytes] at h1 h2
    refine Parses.step _ 0 ⟨s⟩ ((stringFieldBytes 0xa s).length : Nat) _ (by omega) ?_
      (Parses.done _)
    rw [h1]
    unfold AttachNetworkResponse.unmarshalField
    rw [if_pos (by decide), if_neg (by decide), h2]
  · have hnil : s = [] := by
      cases s with
      | nil => rfl
      | cons a t => simp at hpos
    subst hnil
    rfl

/-- The bytes `Marshal` writes for a message with the one string `s` are
decoded into that message. -/
theorem detachRequest_reads (s : GoString) (hs : s.length + 11 < 9223372036854775808) :
    DetachNetworkRequest.Unmarshal ⟨[]⟩ (stringFieldBytes 0xa s) = .ok ⟨s⟩ := by
  have hlenb := stringFieldBytes_length 0xa s
  by_cases hpos : (s.length : Int) > 0
  · have hvb := varintBytes_bounds s.length (by omega)
    rw [if_neg (by omega)] at hlenb
    have hX : (stringFieldBytes 0xa s).length < 9223372036854775808 := by omega
    unfold DetachNetworkRequest.Unmarshal
    rw [unmarshalLoop_ok_iff _ _ detachRequest_switch_regular _ hX]
    have hbytes : stringFieldBytes 0xa s = 0xa :: (varintBytes 10 s.length ++ s) := by
      unfold stringFieldBytes
      rw [if_pos hpos]
    obtain ⟨h1, h2⟩ := unmarshalStep_written "DetachNetworkRequest"
      DetachNetworkRequest.unmarshalField 0xa 10 (by decide) (by decide) (by decide) s [] []
      (⟨[]⟩ : DetachNetworkRequest) (by simp only [List.length_nil]; omega)
    simp only [List.nil_append, List.append_nil, List.length_nil, Nat.cast_zero,
      Int.zero_add, Nat.zero_add] at h1 h2
    rw [← hbytes] at h1 h2
    refine Parses.step _ 0 ⟨s⟩ ((stringFieldBytes 0xa s).length : Nat) _ (by omega) ?_
      (Parses.done _)
    rw [h1]
    unfold DetachNetworkRequest.unmarshalField
    rw [if_pos (by decide), if_neg (by decide), h2]
  · have hnil : s = [] := by
      cases s with
      | nil => rfl
      | cons a t => simp at hpos
    subst hnil
    rfl

/-- The second field of `AttachNetworkRequest`, as `MarshalTo` writes it after
the bytes `p`, is decoded into `ContainerID` and ends the loop. -/
theorem attachRequest_reads_containerID (codec : ConfigCodec)
    (c0 : Option NetworkAttachmentConfig) (cid : GoString) (p : List UInt8)
    (hlen : p.length + cid.length + 11 < 9223372036854775808) :
    Parses (unmarshalStep "AttachNetworkRequest" (AttachNetworkRequest.unmarshalField codec)
        (p ++ stringFieldBytes 0x12 cid)) (p ++ stringFieldBytes 0x12 cid).length
      ⟨c0, []⟩ (p.length : Int) ⟨c0, cid⟩ := by
  have hlenb := stringFieldBytes_length 0x12 cid
  by_cases hpos : (cid.length : Int) > 0
  · have hvb := varintBytes_bounds cid.length (by omega)
    rw [if_neg (by omega)] at hlenb
    have hbytes : stringFieldBytes 0x12 cid = 0x12 :: (varintBytes 10 cid.length ++ cid) := by
      unfold stringFieldBytes
      rw [if_pos hpos]
    obtain ⟨h1, h2⟩ := unmarshalStep_written "AttachNetworkRequest"
      (AttachNetworkRequest.unmarshalField codec) 0x12 18 (by decide) (by decide) (by decide)
      cid p [] (⟨c0, []⟩ : AttachNetworkRequest) (by omega)
    simp only [List.append_nil] at h1 h2
    rw [← hbytes] at h1 h2
    have hdone : Parses
        (unmarshalStep "AttachNetworkRequest" (AttachNetworkRequest.unmarshalField codec)
          (p ++ stringFieldBytes 0x12 cid))
        (p ++ stringFieldBytes 0x12 cid).length (⟨c0, cid⟩ : AttachNetworkRequest)
        ((p ++ stringFieldBytes 0x12 cid).length : Nat) ⟨c0, cid⟩ := Parses.done _
    refine Parses.step _ _ ⟨c0, cid⟩ ((p ++ stringFieldBytes 0x12 cid).length : Nat) _ (by
      simp only [List.length_append]; omega) ?_ hdone
    rw [h1]
    unfold AttachNetworkRequest.unmarshalField
    rw [if_neg (by decide), if_pos (by decide), if_neg (by decide), h2, List.length_append]
  · have hnil : cid = [] := by
      cases cid with
      | nil => rfl
      | cons a t => simp at hpos
    subst hnil
    have e : p ++ stringFieldBytes 0x12 [] = p := by
      simp [stringFieldBytes]
    rw [e]
    exact Parses.done _

/-- The bytes `Marshal` writes for an `AttachNetworkRequest` are decoded into
that message, when the codec of the configuration decodes `enc` into the
configuration of the message. -/
theorem attachRequest_reads (codec : ConfigCodec) (m : AttachNetworkRequest)
    (enc : List UInt8)
    (hc : ∀ config, m.Config = some config → codec.Unmarshal ⟨[]⟩ enc = (config, none))
    (hb : enc.length + m.ContainerID.length + 22 < 9223372036854775808) :
    AttachNetworkRequest.Unmarshal codec ⟨none, []⟩
        (configFieldBytes m.Config enc ++ stringFieldBytes 0x12 m.ContainerID)
      = .ok m := by
  obtain ⟨cfg, cid⟩ := m
  simp only at hc hb ⊢
  have hvb := varintBytes_bounds enc.length (by omega)
  have hvs := varintBytes_bounds cid.length (by omega)
  have hcl := configFieldBytes_length cfg enc
  have hsl := stringFieldBytes_length 0x12 cid
  have hX : (configFieldBytes cfg enc ++ stringFieldBytes 0x12 cid).length
      < 9223372036854775808 := by
    rw [List.length_append, hcl, hsl]
    split_ifs <;> omega
  unfold AttachNetworkRequest.Unmarshal
  rw [unmarshalLoop_ok_iff _ _ (attachRequest_switch_regular codec) _ hX]
  cases cfg with
  | none =>
    have := attachRequest_reads_containerID codec none cid [] (by
      simp only [List.length_nil]; omega)
    simpa [configFieldBytes] using this
  | some config =>
    have hdec := hc config rfl
    simp only [Option.isSome_some, if_true] at hcl
    have hbytes : configFieldBytes (some config) enc
        = 0xa :: (varintBytes 10 enc.length ++ enc) := rfl
    obtain ⟨h1, h2⟩ := unmarshalStep_written "AttachNetworkRequest"
      (AttachNetworkRequest.unmarshalField codec) 0xa 10 (by decide) (by decide) (by decide)
      enc [] (stringFieldBytes 0x12 cid) (⟨none, []⟩ : AttachNetworkRequest) (by
        simp only [List.length_nil]; omega)
    simp only [List.nil_append, List.length_nil, Nat.cast_zero, Int.zero_add,
      Nat.zero_add] at h1 h2
    rw [← hbytes] at h1 h2
    have hrest := attachRequest_reads_containerID codec (some config) cid
      (configFieldBytes (some config) enc) (by omega)
    refine Parses.step _ 0 ⟨some config, []⟩
      ((configFieldBytes (some config) enc).length : Nat) _ (by
        simp only [List.length_append]; omega) ?_ hrest
    rw [h1]
    unfold AttachNetworkRequest.unmarshalField
    rw [if_pos (by decide), if_neg (by decide), h2]
    simp only [Option.getD_none]
    rw [hdec]

/-- The marshaler `demoMarshaler` writes the payload of a configuration. -/
theorem demoMarshaler_writes (config : NetworkAttachmentConfig) :
    demoMarshaler.Writes config config.payload := by
  refine ⟨rfl, fun dAtA h => ?_⟩
  show (match copyInto dAtA 0 config.payload with
    | some (dAtA, n) => Wrote.ok dAtA n
    | none => Wrote.panic EncPanic.sliceBoundsOutOfRange) = _
  have := copyInto_ok dAtA 0 config.payload (by omega)
  simp only [Nat.cast_zero, Nat.zero_add, List.take_zero, List.nil_append] at this
  rw [this]

/-- C25. Round trip. For every `AttachNetworkResponse`, `DetachNetworkRequest`
and `DetachNetworkResponse`, and for every `AttachNetworkRequest` whose
`Config` is nil or is a configuration that `MarshalTo` writes as exactly
`Config.Size()` bytes which `Unmarshal` of the configuration decodes into it
again, `Marshal` returns a nil error and a slice of bytes, and `Unmarshal` of
these bytes into a zero-valued message returns nil and leaves a message equal
to the one marshalled. The encoding is taken to fit in an `int`. -/
theorem marshal_unmarshal_round_trip (c : ConfigMarshaler) (codec : ConfigCodec) :
    (∀ (m : AttachNetworkRequest) (enc : List UInt8),
        (∀ config, m.Config = some config →
          c.Writes config enc ∧ codec.Unmarshal ⟨[]⟩ enc = (config, none)) →
        enc.length + m.ContainerID.length + 22 < 9223372036854775808 →
        ∃ bytes, AttachNetworkRequest.Marshal c m = .ok bytes ()
          ∧ AttachNetworkRequest.Unmarshal codec ⟨none, []⟩ bytes = .ok m)
    ∧ (∀ m : AttachNetworkResponse, m.AttachmentID.length + 11 < 9223372036854775808 →
        ∃ bytes, m.Marshal = .ok bytes ()
          ∧ AttachNetworkResponse.Unmarshal ⟨[]⟩ bytes = .ok m)
    ∧ (∀ m : DetachNetworkRequest, m.AttachmentID.length + 11 < 9223372036854775808 →
        ∃ bytes, m.Marshal = .ok bytes ()
          ∧ DetachNetworkRequest.Unmarshal ⟨[]⟩ bytes = .ok m)
    ∧ (∀ m : DetachNetworkResponse,
        ∃ bytes, m.Marshal = .ok bytes ()
          ∧ DetachNetworkResponse.Unmarshal ⟨⟩ bytes = .ok m) := by
  refine ⟨fun m enc hc hb => ⟨_, attachRequest_marshal c m enc (fun cfg h => (hc cfg h).1) hb,
      attachRequest_reads codec m enc (fun cfg h => (hc cfg h).2) hb⟩,
    fun m hm => ⟨_, (stringMessage_agrees 0xa m.AttachmentID hm).2,
      attachResponse_reads m.AttachmentID hm⟩,
    fun m hm => ⟨_, (stringMessage_agrees 0xa m.AttachmentID hm).2,
      detachRequest_reads m.AttachmentID hm⟩,
    fun m => ⟨[], rfl, rfl⟩⟩

/-- C25 on a message: the request with the configuration `01 02 03` and the
`ContainerID` "A" is marshalled to `0a 03 01 02 03 12 01 41`, and these bytes
are decoded into the request. -/
theorem marshal_unmarshal_round_trip_witness :
    (∃ bytes, AttachNetworkRequest.Marshal demoMarshaler ⟨some ⟨[1, 2, 3]⟩, [0x41]⟩
          = .ok bytes ()
        ∧ AttachNetworkRequest.Unmarshal demoCodec ⟨none, []⟩ bytes
          = .ok ⟨some ⟨[1, 2, 3]⟩, [0x41]⟩)
    ∧ AttachNetworkRequest.Marshal demoMarshaler ⟨some ⟨[1, 2, 3]⟩, [0x41]⟩
        = .ok [0x0a, 0x03, 1, 2, 3, 0x12, 0x01, 0x41] ()
    ∧ AttachNetworkRequest.Unmarshal demoCodec ⟨none, []⟩
        [0x0a, 0x03, 1, 2, 3, 0x12, 0x01, 0x41] = .ok ⟨some ⟨[1, 2, 3]⟩, [0x41]⟩ :=
  ⟨(marshal_unmarshal_round_trip demoMarshaler demoCodec).1 ⟨some ⟨[1, 2, 3]⟩, [0x41]⟩
      [1, 2, 3]
      (fun config h => by
        cases h
        exact ⟨demoMarshaler_writes ⟨[1, 2, 3]⟩, rfl⟩)
      (by decide),
    by decide, by decide⟩

end RoundTrip

/-! ## Negative lengths, at any field of the input -/

section NegativeAnywhere

variable {M : Type}

/-- Bytes that start with a field of negative length start with a tag of wire
type 2 or 3. -/
theorem HasNegativeLength.starts_with_tag {X : List UInt8} (h : HasNegativeLength X) :
    ∃ (wire : Nat) (t rest : List UInt8), X = t ++ rest ∧ IsVarint wire t
      ∧ (wire &&& 0x7 = 2 ∨ wire &&& 0x7 = 3) := by
  cases h with
  | bytes wire v t lt rest ht hw _ _ => exact ⟨wire, t, _, rfl, ht, Or.inl hw⟩
  | group wire t inner bad ht hw _ _ => exact ⟨wire, t, _, rfl, ht, Or.inr hw⟩

/-- The loop over the fields of a group steps over complete fields and returns
the error of the recursive call on the first field it fails on. -/
theorem skipGroupLoop_fields_fail (skip : List UInt8 → Step Unit) (err : Err)
    (wb : Nat) (tb restb : List UInt8) (hb : IsVarint wb tb) (hwb : wb &&& 0x7 ≠ 4)
    (hskipb : skip (tb ++ restb) = .fail err) :
    ∀ (inner : List (Nat × List UInt8)),
      (∀ g ∈ inner, ∀ Y1, skip (g.2 ++ Y1) = .next () (g.2.length : Int)) →
      (∀ g ∈ inner, ∃ t rest, g.2 = t ++ rest ∧ IsVarint g.1 t ∧ g.1 &&& 0x7 ≠ 4) →
      ∀ (p : List UInt8) (n : Nat), inner.length + 1 ≤ n →
        p.length + (fieldBytes inner).length < 9223372036854775808 →
        skipGroupLoop (p ++ (fieldBytes inner ++ (tb ++ restb))) skip n (p.length : Int)
          = .fail err := by
  intro inner
  induction inner with
  | nil =>
    intro _ _ p n hn _
    obtain ⟨n1, rfl⟩ : ∃ n1, n = n1 + 1 := ⟨n - 1, by simp at hn; omega⟩
    unfold skipGroupLoop
    simp only [fieldBytes, List.nil_append]
    rw [hb.read p restb]
    simp only
    rw [if_neg hwb, sliceFrom_eq _ p.length (by simp)]
    simp only [List.drop_left]
    rw [hskipb]
  | cons g gs ih =>
    intro hskip htag p n hn hlen
    obtain ⟨n1, rfl⟩ : ∃ n1, n = n1 + 1 := ⟨n - 1, by simp at hn; omega⟩
    obtain ⟨t, rest, hg, ht, hw⟩ := htag g (List.mem_cons_self _ _)
    simp only [fieldBytes, List.length_append] at hlen ⊢
    have hD : p ++ ((g.2 ++ fieldBytes gs) ++ (tb ++ restb))
        = p ++ (t ++ (rest ++ (fieldBytes gs ++ (tb ++ restb)))) := by
      rw [hg]; simp only [List.append_assoc]
    unfold skipGroupLoop
    simp only
    have hr : readVarint (p ++ ((g.2 ++ fieldBytes gs) ++ (tb ++ restb))) (p.length : Int)
        = .next g.1 ((p.length + t.length : Nat) : Int) := by
      rw [hD]; exact ht.read p _
    rw [hr]
    simp only
    rw [if_neg hw, sliceFrom_eq _ p.length (by simp)]
    simp only [List.drop_left]
    rw [List.append_assoc, hskip g (List.mem_cons_self _ _)]
    simp only
    have hw64 : wrap64 ((p.length : Int) + (g.2.length : Int)) = ((p ++ g.2).length : Int) := by
      rw [wrap64_of_lt _ (by omega) (by omega)]
      simp
    rw [hw64]
    have := ih (fun x hx => hskip x (List.mem_cons_of_mem _ hx))
      (fun x hx => htag x (List.mem_cons_of_mem _ hx)) (p ++ g.2) n1
      (by simp at hn; omega) (by simp only [List.length_append]; omega)
    simp only [List.append_assoc] at this
    rw [this]

/-- Function `skipResource` returns `ErrInvalidLengthResource` on bytes that
start with a field of negative length, also when that field stands inside a
group. -/
theorem skipResourceFuel_negative {X : List UInt8} (h : HasNegativeLength X) :
    ∀ (F : Nat), X.length + 1 ≤ F → X.length < 9223372036854775808 →
      skipResourceFuel F X = .fail ErrInvalidLengthResource := by
  induction h with
  | bytes wire v t lt rest ht hw hl hN =>
    intro F hF hlen
    obtain ⟨F1, rfl⟩ : ∃ F1, F = F1 + 1 := ⟨F - 1, by omega⟩
    have hpos := ht.one_le_length
    unfold skipResourceFuel
    rw [if_pos (by simp only [List.length_append]; omega), ht.read_zero]
    simp only
    rw [if_neg (by omega), if_neg (by omega), if_pos hw, hl.read t rest]
    simp only
    rw [if_pos hN]
  | group wire t inner bad ht hw hin hbad ih =>
    intro F hF hlen
    obtain ⟨F1, rfl⟩ : ∃ F1, F = F1 + 1 := ⟨F - 1, by omega⟩
    have hpos := ht.one_le_length
    obtain ⟨wb, tb, restb, rfl, hb, hwb⟩ := hbad.starts_with_tag
    have hbpos := hb.one_le_length
    simp only [List.length_append] at hlen hF
    have hcount := fieldBytes_length_le inner (fun g hg => (hin g hg).nonempty)
    unfold skipResourceFuel
    rw [if_pos (by simp only [List.length_append]; omega), ht.read_zero]
    simp only
    rw [if_neg (by omega), if_neg (by omega), if_neg (by omega), if_pos hw]
    exact skipGroupLoop_fields_fail (skipResourceFuel F1) _ wb tb restb hb (by omega)
      (ih F1 (by simp only [List.length_append]; omega)
        (by simp only [List.length_append]; omega)) inner
      (fun g hg Y1 => skipResourceFuel_field (hin g hg) Y1 F1
        (by have := fieldBytes_mem_length inner g hg; omega)
        (by have := fieldBytes_mem_length inner g hg; omega))
      (fun g hg => (hin g hg).tag) t F1 (by omega) (by omega)

theorem skipResource_negative {X : List UInt8} (h : HasNegativeLength X)
    (hlen : X.length < 9223372036854775808) :
    skipResource X = .fail ErrInvalidLengthResource :=
  skipResourceFuel_negative h _ (Nat.le_refl _) hlen

/-- The `default` case of the switch, at a field of negative length. -/
theorem skipField_negative_length (dAtA : List UInt8) (n : Nat) (hn : n ≤ dAtA.length)
    (hX : dAtA.length < 9223372036854775808) (hB : HasNegativeLength (dAtA.drop n)) :
    skipField dAtA n = .fail ErrInvalidLengthResource := by
  unfold skipField
  simp only
  rw [sliceFrom_eq dAtA n hn]
  simp only
  rw [skipResource_negative hB (by simp only [List.length_drop]; omega)]

/-- The length varint of a field of negative length that stands at the index
`n` of the input, when its tag has wire type 2. -/
theorem HasNegativeLength.length_varint (dAtA : List UInt8) (n : Nat) (hn : n ≤ dAtA.length)
    (hB : HasNegativeLength (dAtA.drop n)) (wire : Nat) (i1 : Int)
    (hT : readVarint dAtA n = .next wire i1) (hW : wire &&& 0x7 = 2) :
    ∃ (v : Nat) (i2 : Int), readVarint dAtA i1 = .next v i2 ∧ intOfUint64 v < 0 := by
  have hsplit : dAtA = dAtA.take n ++ dAtA.drop n := (List.take_append_drop n dAtA).symm
  have hpl : (dAtA.take n).length = n := by simp [hn]
  generalize hd : dAtA.drop n = X at hB hsplit
  cases hB with
  | bytes wire' v t lt rest ht hw hl hN =>
    have h1 := ht.read (dAtA.take n) (lt ++ rest)
    rw [← hsplit, hpl, hT] at h1
    simp only [Step.next.injEq] at h1
    obtain ⟨-, hi1⟩ := h1
    have h2 := hl.read (dAtA.take n ++ t) rest
    rw [List.append_assoc, ← hsplit, List.length_append, hpl, ← hi1] at h2
    exact ⟨v, _, h2, hN⟩
  | group wire' t inner bad ht hw _ _ =>
    have h1 := ht.read (dAtA.take n) (fieldBytes inner ++ bad)
    rw [← hsplit, hpl, hT] at h1
    simp only [Step.next.injEq] at h1
    obtain ⟨hwire, -⟩ := h1
    rw [← hwire] at hw
    omega

/-- The tag of a field of negative length that stands at the index `n` of the
input has wire type 2 or 3. -/
theorem HasNegativeLength.wireType (dAtA : List UInt8) (n : Nat) (hn : n ≤ dAtA.length)
    (hB : HasNegativeLength (dAtA.drop n)) (wire : Nat) (i1 : Int)
    (hT : readVarint dAtA n = .next wire i1) :
    wire &&& 0x7 = 2 ∨ wire &&& 0x7 = 3 := by
  have hsplit : dAtA = dAtA.take n ++ dAtA.drop n := (List.take_append_drop n dAtA).symm
  have hpl : (dAtA.take n).length = n := by simp [hn]
  obtain ⟨wire', t, rest, hd, ht, hw⟩ := hB.starts_with_tag
  have h1 := ht.read (dAtA.take n) rest
  rw [← hd, ← hsplit, hpl, hT] at h1
  simp only [Step.next.injEq] at h1
  rw [h1.1]
  exact hw

theorem attachRequest_negative_length (codec : ConfigCodec) (dAtA : List UInt8) (n : Nat)
    (hX : dAtA.length < 9223372036854775808) (wire : Nat) (i1 : Int)
    (hT : readVarint dAtA n = .next wire i1) (hF : 0 < int32OfUint64 (wire >>> 3))
    (hB : HasNegativeLength (dAtA.drop n))
    (hK : wire &&& 0x7 = 2
      ∨ (int32OfUint64 (wire >>> 3) ≠ 1 ∧ int32OfUint64 (wire >>> 3) ≠ 2))
    (m : AttachNetworkRequest) :
    unmarshalStep "AttachNetworkRequest" (AttachNetworkRequest.unmarshalField codec) dAtA m n
      = .fail ErrInvalidLengthResource := by
  have hb := readVarint_next dAtA n wire i1 hT
  have hn : n ≤ dAtA.length := by omega
  have hW4 : wire &&& 0x7 ≠ 4 := by
    have := HasNegativeLength.wireType dAtA n hn hB wire i1 hT
    omega
  have hS := skipField_negative_length dAtA n hn hX hB
  unfold unmarshalStep
  rw [readTag_of_readVarint _ dAtA n i1 wire hT hW4 hF]
  rcases hK with hW | ⟨h1, h2⟩
  · obtain ⟨v, i2, hV, hN⟩ := HasNegativeLength.length_varint dAtA n hn hB wire i1 hT hW
    have hL := readLengthDelimited_negative dAtA i1 i2 v hV hN
    simp only [AttachNetworkRequest.unmarshalField, hW, hL, hS]
    by_cases hf1 : int32OfUint64 (wire >>> 3) = 1 <;>
      by_cases hf2 : int32OfUint64 (wire >>> 3) = 2 <;> simp [hf1, hf2]
  · simp only [AttachNetworkRequest.unmarshalField, h1, h2, if_false, hS]

theorem attachResponse_negative_length (dAtA : List UInt8) (n : Nat)
    (hX : dAtA.length < 9223372036854775808) (wire : Nat) (i1 : Int)
    (hT : readVarint dAtA n = .next wire i1) (hF : 0 < int32OfUint64 (wire >>> 3))
    (hB : HasNegativeLength (dAtA.drop n))
    (hK : wire &&& 0x7 = 2 ∨ int32OfUint64 (wire >>> 3) ≠ 1)
    (m : AttachNetworkResponse) :
    unmarshalStep "AttachNetworkResponse" AttachNetworkResponse.unmarshalField dAtA m n
      = .fail ErrInvalidLengthResource := by
  have hb := readVarint_next dAtA n wire i1 hT
  have hn : n ≤ dAtA.length := by omega
  have hW4 : wire &&& 0x7 ≠ 4 := by
    have := HasNegativeLength.wireType dAtA n hn hB wire i1 hT
    omega
  have hS := skipField_negative_length dAtA n hn hX hB
  unfold unmarshalStep
  rw [readTag_of_readVarint _ dAtA n i1 wire hT hW4 hF]
  rcases hK with hW | h1
  · obtain ⟨v, i2, hV, hN⟩ := HasNegativeLength.length_varint dAtA n hn hB wire i1 hT hW
    have hL := readLengthDelimited_negative dAtA i1 i2 v hV hN
    simp only [AttachNetworkResponse.unmarshalField, hW, hL, hS]
    by_cases hf1 : int32OfUint64 (wire >>> 3) = 1 <;> simp [hf1]
  · simp only [AttachNetworkResponse.unmarshalField, h1, if_false, hS]

theorem detachRequest_negative_length (dAtA : List UInt8) (n : Nat)
    (hX : dAtA.length < 9223372036854775808) (wire : Nat) (i1 : Int)
    (hT : readVarint dAtA n = .next wire i1) (hF : 0 < int32OfUint64 (wire >>> 3))
    (hB : HasNegativeLength (dAtA.drop n))
    (hK : wire &&& 0x7 = 2 ∨ int32OfUint64 (wire >>> 3) ≠ 1)
    (m : DetachNetworkRequest) :
    unmarshalStep "DetachNetworkRequest" DetachNetworkRequest.unmarshalField dAtA m n
      = .fail ErrInvalidLengthResource := by
  have hb := readVarint_next dAtA n wire i1 hT
  have hn : n ≤ dAtA.length := by omega
  have hW4 : wire &&& 0x7 ≠ 4 := by
    have := HasNegativeLength.wireType dAtA n hn hB wire i1 hT
    omega
  have hS := skipField_negative_length dAtA n hn hX hB
  unfold unmarshalStep
  rw [readTag_of_readVarint _ dAtA n i1 wire hT hW4 hF]
  rcases hK with hW | h1
  · obtain ⟨v, i2, hV, hN⟩ := HasNegativeLength.length_varint dAtA n hn hB wire i1 hT hW
    have hL := readLengthDelimited_negative dAtA i1 i2 v hV hN
    simp only [DetachNetworkRequest.unmarshalField, hW, hL, hS]
    by_cases hf1 : int32OfUint64 (wire >>> 3) = 1 <;> simp [hf1]
  · simp only [DetachNetworkRequest.unmarshalField, h1, if_false, hS]

theorem detachResponse_negative_length (dAtA : List UInt8) (n : Nat)
    (hX : dAtA.length < 9223372036854775808) (wire : Nat) (i1 : Int)
    (hT : readVarint dAtA n = .next wire i1) (hF : 0 < int32OfUint64 (wire >>> 3))
    (hB : HasNegativeLength (dAtA.drop n)) (m : DetachNetworkResponse) :
    unmarshalStep "DetachNetworkResponse" DetachNetworkResponse.unmarshalField dAtA m n
      = .fail ErrInvalidLengthResource := by
  have hb := readVarint_next dAtA n wire i1 hT
  have hn : n ≤ dAtA.length := by omega
  have hW4 : wire &&& 0x7 ≠ 4 := by
    have := HasNegativeLength.wireType dAtA n hn hB wire i1 hT
    omega
  have hS := skipField_negative_length dAtA n hn hX hB
  unfold unmarshalStep
  rw [readTag_of_readVarint _ dAtA n i1 wire hT hW4 hF]
  simp only [DetachNetworkResponse.unmarshalField, hS]

/-- C17. Negative length is a hard decoding error. Function `skipResource`
returns `ErrInvalidLengthResource` on every input that starts with a
length-delimited field whose length varint is negative as a Go `int`, also
when that field stands inside a group it steps over. Whenever a run of
`Unmarshal` of one of the four messages comes to stand at an index `n` of the
input where such a field starts, with a tag of positive field number that is
of wire type 2 (a declared field, the `Config` sub-message or a string, or an
unknown field) or is the tag of an unknown field, `Unmarshal` returns
`ErrInvalidLengthResource`: it does not return success. So does the loop of
`Unmarshal` started at `n`, whatever the message decoded so far. The input is
shorter than 2^63 bytes, as every Go slice is. -/
theorem negative_length_is_rejected (codec : ConfigCodec) (dAtA : List UInt8) (n : Nat)
    (i1 : Int) (wire : Nat) (hX : dAtA.length < 9223372036854775808)
    (hT : readVarint dAtA n = .next wire i1) (hF : 0 < int32OfUint64 (wire >>> 3))
    (hB : HasNegativeLength (dAtA.drop n)) :
    (∀ X : List UInt8, X.length < 9223372036854775808 → HasNegativeLength X →
      skipResource X = .fail ErrInvalidLengthResource)
    ∧ ((wire &&& 0x7 = 2
          ∨ (int32OfUint64 (wire >>> 3) ≠ 1 ∧ int32OfUint64 (wire >>> 3) ≠ 2)) →
      (∀ (fuel : Nat) (m : AttachNetworkRequest),
        unmarshalLoop "AttachNetworkRequest" (AttachNetworkRequest.unmarshalField codec) dAtA
          (fuel + 1) m n = .error ErrInvalidLengthResource)
      ∧ (∀ (m0 m : AttachNetworkRequest),
        Reaches (unmarshalStep "AttachNetworkRequest"
          (AttachNetworkRequest.unmarshalField codec) dAtA) dAtA.length m0 0 m n →
        AttachNetworkRequest.Unmarshal codec m0 dAtA = .error ErrInvalidLengthResource))
    ∧ ((wire &&& 0x7 = 2 ∨ int32OfUint64 (wire >>> 3) ≠ 1) →
      (∀ (fuel : Nat) (m : AttachNetworkResponse),
        unmarshalLoop "AttachNetworkResponse" AttachNetworkResponse.unmarshalField dAtA
          (fuel + 1) m n = .error ErrInvalidLengthResource)
      ∧ (∀ (m0 m : AttachNetworkResponse),
        Reaches (unmarshalStep "AttachNetworkResponse"
          AttachNetworkResponse.unmarshalField dAtA) dAtA.length m0 0 m n →
        AttachNetworkResponse.Unmarshal m0 dAtA = .error ErrInvalidLengthResource))
    ∧ ((wire &&& 0x7 = 2 ∨ int32OfUint64 (wire >>> 3) ≠ 1) →
      (∀ (fuel : Nat) (m : DetachNetworkRequest),
        unmarshalLoop "DetachNetworkRequest" DetachNetworkRequest.unmarshalField dAtA
          (fuel + 1) m n = .error ErrInvalidLengthResource)
      ∧ (∀ (m0 m : DetachNetworkRequest),
        Reaches (unmarshalStep "DetachNetworkRequest"
          DetachNetworkRequest.unmarshalField dAtA) dAtA.length m0 0 m n →
        DetachNetworkRequest.Unmarshal m0 dAtA = .error ErrInvalidLengthResource))
    ∧ (∀ (fuel : Nat) (m : DetachNetworkResponse),
        unmarshalLoop "DetachNetworkResponse" DetachNetworkResponse.unmarshalField dAtA
          (fuel + 1) m n = .error ErrInvalidLengthResource)
    ∧ (∀ (m0 m : DetachNetworkResponse),
        Reaches (unmarshalStep "DetachNetworkResponse"
          DetachNetworkResponse.unmarshalField dAtA) dAtA.length m0 0 m n →
        DetachNetworkResponse.Unmarshal m0 dAtA = .error ErrInvalidLengthResource) := by
  have hb := readVarint_next dAtA n wire i1 hT
  have hi : ((n : Nat) : Int) < (dAtA.length : Int) := by omega
  refine ⟨fun X hlen hN => skipResource_negative hN hlen, fun hK => ⟨fun fuel m => ?_,
    fun m0 m hr => ?_⟩, fun hK => ⟨fun fuel m => ?_, fun m0 m hr => ?_⟩,
    fun hK => ⟨fun fuel m => ?_, fun m0 m hr => ?_⟩, fun fuel m => ?_, fun m0 m hr => ?_⟩
  · exact unmarshalLoop_fail _ _ dAtA fuel m n _ hi
      (attachRequest_negative_length codec dAtA n hX wire i1 hT hF hB hK m)
  · exact unmarshalLoop_reaches_fail _ _ (attachRequest_switch_regular codec) dAtA hX m0 m n _
      hr (by omega) hi (attachRequest_negative_length codec dAtA n hX wire i1 hT hF hB hK m)
  · exact unmarshalLoop_fail _ _ dAtA fuel m n _ hi
      (attachResponse_negative_length dAtA n hX wire i1 hT hF hB hK m)
  · exact unmarshalLoop_reaches_fail _ _ attachResponse_switch_regular dAtA hX m0 m n _
      hr (by omega) hi (attachResponse_negative_length dAtA n hX wire i1 hT hF hB hK m)
  · exact unmarshalLoop_fail _ _ dAtA fuel m n _ hi
      (detachRequest_negative_length dAtA n hX wire i1 hT hF hB hK m)
  · exact unmarshalLoop_reaches_fail _ _ detachRequest_switch_regular dAtA hX m0 m n _
      hr (by omega) hi (detachRequest_negative_length dAtA n hX wire i1 hT hF hB hK m)
  · exact unmarshalLoop_fail _ _ dAtA fuel m n _ hi
      (detachResponse_negative_length dAtA n hX wire i1 hT hF hB m)
  · exact unmarshalLoop_reaches_fail _ _ detachResponse_switch_regular dAtA hX m0 m n _
      hr (by omega) hi (detachResponse_negative_length dAtA n hX wire i1 hT hF hB m)

/-- C17 on an input: the string field 1 with the value "A", then a group of
the unknown field 3 that holds a field 2 of wire type 2 whose length varint
has bit 63 set. The run of `Unmarshal` comes to the group at index 3 and
returns `ErrInvalidLengthResource`. -/
theorem negative_length_is_rejected_witness :
    AttachNetworkResponse.Unmarshal ⟨[]⟩
        [0x0a, 0x01, 0x41, 0x1b, 0x12, 0xff, 0xff, 0xff, 0xff, 0xff, 0xff, 0xff, 0xff, 0xff,
          0x01]
      = .error ErrInvalidLengthResource :=
  have hr : Reaches (unmarshalStep "AttachNetworkResponse" AttachNetworkResponse.unmarshalField
      [0x0a, 0x01, 0x41, 0x1b, 0x12, 0xff, 0xff, 0xff, 0xff, 0xff, 0xff, 0xff, 0xff, 0xff,
        0x01])
      [0x0a, 0x01, 0x41, 0x1b, 0x12, 0xff, 0xff, 0xff, 0xff, 0xff, 0xff, 0xff, 0xff, 0xff,
        0x01].length
      (⟨[]⟩ : AttachNetworkResponse) 0 ⟨[0x41]⟩ ((3 : Nat) : Int) :=
    Reaches.step _ _ _ _ _ _ (by decide) (by decide) (Reaches.here _ _)
  have hB : HasNegativeLength (List.drop 3
      [0x0a, 0x01, 0x41, 0x1b, 0x12, 0xff, 0xff, 0xff, 0xff, 0xff, 0xff, 0xff, 0xff, 0xff,
        0x01]) :=
    HasNegativeLength.group 27 [0x1b] [] _ (by decide) (by decide)
      (fun _ h => by cases h)
      (HasNegativeLength.bytes 18 18446744073709551615 [0x12]
        [0xff, 0xff, 0xff, 0xff, 0xff, 0xff, 0xff, 0xff, 0xff, 0x01] [] (by decide)
        (by decide) (by decide) (by decide))
  ((negative_length_is_rejected demoCodec
      [0x0a, 0x01, 0x41, 0x1b, 0x12, 0xff, 0xff, 0xff, 0xff, 0xff, 0xff, 0xff, 0xff, 0xff,
        0x01] 3 4 27 (by decide) (by decide) (by decide) hB).2.2.1
    (Or.inr (by decide))).2 ⟨[]⟩ ⟨[0x41]⟩ hr

end NegativeAnywhere

end RaftProxy
